import Mathlib

/-!
Verification development for the PN2CCS core: a shallow embedding of the
Petri-net graph model, the structural classifiers, the
2-τ-synchronisation transformation and the CCS encoder from
`src/js/pn.js` and `src/js/ccs.js`, together with theorems settling the
specification claims.

Modelling conventions:
* JS objects with identity are represented by their slot index in the
  owning collection (`places`, `transitions`, `edges`).  An object's
  mutable `id` field is kept as data and is maintained exactly as the
  source maintains it.  When the source moves the last object of a
  collection into the slot of a removed object (`setId` plus
  swap-compaction), the embedding renames the corresponding handle in
  every list that stores it, which on well-formed states coincides with
  JS reference semantics.
* JS numbers that the source stores without validation are modelled as
  `Int` (edge weights, name indices, token hints); `Number.isInteger`
  is therefore constantly true on the model's inputs.
* Methods that may `throw` return `Except (PNError × PetriNet) _`;
  the error payload carries the receiver state at throw time, so
  partial-mutation behaviour is preserved.
* `Math.random()` draws are modelled by an injectable stream
  `rand : Nat → Nat`; `Math.floor(k * Math.random())` becomes
  `rand ctr % k`, which ranges over exactly the outcomes the source can
  produce.
-/

/-- Error taxonomy of the spec (section 7), mapped from the JS `Error` /
`TypeError` messages thrown by the source. -/
inductive PNError where
  | invalidArgument
  | duplicateEdge
  | unrelatedReference
  | structuralMismatch
deriving DecidableEq

/-- A reference to a node object: either the place at a slot or the
transition at a slot of the owning net. -/
inductive NodeRef where
  | place : Nat → NodeRef
  | trans : Nat → NodeRef
deriving DecidableEq

/-- Data of a `Place` object: mutable `id` field, display-name index,
token count, and adjacency lists holding edge handles (`in`/`out`). -/
structure PlaceData where
  id : Nat
  nameId : Int
  tokens : Int
  inE : List Nat
  outE : List Nat
deriving DecidableEq

/-- Data of a `Transition` object: `id` field, display-name index,
label, and adjacency lists holding edge handles. -/
structure TransData where
  id : Nat
  nameId : Int
  label : String
  inE : List Nat
  outE : List Nat
deriving DecidableEq

/-- Data of an `Edge` object: `id` field, endpoint references and the
(unvalidated) weight. -/
structure EdgeData where
  id : Nat
  src : NodeRef
  dst : NodeRef
  weight : Int
deriving DecidableEq

def dummyPlace : PlaceData := ⟨0, 0, 0, [], []⟩
def dummyTrans : TransData := ⟨0, 0, "", [], []⟩
def dummyEdge : EdgeData := ⟨0, NodeRef.place 0, NodeRef.trans 0, 0⟩

/-- The `PetriNet` object: the three collections plus the name-index
bookkeeping arrays.  `placeNames`/`transitionNames` model the array part
of the JS arrays (holes read as falsy); `placeNegNames` /
`transitionNegNames` model the non-index (negative integer) properties
that the buggy `setNameId` lets through. -/
structure PetriNet where
  places : List PlaceData
  transitions : List TransData
  edges : List EdgeData
  placeNames : List Bool
  placeNegNames : List Int
  transitionNames : List Bool
  transitionNegNames : List Int
deriving DecidableEq

/-- `new PetriNet()`: empty collections, `placeNames = [true]`,
`transitionNames = [true]`. -/
def emptyNet : PetriNet :=
  { places := [], transitions := [], edges := []
    placeNames := [true], placeNegNames := []
    transitionNames := [true], transitionNegNames := [] }

/-- Truthiness of `names[k]` for the modelled JS array (negative keys
live in the property part). -/
def namesGet (names : List Bool) (negNames : List Int) (k : Int) : Bool :=
  if 0 ≤ k then names.getD k.toNat false else negNames.contains k

/-- `names[k] = true` on the modelled JS array: extends the array part
(holes filled with falsy) or records a negative property key. -/
def namesSet (names : List Bool) (negNames : List Int) (k : Int) :
    List Bool × List Int :=
  if 0 ≤ k then
    (if k.toNat < names.length then names.set k.toNat true
     else names ++ List.replicate (k.toNat - names.length) false ++ [true],
     negNames)
  else (names, if negNames.contains k then negNames else negNames ++ [k])

/-- `delete names[k]` on the modelled JS array. -/
def namesDelete (names : List Bool) (negNames : List Int) (k : Int) :
    List Bool × List Int :=
  if 0 ≤ k then (if k.toNat < names.length then names.set k.toNat false else names, negNames)
  else (names, negNames.filter (fun x => x ≠ k))

/-- `names.length = names.lastIndexOf(true) + 1`. -/
def truncAfterLastTrue (names : List Bool) : List Bool :=
  names.take (names.length - (names.reverse.takeWhile (fun b => !b)).length)

/-- `Number.isInteger` restricted to the model's `Int`-valued JS
numbers: constantly true. -/
def numberIsInteger (_ : Int) : Bool := true

/-- The guard of `Node.setNameId`, verbatim:
`!Number.isInteger(nameId) && nameId > 0`.  (Note the source's `&&`
where the error message demands `||`: integer arguments are never
rejected, not even non-positive ones.) -/
def setNameIdRejects (nameId : Int) : Bool :=
  !(numberIsInteger nameId) && nameId > 0

/-- Character class `[a-z]`. -/
def isLowerAlpha (c : Char) : Bool := 'a' ≤ c && c ≤ 'z'

/-- Character class `[a-zA-Z0-9]`. -/
def isLabelChar (c : Char) : Bool :=
  isLowerAlpha c || ('A' ≤ c && c ≤ 'Z') || ('0' ≤ c && c ≤ '9')

/-- The `Transition.setLabel` pattern `^([a-z][a-zA-Z0-9]*|τ)$`. -/
def labelOK (s : String) : Bool :=
  s == "τ" ||
    (match s.data with
     | [] => false
     | c :: cs => isLowerAlpha c && cs.all isLabelChar)

/-- Character class `\d`. -/
def isDigitChar (c : Char) : Bool := '0' ≤ c && c ≤ '9'

/-- The synchronisation-name pattern `^s_t\d+$` used by the `toCCS`
co-action rewrite. -/
def isSyncName (s : String) : Bool :=
  match s.data with
  | 's' :: '_' :: 't' :: ds => !ds.isEmpty && ds.all isDigitChar
  | _ => false

/-- Index of the node a reference designates (object = slot). -/
def NodeRef.idx : NodeRef → Nat
  | .place i => i
  | .trans i => i

/-- Read the mutable `id` field of the referenced node object. -/
def refFieldId (net : PetriNet) : NodeRef → Nat
  | .place i => (net.places.getD i dummyPlace).id
  | .trans i => (net.transitions.getD i dummyTrans).id

/-- The referenced node's `out` adjacency list. -/
def nodeOut (net : PetriNet) : NodeRef → List Nat
  | .place i => (net.places.getD i dummyPlace).outE
  | .trans i => (net.transitions.getD i dummyTrans).outE

/-- The referenced node's `in` adjacency list. -/
def nodeIn (net : PetriNet) : NodeRef → List Nat
  | .place i => (net.places.getD i dummyPlace).inE
  | .trans i => (net.transitions.getD i dummyTrans).inE

def edgeSrc (net : PetriNet) (eid : Nat) : NodeRef := (net.edges.getD eid dummyEdge).src
def edgeDst (net : PetriNet) (eid : Nat) : NodeRef := (net.edges.getD eid dummyEdge).dst

/-- Update the place record at a slot. -/
def updPlace (net : PetriNet) (i : Nat) (f : PlaceData → PlaceData) : PetriNet :=
  { net with places := net.places.set i (f (net.places.getD i dummyPlace)) }

/-- Update the transition record at a slot. -/
def updTrans (net : PetriNet) (i : Nat) (f : TransData → TransData) : PetriNet :=
  { net with transitions := net.transitions.set i (f (net.transitions.getD i dummyTrans)) }

/-- Update the referenced node's record. -/
def updNode (net : PetriNet) (r : NodeRef)
    (fp : PlaceData → PlaceData) (ft : TransData → TransData) : PetriNet :=
  match r with
  | .place i => updPlace net i fp
  | .trans i => updTrans net i ft

/-- `node.out.push(eid)`. -/
def pushOut (net : PetriNet) (r : NodeRef) (eid : Nat) : PetriNet :=
  updNode net r (fun p => { p with outE := p.outE ++ [eid] })
    (fun t => { t with outE := t.outE ++ [eid] })

/-- `node.in.push(eid)`. -/
def pushIn (net : PetriNet) (r : NodeRef) (eid : Nat) : PetriNet :=
  updNode net r (fun p => { p with inE := p.inE ++ [eid] })
    (fun t => { t with inE := t.inE ++ [eid] })

/-- The ownership test of `PetriNet.addEdge` / the remove methods:
`this.places[node.id] === node` (object identity reduces to slot
equality because distinct slots hold distinct objects). -/
def belongsNode (net : PetriNet) (r : NodeRef) : Bool :=
  match r with
  | .place i => i < net.places.length && (net.places.getD i dummyPlace).id == i
  | .trans i => i < net.transitions.length && (net.transitions.getD i dummyTrans).id == i

/-- `addPlace(nameId, tokens)` from `pn.js`, returning the new slot. -/
def addPlace (net : PetriNet) (nameId tokens : Int) :
    Except (PNError × PetriNet) (PetriNet × Nat) :=
  let nameId' := if nameId == 0 || namesGet net.placeNames net.placeNegNames nameId
    then (net.placeNames.length : Int) else nameId
  if setNameIdRejects nameId' then .error (.invalidArgument, net)
  else if tokens < 0 then .error (.invalidArgument, net)
  else
    let place : PlaceData :=
      { id := net.places.length, nameId := nameId', tokens := tokens, inE := [], outE := [] }
    let (pn, png) := namesSet net.placeNames net.placeNegNames nameId'
    .ok ({ net with places := net.places ++ [place], placeNames := pn, placeNegNames := png },
      net.places.length)

/-- `addTransition(nameId, label)` from `pn.js`, returning the new slot. -/
def addTransition (net : PetriNet) (nameId : Int) (label : String) :
    Except (PNError × PetriNet) (PetriNet × Nat) :=
  let nameId' := if nameId == 0 || namesGet net.transitionNames net.transitionNegNames nameId
    then (net.transitionNames.length : Int) else nameId
  if setNameIdRejects nameId' then .error (.invalidArgument, net)
  else if !(labelOK label) then .error (.invalidArgument, net)
  else
    let t : TransData :=
      { id := net.transitions.length, nameId := nameId', label := label, inE := [], outE := [] }
    let (tn, tng) := namesSet net.transitionNames net.transitionNegNames nameId'
    .ok ({ net with transitions := net.transitions ++ [t], transitionNames := tn, transitionNegNames := tng },
      net.transitions.length)

/-- Whether two references are to the same node kind (the `Edge`
constructor's bipartiteness check `from instanceof Place === to
instanceof Place`). -/
def sameKind : NodeRef → NodeRef → Bool
  | .place _, .place _ => true
  | .trans _, .trans _ => true
  | _, _ => false

/-- `addEdge(from, to, weight)` from `pn.js`: ownership checks, then
the `Edge` constructor (bipartite check, duplicate checks in
`Node.addEdge`, adjacency pushes — and no weight validation), then
`edges.push`.  On a failure inside `to.addEdge` the `from.out` push has
already happened, exactly as in the source. -/
def addEdge (net : PetriNet) (src dst : NodeRef) (weight : Int) :
    Except (PNError × PetriNet) (PetriNet × Nat) :=
  if !(belongsNode net src) then .error (.unrelatedReference, net)
  else if !(belongsNode net dst) then .error (.unrelatedReference, net)
  else if sameKind src dst then .error (.invalidArgument, net)
  else
    let eid := net.edges.length
    if (nodeOut net src).any (fun oid => edgeDst net oid == dst) then
      .error (.duplicateEdge, net)
    else
      let net1 := pushOut net src eid
      if (nodeIn net1 dst).any (fun oid => edgeSrc net1 oid == src) then
        .error (.duplicateEdge, net1)
      else
        let net2 := pushIn net1 dst eid
        .ok ({ net2 with edges := net2.edges ++ [{ id := eid, src := src, dst := dst, weight := weight }] }, eid)

/-- `Node.removeEdge`'s swap-removal of an entry from an adjacency
list (`indexOf`, overwrite with last, `pop`); `none` when the entry is
missing ("Edge could not be found for removal."). -/
def adjSwapRemove (l : List Nat) (x : Nat) : Option (List Nat) :=
  let idx := l.indexOf x
  if idx = l.length then none
  else some ((l.set idx (l.getD (l.length - 1) 0)).dropLast)

/-- Rename one edge handle in every adjacency list: the model of the
last edge object keeping its pointers while its `id` field is reassigned
by `removeEdge`'s swap-compaction. -/
def renameEdgeHandle (net : PetriNet) (old new : Nat) : PetriNet :=
  let rn : List Nat → List Nat := fun l => l.map (fun x => if x = old then new else x)
  { net with
    places := net.places.map (fun p => { p with inE := rn p.inE, outE := rn p.outE })
    transitions := net.transitions.map (fun t => { t with inE := rn t.inE, outE := rn t.outE }) }

/-- Set the referenced node's `out` list. -/
def setOut (net : PetriNet) (r : NodeRef) (l : List Nat) : PetriNet :=
  updNode net r (fun p => { p with outE := l }) (fun t => { t with outE := l })

/-- Set the referenced node's `in` list. -/
def setIn (net : PetriNet) (r : NodeRef) (l : List Nat) : PetriNet :=
  updNode net r (fun p => { p with inE := l }) (fun t => { t with inE := l })

/-- `removeEdge(edge)` from `pn.js`: ownership check, removal from both
endpoints' adjacency lists, then swap-compaction of `edges` with the
moved edge's `id` reassigned (handle renamed). -/
def removeEdge (net : PetriNet) (i : Nat) : Except (PNError × PetriNet) PetriNet :=
  if !(i < net.edges.length && (net.edges.getD i dummyEdge).id == i) then
    .error (.unrelatedReference, net)
  else
    let e := net.edges.getD i dummyEdge
    match adjSwapRemove (nodeOut net e.src) i with
    | none => .error (.unrelatedReference, net)
    | some outE' =>
      let net1 := setOut net e.src outE'
      match adjSwapRemove (nodeIn net1 e.dst) i with
      | none => .error (.unrelatedReference, net1)
      | some inE' =>
        let net2 := setIn net1 e.dst inE'
        let m := net2.edges.length - 1
        let last := net2.edges.getD m dummyEdge
        let net3 := { net2 with edges := (net2.edges.set i { last with id := i }).dropLast }
        .ok (renameEdgeHandle net3 m i)

/-- The cascade `node.in.slice().forEach(edge => this.removeEdge(edge))`:
the snapshot holds object references, so a handle equal to the slot that
each removal compacts away is remapped to the freed slot. -/
def cascadeRemove (net : PetriNet) : List Nat → Except (PNError × PetriNet) PetriNet
  | [] => .ok net
  | e :: rest =>
    let m := net.edges.length - 1
    match removeEdge net e with
    | .error err => .error err
    | .ok net' => cascadeRemove net' (rest.map (fun x => if x = m then e else x))
termination_by l => l.length
decreasing_by simp

/-- Rename one place handle in every edge endpoint: the model of the
moved place object keeping its pointers across `setId`/swap-compaction. -/
def renamePlaceRef (net : PetriNet) (old new : Nat) : PetriNet :=
  let rn : NodeRef → NodeRef := fun r => if r = NodeRef.place old then NodeRef.place new else r
  { net with edges := net.edges.map (fun e => { e with src := rn e.src, dst := rn e.dst }) }

/-- Rename one transition handle in every edge endpoint. -/
def renameTransRef (net : PetriNet) (old new : Nat) : PetriNet :=
  let rn : NodeRef → NodeRef := fun r => if r = NodeRef.trans old then NodeRef.trans new else r
  { net with edges := net.edges.map (fun e => { e with src := rn e.src, dst := rn e.dst }) }

/-- `removePlace(place)` from `pn.js`: ownership check, cascade of both
adjacency snapshots, swap-compaction of `places` with `id` reassignment,
and reclamation of the display-name slot. -/
def removePlace (net : PetriNet) (i : Nat) : Except (PNError × PetriNet) PetriNet :=
  if !(i < net.places.length && (net.places.getD i dummyPlace).id == i) then
    .error (.unrelatedReference, net)
  else
    match cascadeRemove net (net.places.getD i dummyPlace).inE with
    | .error err => .error err
    | .ok net1 =>
      match cascadeRemove net1 (net1.places.getD i dummyPlace).outE with
      | .error err => .error err
      | .ok net2 =>
        let m := net2.places.length - 1
        let last := net2.places.getD m dummyPlace
        let removedNameId := (net2.places.getD i dummyPlace).nameId
        let net3 := { net2 with places := (net2.places.set i { last with id := i }).dropLast }
        let net4 := renamePlaceRef net3 m i
        let (pn, png) := namesDelete net4.placeNames net4.placeNegNames removedNameId
        .ok { net4 with placeNames := truncAfterLastTrue pn, placeNegNames := png }

/-- `removeTransition(transition)` from `pn.js`. -/
def removeTransition (net : PetriNet) (i : Nat) : Except (PNError × PetriNet) PetriNet :=
  if !(i < net.transitions.length && (net.transitions.getD i dummyTrans).id == i) then
    .error (.unrelatedReference, net)
  else
    match cascadeRemove net (net.transitions.getD i dummyTrans).inE with
    | .error err => .error err
    | .ok net1 =>
      match cascadeRemove net1 (net1.transitions.getD i dummyTrans).outE with
      | .error err => .error err
      | .ok net2 =>
        let m := net2.transitions.length - 1
        let last := net2.transitions.getD m dummyTrans
        let removedNameId := (net2.transitions.getD i dummyTrans).nameId
        let net3 := { net2 with transitions := (net2.transitions.set i { last with id := i }).dropLast }
        let net4 := renameTransRef net3 m i
        let (tn, tng) := namesDelete net4.transitionNames net4.transitionNegNames removedNameId
        .ok { net4 with transitionNames := truncAfterLastTrue tn, transitionNegNames := tng }

/-- `isCCSNet()`: every transition has exactly one ingoing edge, or
exactly two and the label τ. -/
def isCCSNet (net : PetriNet) : Bool :=
  net.transitions.all (fun t => t.inE.length == 1 || (t.inE.length == 2 && t.label == "τ"))

/-- `is2TauSynchronisationNet()`: every transition has fewer than two
ingoing edges, or exactly two and the label τ. -/
def is2TauSynchronisationNet (net : PetriNet) : Bool :=
  net.transitions.all (fun t => t.inE.length < 2 || (t.inE.length == 2 && t.label == "τ"))

/-- `isFreeChoiceNet()`: every transition has at most one ingoing edge,
or every place feeding it has exactly one outgoing edge. -/
def isFreeChoiceNet (net : PetriNet) : Bool :=
  net.transitions.all (fun t =>
    t.inE.length ≤ 1 || t.inE.all (fun eid => (nodeOut net (edgeSrc net eid)).length == 1))

/-- `checked[k] = true` on the sparse JS array. -/
def markChecked (checked : List Bool) (k : Nat) : List Bool :=
  if k < checked.length then checked.set k true
  else checked ++ List.replicate (k - checked.length) false ++ [true]

/-- JS `Array.prototype.every` with a state-threading callback
(short-circuiting, exactly as `every` does). -/
def everyThread (f : σ → α → Bool × σ) : σ → List α → Bool × σ
  | s, [] => (true, s)
  | s, a :: as =>
    let (b, s') := f s a
    if b then everyThread f s' as else (false, s')

/-- The body of `isGroupChoiceNet`'s outer `every` for one pivot place:
collect the pivot's transition set, then check every feeder of every
such transition, marking feeders as checked. -/
def gcPivot (net : PetriNet) (checked : List Bool) (p : PlaceData) : Bool × List Bool :=
  let tset : List NodeRef := p.outE.map (edgeDst net)
  everyThread (fun ch eid =>
      let t := edgeDst net eid
      everyThread (fun ch2 eid2 =>
          let q := edgeSrc net eid2
          let ch3 := markChecked ch2 (refFieldId net q)
          ((nodeOut net q).length == p.outE.length &&
             (nodeOut net q).all (fun e3 => tset.contains (edgeDst net e3)), ch3))
        ch (nodeIn net t))
    checked p.outE

/-- `isGroupChoiceNet()` from `pn.js`, with the `checked` bookkeeping
threaded through the `every` traversal. -/
def isGroupChoiceNet (net : PetriNet) : Bool :=
  (everyThread (fun checked p =>
      if checked.getD p.id false then (true, checked)
      else gcPivot net checked p)
    [] net.places).1

/-- `Math.floor(k * Math.random())` for one stream draw `r`: any value
in `[0, k)` (and `0` when `k = 0`), realised as `r % k`. -/
def randFloor (r k : Nat) : Nat := if k = 0 then 0 else r % k

/-- The randomised pairing-order loop of `to2TauSynchronisationNet`
(`for (let i = places.length - 1; i >= done; i--)`), run for `steps`
iterations starting at pool bound `i`, consuming two stream draws per
iteration and pushing `Math.min(first, second)` and
`Math.max(first, second + (first <= second))`. -/
def genOrderAux (rand : Nat → Nat) : Nat → Nat → Nat → List Nat × Nat
  | 0, ctr, _ => ([], ctr)
  | steps + 1, ctr, i =>
    let first := randFloor (rand ctr) i
    let second := randFloor (rand (ctr + 1)) (i - 1)
    let (rest, ctr') := genOrderAux rand steps (ctr + 2) (i - 1)
    (min first second :: max first (second + (if first ≤ second then 1 else 0)) :: rest, ctr')

/-- The pairing order for a group of `n` feeding places: the source
loop runs from `i = n - 1` down to `done`. -/
def genOrder (rand : Nat → Nat) (ctr n done : Nat) : List Nat × Nat :=
  genOrderAux rand (n - done) ctr (n - 1)

/-- `places.forEach(place => place.out = [])`. -/
def clearOuts (net : PetriNet) (idxs : List Nat) : PetriNet :=
  idxs.foldl (fun n i => updPlace n i (fun p => { p with outE := [] })) net

/-- `transitions.forEach(transition => transition.in = [])`. -/
def clearIns (net : PetriNet) (idxs : List Nat) : PetriNet :=
  idxs.foldl (fun n i => updTrans n i (fun t => { t with inE := [] })) net

/-- The pair-synchronisation loop of `to2TauSynchronisationNet`: for
each pair of slots drawn from `order`, add a fresh τ-transition and a
fresh place, wire both paired places to the transition and the
transition to the place, then overwrite the first slot with the new
place and swap-remove the second. -/
def pairLoop (net : PetriNet) (places : List Nat) :
    List Nat → Except (PNError × PetriNet) (PetriNet × List Nat)
  | [] => .ok (net, places)
  | [_] => .ok (net, places)
  | a :: b :: rest => do
    let (net1, newT) ← addTransition net 0 "τ"
    let (net2, newP) ← addPlace net1 0 0
    let (net3, _) ← addEdge net2 (.place (places.getD a 0)) (.trans newT) 1
    let (net4, _) ← addEdge net3 (.place (places.getD b 0)) (.trans newT) 1
    let (net5, _) ← addEdge net4 (.trans newT) (.place newP) 1
    let places1 := places.set a newP
    let places2 := places1.set b (places1.getD (places1.length - 1) 0)
    pairLoop net5 places2.dropLast rest

/-- The final wiring of a group: every remaining place gets one edge of
weight one to every transition of the group. -/
def finalWiring (net : PetriNet) (places transitions : List Nat) :
    Except (PNError × PetriNet) PetriNet :=
  places.foldlM (fun n p =>
    transitions.foldlM (fun n2 t => (addEdge n2 (.place p) (.trans t) 1).map (·.1)) n) net

/-- One iteration of the transformation's `transitions.forEach`: skip
transitions already inside the 2-τ-synchronisation bound, otherwise
rewire the whole group through a random pairing tree.  The state is the
working net together with the random-stream counter. -/
def to2TauStep (rand : Nat → Nat) (st : PetriNet × Nat) (k : Nat) :
    Except (PNError × PetriNet) (PetriNet × Nat) :=
  let net := st.1
  let t := net.transitions.getD k dummyTrans
  if t.inE.length ≤ (if t.label == "τ" then 2 else 1) then .ok st
  else
    let places := t.inE.map (fun eid => (edgeSrc net eid).idx)
    let transitions := (net.places.getD (places.headD 0) dummyPlace).outE.map
      (fun eid => (edgeDst net eid).idx)
    let done := if transitions.all (fun j => (net.transitions.getD j dummyTrans).label == "τ")
      then 2 else 1
    let (order, ctr') := genOrder rand st.2 places.length done
    let net1 := clearOuts net places
    let net2 := clearIns net1 transitions
    match pairLoop net2 places order with
    | .error err => .error err
    | .ok (net3, places') =>
      match finalWiring net3 places' transitions with
      | .error err => .error err
      | .ok net4 => .ok (net4, ctr')

/-- The deep-copy phase of `to2TauSynchronisationNet`: replay every
place, transition and (place-out then transition-out) edge into a fresh
net through the public mutation API. -/
def copyPhase (self : PetriNet) : Except (PNError × PetriNet) PetriNet := do
  let c1 ← self.places.foldlM (fun c p => (addPlace c p.nameId p.tokens).map (·.1)) emptyNet
  let c2 ← self.transitions.foldlM (fun c t => (addTransition c t.nameId t.label).map (·.1)) c1
  let c3 ← self.places.foldlM (fun c p =>
    p.outE.foldlM (fun c2 eid =>
      let e := self.edges.getD eid dummyEdge
      (addEdge c2 (.place (refFieldId self e.src)) (.trans (refFieldId self e.dst)) e.weight).map (·.1)) c) c2
  self.transitions.foldlM (fun c t =>
    t.outE.foldlM (fun c2 eid =>
      let e := self.edges.getD eid dummyEdge
      (addEdge c2 (.trans (refFieldId self e.src)) (.place (refFieldId self e.dst)) e.weight).map (·.1)) c) c3

/-- `to2TauSynchronisationNet()` from `pn.js`: classify, deep-copy,
return the copy when it is already a 2-τ-synchronisation net, and
otherwise rewire every over-wide group of the copy.  The receiver is
only read; all mutation targets the copy. -/
def to2TauSynchronisationNet (net : PetriNet) (rand : Nat → Nat) :
    Except (PNError × PetriNet) PetriNet :=
  let is2 := is2TauSynchronisationNet net
  if !is2 && !(isGroupChoiceNet net) then .error (.structuralMismatch, net)
  else
    match copyPhase net with
    | .error err => .error err
    | .ok copy =>
      if is2 then .ok copy
      else
        match (List.range copy.transitions.length).foldlM (to2TauStep rand) (copy, 0) with
        | .error err => .error err
        | .ok (result, _) => .ok result

/-- The method-call view of `to2TauSynchronisationNet`: the receiver
state after the call alongside the returned value.  Every statement of
the source mutates the freshly allocated copy, never the receiver, so
the receiver component is simply passed through. -/
def to2TauMethodCall (net : PetriNet) (rand : Nat → Nat) :
    PetriNet × Except (PNError × PetriNet) PetriNet :=
  (net, to2TauSynchronisationNet net rand)

/-- The CCS action AST from `ccs.js`: `InputAction(name)`,
`CoAction(name)`, `InternalAction`. -/
inductive CcsAction where
  | inputAction : String → CcsAction
  | coAction : String → CcsAction
  | internalAction : CcsAction
deriving DecidableEq

/-- The CCS process AST from `ccs.js`: `Inaction`, `Prefix`, `Choice`,
`Parallel`, `Exponent`, `Restriction`, `Constant`.  (`Prefix` is named
`prefixAct` here because `prefix` is reserved in Lean.) -/
inductive Process where
  | inaction : Process
  | prefixAct : CcsAction → Process → Process
  | choice : List Process → Process
  | parallel : List Process → Process
  | exponent : Process → Int → Process
  | restriction : CcsAction → Process → Process
  | constant : String → Process

/-- The `CCS` value: named process definitions (a JS object, i.e. an
insertion-ordered key/value list) and the initial process. -/
structure CCS where
  definitions : List (String × Process)
  process : Process

/-- `definitions[name] = value` on a JS object: update in place when
the key exists, else append. -/
def defsSet (l : List (String × Process)) (k : String) (v : Process) :
    List (String × Process) :=
  if l.any (fun kv => kv.1 == k) then l.map (fun kv => if kv.1 == k then (k, v) else kv)
  else l ++ [(k, v)]

/-- Sparse-array assignment `arr[k] = v` for the `placeToProcess` /
`transitionToReplacement` arrays (holes read as `Process.inaction`). -/
def arrSet (l : List Process) (k : Nat) (v : Process) : List Process :=
  if k < l.length then l.set k v
  else l ++ List.replicate (k - l.length) Process.inaction ++ [v]

/-- `labelToAction` from `toCCS`: τ becomes the internal action, any
other label an input action. -/
def labelToAction (label : String) : CcsAction :=
  if label == "τ" then .internalAction else .inputAction label

/-- `arrayToProcess` from `toCCS`: empty to `Inaction`, a singleton to
the process itself, otherwise the n-ary node. -/
def arrayToProcess (l : List Process) (mk : List Process → Process) : Process :=
  match l with
  | [] => .inaction
  | [p] => p
  | _ => mk l

/-- `p${nameId}` / `t${nameId}`. -/
def placeGetName (p : PlaceData) : String := "p" ++ toString p.nameId
def transGetName (t : TransData) : String := "t" ++ toString t.nameId

/-- The `placeToProcess` array: one constant `X_p…` per place, indexed
by the place's `id` field. -/
def placeToProcessArr (net : PetriNet) : List Process :=
  net.places.foldl (fun arr p => arrSet arr p.id (.constant ("X_" ++ placeGetName p))) []

/-- State threaded through `toCCS`'s transition loop. -/
structure TransLoopState where
  definitions : List (String × Process)
  replacement : List Process
  newActions : List String
  generators : List Process

/-- The outgoing parallel components of a transition: its target place
constants, wrapped in an `Exponent` when the edge weight is not one. -/
def outgoingProcs (net : PetriNet) (p2p : List Process) (t : TransData) : List Process :=
  t.outE.map (fun eid =>
    let e := net.edges.getD eid dummyEdge
    let base := p2p.getD (refFieldId net e.dst) Process.inaction
    if e.weight == 1 then base else .exponent base e.weight)

/-- One iteration of `toCCS`'s transition loop: generator transitions
define a self-regenerating constant, single-input transitions store a
prefix replacement, two-input transitions store an input prefix on a
fresh synchronisation name. -/
def ccsTransStep (net : PetriNet) (p2p : List Process) (st : TransLoopState)
    (t : TransData) : TransLoopState :=
  let outgoing := outgoingProcs net p2p t
  if t.inE.length == 0 then
    let name := "X_" ++ transGetName t
    let outgoing' := Process.constant name :: outgoing
    { st with
      definitions := defsSet st.definitions name
        (.prefixAct (labelToAction t.label) (arrayToProcess outgoing' .parallel))
      generators := st.generators ++ [.constant name] }
  else if t.inE.length == 1 then
    { st with
      replacement := arrSet st.replacement t.id
        (.prefixAct (labelToAction t.label) (arrayToProcess outgoing .parallel)) }
  else
    let name := "s_" ++ transGetName t
    { st with
      replacement := arrSet st.replacement t.id
        (.prefixAct (.inputAction name) (arrayToProcess outgoing .parallel))
      newActions := st.newActions ++ [name] }

/-- The condition of the co-action rewrite in `toCCS`'s place loop:
`replacement.action instanceof InputAction && /^s_t\d+$/.test(name)`. -/
def rewriteGuard : Process → Bool
  | .prefixAct (.inputAction n) _ => isSyncName n
  | _ => false

/-- The input-action name of a replacement prefix (defined where
`rewriteGuard` holds). -/
def replacementName : Process → String
  | .prefixAct (.inputAction n) _ => n
  | _ => ""

/-- The inner fold of `toCCS`'s place loop over one place's outgoing
edges: collect the replacement of every outgoing transition as a choice
branch, installing the co-action form for the occurrences after the
first. -/
def ccsChoiceStep (net : PetriNet) (acc : List Process × List Process) (eid : Nat) :
    List Process × List Process :=
  let e := net.edges.getD eid dummyEdge
  let r := acc.2.getD (refFieldId net e.dst) Process.inaction
  let repl' := if rewriteGuard r then
      arrSet acc.2 (refFieldId net e.dst) (.prefixAct (.coAction (replacementName r)) .inaction)
    else acc.2
  (acc.1 ++ [r], repl')

def ccsPlaceChoices (net : PetriNet) (repl : List Process) (p : PlaceData) :
    List Process × List Process :=
  p.outE.foldl (ccsChoiceStep net) ([], repl)

/-- One iteration of `toCCS`'s place loop. -/
def ccsPlaceStep (net : PetriNet) (st : List (String × Process) × List Process)
    (p : PlaceData) : List (String × Process) × List Process :=
  let folded := ccsPlaceChoices net st.2 p
  (defsSet st.1 ("X_" ++ placeGetName p) (arrayToProcess folded.1 .choice), folded.2)

/-- Lexicographic code-unit comparison of character lists (the order
the default JS `Array.sort` comparator induces on strings). -/
def lexLe : List Char → List Char → Bool
  | [], _ => true
  | _ :: _, [] => false
  | a :: as, b :: bs =>
    if a.toNat < b.toNat then true
    else if b.toNat < a.toNat then false
    else lexLe as bs

/-- String comparison for the JS sort. -/
def strLeB (a b : String) : Bool := lexLe a.data b.data

/-- The default JS `Array.sort` on the encoder's action names: the
ascending stable sort for lexicographic string order. -/
def sortStrings (l : List String) : List String :=
  l.insertionSort (fun a b => strLeB a b = true)

/-- The state after `toCCS`'s transition loop. -/
def ccsTransFold (net : PetriNet) : TransLoopState :=
  net.transitions.foldl (ccsTransStep net (placeToProcessArr net))
    { definitions := [], replacement := [], newActions := [], generators := [] }

/-- The state of `definitions` / `transitionToReplacement` after
`toCCS`'s place loop. -/
def ccsPlaceFold (net : PetriNet) : List (String × Process) × List Process :=
  net.places.foldl (ccsPlaceStep net)
    ((ccsTransFold net).definitions, (ccsTransFold net).replacement)

/-- The parallel components of the initial process: one (possibly
exponentiated) constant per marked place, then the generator
constants. -/
def ccsPlaceProcesses (net : PetriNet) : List Process :=
  ((net.places.filter (fun p => p.tokens != 0)).map (fun p =>
      if p.tokens == 1 then (placeToProcessArr net).getD p.id Process.inaction
      else .exponent ((placeToProcessArr net).getD p.id Process.inaction) p.tokens)) ++
    (ccsTransFold net).generators

/-- The initial process: the parallel composition wrapped in one
restriction per introduced synchronisation name, sorted and folded. -/
def ccsInitialProcess (net : PetriNet) : Process :=
  (sortStrings (ccsTransFold net).newActions).foldl
    (fun pr name => Process.restriction (.inputAction name) pr)
    (arrayToProcess (ccsPlaceProcesses net) .parallel)

/-- `toCCS()` from `pn.js`: validate, name the places, process the
transitions, build the place choice definitions with the co-action
rewrite, and assemble the restricted initial parallel composition. -/
def toCCS (net : PetriNet) : Except PNError CCS :=
  if !(is2TauSynchronisationNet net) then .error .structuralMismatch
  else .ok { definitions := (ccsPlaceFold net).1, process := ccsInitialProcess net }

/-- A reference points into the owning collection. -/
def refValidB (net : PetriNet) : NodeRef → Bool
  | .place i => i < net.places.length
  | .trans i => i < net.transitions.length

/-- Dense identities: every node and edge object's `id` field equals
its slot (`0..n-1` per collection). -/
def denseIds (net : PetriNet) : Bool :=
  (List.range net.places.length).all (fun i => (net.places.getD i dummyPlace).id == i) &&
  (List.range net.transitions.length).all (fun i => (net.transitions.getD i dummyTrans).id == i) &&
  (List.range net.edges.length).all (fun i => (net.edges.getD i dummyEdge).id == i)

/-- Every edge is bipartite with endpoints inside the net. -/
def edgesOK (net : PetriNet) : Bool :=
  net.edges.all (fun e => !(sameKind e.src e.dst) && refValidB net e.src && refValidB net e.dst)

/-- Adjacency lists agree with the edge set: every `out`/`in` entry is
an edge of the net with the matching endpoint, and every edge occurs in
both of its endpoints' lists. -/
def adjSym (net : PetriNet) : Bool :=
  (List.range net.places.length).all (fun i =>
    (net.places.getD i dummyPlace).outE.all
      (fun eid => eid < net.edges.length && edgeSrc net eid == .place i) &&
    (net.places.getD i dummyPlace).inE.all
      (fun eid => eid < net.edges.length && edgeDst net eid == .place i)) &&
  (List.range net.transitions.length).all (fun i =>
    (net.transitions.getD i dummyTrans).outE.all
      (fun eid => eid < net.edges.length && edgeSrc net eid == .trans i) &&
    (net.transitions.getD i dummyTrans).inE.all
      (fun eid => eid < net.edges.length && edgeDst net eid == .trans i)) &&
  (List.range net.edges.length).all (fun eid =>
    (nodeOut net (edgeSrc net eid)).contains eid && (nodeIn net (edgeDst net eid)).contains eid)

/-- No adjacency list mentions an edge twice. -/
def adjNodup (net : PetriNet) : Bool :=
  net.places.all (fun p => decide p.outE.Nodup && decide p.inE.Nodup) &&
  net.transitions.all (fun t => decide t.outE.Nodup && decide t.inE.Nodup)

/-- At most one edge per ordered endpoint pair. -/
def pairUnique (net : PetriNet) : Bool :=
  (List.range net.edges.length).all (fun i => (List.range net.edges.length).all (fun j =>
    i == j || !(edgeSrc net i == edgeSrc net j && edgeDst net i == edgeDst net j)))

/-- Well-formedness of a net state: the invariant of spec section 3
(dense identities, adjacency symmetric with the edge set) together with
the auxiliary facts (bipartite valid endpoints, duplicate-free
adjacency, at most one edge per ordered pair) that the mutation API
maintains and that the preservation proofs need. -/
def wfNet (net : PetriNet) : Bool :=
  denseIds net && edgesOK net && adjSym net && adjNodup net && pairUnique net

/-- Extract the successful state of a mutation step (used only to
assemble concrete test nets whose construction provably succeeds). -/
def getNet (x : Except (PNError × PetriNet) (PetriNet × Nat)) : PetriNet :=
  match x with
  | .ok p => p.1
  | .error e => e.2

/-- Scenario C of the spec: `p1`(1 token) and `p2`(1 token) both feed
the τ-transition `t1`, which feeds `p3`. -/
def scenarioC : PetriNet :=
  let n := getNet (addPlace emptyNet 0 1)
  let n := getNet (addPlace n 0 1)
  let n := getNet (addPlace n 0 0)
  let n := getNet (addTransition n 0 "τ")
  let n := getNet (addEdge n (.place 0) (.trans 0) 1)
  let n := getNet (addEdge n (.place 1) (.trans 0) 1)
  getNet (addEdge n (.trans 0) (.place 2) 1)

/-- A net with two disjoint τ-synchronisation groups, so that `toCCS`
introduces the two names `s_t1` and `s_t2`. -/
def restrNet : PetriNet :=
  let n := getNet (addPlace emptyNet 0 1)
  let n := getNet (addPlace n 0 1)
  let n := getNet (addPlace n 0 0)
  let n := getNet (addPlace n 0 1)
  let n := getNet (addPlace n 0 1)
  let n := getNet (addPlace n 0 0)
  let n := getNet (addTransition n 0 "τ")
  let n := getNet (addTransition n 0 "τ")
  let n := getNet (addEdge n (.place 0) (.trans 0) 1)
  let n := getNet (addEdge n (.place 1) (.trans 0) 1)
  let n := getNet (addEdge n (.trans 0) (.place 2) 1)
  let n := getNet (addEdge n (.place 3) (.trans 1) 1)
  let n := getNet (addEdge n (.place 4) (.trans 1) 1)
  getNet (addEdge n (.trans 1) (.place 5) 1)

/-- A group-choice net that is not a 2-τ-synchronisation net: three
places all feeding one `a`-labelled transition. -/
def gcNet : PetriNet :=
  let n := getNet (addPlace emptyNet 0 1)
  let n := getNet (addPlace n 0 0)
  let n := getNet (addPlace n 0 0)
  let n := getNet (addTransition n 0 "a")
  let n := getNet (addEdge n (.place 0) (.trans 0) 1)
  let n := getNet (addEdge n (.place 1) (.trans 0) 1)
  getNet (addEdge n (.place 2) (.trans 0) 1)

/-- One place and one transition, no edges. -/
def weightNet : PetriNet :=
  let n := getNet (addPlace emptyNet 0 0)
  getNet (addTransition n 0 "τ")

/-- The output of the transformation on `gcNet` for the all-zero
random stream. -/
def gcOut : PetriNet :=
  match to2TauSynchronisationNet gcNet (fun _ => 0) with
  | .ok n => n
  | .error e => e.2

/-- Lookup in a CCS definition list. -/
def defsLookup (l : List (String × Process)) (k : String) : Option Process :=
  (l.find? (fun kv => kv.1 == k)).map (·.2)

/-- The restriction names of a process, from the outermost inward. -/
def restrictionNames : Process → List String
  | .restriction (.inputAction n) p => n :: restrictionNames p
  | _ => []

/-- Claim C2: on Scenario C (places `p1`, `p2` with one token each both
feeding the τ-transition `t1`, which feeds `p3`), `isCCSNet` holds and
`toCCS` introduces exactly the synchronisation name `s_t1`, defines
`X_p1` as `s_t1?.X_p3` and `X_p2` as `s_t1!.0` (one of them the
co-action over inaction, the other the input action over `X_p3`), with
initial process `(νs_t1)(X_p1 ∥ X_p2)`. -/
theorem c2_scenarioC_encoding :
    isCCSNet scenarioC = true ∧
    toCCS scenarioC = .ok
      { definitions :=
          [("X_p1", .prefixAct (.inputAction "s_t1") (.constant "X_p3")),
           ("X_p2", .prefixAct (.coAction "s_t1") .inaction),
           ("X_p3", .inaction)]
        process := .restriction (.inputAction "s_t1")
          (.parallel [.constant "X_p1", .constant "X_p2"]) } :=
  ⟨rfl, rfl⟩

/-- Counterexample to claim C3: in Scenario C the FIRST feeding place
(`p1`, in place-iteration order) keeps the input-action prefix
`s_t1?.X_p3`; it is not rewritten to the co-action/inaction form the
claim describes. -/
theorem c3_counterexample :
    (toCCS scenarioC).map (fun c => defsLookup c.definitions "X_p1") =
      .ok (some (.prefixAct (.inputAction "s_t1") (.constant "X_p3"))) ∧
    Process.prefixAct (.inputAction "s_t1") (.constant "X_p3") ≠
      Process.prefixAct (.coAction "s_t1") Process.inaction := by
  refine ⟨rfl, ?_⟩
  intro h
  injection h with h1 _
  exact CcsAction.noConfusion h1

/-- Counterexample to claim C4: on a net introducing the two
synchronisation names `s_t1` and `s_t2`, the initial process nests the
restrictions as `(νs_t2)(νs_t1)(…)` — read from the outermost inward
they are in descending, not ascending, lexicographic order. -/
theorem c4_counterexample :
    (toCCS restrNet).map (fun c => restrictionNames c.process) = .ok ["s_t2", "s_t1"] ∧
    (["s_t2", "s_t1"] : List String) ≠ ["s_t1", "s_t2"] :=
  ⟨rfl, by decide⟩

/-- Counterexample to claim C5: `addEdge` performs no weight
validation, so a Place→Transition edge of weight 5 is accepted and
stored instead of failing with `InvalidArgument`. -/
theorem c5_counterexample :
    (addEdge weightNet (.place 0) (.trans 0) 5).map
        (fun p => p.1.edges.map (fun e => e.weight)) = .ok [5] ∧
    (5 : Int) ≠ 1 :=
  ⟨rfl, by decide⟩

/-- Counterexample to claim C6: on the well-formed group-choice net
`gcNet` the transformation succeeds, but its output still carries the
original edge 0 (from place 0) in the edge collection while place 0's
`out` list no longer contains it: the adjacency lists are not
symmetric with the edge set on the transformation's output. -/
theorem c6_counterexample :
    to2TauSynchronisationNet gcNet (fun _ => 0) = .ok gcOut ∧
    wfNet gcNet = true ∧
    edgeSrc gcOut 0 = .place 0 ∧ 0 < gcOut.edges.length ∧
    ¬(0 ∈ nodeOut gcOut (.place 0)) :=
  ⟨rfl, by decide, rfl, by decide, by decide⟩

/-- Claim C8: a call of `to2TauSynchronisationNet` — succeeding or
failing — returns the receiver state unchanged: every statement of the
method mutates only the freshly allocated copy. -/
theorem c8_receiver_unchanged (net : PetriNet) (rand : Nat → Nat) :
    (to2TauMethodCall net rand).1 = net := rfl

/-- Claim C9 (code bug): `setNameId`'s guard
`!Number.isInteger(nameId) && nameId > 0` never rejects an integer
hint, so `addPlace(-3, 0)` stores the non-positive display-name index
`-3`, contradicting the documented "positive integer" requirement. -/
theorem c9_negative_nameId_stored :
    setNameIdRejects (-3) = false ∧
    (addPlace emptyNet (-3) 0).map (fun p => p.1.places.map (fun q => q.nameId)) =
      .ok [-3] ∧
    ¬((-3 : Int) > 0) :=
  ⟨rfl, rfl, by decide⟩

/-! ### Basic toolkit -/

theorem all_range_iff {n : Nat} {f : Nat → Bool} :
    (List.range n).all f = true ↔ ∀ i < n, f i = true := by
  simp [List.all_eq_true, List.mem_range]

theorem getD_append_left {α : Type _} {xs ys : List α} {dflt : α} {k : Nat}
    (h : k < xs.length) :
    (xs ++ ys).getD k dflt = xs.getD k dflt :=
  List.getD_append xs ys dflt k h

theorem getD_append_right {α : Type _} {xs ys : List α} {dflt : α} {k : Nat}
    (h : xs.length ≤ k) :
    (xs ++ ys).getD k dflt = ys.getD (k - xs.length) dflt := by
  rw [List.getD_eq_getElem?_getD, List.getElem?_append_right h, List.getD_eq_getElem?_getD]

theorem getD_concat_length {α : Type _} {l : List α} {a d : α} :
    (l ++ [a]).getD l.length d = a := by
  simp [List.getD_eq_getElem?_getD]

theorem getD_set_self {α : Type _} {l : List α} {i : Nat} {a d : α} (h : i < l.length) :
    (l.set i a).getD i d = a := by
  simp [List.getD_eq_getElem?_getD, List.getElem?_set, h]

theorem getD_set_ne {α : Type _} {l : List α} {i j : Nat} {a d : α} (h : i ≠ j) :
    (l.set i a).getD j d = l.getD j d := by
  simp [List.getD_eq_getElem?_getD, List.getElem?_set, h]

/-! ### Well-formedness accessors -/

theorem wf_parts {net : PetriNet} (h : wfNet net = true) :
    denseIds net = true ∧ edgesOK net = true ∧ adjSym net = true ∧
      adjNodup net = true ∧ pairUnique net = true := by
  simpa [wfNet, Bool.and_eq_true, and_assoc] using h

theorem wf_place_id {net : PetriNet} (h : wfNet net = true) {i : Nat}
    (hi : i < net.places.length) : (net.places.getD i dummyPlace).id = i := by
  have := (wf_parts h).1
  simp only [denseIds, Bool.and_eq_true, all_range_iff] at this
  simpa using this.1.1 i hi

theorem wf_trans_id {net : PetriNet} (h : wfNet net = true) {i : Nat}
    (hi : i < net.transitions.length) : (net.transitions.getD i dummyTrans).id = i := by
  have := (wf_parts h).1
  simp only [denseIds, Bool.and_eq_true, all_range_iff] at this
  simpa using this.1.2 i hi

theorem wf_edge_id {net : PetriNet} (h : wfNet net = true) {i : Nat}
    (hi : i < net.edges.length) : (net.edges.getD i dummyEdge).id = i := by
  have := (wf_parts h).1
  simp only [denseIds, Bool.and_eq_true, all_range_iff] at this
  simpa using this.2 i hi

theorem wf_adj_out {net : PetriNet} (h : wfNet net = true) {r : NodeRef}
    (hr : refValidB net r = true) {eid : Nat} (he : eid ∈ nodeOut net r) :
    eid < net.edges.length ∧ edgeSrc net eid = r := by
  have := (wf_parts h).2.2.1
  simp only [adjSym, Bool.and_eq_true, all_range_iff] at this
  obtain ⟨⟨hp, ht⟩, _⟩ := this
  match r, hr with
  | .place i, hr =>
    have := (hp i (by simpa [refValidB] using hr)).1
    rw [List.all_eq_true] at this
    have := this eid he
    simpa [Bool.and_eq_true, decide_eq_true_eq] using this
  | .trans i, hr =>
    have := (ht i (by simpa [refValidB] using hr)).1
    rw [List.all_eq_true] at this
    have := this eid he
    simpa [Bool.and_eq_true, decide_eq_true_eq] using this

theorem wf_adj_in {net : PetriNet} (h : wfNet net = true) {r : NodeRef}
    (hr : refValidB net r = true) {eid : Nat} (he : eid ∈ nodeIn net r) :
    eid < net.edges.length ∧ edgeDst net eid = r := by
  have := (wf_parts h).2.2.1
  simp only [adjSym, Bool.and_eq_true, all_range_iff] at this
  obtain ⟨⟨hp, ht⟩, _⟩ := this
  match r, hr with
  | .place i, hr =>
    have := (hp i (by simpa [refValidB] using hr)).2
    rw [List.all_eq_true] at this
    have := this eid he
    simpa [Bool.and_eq_true, decide_eq_true_eq] using this
  | .trans i, hr =>
    have := (ht i (by simpa [refValidB] using hr)).2
    rw [List.all_eq_true] at this
    have := this eid he
    simpa [Bool.and_eq_true, decide_eq_true_eq] using this

theorem wf_edge_memOut {net : PetriNet} (h : wfNet net = true) {eid : Nat}
    (he : eid < net.edges.length) : eid ∈ nodeOut net (edgeSrc net eid) := by
  have := (wf_parts h).2.2.1
  simp only [adjSym, Bool.and_eq_true, all_range_iff] at this
  have := this.2 eid he
  simp only [Bool.and_eq_true, List.elem_iff, decide_eq_true_eq] at this
  exact this.1

theorem wf_edge_memIn {net : PetriNet} (h : wfNet net = true) {eid : Nat}
    (he : eid < net.edges.length) : eid ∈ nodeIn net (edgeDst net eid) := by
  have := (wf_parts h).2.2.1
  simp only [adjSym, Bool.and_eq_true, all_range_iff] at this
  have := this.2 eid he
  simp only [Bool.and_eq_true, List.elem_iff, decide_eq_true_eq] at this
  exact this.2

theorem wf_edge_bip {net : PetriNet} (h : wfNet net = true) {eid : Nat}
    (he : eid < net.edges.length) :
    sameKind (edgeSrc net eid) (edgeDst net eid) = false ∧
      refValidB net (edgeSrc net eid) = true ∧ refValidB net (edgeDst net eid) = true := by
  have := (wf_parts h).2.1
  rw [edgesOK, List.all_eq_true] at this
  have hmem : net.edges.getD eid dummyEdge ∈ net.edges := by
    rw [List.getD_eq_getElem?_getD, List.getElem?_eq_getElem he]
    exact List.getElem_mem _
  have := this _ hmem
  simp only [Bool.and_eq_true, Bool.not_eq_true'] at this
  exact ⟨this.1.1, this.1.2, this.2⟩

theorem wf_out_nodup {net : PetriNet} (h : wfNet net = true) {r : NodeRef}
    (hr : refValidB net r = true) : (nodeOut net r).Nodup := by
  have := (wf_parts h).2.2.2.1
  rw [adjNodup, Bool.and_eq_true, List.all_eq_true, List.all_eq_true] at this
  match r, hr with
  | .place i, hr =>
    have hmem : net.places.getD i dummyPlace ∈ net.places := by
      rw [List.getD_eq_getElem?_getD, List.getElem?_eq_getElem (by simpa [refValidB] using hr)]
      exact List.getElem_mem _
    have := this.1 _ hmem
    simp only [Bool.and_eq_true, decide_eq_true_eq] at this
    exact this.1
  | .trans i, hr =>
    have hmem : net.transitions.getD i dummyTrans ∈ net.transitions := by
      rw [List.getD_eq_getElem?_getD, List.getElem?_eq_getElem (by simpa [refValidB] using hr)]
      exact List.getElem_mem _
    have := this.2 _ hmem
    simp only [Bool.and_eq_true, decide_eq_true_eq] at this
    exact this.1

theorem wf_in_nodup {net : PetriNet} (h : wfNet net = true) {r : NodeRef}
    (hr : refValidB net r = true) : (nodeIn net r).Nodup := by
  have := (wf_parts h).2.2.2.1
  rw [adjNodup, Bool.and_eq_true, List.all_eq_true, List.all_eq_true] at this
  match r, hr with
  | .place i, hr =>
    have hmem : net.places.getD i dummyPlace ∈ net.places := by
      rw [List.getD_eq_getElem?_getD, List.getElem?_eq_getElem (by simpa [refValidB] using hr)]
      exact List.getElem_mem _
    have := this.1 _ hmem
    simp only [Bool.and_eq_true, decide_eq_true_eq] at this
    exact this.2
  | .trans i, hr =>
    have hmem : net.transitions.getD i dummyTrans ∈ net.transitions := by
      rw [List.getD_eq_getElem?_getD, List.getElem?_eq_getElem (by simpa [refValidB] using hr)]
      exact List.getElem_mem _
    have := this.2 _ hmem
    simp only [Bool.and_eq_true, decide_eq_true_eq] at this
    exact this.2

theorem wf_pair_unique {net : PetriNet} (h : wfNet net = true) {i j : Nat}
    (hi : i < net.edges.length) (hj : j < net.edges.length)
    (hs : edgeSrc net i = edgeSrc net j) (hd : edgeDst net i = edgeDst net j) : i = j := by
  have := (wf_parts h).2.2.2.2
  simp only [pairUnique, all_range_iff] at this
  have := this i hi j hj
  simp only [Bool.or_eq_true, Bool.not_eq_true', Bool.and_eq_true, beq_iff_eq,
    Bool.and_eq_false_iff, beq_eq_false_iff_ne, ne_eq] at this
  rcases this with h1 | h2
  · exact h1
  · rcases h2 with h2 | h2 <;> exact absurd (by assumption) h2

theorem wf_belongs_iff {net : PetriNet} (h : wfNet net = true) {r : NodeRef} :
    belongsNode net r = true ↔ refValidB net r = true := by
  match r with
  | .place i =>
    simp only [belongsNode, refValidB, Bool.and_eq_true, decide_eq_true_eq, beq_iff_eq]
    exact ⟨fun hx => hx.1, fun hx => ⟨hx, wf_place_id h hx⟩⟩
  | .trans i =>
    simp only [belongsNode, refValidB, Bool.and_eq_true, decide_eq_true_eq, beq_iff_eq]
    exact ⟨fun hx => hx.1, fun hx => ⟨hx, wf_trans_id h hx⟩⟩

theorem getD_set_apply {α : Type _} (l : List α) (i j : Nat) (a d : α) :
    (l.set i a).getD j d = if i = j ∧ i < l.length then a else l.getD j d := by
  by_cases h1 : i = j
  · subst h1
    by_cases h2 : i < l.length
    · simp [List.getD_eq_getElem?_getD, List.getElem?_set, h2]
    · simp [List.set_eq_of_length_le (Nat.le_of_not_lt h2), h2]
  · simp [List.getD_eq_getElem?_getD, List.getElem?_set, h1]

theorem pushOut_edges (net : PetriNet) (r : NodeRef) (e : Nat) :
    (pushOut net r e).edges = net.edges := by
  cases r <;> rfl

theorem pushIn_edges (net : PetriNet) (r : NodeRef) (e : Nat) :
    (pushIn net r e).edges = net.edges := by
  cases r <;> rfl

theorem pushOut_places_length (net : PetriNet) (r : NodeRef) (e : Nat) :
    (pushOut net r e).places.length = net.places.length := by
  cases r <;> simp [pushOut, updNode, updPlace, updTrans]

theorem pushOut_transitions_length (net : PetriNet) (r : NodeRef) (e : Nat) :
    (pushOut net r e).transitions.length = net.transitions.length := by
  cases r <;> simp [pushOut, updNode, updPlace, updTrans]

theorem pushIn_places_length (net : PetriNet) (r : NodeRef) (e : Nat) :
    (pushIn net r e).places.length = net.places.length := by
  cases r <;> simp [pushIn, updNode, updPlace, updTrans]

theorem pushIn_transitions_length (net : PetriNet) (r : NodeRef) (e : Nat) :
    (pushIn net r e).transitions.length = net.transitions.length := by
  cases r <;> simp [pushIn, updNode, updPlace, updTrans]

theorem nodeIn_pushOut (net : PetriNet) (r : NodeRef) (e : Nat) (d : NodeRef) :
    nodeIn (pushOut net r e) d = nodeIn net d := by
  cases r <;> cases d <;>
    simp only [pushOut, updNode, updPlace, updTrans, nodeIn, getD_set_apply] <;>
    split <;> simp_all

theorem nodeOut_pushIn (net : PetriNet) (r : NodeRef) (e : Nat) (d : NodeRef) :
    nodeOut (pushIn net r e) d = nodeOut net d := by
  cases r <;> cases d <;>
    simp only [pushIn, updNode, updPlace, updTrans, nodeOut, getD_set_apply] <;>
    split <;> simp_all

/-- Claim C5 (amended): `addEdge` performs no weight validation.  For a
well-formed net and nodes of opposite kinds belonging to it, `addEdge`
with an arbitrary weight fails exactly when an edge between the ordered
pair already exists — with `DuplicateEdge` and the net unchanged — and
otherwise succeeds, appending the edge with the given weight stored
unchanged. -/
theorem c5_amended (net : PetriNet) (src dst : NodeRef) (w : Int)
    (hwf : wfNet net = true)
    (hs : belongsNode net src = true) (hd : belongsNode net dst = true)
    (hk : sameKind src dst = false) :
    ((∃ eid ∈ nodeOut net src, edgeDst net eid = dst) →
        addEdge net src dst w = .error (.duplicateEdge, net)) ∧
    ((∀ eid ∈ nodeOut net src, edgeDst net eid ≠ dst) →
        ∃ n', addEdge net src dst w = .ok (n', net.edges.length) ∧
          n'.edges = net.edges ++
            [{ id := net.edges.length, src := src, dst := dst, weight := w }] ∧
          n'.places.length = net.places.length ∧
          n'.transitions.length = net.transitions.length) := by
  constructor
  · intro hdup
    have hany : (nodeOut net src).any (fun oid => edgeDst net oid == dst) = true := by
      rw [List.any_eq_true]
      obtain ⟨eid, hmem, heq⟩ := hdup
      exact ⟨eid, hmem, by simpa using heq⟩
    simp only [addEdge, hs, hd, hk, Bool.not_true, Bool.false_eq_true, if_false,
      if_true, hany]
  · intro hnone
    have hany : (nodeOut net src).any (fun oid => edgeDst net oid == dst) = false := by
      rw [Bool.eq_false_iff]
      intro hx
      rw [List.any_eq_true] at hx
      obtain ⟨eid, hmem, heq⟩ := hx
      exact hnone eid hmem (by simpa using heq)
    have hany2 : ((nodeIn (pushOut net src net.edges.length) dst).any
        (fun oid => edgeSrc (pushOut net src net.edges.length) oid == src)) = false := by
      rw [Bool.eq_false_iff]
      intro hx
      rw [List.any_eq_true] at hx
      obtain ⟨eid, hmem, heq⟩ := hx
      rw [nodeIn_pushOut] at hmem
      have hsrc : edgeSrc net eid = src := by
        have : edgeSrc (pushOut net src net.edges.length) eid = src := by simpa using heq
        rwa [show edgeSrc (pushOut net src net.edges.length) eid = edgeSrc net eid by
          simp [edgeSrc, pushOut_edges]] at this
      have hdv : refValidB net dst = true := (wf_belongs_iff hwf).1 hd
      obtain ⟨hlt, hdst⟩ := wf_adj_in hwf hdv hmem
      have hout := wf_edge_memOut hwf hlt
      rw [hsrc] at hout
      exact hnone eid hout hdst
    refine ⟨{ pushIn (pushOut net src net.edges.length) dst net.edges.length with
        edges := (pushIn (pushOut net src net.edges.length) dst net.edges.length).edges ++
          [{ id := net.edges.length, src := src, dst := dst, weight := w }] },
      ?_, ?_, ?_, ?_⟩
    · simp only [addEdge, hs, hd, hk, Bool.not_true, Bool.false_eq_true, if_false,
        if_true, hany, hany2]
    · simp [pushIn_edges, pushOut_edges]
    · simp [pushIn_places_length, pushOut_places_length]
    · simp [pushIn_transitions_length, pushOut_transitions_length]

/-- Witness for the amended C5 at a concrete input: on `weightNet`
(one place, one transition, no edges) the hypotheses hold, there is no
duplicate, and `addEdge` with weight 5 succeeds. -/
theorem c5_amended_witness :
    ∃ n', addEdge weightNet (.place 0) (.trans 0) 5 = .ok (n', 0) ∧
      n'.edges = [{ id := 0, src := .place 0, dst := .trans 0, weight := 5 }] ∧
      n'.places.length = 1 ∧ n'.transitions.length = 1 := by
  have h := (c5_amended weightNet (.place 0) (.trans 0) 5 (by decide) (by decide)
    (by decide) (by decide)).2 (by decide)
  simpa using h

theorem everyThread_fst {σ α : Type _} {f : σ → α → Bool × σ} {c : α → Bool}
    (h : ∀ s a, (f s a).1 = c a) : ∀ (s : σ) (l : List α),
    (everyThread f s l).1 = l.all c := by
  intro s l
  induction l generalizing s with
  | nil => rfl
  | cons a as ih =>
    simp only [everyThread, List.all_cons]
    have := h s a
    rcases hfa : f s a with ⟨b, s'⟩
    rw [hfa] at this
    simp only at this
    subst this
    cases c a with
    | true => simpa using ih s'
    | false => simp

theorem everyThread_fst_true {σ α : Type _} {f : σ → α → Bool × σ} {l : List α}
    (h : ∀ s, ∀ a ∈ l, (f s a).1 = true) : ∀ s : σ, (everyThread f s l).1 = true := by
  intro s
  induction l generalizing s with
  | nil => rfl
  | cons a as ih =>
    simp only [everyThread]
    have := h s a (List.mem_cons_self a as)
    rcases hfa : f s a with ⟨b, s'⟩
    rw [hfa] at this
    simp only at this
    subst this
    simpa using ih (fun s2 a2 ha2 => h s2 a2 (List.mem_cons_of_mem _ ha2)) s'

/-- The state-independent content of one `isGroupChoiceNet` pivot
check. -/
def gcPivotCond (net : PetriNet) (p : PlaceData) : Bool :=
  p.outE.all (fun eid =>
    (nodeIn net (edgeDst net eid)).all (fun eid2 =>
      (nodeOut net (edgeSrc net eid2)).length == p.outE.length &&
        (nodeOut net (edgeSrc net eid2)).all
          (fun e3 => (p.outE.map (edgeDst net)).contains (edgeDst net e3))))

theorem gcPivot_fst (net : PetriNet) (checked : List Bool) (p : PlaceData) :
    (gcPivot net checked p).1 = gcPivotCond net p := by
  show (gcPivot net checked p).1 = _
  simp only [gcPivot, gcPivotCond]
  refine everyThread_fst ?_ checked p.outE
  intro s eid
  exact everyThread_fst (c := fun eid2 =>
      (nodeOut net (edgeSrc net eid2)).length == p.outE.length &&
        (nodeOut net (edgeSrc net eid2)).all
          (fun e3 => (p.outE.map (edgeDst net)).contains (edgeDst net e3)))
    (fun s2 eid2 => rfl) s (nodeIn net (edgeDst net eid))

theorem isGroupChoiceNet_of_pivots (net : PetriNet)
    (h : ∀ p ∈ net.places, gcPivotCond net p = true) : isGroupChoiceNet net = true := by
  unfold isGroupChoiceNet
  apply everyThread_fst_true
  intro s p hp
  by_cases hc : s.getD p.id false = true
  · rw [if_pos hc]
  · rw [if_neg hc, gcPivot_fst]
    exact h p hp

theorem mem_len_le_one {α : Type _} {l : List α} {a b : α} (h : l.length ≤ 1)
    (ha : a ∈ l) (hb : b ∈ l) : a = b := by
  match l, h with
  | [], _ => cases ha
  | [x], _ =>
    rw [List.mem_singleton] at ha hb
    rw [ha, hb]

/-- Claim C7: a free-choice net is a group-choice net (for well-formed
nets, as produced by the mutation API). -/
theorem c7_fc_implies_gc (net : PetriNet) (hwf : wfNet net = true)
    (hfc : isFreeChoiceNet net = true) : isGroupChoiceNet net = true := by
  apply isGroupChoiceNet_of_pivots
  intro p hp
  obtain ⟨i, hi, hpi⟩ := List.mem_iff_getElem.1 hp
  have hgetD : net.places.getD i dummyPlace = p := by
    simp [List.getD_eq_getElem?_getD, List.getElem?_eq_getElem hi, hpi]
  have houtp : nodeOut net (.place i) = p.outE := by
    show (net.places.getD i dummyPlace).outE = p.outE
    rw [hgetD]
  have hrv : refValidB net (.place i) = true := by
    simp [refValidB, hi]
  rw [gcPivotCond, List.all_eq_true]
  intro eid heid
  have heid' : eid ∈ nodeOut net (.place i) := by rw [houtp]; exact heid
  obtain ⟨helt, hesrc⟩ := wf_adj_out hwf hrv heid'
  obtain ⟨hbip, _, hdv⟩ := wf_edge_bip hwf helt
  rw [List.all_eq_true]
  intro eid2 heid2
  obtain ⟨he2lt, he2dst⟩ := wf_adj_in hwf hdv heid2
  obtain ⟨hbip2, hqv, _⟩ := wf_edge_bip hwf he2lt
  -- the transition fed by `p` through `eid`
  rcases hdr : edgeDst net eid with j | j
  · rw [hdr, hesrc] at hbip; simp [sameKind] at hbip
  rw [hdr] at heid2 he2dst hdv
  -- free choice at that transition
  have hfc' := hfc
  rw [isFreeChoiceNet, List.all_eq_true] at hfc'
  have hjlt : j < net.transitions.length := by simpa [refValidB] using hdv
  have hjmem : net.transitions.getD j dummyTrans ∈ net.transitions := by
    rw [List.getD_eq_getElem?_getD, List.getElem?_eq_getElem hjlt]
    exact List.getElem_mem _
  have hfcj := hfc' _ hjmem
  have hinj : nodeIn net (.trans j) = (net.transitions.getD j dummyTrans).inE := by
    simp [nodeIn]
  simp only [Bool.or_eq_true, decide_eq_true_eq, List.all_eq_true, beq_iff_eq] at hfcj
  rcases hfcj with hle | hall
  · -- at most one ingoing edge: the only feeder is `p` itself
    have hein : eid ∈ nodeIn net (.trans j) := by
      have := wf_edge_memIn hwf helt
      rwa [hdr] at this
    have : eid2 = eid := by
      apply mem_len_le_one (l := (net.transitions.getD j dummyTrans).inE) hle
      · rwa [hinj] at heid2
      · rwa [hinj] at hein
    subst this
    rw [hesrc, houtp]
    simp only [beq_self_eq_true, Bool.true_and]
    rw [List.all_eq_true]
    intro e3 he3
    rw [List.elem_iff]
    exact List.mem_map.2 ⟨e3, he3, rfl⟩
  · -- every feeder has exactly one outgoing edge
    have h1 : (nodeOut net (edgeSrc net eid2)).length = 1 := by
      have := hall eid2 (by rwa [hinj] at heid2)
      simpa using this
    have h2 : (nodeOut net (edgeSrc net eid)).length = 1 := by
      have hein : eid ∈ nodeIn net (.trans j) := by
        have := wf_edge_memIn hwf helt
        rwa [hdr] at this
      have := hall eid (by rwa [hinj] at hein)
      simpa using this
    rw [hesrc, houtp] at h2
    rw [h1, h2]
    simp only [beq_self_eq_true, Bool.true_and]
    rw [List.all_eq_true]
    intro e3 he3
    -- the single outgoing edge of the feeder is `eid2` itself
    have he2out : eid2 ∈ nodeOut net (edgeSrc net eid2) := wf_edge_memOut hwf he2lt
    have : e3 = eid2 := mem_len_le_one (Nat.le_of_eq h1) he3 he2out
    subst this
    rw [List.elem_iff, he2dst, ← hdr]
    exact List.mem_map.2 ⟨eid, heid, rfl⟩

/-- Witness for C7 at a concrete input: Scenario C is well-formed and
free-choice, hence group-choice. -/
theorem c7_witness : isGroupChoiceNet scenarioC = true :=
  c7_fc_implies_gc scenarioC (by decide) (by decide)

/-! ### Labels, synchronisation names, and rendered name indices -/

theorem isSyncName_shape {s : String} (h : isSyncName s = true) :
    ∃ ds, s.data = 's' :: '_' :: 't' :: ds := by
  unfold isSyncName at h
  split at h
  · next ds heq => exact ⟨ds, heq⟩
  · cases h

theorem labelOK_no_underscore {s : String} (h : labelOK s = true) : '_' ∉ s.data := by
  unfold labelOK at h
  rw [Bool.or_eq_true] at h
  rcases h with h | h
  · rw [beq_iff_eq] at h
    subst h
    decide
  · split at h
    · cases h
    · next c cs heq =>
      rw [Bool.and_eq_true, List.all_eq_true] at h
      rw [heq]
      intro hmem
      rcases List.mem_cons.1 hmem with hc | hcs
      · rw [← hc] at h
        exact absurd h.1 (by decide)
      · exact absurd (h.2 _ hcs) (by decide)

theorem labelOK_not_syncName {s : String} (h : labelOK s = true) : isSyncName s = false := by
  rw [Bool.eq_false_iff]
  intro hsync
  obtain ⟨ds, hds⟩ := isSyncName_shape hsync
  exact labelOK_no_underscore h (by rw [hds]; simp)

theorem digitChar_isDigit {k : Nat} (h : k < 10) : isDigitChar (Nat.digitChar k) = true := by
  interval_cases k <;> decide

theorem toDigitsCore_all_digits :
    ∀ (fuel n : Nat) (ds : List Char), (∀ c ∈ ds, isDigitChar c = true) →
      ∀ c ∈ Nat.toDigitsCore 10 fuel n ds, isDigitChar c = true := by
  intro fuel
  induction fuel with
  | zero => intro n ds hds c hc; exact hds c hc
  | succ fuel ih =>
    intro n ds hds c hc
    simp only [Nat.toDigitsCore] at hc
    have hdig : ∀ c' ∈ (Nat.digitChar (n % 10) :: ds), isDigitChar c' = true := by
      intro c' hc'
      rcases List.mem_cons.1 hc' with h1 | h2
      · rw [h1]; exact digitChar_isDigit (Nat.mod_lt _ (by omega))
      · exact hds _ h2
    by_cases hz : n / 10 = 0
    · rw [if_pos hz] at hc
      exact hdig c hc
    · rw [if_neg hz] at hc
      exact ih _ _ hdig c hc

theorem toDigitsCore_ne_nil :
    ∀ (fuel n : Nat) (ds : List Char), ds.length ≤ (Nat.toDigitsCore 10 fuel n ds).length := by
  intro fuel
  induction fuel with
  | zero => intro n ds; rw [Nat.toDigitsCore]
  | succ fuel ih =>
    intro n ds
    simp only [Nat.toDigitsCore]
    by_cases hz : n / 10 = 0
    · rw [if_pos hz]; simp
    · rw [if_neg hz]
      calc ds.length ≤ (Nat.digitChar (n % 10) :: ds).length := by simp
        _ ≤ _ := ih _ _

theorem toDigitsCore_succ_len (fuel n : Nat) (ds : List Char) :
    ds.length + 1 ≤ (Nat.toDigitsCore 10 (fuel + 1) n ds).length := by
  simp only [Nat.toDigitsCore]
  by_cases hz : n / 10 = 0
  · rw [if_pos hz]; simp
  · rw [if_neg hz]
    calc ds.length + 1 = (Nat.digitChar (n % 10) :: ds).length := by simp
      _ ≤ _ := toDigitsCore_ne_nil _ _ _

theorem natRepr_digits (m : Nat) :
    (Nat.repr m).data ≠ [] ∧ ∀ c ∈ (Nat.repr m).data, isDigitChar c = true := by
  have hdata : (Nat.repr m).data = Nat.toDigits 10 m := rfl
  rw [hdata, Nat.toDigits]
  constructor
  · intro hnil
    have := toDigitsCore_succ_len m m []
    rw [hnil] at this
    simp at this
  · exact toDigitsCore_all_digits _ _ _ (by intro c hc; cases hc)

/-- A positive integer's rendered name produces a matching
synchronisation name: `"s_t" ++ toString n` matches `^s_t\d+$`. -/
theorem isSyncName_pos_nameId {n : Int} (h : 0 < n) :
    isSyncName ("s_t" ++ toString n) = true := by
  obtain ⟨m, rfl⟩ : ∃ m : Nat, n = Int.ofNat m := ⟨n.toNat, (Int.toNat_of_nonneg (le_of_lt h)).symm⟩
  have hts : toString (Int.ofNat m) = Nat.repr m := rfl
  have hdata : ("s_t" ++ toString (Int.ofNat m)).data =
      's' :: '_' :: 't' :: (Nat.repr m).data := by
    rw [String.data_append, hts]
    rfl
  obtain ⟨hne, hall⟩ := natRepr_digits m
  unfold isSyncName
  rw [hdata]
  simp only [Bool.and_eq_true, Bool.not_eq_true']
  constructor
  · rw [List.isEmpty_eq_false_iff_exists_mem]
    rcases hx : (Nat.repr m).data with _ | ⟨c, cs⟩
    · exact absurd hx hne
    · exact ⟨c, List.mem_cons_self c cs⟩
  · rw [List.all_eq_true]
    exact hall

/-! ### The transition loop's replacement array -/

theorem arrSet_getD (l : List Process) (k : Nat) (v : Process) (m : Nat) :
    (arrSet l k v).getD m Process.inaction =
      if m = k then v else l.getD m Process.inaction := by
  unfold arrSet
  by_cases hk : k < l.length
  · rw [if_pos hk, getD_set_apply]
    by_cases hmk : m = k
    · rw [if_pos hmk, if_pos ⟨hmk.symm, hk⟩]
    · rw [if_neg hmk, if_neg (fun hc => hmk hc.1.symm)]
  · rw [if_neg hk]
    have hlen2 : (l ++ List.replicate (k - l.length) Process.inaction).length = k := by
      simp only [List.length_append, List.length_replicate]
      omega
    by_cases hmk : m = k
    · subst hmk
      rw [if_pos rfl]
      have hc := getD_concat_length
        (l := l ++ List.replicate (m - l.length) Process.inaction)
        (a := v) (d := Process.inaction)
      rwa [hlen2] at hc
    · rw [if_neg hmk]
      by_cases hml : m < l.length
      · rw [getD_append_left (by rw [hlen2]; omega), getD_append_left hml]
      · have hrhs : l.getD m Process.inaction = Process.inaction := by
          rw [List.getD_eq_getElem?_getD, List.getElem?_eq_none (by omega)]
          rfl
        rw [hrhs]
        by_cases hmid : m < k
        · rw [getD_append_left (by rw [hlen2]; exact hmid),
            getD_append_right (Nat.le_of_not_lt hml),
            List.getD_eq_getElem?_getD, List.getElem?_replicate]
          split <;> rfl
        · rw [getD_append_right (by rw [hlen2]; omega), hlen2,
            List.getD_eq_getElem?_getD,
            List.getElem?_eq_none (by simp only [List.length_singleton]; omega)]
          rfl

theorem transFold_untouched (net : PetriNet) (p2p : List Process) (j : Nat) :
    ∀ (ts : List TransData) (st : TransLoopState), (∀ t ∈ ts, t.id ≠ j) →
    ((ts.foldl (ccsTransStep net p2p) st).replacement).getD j Process.inaction =
      st.replacement.getD j Process.inaction := by
  intro ts
  induction ts with
  | nil => intro st _; rfl
  | cons t ts ih =>
    intro st h
    rw [List.foldl_cons, ih _ (fun t' ht' => h t' (List.mem_cons_of_mem _ ht'))]
    have hne := h t (List.mem_cons_self _ _)
    unfold ccsTransStep
    split_ifs <;>
      first
      | rfl
      | rw [arrSet_getD, if_neg (fun hx : j = t.id => hne hx.symm)]

theorem ccsTransStep_replacement_zero (net : PetriNet) (p2p : List Process)
    (st : TransLoopState) (t : TransData) (h : t.inE.length = 0) :
    (ccsTransStep net p2p st t).replacement = st.replacement := by
  simp only [ccsTransStep]
  rw [if_pos (by simp [h])]

theorem ccsTransStep_replacement_one (net : PetriNet) (p2p : List Process)
    (st : TransLoopState) (t : TransData) (h : t.inE.length = 1) :
    (ccsTransStep net p2p st t).replacement = arrSet st.replacement t.id
      (.prefixAct (labelToAction t.label)
        (arrayToProcess (outgoingProcs net p2p t) .parallel)) := by
  simp only [ccsTransStep]
  rw [if_neg (by simp [h]), if_pos (by simp [h])]

theorem ccsTransStep_replacement_two (net : PetriNet) (p2p : List Process)
    (st : TransLoopState) (t : TransData) (h0 : t.inE.length ≠ 0) (h1 : t.inE.length ≠ 1) :
    (ccsTransStep net p2p st t).replacement = arrSet st.replacement t.id
      (.prefixAct (.inputAction ("s_" ++ transGetName t))
        (arrayToProcess (outgoingProcs net p2p t) .parallel)) := by
  simp only [ccsTransStep]
  rw [if_neg (by simp [h0]), if_neg (by simp [h1])]

/-- The replacement stored for transition `j` after the transition
loop: nothing for generators, the own-label prefix for single-input
transitions, the fresh `s_t…` input prefix otherwise. -/
theorem ccsTransFold_replacement_getD (net : PetriNet) (hwf : wfNet net = true)
    {j : Nat} (hj : j < net.transitions.length) :
    (ccsTransFold net).replacement.getD j Process.inaction =
      (if (net.transitions.getD j dummyTrans).inE.length = 0 then Process.inaction
       else if (net.transitions.getD j dummyTrans).inE.length = 1 then
         Process.prefixAct (labelToAction (net.transitions.getD j dummyTrans).label)
           (arrayToProcess
             (outgoingProcs net (placeToProcessArr net) (net.transitions.getD j dummyTrans))
             .parallel)
       else
         Process.prefixAct
           (.inputAction ("s_" ++ transGetName (net.transitions.getD j dummyTrans)))
           (arrayToProcess
             (outgoingProcs net (placeToProcessArr net) (net.transitions.getD j dummyTrans))
             .parallel)) := by
  have hid : ∀ k, k < net.transitions.length → (net.transitions.getD k dummyTrans).id = k :=
    fun k hk => wf_trans_id hwf hk
  have hgetDeq : ∀ k (hk : k < net.transitions.length),
      net.transitions.getD k dummyTrans = net.transitions[k] := by
    intro k hk
    rw [List.getD_eq_getElem?_getD, List.getElem?_eq_getElem hk, Option.getD_some]
  have htake_id : ∀ t ∈ net.transitions.take j, t.id < j := by
    intro t ht
    obtain ⟨i, hi, hti⟩ := List.mem_iff_getElem.1 ht
    have hij : i < j := by
      have := hi
      simp only [List.length_take] at this
      omega
    have hil : i < net.transitions.length := by
      have := hi
      simp only [List.length_take] at this
      omega
    have : t = net.transitions[i] := by
      rw [← hti, List.getElem_take]
    rw [this, ← hgetDeq i hil]
    rw [hid i hil]
    exact hij
  have hdrop_id : ∀ t ∈ net.transitions.drop (j + 1), j + 1 ≤ t.id := by
    intro t ht
    obtain ⟨i, hi, hti⟩ := List.mem_iff_getElem.1 ht
    have hil : j + 1 + i < net.transitions.length := by
      have := hi
      simp only [List.length_drop] at this
      omega
    have : t = net.transitions[j + 1 + i] := by
      rw [← hti, List.getElem_drop]
    rw [this, ← hgetDeq _ hil, hid _ hil]
    omega
  have hsplit : net.transitions = net.transitions.take (j + 1) ++ net.transitions.drop (j + 1) :=
    (List.take_append_drop _ _).symm
  rw [ccsTransFold]
  conv_lhs => rw [hsplit]
  rw [List.foldl_append]
  rw [transFold_untouched _ _ _ _ _ (fun t ht => by have := hdrop_id t ht; omega)]
  have htake : net.transitions.take (j + 1) =
      net.transitions.take j ++ [net.transitions.getD j dummyTrans] := by
    rw [List.take_succ, List.getElem?_eq_getElem hj]
    rw [hgetDeq j hj]
    rfl
  rw [htake, List.foldl_append, List.foldl_cons, List.foldl_nil]
  have hidj : (net.transitions.getD j dummyTrans).id = j := hid j hj
  have huntouched : ((net.transitions.take j).foldl
      (ccsTransStep net (placeToProcessArr net))
      { definitions := [], replacement := [], newActions := [], generators := [] }).replacement.getD
        j Process.inaction = Process.inaction := by
    rw [transFold_untouched _ _ _ _ _ (fun t ht => by have := htake_id t ht; omega)]
    rfl
  by_cases hz : (net.transitions.getD j dummyTrans).inE.length = 0
  · rw [ccsTransStep_replacement_zero _ _ _ _ hz, if_pos hz]
    exact huntouched
  · by_cases ho : (net.transitions.getD j dummyTrans).inE.length = 1
    · rw [ccsTransStep_replacement_one _ _ _ _ ho, if_neg hz, if_pos ho,
        arrSet_getD, if_pos hidj.symm]
    · rw [ccsTransStep_replacement_two _ _ _ _ hz ho, if_neg hz, if_neg ho,
        arrSet_getD, if_pos hidj.symm]

theorem getD_mem {α : Type _} {l : List α} {j : Nat} (hj : j < l.length) (d : α) :
    l.getD j d ∈ l := by
  rw [List.getD_eq_getElem?_getD, List.getElem?_eq_getElem hj, Option.getD_some]
  exact List.getElem_mem _

/-- Claim C10: labels accepted by `Transition.setLabel` never match the
synchronisation-name pattern `^s_t\d+$`, and consequently in `toCCS`
the co-action rewrite guard holds for the stored replacement of a
transition exactly when that transition has two incoming edges: the
rewrite can fire only on the synchronisation prefixes introduced for
two-input τ-transitions, never on a prefix built from a transition's
own label. -/
theorem c10_rewrite_only_sync (net : PetriNet) (hwf : wfNet net = true)
    (h2 : is2TauSynchronisationNet net = true)
    (hlab : ∀ t ∈ net.transitions, labelOK t.label = true)
    (hpos : ∀ t ∈ net.transitions, 0 < t.nameId) :
    (∀ s, labelOK s = true → isSyncName s = false) ∧
    (∀ j, j < net.transitions.length →
      rewriteGuard ((ccsTransFold net).replacement.getD j Process.inaction) =
        decide ((net.transitions.getD j dummyTrans).inE.length = 2)) := by
  refine ⟨fun s h => labelOK_not_syncName h, ?_⟩
  intro j hj
  rw [ccsTransFold_replacement_getD net hwf hj]
  have hmem := getD_mem hj dummyTrans
  by_cases hz : (net.transitions.getD j dummyTrans).inE.length = 0
  · rw [if_pos hz]
    rw [hz]
    rfl
  · by_cases ho : (net.transitions.getD j dummyTrans).inE.length = 1
    · rw [if_neg hz, if_pos ho, ho]
      show rewriteGuard (.prefixAct (labelToAction _) _) = false
      unfold labelToAction
      by_cases ht : (net.transitions.getD j dummyTrans).label == "τ"
      · rw [if_pos ht]
        rfl
      · rw [if_neg ht]
        show isSyncName (net.transitions.getD j dummyTrans).label = false
        exact labelOK_not_syncName (hlab _ hmem)
    · rw [if_neg hz, if_neg ho]
      have hlen2 : (net.transitions.getD j dummyTrans).inE.length = 2 := by
        rw [is2TauSynchronisationNet, List.all_eq_true] at h2
        have := h2 _ hmem
        simp only [Bool.or_eq_true, decide_eq_true_eq, Bool.and_eq_true, beq_iff_eq] at this
        rcases this with hlt | ⟨heq, _⟩
        · omega
        · exact heq
      rw [hlen2]
      show isSyncName ("s_" ++ transGetName (net.transitions.getD j dummyTrans)) = true
      have hassoc : "s_" ++ transGetName (net.transitions.getD j dummyTrans) =
          "s_t" ++ toString (net.transitions.getD j dummyTrans).nameId := by
        rw [transGetName, ← String.append_assoc]
        rfl
      rw [hassoc]
      exact isSyncName_pos_nameId (hpos _ hmem)

/-- Witness for C10 at a concrete input: Scenario C with its τ-labelled
two-input transition, and the label pattern at a concrete label. -/
theorem c10_witness :
    labelOK "abc9X" = true ∧ isSyncName "abc9X" = false ∧
    rewriteGuard ((ccsTransFold scenarioC).replacement.getD 0 Process.inaction) =
      decide ((scenarioC.transitions.getD 0 dummyTrans).inE.length = 2) := by
  have h := c10_rewrite_only_sync scenarioC (by decide) (by decide)
    (by decide) (by decide)
  exact ⟨by decide, h.1 "abc9X" (by decide), h.2 0 (by decide)⟩

/-! ### Restriction nesting (claim C4) -/

theorem lexLe_total : ∀ a b : List Char, lexLe a b = true ∨ lexLe b a = true := by
  intro a
  induction a with
  | nil => intro b; left; rfl
  | cons x xs ih =>
    intro b
    cases b with
    | nil => right; rfl
    | cons y ys =>
      by_cases hxy : x.toNat < y.toNat
      · left
        unfold lexLe
        rw [if_pos hxy]
      · by_cases hyx : y.toNat < x.toNat
        · right
          unfold lexLe
          rw [if_pos hyx]
        · rcases ih ys with h | h
          · left
            unfold lexLe
            rw [if_neg hxy, if_neg hyx]
            exact h
          · right
            unfold lexLe
            rw [if_neg hyx, if_neg hxy]
            exact h

theorem lexLe_trans : ∀ a b c : List Char, lexLe a b = true → lexLe b c = true →
    lexLe a c = true := by
  intro a
  induction a with
  | nil => intro b c _ _; rfl
  | cons x xs ih =>
    intro b c hab hbc
    cases b with
    | nil => cases hab
    | cons y ys =>
      cases c with
      | nil => cases hbc
      | cons z zs =>
        unfold lexLe at hab hbc ⊢
        by_cases hxy : x.toNat < y.toNat
        · by_cases hyz : y.toNat < z.toNat
          · rw [if_pos (by omega : x.toNat < z.toNat)]
          · rw [if_neg hyz] at hbc
            by_cases hzy : z.toNat < y.toNat
            · rw [if_pos hzy] at hbc
              cases hbc
            · rw [if_pos (by omega : x.toNat < z.toNat)]
        · rw [if_neg hxy] at hab
          by_cases hyx : y.toNat < x.toNat
          · rw [if_pos hyx] at hab
            cases hab
          · rw [if_neg hyx] at hab
            by_cases hyz : y.toNat < z.toNat
            · rw [if_pos (by omega : x.toNat < z.toNat)]
            · rw [if_neg hyz] at hbc
              by_cases hzy : z.toNat < y.toNat
              · rw [if_pos hzy] at hbc
                cases hbc
              · rw [if_neg hzy] at hbc
                rw [if_neg (by omega : ¬ x.toNat < z.toNat),
                  if_neg (by omega : ¬ z.toNat < x.toNat)]
                exact ih ys zs hab hbc

instance : IsTotal String (fun a b => strLeB a b = true) :=
  ⟨fun a b => lexLe_total a.data b.data⟩

instance : IsTrans String (fun a b => strLeB a b = true) :=
  ⟨fun a b c => lexLe_trans a.data b.data c.data⟩

theorem restrictionNames_foldl (l : List String) (base : Process) :
    restrictionNames (l.foldl
        (fun pr name => Process.restriction (.inputAction name) pr) base) =
      l.reverse ++ restrictionNames base := by
  induction l generalizing base with
  | nil => rfl
  | cons n ns ih =>
    rw [List.foldl_cons, ih, List.reverse_cons, List.append_assoc]
    rfl

theorem foldl_arrSet_shape (ps : List PlaceData) : ∀ l0 : List Process,
    (∀ k, restrictionNames (l0.getD k Process.inaction) = []) →
    ∀ k, restrictionNames ((ps.foldl
        (fun arr p => arrSet arr p.id (.constant ("X_" ++ placeGetName p))) l0).getD k
      Process.inaction) = [] := by
  induction ps with
  | nil => intro l0 h k; exact h k
  | cons p ps ih =>
    intro l0 h k
    rw [List.foldl_cons]
    apply ih
    intro m
    rw [arrSet_getD]
    by_cases hm : m = p.id
    · rw [if_pos hm]; rfl
    · rw [if_neg hm]; exact h m

theorem placeToProcessArr_shape (net : PetriNet) (k : Nat) :
    restrictionNames ((placeToProcessArr net).getD k Process.inaction) = [] := by
  rw [placeToProcessArr]
  exact foldl_arrSet_shape net.places [] (fun m => by cases m <;> rfl) k

theorem transFold_generators_shape (net : PetriNet) (p2p : List Process) :
    ∀ (ts : List TransData) (st : TransLoopState),
    (∀ g ∈ st.generators, restrictionNames g = []) →
    ∀ g ∈ (ts.foldl (ccsTransStep net p2p) st).generators, restrictionNames g = [] := by
  intro ts
  induction ts with
  | nil => intro st h g hg; exact h g hg
  | cons t ts ih =>
    intro st h g hg
    rw [List.foldl_cons] at hg
    refine ih _ ?_ g hg
    intro g' hg'
    unfold ccsTransStep at hg'
    split_ifs at hg' with h0 h1
    · simp only at hg'
      rcases List.mem_append.1 hg' with hold | hnew
      · exact h g' hold
      · rw [List.mem_singleton.1 hnew]
        rfl
    · exact h g' hg'
    · exact h g' hg'

theorem ccsPlaceProcesses_shape (net : PetriNet) :
    ∀ q ∈ ccsPlaceProcesses net, restrictionNames q = [] := by
  intro q hq
  rw [ccsPlaceProcesses] at hq
  rcases List.mem_append.1 hq with hmap | hgen
  · obtain ⟨p, _, rfl⟩ := List.mem_map.1 hmap
    by_cases h1 : p.tokens == 1
    · rw [if_pos h1]
      exact placeToProcessArr_shape net p.id
    · rw [if_neg h1]
      rfl
  · exact transFold_generators_shape net (placeToProcessArr net) net.transitions
      { definitions := [], replacement := [], newActions := [], generators := [] }
      (fun g hg => by cases hg) q hgen

theorem restrictionNames_arrayToProcess_parallel (l : List Process)
    (h : ∀ q ∈ l, restrictionNames q = []) :
    restrictionNames (arrayToProcess l .parallel) = [] := by
  rcases l with _ | ⟨p, _ | ⟨q, rest⟩⟩
  · rfl
  · exact h p (List.mem_singleton_self p)
  · rfl

/-- Claim C4 (amended): on every valid input net `toCCS` wraps the
initial parallel composition in one restriction per introduced
synchronisation name, but nested so that the names read in DESCENDING
lexicographic order from the outermost inward (the ascending sort is
folded with each successive restriction applied outside). -/
theorem c4_amended (net : PetriNet) (h2 : is2TauSynchronisationNet net = true) :
    toCCS net = .ok { definitions := (ccsPlaceFold net).1, process := ccsInitialProcess net } ∧
    restrictionNames (ccsInitialProcess net) =
      (sortStrings (ccsTransFold net).newActions).reverse ∧
    (restrictionNames (ccsInitialProcess net)).Perm (ccsTransFold net).newActions ∧
    List.Sorted (fun a b => strLeB b a = true) (restrictionNames (ccsInitialProcess net)) := by
  have hnames : restrictionNames (ccsInitialProcess net) =
      (sortStrings (ccsTransFold net).newActions).reverse := by
    rw [ccsInitialProcess, restrictionNames_foldl,
      restrictionNames_arrayToProcess_parallel _ (ccsPlaceProcesses_shape net),
      List.append_nil]
  refine ⟨?_, hnames, ?_, ?_⟩
  · rw [toCCS, if_neg (by simp [h2])]
  · rw [hnames]
    exact (List.reverse_perm _).trans
      (List.perm_insertionSort (fun a b => strLeB a b = true) _)
  · rw [hnames]
    rw [List.Sorted, List.pairwise_reverse]
    exact List.sorted_insertionSort (fun a b => strLeB a b = true) _

/-- Witness for the amended C4 at a concrete input: on `restrNet` the
hypothesis holds and the outermost-inward restriction names are the
reverse of the ascending sort of the two introduced names. -/
theorem c4_amended_witness :
    restrictionNames (ccsInitialProcess restrNet) =
      (sortStrings (ccsTransFold restrNet).newActions).reverse :=
  (c4_amended restrNet (by decide)).2.1

/-! ### The place loop's first/second occurrence behaviour (claim C3) -/

/-- The `transitionToReplacement` state when `toCCS`'s place loop
reaches place `i`. -/
def replAfter (net : PetriNet) (i : Nat) : List Process :=
  ((net.places.take i).foldl (ccsPlaceStep net)
    ((ccsTransFold net).definitions, (ccsTransFold net).replacement)).2

theorem ccsChoiceStep_fst (net : PetriNet) (acc : List Process × List Process) (eid : Nat) :
    (ccsChoiceStep net acc eid).1 =
      acc.1 ++ [acc.2.getD (refFieldId net (edgeDst net eid)) Process.inaction] := rfl

theorem choicesFold_mono (net : PetriNet) {x : Process} :
    ∀ (L : List Nat) (acc : List Process × List Process), x ∈ acc.1 →
      x ∈ (L.foldl (ccsChoiceStep net) acc).1 := by
  intro L
  induction L with
  | nil => intro acc h; exact h
  | cons e L ih =>
    intro acc h
    rw [List.foldl_cons]
    refine ih _ ?_
    rw [ccsChoiceStep_fst]
    exact List.mem_append_left _ h

theorem ccsChoiceStep_repl_untouched (net : PetriNet) (acc : List Process × List Process)
    (eid jt : Nat) (h : refFieldId net (edgeDst net eid) ≠ jt) :
    ((ccsChoiceStep net acc eid).2).getD jt Process.inaction =
      acc.2.getD jt Process.inaction := by
  unfold ccsChoiceStep
  simp only
  split_ifs
  · rw [arrSet_getD, if_neg (show ¬ jt = refFieldId net (net.edges.getD eid dummyEdge).dst
      from fun hx => h hx.symm)]
  · rfl

theorem choicesFold_repl_untouched (net : PetriNet) (jt : Nat) :
    ∀ (L : List Nat) (acc : List Process × List Process),
      (∀ e ∈ L, refFieldId net (edgeDst net e) ≠ jt) →
      ((L.foldl (ccsChoiceStep net) acc).2).getD jt Process.inaction =
        acc.2.getD jt Process.inaction := by
  intro L
  induction L with
  | nil => intro acc _; rfl
  | cons e L ih =>
    intro acc h
    rw [List.foldl_cons, ih _ (fun e' he' => h e' (List.mem_cons_of_mem _ he')),
      ccsChoiceStep_repl_untouched _ _ _ _ (h e (List.mem_cons_self _ _))]

theorem choicesFold_mem (net : PetriNet) (jt : Nat) :
    ∀ (L1 : List Nat) (estar : Nat) (L2 : List Nat) (acc : List Process × List Process),
      (∀ e ∈ L1, refFieldId net (edgeDst net e) ≠ jt) →
      refFieldId net (edgeDst net estar) = jt →
      acc.2.getD jt Process.inaction ∈
        (((L1 ++ estar :: L2).foldl (ccsChoiceStep net) acc).1) := by
  intro L1
  induction L1 with
  | nil =>
    intro estar L2 acc _ hstar
    rw [List.nil_append, List.foldl_cons]
    refine choicesFold_mono net _ _ ?_
    rw [ccsChoiceStep_fst, hstar]
    exact List.mem_append_right _ (List.mem_singleton_self _)
  | cons e L1 ih =>
    intro estar L2 acc h hstar
    rw [List.cons_append, List.foldl_cons]
    have := ih estar L2 (ccsChoiceStep net acc e)
      (fun e' he' => h e' (List.mem_cons_of_mem _ he')) hstar
    rwa [ccsChoiceStep_repl_untouched _ _ _ _ (h e (List.mem_cons_self _ _))] at this

theorem choicesFold_rewrite (net : PetriNet) (jt : Nat) :
    ∀ (L1 : List Nat) (estar : Nat) (L2 : List Nat) (acc : List Process × List Process),
      (∀ e ∈ L1, refFieldId net (edgeDst net e) ≠ jt) →
      (∀ e ∈ L2, refFieldId net (edgeDst net e) ≠ jt) →
      refFieldId net (edgeDst net estar) = jt →
      rewriteGuard (acc.2.getD jt Process.inaction) = true →
      (((L1 ++ estar :: L2).foldl (ccsChoiceStep net) acc).2).getD jt Process.inaction =
        Process.prefixAct
          (.coAction (replacementName (acc.2.getD jt Process.inaction))) .inaction := by
  intro L1
  induction L1 with
  | nil =>
    intro estar L2 acc _ h2 hstar hguard
    rw [List.nil_append, List.foldl_cons, choicesFold_repl_untouched net jt L2 _ h2]
    unfold ccsChoiceStep
    simp only
    have hread : (net.edges.getD estar dummyEdge).dst = edgeDst net estar := rfl
    rw [hread, hstar, if_pos hguard, arrSet_getD, if_pos rfl]
  | cons e L1 ih =>
    intro estar L2 acc h1 h2 hstar hguard
    rw [List.cons_append, List.foldl_cons]
    have hu := ccsChoiceStep_repl_untouched net acc e jt (h1 e (List.mem_cons_self _ _))
    rw [ih estar L2 _ (fun e' he' => h1 e' (List.mem_cons_of_mem _ he')) h2 hstar
      (by rw [hu]; exact hguard), hu]

theorem ccsPlaceStep_snd (net : PetriNet) (st : List (String × Process) × List Process)
    (p : PlaceData) : (ccsPlaceStep net st p).2 = (ccsPlaceChoices net st.2 p).2 := rfl

theorem placeFold_repl_untouched (net : PetriNet) (jt : Nat) :
    ∀ (ps : List PlaceData) (st : List (String × Process) × List Process),
      (∀ p ∈ ps, ∀ eid ∈ p.outE, refFieldId net (edgeDst net eid) ≠ jt) →
      ((ps.foldl (ccsPlaceStep net) st).2).getD jt Process.inaction =
        (st.2).getD jt Process.inaction := by
  intro ps
  induction ps with
  | nil => intro st _; rfl
  | cons p ps ih =>
    intro st h
    rw [List.foldl_cons, ih _ (fun p' hp' => h p' (List.mem_cons_of_mem _ hp')),
      ccsPlaceStep_snd]
    exact choicesFold_repl_untouched net jt _ _ (h p (List.mem_cons_self _ _))

theorem replAfter_zero (net : PetriNet) :
    replAfter net 0 = (ccsTransFold net).replacement := rfl

theorem replAfter_succ (net : PetriNet) {i : Nat} (hi : i < net.places.length) :
    replAfter net (i + 1) =
      (ccsPlaceChoices net (replAfter net i) (net.places.getD i dummyPlace)).2 := by
  unfold replAfter
  rw [List.take_succ, List.getElem?_eq_getElem hi, Option.toList_some]
  rw [List.foldl_append, List.foldl_cons, List.foldl_nil, ccsPlaceStep_snd]
  rw [show net.places.getD i dummyPlace = net.places[i] from by
    rw [List.getD_eq_getElem?_getD, List.getElem?_eq_getElem hi, Option.getD_some]]

theorem mem_take_drop_idx {l : List PlaceData} {m n : Nat} {p : PlaceData}
    (hp : p ∈ (l.drop m).take n) :
    ∃ k, m ≤ k ∧ k < m + n ∧ k < l.length ∧ p = l.getD k dummyPlace := by
  obtain ⟨i, hi, hip⟩ := List.mem_iff_getElem.1 hp
  have hi' : i < n ∧ i < (l.drop m).length := by
    have := hi
    simp only [List.length_take, lt_min_iff] at this
    exact this
  have hlen : m + i < l.length := by
    have := hi'.2
    simp only [List.length_drop] at this
    omega
  refine ⟨m + i, by omega, by omega, hlen, ?_⟩
  rw [← hip, List.getElem_take, List.getElem_drop]
  rw [List.getD_eq_getElem?_getD, List.getElem?_eq_getElem hlen, Option.getD_some]

theorem replAfter_between (net : PetriNet) (jt : Nat) {i j : Nat} (hij : i ≤ j)
    (hj : j ≤ net.places.length)
    (h : ∀ k, i ≤ k → k < j → ∀ eid ∈ (net.places.getD k dummyPlace).outE,
      refFieldId net (edgeDst net eid) ≠ jt) :
    (replAfter net j).getD jt Process.inaction =
      (replAfter net i).getD jt Process.inaction := by
  unfold replAfter
  rw [show j = i + (j - i) by omega, List.take_add, List.foldl_append]
  exact placeFold_repl_untouched net jt _ _ (by
    intro p hp eid heid
    obtain ⟨k, hk1, hk2, _, hpk⟩ := mem_take_drop_idx hp
    exact h k hk1 (by omega) eid (by rw [← hpk]; exact heid))

theorem two_mem {α : Type _} {l : List α} (h : l.length = 2) {a b : α}
    (ha : a ∈ l) (hb : b ∈ l) (hab : a ≠ b) : ∀ x ∈ l, x = a ∨ x = b := by
  match l, h with
  | [u, v], _ =>
    intro x hx
    simp only [List.mem_cons, List.mem_singleton, List.not_mem_nil, or_false] at ha hb hx
    rcases ha with rfl | rfl <;> rcases hb with rfl | rfl <;> rcases hx with rfl | rfl <;>
      tauto

theorem syncName_of_trans (net : PetriNet) (hpos : ∀ t ∈ net.transitions, 0 < t.nameId)
    {jt : Nat} (hjt : jt < net.transitions.length) :
    isSyncName ("s_" ++ transGetName (net.transitions.getD jt dummyTrans)) = true := by
  have hassoc : "s_" ++ transGetName (net.transitions.getD jt dummyTrans) =
      "s_t" ++ toString (net.transitions.getD jt dummyTrans).nameId := by
    rw [transGetName, ← String.append_assoc]
    rfl
  rw [hassoc]
  exact isSyncName_pos_nameId (hpos _ (getD_mem hjt dummyTrans))

/-- Claim C3 (amended): in `toCCS`, for a transition `jt` with exactly
two incoming edges and fresh synchronisation name `s_t…`, the FIRST
feeding place in place-iteration order gets the input-action prefix
`s_t…?.outgoing` as its choice branch, and the SECOND feeding place
gets the rewritten co-action branch `s_t…!.0` — the reverse of the
original claim's assignment. -/
theorem c3_amended (net : PetriNet) (hwf : wfNet net = true)
    (hpos : ∀ t ∈ net.transitions, 0 < t.nameId)
    (jt ip iq ep eq2 : Nat)
    (hjt : jt < net.transitions.length)
    (hdeg : (net.transitions.getD jt dummyTrans).inE.length = 2)
    (hipq : ip < iq) (hiq : iq < net.places.length)
    (hep : ep ∈ (net.places.getD ip dummyPlace).outE)
    (hdp : edgeDst net ep = .trans jt)
    (heq : eq2 ∈ (net.places.getD iq dummyPlace).outE)
    (hdq : edgeDst net eq2 = .trans jt) :
    Process.prefixAct
        (.inputAction ("s_" ++ transGetName (net.transitions.getD jt dummyTrans)))
        (arrayToProcess
          (outgoingProcs net (placeToProcessArr net) (net.transitions.getD jt dummyTrans))
          .parallel) ∈
      (ccsPlaceChoices net (replAfter net ip) (net.places.getD ip dummyPlace)).1 ∧
    Process.prefixAct
        (.coAction ("s_" ++ transGetName (net.transitions.getD jt dummyTrans)))
        Process.inaction ∈
      (ccsPlaceChoices net (replAfter net iq) (net.places.getD iq dummyPlace)).1 := by
  have hip : ip < net.places.length := lt_trans hipq hiq
  have hrvp : refValidB net (.place ip) = true := by simp [refValidB, hip]
  have hrvq : refValidB net (.place iq) = true := by simp [refValidB, hiq]
  obtain ⟨heplt, hepsrc⟩ := wf_adj_out hwf hrvp (show ep ∈ nodeOut net (.place ip) from hep)
  obtain ⟨heqlt, heqsrc⟩ := wf_adj_out hwf hrvq (show eq2 ∈ nodeOut net (.place iq) from heq)
  have hepin : ep ∈ nodeIn net (.trans jt) := by
    have := wf_edge_memIn hwf heplt
    rwa [hdp] at this
  have heqin : eq2 ∈ nodeIn net (.trans jt) := by
    have := wf_edge_memIn hwf heqlt
    rwa [hdq] at this
  have hne : ep ≠ eq2 := by
    intro hcontra
    rw [hcontra] at hepsrc
    have : NodeRef.place iq = NodeRef.place ip := heqsrc.symm.trans hepsrc
    injection this with h'
    omega
  have htwo := two_mem (show (nodeIn net (.trans jt)).length = 2 from hdeg) hepin heqin hne
  have hocc : ∀ k, k < net.places.length → ∀ eid ∈ (net.places.getD k dummyPlace).outE,
      refFieldId net (edgeDst net eid) = jt → (k = ip ∧ eid = ep) ∨ (k = iq ∧ eid = eq2) := by
    intro k hk eid heid hfid
    have hrk : refValidB net (.place k) = true := by simp [refValidB, hk]
    obtain ⟨hlt, hsrc⟩ := wf_adj_out hwf hrk (show eid ∈ nodeOut net (.place k) from heid)
    obtain ⟨hbip, _, hdv⟩ := wf_edge_bip hwf hlt
    rcases hd : edgeDst net eid with j' | j'
    · rw [hsrc, hd] at hbip
      simp [sameKind] at hbip
    · have hjv : j' < net.transitions.length := by
        rw [hd] at hdv
        simpa [refValidB] using hdv
      have hfld : refFieldId net (NodeRef.trans j') = j' := wf_trans_id hwf hjv
      rw [hd, hfld] at hfid
      subst hfid
      have hin : eid ∈ nodeIn net (.trans j') := by
        have := wf_edge_memIn hwf hlt
        rwa [hd] at this
      rcases htwo eid hin with rfl | rfl
      · left
        refine ⟨?_, rfl⟩
        have : NodeRef.place k = NodeRef.place ip := hsrc.symm.trans hepsrc
        injection this
      · right
        refine ⟨?_, rfl⟩
        have : NodeRef.place k = NodeRef.place iq := hsrc.symm.trans heqsrc
        injection this
  have hfidep : refFieldId net (edgeDst net ep) = jt := by
    rw [hdp]
    exact wf_trans_id hwf hjt
  have hfideq : refFieldId net (edgeDst net eq2) = jt := by
    rw [hdq]
    exact wf_trans_id hwf hjt
  have hinit : (ccsTransFold net).replacement.getD jt Process.inaction =
      Process.prefixAct
        (.inputAction ("s_" ++ transGetName (net.transitions.getD jt dummyTrans)))
        (arrayToProcess
          (outgoingProcs net (placeToProcessArr net) (net.transitions.getD jt dummyTrans))
          .parallel) := by
    rw [ccsTransFold_replacement_getD net hwf hjt, hdeg,
      if_neg (by decide), if_neg (by decide)]
  have hA : (replAfter net ip).getD jt Process.inaction =
      Process.prefixAct
        (.inputAction ("s_" ++ transGetName (net.transitions.getD jt dummyTrans)))
        (arrayToProcess
          (outgoingProcs net (placeToProcessArr net) (net.transitions.getD jt dummyTrans))
          .parallel) := by
    have hmid : ∀ k, 0 ≤ k → k < ip → ∀ eid ∈ (net.places.getD k dummyPlace).outE,
        refFieldId net (edgeDst net eid) ≠ jt := by
      intro k _ hkip eid heid hfid
      rcases hocc k (by omega) eid heid hfid with ⟨h1, _⟩ | ⟨h1, _⟩ <;> omega
    rw [replAfter_between net jt (Nat.zero_le ip) (le_of_lt hip) hmid, replAfter_zero]
    exact hinit
  obtain ⟨L1, L2, hsplit⟩ := List.append_of_mem hep
  have hnodupP : ((net.places.getD ip dummyPlace).outE).Nodup := wf_out_nodup hwf hrvp
  have hNP := hsplit ▸ hnodupP
  have hepL1 : ep ∉ L1 := by
    rcases List.nodup_append.1 hNP with ⟨_, _, hdisj⟩
    intro hmem
    exact hdisj hmem (List.mem_cons_self _ _)
  have hepL2 : ep ∉ L2 := by
    rcases List.nodup_append.1 hNP with ⟨_, hcons, _⟩
    exact (List.nodup_cons.1 hcons).1
  have hL1 : ∀ e ∈ L1, refFieldId net (edgeDst net e) ≠ jt := by
    intro e he hfid
    rcases hocc ip hip e (by rw [hsplit]; exact List.mem_append_left _ he) hfid with
      ⟨_, rfl⟩ | ⟨h1, _⟩
    · exact hepL1 he
    · omega
  have hL2 : ∀ e ∈ L2, refFieldId net (edgeDst net e) ≠ jt := by
    intro e he hfid
    rcases hocc ip hip e
        (by rw [hsplit]; exact List.mem_append_right _ (List.mem_cons_of_mem _ he)) hfid with
      ⟨_, rfl⟩ | ⟨h1, _⟩
    · exact hepL2 he
    · omega
  constructor
  · rw [ccsPlaceChoices, hsplit, ← hA]
    exact choicesFold_mem net jt L1 ep L2 ([], replAfter net ip) hL1 hfidep
  · have hguard : rewriteGuard ((replAfter net ip).getD jt Process.inaction) = true := by
      rw [hA]
      exact syncName_of_trans net hpos hjt
    have hB : (replAfter net (ip + 1)).getD jt Process.inaction =
        Process.prefixAct
          (.coAction ("s_" ++ transGetName (net.transitions.getD jt dummyTrans)))
          Process.inaction := by
      rw [replAfter_succ net hip, ccsPlaceChoices]
      conv_lhs => rw [hsplit]
      rw [choicesFold_rewrite net jt L1 ep L2 ([], replAfter net ip) hL1 hL2 hfidep hguard]
      show Process.prefixAct
          (.coAction (replacementName ((replAfter net ip).getD jt Process.inaction)))
          Process.inaction = _
      rw [hA]
      rfl
    have hC : (replAfter net iq).getD jt Process.inaction =
        Process.prefixAct
          (.coAction ("s_" ++ transGetName (net.transitions.getD jt dummyTrans)))
          Process.inaction := by
      have hmid : ∀ k, ip + 1 ≤ k → k < iq → ∀ eid ∈ (net.places.getD k dummyPlace).outE,
          refFieldId net (edgeDst net eid) ≠ jt := by
        intro k hk1 hk2 eid heid hfid
        rcases hocc k (by omega) eid heid hfid with ⟨h1, _⟩ | ⟨h1, _⟩ <;> omega
      rw [replAfter_between net jt (show ip + 1 ≤ iq by omega) (le_of_lt hiq) hmid]
      exact hB
    obtain ⟨M1, M2, hsplitq⟩ := List.append_of_mem heq
    have hnodupQ : ((net.places.getD iq dummyPlace).outE).Nodup := wf_out_nodup hwf hrvq
    have hNQ := hsplitq ▸ hnodupQ
    have heqM1 : eq2 ∉ M1 := by
      rcases List.nodup_append.1 hNQ with ⟨_, _, hdisj⟩
      intro hmem
      exact hdisj hmem (List.mem_cons_self _ _)
    have hM1 : ∀ e ∈ M1, refFieldId net (edgeDst net e) ≠ jt := by
      intro e he hfid
      rcases hocc iq hiq e (by rw [hsplitq]; exact List.mem_append_left _ he) hfid with
        ⟨h1, _⟩ | ⟨_, rfl⟩
      · omega
      · exact heqM1 he
    rw [ccsPlaceChoices, hsplitq, ← hC]
    exact choicesFold_mem net jt M1 eq2 M2 ([], replAfter net iq) hM1 hfideq

/-- Witness for the amended C3 at a concrete input: in Scenario C the
first feeder `p1` (index 0) contributes the input-action branch
`s_t1?.X_p3` and the second feeder `p2` (index 1) the co-action branch
`s_t1!.0`. -/
theorem c3_amended_witness :
    Process.prefixAct (.inputAction "s_t1") (.constant "X_p3") ∈
      (ccsPlaceChoices scenarioC (replAfter scenarioC 0)
        (scenarioC.places.getD 0 dummyPlace)).1 ∧
    Process.prefixAct (.coAction "s_t1") Process.inaction ∈
      (ccsPlaceChoices scenarioC (replAfter scenarioC 1)
        (scenarioC.places.getD 1 dummyPlace)).1 := by
  have h := c3_amended scenarioC (by decide) (by decide) 0 0 1 0 1
    (by decide) (by decide) (by decide) (by decide) (by decide) rfl (by decide) rfl
  exact h

/-! ### Well-formedness as a record of facts -/

/-- The facts packaged by `wfNet`, in directly usable form. -/
structure WfFacts (net : PetriNet) : Prop where
  placeId : ∀ i, i < net.places.length → (net.places.getD i dummyPlace).id = i
  transId : ∀ i, i < net.transitions.length → (net.transitions.getD i dummyTrans).id = i
  edgeId : ∀ i, i < net.edges.length → (net.edges.getD i dummyEdge).id = i
  edgeBip : ∀ eid, eid < net.edges.length →
    sameKind (edgeSrc net eid) (edgeDst net eid) = false
  srcValid : ∀ eid, eid < net.edges.length → refValidB net (edgeSrc net eid) = true
  dstValid : ∀ eid, eid < net.edges.length → refValidB net (edgeDst net eid) = true
  outAdj : ∀ r, refValidB net r = true → ∀ eid ∈ nodeOut net r,
    eid < net.edges.length ∧ edgeSrc net eid = r
  inAdj : ∀ r, refValidB net r = true → ∀ eid ∈ nodeIn net r,
    eid < net.edges.length ∧ edgeDst net eid = r
  memOut : ∀ eid, eid < net.edges.length → eid ∈ nodeOut net (edgeSrc net eid)
  memIn : ∀ eid, eid < net.edges.length → eid ∈ nodeIn net (edgeDst net eid)
  outNodup : ∀ r, refValidB net r = true → (nodeOut net r).Nodup
  inNodup : ∀ r, refValidB net r = true → (nodeIn net r).Nodup
  pairUniq : ∀ i, i < net.edges.length → ∀ j, j < net.edges.length →
    edgeSrc net i = edgeSrc net j → edgeDst net i = edgeDst net j → i = j

theorem wfFacts_of_wfNet {net : PetriNet} (h : wfNet net = true) : WfFacts net where
  placeId := fun _ hi => wf_place_id h hi
  transId := fun _ hi => wf_trans_id h hi
  edgeId := fun _ hi => wf_edge_id h hi
  edgeBip := fun _ he => (wf_edge_bip h he).1
  srcValid := fun _ he => (wf_edge_bip h he).2.1
  dstValid := fun _ he => (wf_edge_bip h he).2.2
  outAdj := fun _ hr _ he => wf_adj_out h hr he
  inAdj := fun _ hr _ he => wf_adj_in h hr he
  memOut := fun _ he => wf_edge_memOut h he
  memIn := fun _ he => wf_edge_memIn h he
  outNodup := fun _ hr => wf_out_nodup h hr
  inNodup := fun _ hr => wf_in_nodup h hr
  pairUniq := fun _ hi _ hj hs hd => wf_pair_unique h hi hj hs hd

theorem wfNet_of_wfFacts {net : PetriNet} (h : WfFacts net) : wfNet net = true := by
  rw [wfNet, Bool.and_eq_true, Bool.and_eq_true, Bool.and_eq_true, Bool.and_eq_true]
  refine ⟨⟨⟨⟨?_, ?_⟩, ?_⟩, ?_⟩, ?_⟩
  · rw [denseIds, Bool.and_eq_true, Bool.and_eq_true]
    refine ⟨⟨?_, ?_⟩, ?_⟩ <;> rw [all_range_iff] <;> intro i hi <;>
      simp only [beq_iff_eq]
    · exact h.placeId i hi
    · exact h.transId i hi
    · exact h.edgeId i hi
  · rw [edgesOK, List.all_eq_true]
    intro e he
    obtain ⟨i, hi, hei⟩ := List.mem_iff_getElem.1 he
    have hgd : net.edges.getD i dummyEdge = e := by
      rw [List.getD_eq_getElem?_getD, List.getElem?_eq_getElem hi, Option.getD_some, hei]
    have h1 := h.edgeBip i hi
    have h2 := h.srcValid i hi
    have h3 := h.dstValid i hi
    simp only [edgeSrc, edgeDst] at h1 h2 h3
    rw [hgd] at h1 h2 h3
    simp only [Bool.and_eq_true, Bool.not_eq_true']
    exact ⟨⟨h1, h2⟩, h3⟩
  · rw [adjSym, Bool.and_eq_true, Bool.and_eq_true]
    refine ⟨⟨?_, ?_⟩, ?_⟩
    · rw [all_range_iff]
      intro i hi
      have hrv : refValidB net (.place i) = true := by simp [refValidB, hi]
      rw [Bool.and_eq_true, List.all_eq_true, List.all_eq_true]
      constructor
      · intro eid he
        have := h.outAdj _ hrv eid he
        simp only [Bool.and_eq_true, decide_eq_true_eq, beq_iff_eq]
        exact ⟨this.1, this.2⟩
      · intro eid he
        have := h.inAdj _ hrv eid he
        simp only [Bool.and_eq_true, decide_eq_true_eq, beq_iff_eq]
        exact ⟨this.1, this.2⟩
    · rw [all_range_iff]
      intro i hi
      have hrv : refValidB net (.trans i) = true := by simp [refValidB, hi]
      rw [Bool.and_eq_true, List.all_eq_true, List.all_eq_true]
      constructor
      · intro eid he
        have := h.outAdj _ hrv eid he
        simp only [Bool.and_eq_true, decide_eq_true_eq, beq_iff_eq]
        exact ⟨this.1, this.2⟩
      · intro eid he
        have := h.inAdj _ hrv eid he
        simp only [Bool.and_eq_true, decide_eq_true_eq, beq_iff_eq]
        exact ⟨this.1, this.2⟩
    · rw [all_range_iff]
      intro eid he
      rw [Bool.and_eq_true, List.elem_iff, List.elem_iff]
      exact ⟨h.memOut eid he, h.memIn eid he⟩
  · rw [adjNodup, Bool.and_eq_true, List.all_eq_true, List.all_eq_true]
    constructor
    · intro p hp
      obtain ⟨i, hi, hpi⟩ := List.mem_iff_getElem.1 hp
      have hrv : refValidB net (.place i) = true := by simp [refValidB, hi]
      have ho := h.outNodup _ hrv
      have hin := h.inNodup _ hrv
      have hgd : net.places.getD i dummyPlace = p := by
        rw [List.getD_eq_getElem?_getD, List.getElem?_eq_getElem hi, Option.getD_some, hpi]
      rw [nodeOut, hgd] at ho
      rw [nodeIn, hgd] at hin
      simp only [Bool.and_eq_true, decide_eq_true_eq]
      exact ⟨ho, hin⟩
    · intro t ht
      obtain ⟨i, hi, hti⟩ := List.mem_iff_getElem.1 ht
      have hrv : refValidB net (.trans i) = true := by simp [refValidB, hi]
      have ho := h.outNodup _ hrv
      have hin := h.inNodup _ hrv
      have hgd : net.transitions.getD i dummyTrans = t := by
        rw [List.getD_eq_getElem?_getD, List.getElem?_eq_getElem hi, Option.getD_some, hti]
      rw [nodeOut, hgd] at ho
      rw [nodeIn, hgd] at hin
      simp only [Bool.and_eq_true, decide_eq_true_eq]
      exact ⟨ho, hin⟩
  · rw [pairUnique, all_range_iff]
    intro i hi
    rw [all_range_iff]
    intro j hj
    by_cases hij : i = j
    · simp [hij]
    · simp only [Bool.or_eq_true, beq_iff_eq, hij, false_or, Bool.not_eq_true',
        Bool.and_eq_false_iff, beq_eq_false_iff_ne, ne_eq]
      by_cases hs : edgeSrc net i = edgeSrc net j
      · right
        intro hd
        exact hij (h.pairUniq i hi j hj hs hd)
      · left
        exact hs

theorem getD_append_singleton {α : Type _} (l : List α) (x d : α) (i : Nat) :
    (l ++ [x]).getD i d =
      if i < l.length then l.getD i d else if i = l.length then x else d := by
  by_cases h1 : i < l.length
  · rw [if_pos h1, getD_append_left h1]
  · rw [if_neg h1, getD_append_right (Nat.le_of_not_lt h1)]
    by_cases h2 : i = l.length
    · rw [if_pos h2, h2, Nat.sub_self]
      rfl
    · rw [if_neg h2, List.getD_eq_getElem?_getD,
        List.getElem?_eq_none (by simp only [List.length_singleton]; omega)]
      rfl

theorem setNameIdRejects_false (x : Int) : setNameIdRejects x = false := rfl

/-- The successful result state of `addPlace`. -/
theorem addPlace_ok {net : PetriNet} {nameId tokens : Int} {n' : PetriNet} {i : Nat}
    (h : addPlace net nameId tokens = .ok (n', i)) :
    i = net.places.length ∧
    ∃ nm, n' = { net with
      places := net.places ++
        [{ id := net.places.length, nameId := nm, tokens := tokens, inE := [], outE := [] }]
      placeNames := (namesSet net.placeNames net.placeNegNames nm).1
      placeNegNames := (namesSet net.placeNames net.placeNegNames nm).2 } := by
  simp only [addPlace, setNameIdRejects_false, Bool.false_eq_true, if_false] at h
  split_ifs at h <;> cases h <;> exact ⟨rfl, _, rfl⟩

theorem addPlace_error {net : PetriNet} {nameId tokens : Int} {e : PNError × PetriNet}
    (h : addPlace net nameId tokens = .error e) : e.2 = net := by
  simp only [addPlace, setNameIdRejects_false, Bool.false_eq_true, if_false] at h
  split_ifs at h <;> cases h <;> rfl

theorem wfFacts_appendPlace {net : PetriNet} (hf : WfFacts net) (p : PlaceData)
    (hid : p.id = net.places.length) (hin : p.inE = []) (hout : p.outE = [])
    (pn : List Bool) (png : List Int) :
    WfFacts { net with places := net.places ++ [p], placeNames := pn, placeNegNames := png } := by
  constructor
  case placeId =>
    intro j hj
    show ((net.places ++ [p]).getD j dummyPlace).id = j
    rw [getD_append_singleton]
    by_cases h1 : j < net.places.length
    · rw [if_pos h1]
      exact hf.placeId j h1
    · have h2 : j = net.places.length := by
        simp only [List.length_append, List.length_singleton] at hj
        omega
      rw [if_neg h1, if_pos h2, hid, h2]
  case transId => exact hf.transId
  case edgeId => exact hf.edgeId
  case edgeBip => exact hf.edgeBip
  case srcValid =>
    intro eid he
    have := hf.srcValid eid he
    match hsrc : edgeSrc net eid with
    | .place k =>
      rw [hsrc] at this
      show refValidB _ (.place k) = true
      simp only [refValidB, List.length_append, List.length_singleton,
        decide_eq_true_eq] at this ⊢
      omega
    | .trans k =>
      rw [hsrc] at this
      exact this
  case dstValid =>
    intro eid he
    have := hf.dstValid eid he
    match hdst : edgeDst net eid with
    | .place k =>
      rw [hdst] at this
      show refValidB _ (.place k) = true
      simp only [refValidB, List.length_append, List.length_singleton,
        decide_eq_true_eq] at this ⊢
      omega
    | .trans k =>
      rw [hdst] at this
      exact this
  case outAdj =>
    intro r hr eid he
    match r, hr with
    | .place k, hr =>
      have he' : eid ∈ ((net.places ++ [p]).getD k dummyPlace).outE := he
      rw [getD_append_singleton] at he'
      by_cases h1 : k < net.places.length
      · rw [if_pos h1] at he'
        exact hf.outAdj (.place k) (by simp [refValidB, h1]) eid he'
      · rw [if_neg h1] at he'
        split at he'
        · rw [hout] at he'
          cases he'
        · cases he'
    | .trans k, hr =>
      exact hf.outAdj (.trans k) hr eid he
  case inAdj =>
    intro r hr eid he
    match r, hr with
    | .place k, hr =>
      have he' : eid ∈ ((net.places ++ [p]).getD k dummyPlace).inE := he
      rw [getD_append_singleton] at he'
      by_cases h1 : k < net.places.length
      · rw [if_pos h1] at he'
        exact hf.inAdj (.place k) (by simp [refValidB, h1]) eid he'
      · rw [if_neg h1] at he'
        split at he'
        · rw [hin] at he'
          cases he'
        · cases he'
    | .trans k, hr =>
      exact hf.inAdj (.trans k) hr eid he
  case memOut =>
    intro eid he
    have hmem := hf.memOut eid he
    match hsrc : edgeSrc net eid with
    | .place k =>
      rw [hsrc] at hmem
      have hk : k < net.places.length := by
        have := hf.srcValid eid he
        rw [hsrc] at this
        simpa [refValidB] using this
      show eid ∈ ((net.places ++ [p]).getD k dummyPlace).outE
      rw [getD_append_singleton, if_pos hk]
      exact hmem
    | .trans k =>
      rw [hsrc] at hmem
      exact hmem
  case memIn =>
    intro eid he
    have hmem := hf.memIn eid he
    match hdst : edgeDst net eid with
    | .place k =>
      rw [hdst] at hmem
      have hk : k < net.places.length := by
        have := hf.dstValid eid he
        rw [hdst] at this
        simpa [refValidB] using this
      show eid ∈ ((net.places ++ [p]).getD k dummyPlace).inE
      rw [getD_append_singleton, if_pos hk]
      exact hmem
    | .trans k =>
      rw [hdst] at hmem
      exact hmem
  case outNodup =>
    intro r hr
    match r, hr with
    | .place k, hr =>
      show (((net.places ++ [p]).getD k dummyPlace).outE).Nodup
      rw [getD_append_singleton]
      by_cases h1 : k < net.places.length
      · rw [if_pos h1]
        exact hf.outNodup (.place k) (by simp [refValidB, h1])
      · rw [if_neg h1]
        split
        · rw [hout]
          exact List.nodup_nil
        · exact List.nodup_nil
    | .trans k, hr =>
      exact hf.outNodup (.trans k) hr
  case inNodup =>
    intro r hr
    match r, hr with
    | .place k, hr =>
      show (((net.places ++ [p]).getD k dummyPlace).inE).Nodup
      rw [getD_append_singleton]
      by_cases h1 : k < net.places.length
      · rw [if_pos h1]
        exact hf.inNodup (.place k) (by simp [refValidB, h1])
      · rw [if_neg h1]
        split
        · rw [hin]
          exact List.nodup_nil
        · exact List.nodup_nil
    | .trans k, hr =>
      exact hf.inNodup (.trans k) hr
  case pairUniq => exact hf.pairUniq

theorem wfFacts_addPlace {net : PetriNet} (hf : WfFacts net) {nameId tokens : Int}
    {n' : PetriNet} {i : Nat} (h : addPlace net nameId tokens = .ok (n', i)) :
    WfFacts n' := by
  obtain ⟨rfl, nm, rfl⟩ := addPlace_ok h
  exact wfFacts_appendPlace hf _ rfl rfl rfl _ _

/-- The successful result state of `addTransition`. -/
theorem addTransition_ok {net : PetriNet} {nameId : Int} {label : String} {n' : PetriNet}
    {i : Nat} (h : addTransition net nameId label = .ok (n', i)) :
    i = net.transitions.length ∧
    ∃ nm, n' = { net with
      transitions := net.transitions ++
        [{ id := net.transitions.length, nameId := nm, label := label, inE := [], outE := [] }]
      transitionNames := (namesSet net.transitionNames net.transitionNegNames nm).1
      transitionNegNames := (namesSet net.transitionNames net.transitionNegNames nm).2 } := by
  simp only [addTransition, setNameIdRejects_false, Bool.false_eq_true, if_false] at h
  split_ifs at h <;> cases h <;> exact ⟨rfl, _, rfl⟩

theorem addTransition_error {net : PetriNet} {nameId : Int} {label : String}
    {e : PNError × PetriNet} (h : addTransition net nameId label = .error e) : e.2 = net := by
  simp only [addTransition, setNameIdRejects_false, Bool.false_eq_true, if_false] at h
  split_ifs at h <;> cases h <;> rfl

theorem wfFacts_appendTrans {net : PetriNet} (hf : WfFacts net) (t : TransData)
    (hid : t.id = net.transitions.length) (hin : t.inE = []) (hout : t.outE = [])
    (tn : List Bool) (tng : List Int) :
    WfFacts { net with transitions := net.transitions ++ [t], transitionNames := tn, transitionNegNames := tng } := by
  constructor
  case placeId => exact hf.placeId
  case transId =>
    intro j hj
    show ((net.transitions ++ [t]).getD j dummyTrans).id = j
    rw [getD_append_singleton]
    by_cases h1 : j < net.transitions.length
    · rw [if_pos h1]
      exact hf.transId j h1
    · have h2 : j = net.transitions.length := by
        simp only [List.length_append, List.length_singleton] at hj
        omega
      rw [if_neg h1, if_pos h2, hid, h2]
  case edgeId => exact hf.edgeId
  case edgeBip => exact hf.edgeBip
  case srcValid =>
    intro eid he
    have := hf.srcValid eid he
    match hsrc : edgeSrc net eid with
    | .trans k =>
      rw [hsrc] at this
      show refValidB _ (.trans k) = true
      simp only [refValidB, List.length_append, List.length_singleton,
        decide_eq_true_eq] at this ⊢
      omega
    | .place k =>
      rw [hsrc] at this
      exact this
  case dstValid =>
    intro eid he
    have := hf.dstValid eid he
    match hdst : edgeDst net eid with
    | .trans k =>
      rw [hdst] at this
      show refValidB _ (.trans k) = true
      simp only [refValidB, List.length_append, List.length_singleton,
        decide_eq_true_eq] at this ⊢
      omega
    | .place k =>
      rw [hdst] at this
      exact this
  case outAdj =>
    intro r hr eid he
    match r, hr with
    | .trans k, hr =>
      have he' : eid ∈ ((net.transitions ++ [t]).getD k dummyTrans).outE := he
      rw [getD_append_singleton] at he'
      by_cases h1 : k < net.transitions.length
      · rw [if_pos h1] at he'
        exact hf.outAdj (.trans k) (by simp [refValidB, h1]) eid he'
      · rw [if_neg h1] at he'
        split at he'
        · rw [hout] at he'
          cases he'
        · cases he'
    | .place k, hr =>
      exact hf.outAdj (.place k) hr eid he
  case inAdj =>
    intro r hr eid he
    match r, hr with
    | .trans k, hr =>
      have he' : eid ∈ ((net.transitions ++ [t]).getD k dummyTrans).inE := he
      rw [getD_append_singleton] at he'
      by_cases h1 : k < net.transitions.length
      · rw [if_pos h1] at he'
        exact hf.inAdj (.trans k) (by simp [refValidB, h1]) eid he'
      · rw [if_neg h1] at he'
        split at he'
        · rw [hin] at he'
          cases he'
        · cases he'
    | .place k, hr =>
      exact hf.inAdj (.place k) hr eid he
  case memOut =>
    intro eid he
    have hmem := hf.memOut eid he
    match hsrc : edgeSrc net eid with
    | .trans k =>
      rw [hsrc] at hmem
      have hk : k < net.transitions.length := by
        have := hf.srcValid eid he
        rw [hsrc] at this
        simpa [refValidB] using this
      show eid ∈ ((net.transitions ++ [t]).getD k dummyTrans).outE
      rw [getD_append_singleton, if_pos hk]
      exact hmem
    | .place k =>
      rw [hsrc] at hmem
      exact hmem
  case memIn =>
    intro eid he
    have hmem := hf.memIn eid he
    match hdst : edgeDst net eid with
    | .trans k =>
      rw [hdst] at hmem
      have hk : k < net.transitions.length := by
        have := hf.dstValid eid he
        rw [hdst] at this
        simpa [refValidB] using this
      show eid ∈ ((net.transitions ++ [t]).getD k dummyTrans).inE
      rw [getD_append_singleton, if_pos hk]
      exact hmem
    | .place k =>
      rw [hdst] at hmem
      exact hmem
  case outNodup =>
    intro r hr
    match r, hr with
    | .trans k, hr =>
      show (((net.transitions ++ [t]).getD k dummyTrans).outE).Nodup
      rw [getD_append_singleton]
      by_cases h1 : k < net.transitions.length
      · rw [if_pos h1]
        exact hf.outNodup (.trans k) (by simp [refValidB, h1])
      · rw [if_neg h1]
        split
        · rw [hout]
          exact List.nodup_nil
        · exact List.nodup_nil
    | .place k, hr =>
      exact hf.outNodup (.place k) hr
  case inNodup =>
    intro r hr
    match r, hr with
    | .trans k, hr =>
      show (((net.transitions ++ [t]).getD k dummyTrans).inE).Nodup
      rw [getD_append_singleton]
      by_cases h1 : k < net.transitions.length
      · rw [if_pos h1]
        exact hf.inNodup (.trans k) (by simp [refValidB, h1])
      · rw [if_neg h1]
        split
        · rw [hin]
          exact List.nodup_nil
        · exact List.nodup_nil
    | .place k, hr =>
      exact hf.inNodup (.place k) hr
  case pairUniq => exact hf.pairUniq

theorem wfFacts_addTransition {net : PetriNet} (hf : WfFacts net) {nameId : Int}
    {label : String} {n' : PetriNet} {i : Nat}
    (h : addTransition net nameId label = .ok (n', i)) : WfFacts n' := by
  obtain ⟨rfl, nm, rfl⟩ := addTransition_ok h
  exact wfFacts_appendTrans hf _ rfl rfl rfl _ _

theorem belongs_refValid {net : PetriNet} {r : NodeRef} (h : belongsNode net r = true) :
    refValidB net r = true := by
  match r with
  | .place i =>
    simp only [belongsNode, Bool.and_eq_true, decide_eq_true_eq] at h
    simp [refValidB, h.1]
  | .trans i =>
    simp only [belongsNode, Bool.and_eq_true, decide_eq_true_eq] at h
    simp [refValidB, h.1]

theorem addEdge_ok {net : PetriNet} {src dst : NodeRef} {w : Int} {n' : PetriNet} {i : Nat}
    (h : addEdge net src dst w = .ok (n', i)) :
    i = net.edges.length ∧ belongsNode net src = true ∧ belongsNode net dst = true ∧
    sameKind src dst = false ∧
    ((nodeOut net src).any (fun oid => edgeDst net oid == dst)) = false ∧
    ((nodeIn (pushOut net src net.edges.length) dst).any
      (fun oid => edgeSrc (pushOut net src net.edges.length) oid == src)) = false ∧
    n' = { pushIn (pushOut net src net.edges.length) dst net.edges.length with
      edges := (pushIn (pushOut net src net.edges.length) dst net.edges.length).edges ++
        [{ id := net.edges.length, src := src, dst := dst, weight := w }] } := by
  simp only [addEdge] at h
  split_ifs at h with h1 h2 h3 h4 h5 <;> try cases h
  exact ⟨rfl, by simpa using h1, by simpa using h2, by simpa using h3,
    by simpa using h4, by simpa using h5, rfl⟩

theorem nodeOut_pushOut (net : PetriNet) {r : NodeRef} (hr : refValidB net r = true)
    (e : Nat) (d : NodeRef) :
    nodeOut (pushOut net r e) d = if d = r then nodeOut net d ++ [e] else nodeOut net d := by
  cases r with
  | place k =>
    cases d with
    | place m =>
      show ((net.places.set k _).getD m dummyPlace).outE = _
      rw [getD_set_apply]
      by_cases hmk : m = k
      · subst hmk
        rw [if_pos rfl, if_pos ⟨rfl, by simpa [refValidB] using hr⟩]
        rfl
      · rw [if_neg (fun hc => hmk (NodeRef.place.inj hc)), if_neg (fun hc => hmk hc.1.symm)]
        rfl
    | trans m =>
      rw [if_neg (by intro hc; cases hc)]
      rfl
  | trans k =>
    cases d with
    | place m =>
      rw [if_neg (by intro hc; cases hc)]
      rfl
    | trans m =>
      show ((net.transitions.set k _).getD m dummyTrans).outE = _
      rw [getD_set_apply]
      by_cases hmk : m = k
      · subst hmk
        rw [if_pos rfl, if_pos ⟨rfl, by simpa [refValidB] using hr⟩]
        rfl
      · rw [if_neg (fun hc => hmk (NodeRef.trans.inj hc)), if_neg (fun hc => hmk hc.1.symm)]
        rfl

theorem nodeIn_pushIn (net : PetriNet) {r : NodeRef} (hr : refValidB net r = true)
    (e : Nat) (d : NodeRef) :
    nodeIn (pushIn net r e) d = if d = r then nodeIn net d ++ [e] else nodeIn net d := by
  cases r with
  | place k =>
    cases d with
    | place m =>
      show ((net.places.set k _).getD m dummyPlace).inE = _
      rw [getD_set_apply]
      by_cases hmk : m = k
      · subst hmk
        rw [if_pos rfl, if_pos ⟨rfl, by simpa [refValidB] using hr⟩]
        rfl
      · rw [if_neg (fun hc => hmk (NodeRef.place.inj hc)), if_neg (fun hc => hmk hc.1.symm)]
        rfl
    | trans m =>
      rw [if_neg (by intro hc; cases hc)]
      rfl
  | trans k =>
    cases d with
    | place m =>
      rw [if_neg (by intro hc; cases hc)]
      rfl
    | trans m =>
      show ((net.transitions.set k _).getD m dummyTrans).inE = _
      rw [getD_set_apply]
      by_cases hmk : m = k
      · subst hmk
        rw [if_pos rfl, if_pos ⟨rfl, by simpa [refValidB] using hr⟩]
        rfl
      · rw [if_neg (fun hc => hmk (NodeRef.trans.inj hc)), if_neg (fun hc => hmk hc.1.symm)]
        rfl

theorem placeGetD_pushOut (net : PetriNet) (r : NodeRef) (e : Nat) (j : Nat) :
    ((pushOut net r e).places.getD j dummyPlace).id = (net.places.getD j dummyPlace).id ∧
    ((pushOut net r e).places.getD j dummyPlace).inE = (net.places.getD j dummyPlace).inE := by
  cases r with
  | place k =>
    show ((net.places.set k _).getD j dummyPlace).id = _ ∧
      ((net.places.set k _).getD j dummyPlace).inE = _
    rw [getD_set_apply]
    split
    · next hc => rw [← hc.1]; exact ⟨rfl, rfl⟩
    · exact ⟨rfl, rfl⟩
  | trans k => exact ⟨rfl, rfl⟩

theorem transGetD_pushOut (net : PetriNet) (r : NodeRef) (e : Nat) (j : Nat) :
    ((pushOut net r e).transitions.getD j dummyTrans).id =
      (net.transitions.getD j dummyTrans).id ∧
    ((pushOut net r e).transitions.getD j dummyTrans).inE =
      (net.transitions.getD j dummyTrans).inE := by
  cases r with
  | trans k =>
    show ((net.transitions.set k _).getD j dummyTrans).id = _ ∧
      ((net.transitions.set k _).getD j dummyTrans).inE = _
    rw [getD_set_apply]
    split
    · next hc => rw [← hc.1]; exact ⟨rfl, rfl⟩
    · exact ⟨rfl, rfl⟩
  | place k => exact ⟨rfl, rfl⟩

theorem placeGetD_pushIn (net : PetriNet) (r : NodeRef) (e : Nat) (j : Nat) :
    ((pushIn net r e).places.getD j dummyPlace).id = (net.places.getD j dummyPlace).id ∧
    ((pushIn net r e).places.getD j dummyPlace).outE = (net.places.getD j dummyPlace).outE := by
  cases r with
  | place k =>
    show ((net.places.set k _).getD j dummyPlace).id = _ ∧
      ((net.places.set k _).getD j dummyPlace).outE = _
    rw [getD_set_apply]
    split
    · next hc => rw [← hc.1]; exact ⟨rfl, rfl⟩
    · exact ⟨rfl, rfl⟩
  | trans k => exact ⟨rfl, rfl⟩

theorem transGetD_pushIn (net : PetriNet) (r : NodeRef) (e : Nat) (j : Nat) :
    ((pushIn net r e).transitions.getD j dummyTrans).id =
      (net.transitions.getD j dummyTrans).id ∧
    ((pushIn net r e).transitions.getD j dummyTrans).outE =
      (net.transitions.getD j dummyTrans).outE := by
  cases r with
  | trans k =>
    show ((net.transitions.set k _).getD j dummyTrans).id = _ ∧
      ((net.transitions.set k _).getD j dummyTrans).outE = _
    rw [getD_set_apply]
    split
    · next hc => rw [← hc.1]; exact ⟨rfl, rfl⟩
    · exact ⟨rfl, rfl⟩
  | place k => exact ⟨rfl, rfl⟩

theorem refValidB_pushOut (net : PetriNet) (r : NodeRef) (e : Nat) (d : NodeRef) :
    refValidB (pushOut net r e) d = refValidB net d := by
  cases r <;> cases d <;>
    simp [refValidB, pushOut, updNode, updPlace, updTrans]

theorem refValidB_pushIn (net : PetriNet) (r : NodeRef) (e : Nat) (d : NodeRef) :
    refValidB (pushIn net r e) d = refValidB net d := by
  cases r <;> cases d <;>
    simp [refValidB, pushIn, updNode, updPlace, updTrans]

theorem wfFacts_addEdge {net : PetriNet} (hf : WfFacts net) {src dst : NodeRef} {w : Int}
    {n' : PetriNet} {i : Nat} (h : addEdge net src dst w = .ok (n', i)) : WfFacts n' := by
  obtain ⟨rfl, hbs, hbd, hkind, hdup1, hdup2, rfl⟩ := addEdge_ok h
  have hsv : refValidB net src = true := belongs_refValid hbs
  have hdv : refValidB net dst = true := belongs_refValid hbd
  have hsd : src ≠ dst := by
    intro hc
    rw [hc] at hkind
    cases dst <;> simp [sameKind] at hkind
  set E := net.edges.length with hE
  set net1 := pushOut net src E with hnet1
  set net2 := pushIn net1 dst E with hnet2
  have hedges2 : net2.edges = net.edges := by
    rw [hnet2, pushIn_edges, hnet1, pushOut_edges]
  set newE : EdgeData := { id := E, src := src, dst := dst, weight := w } with hnewE
  set N : PetriNet := { net2 with edges := net2.edges ++ [newE] } with hN
  have hNplaces : N.places = net2.places := rfl
  have hNedges : N.edges = net.edges ++ [newE] := by
    rw [hN]
    simp only
    rw [hedges2]
  have hlenN : N.edges.length = E + 1 := by
    rw [hNedges]
    simp [hE]
  have hsrcN : ∀ j, j < E → edgeSrc N j = edgeSrc net j := by
    intro j hj
    show (N.edges.getD j dummyEdge).src = _
    rw [hNedges, getD_append_left hj]
    rfl
  have hdstN : ∀ j, j < E → edgeDst N j = edgeDst net j := by
    intro j hj
    show (N.edges.getD j dummyEdge).dst = _
    rw [hNedges, getD_append_left hj]
    rfl
  have hsrcE : edgeSrc N E = src := by
    show (N.edges.getD E dummyEdge).src = src
    rw [hNedges, hE, getD_concat_length]
  have hdstE : edgeDst N E = dst := by
    show (N.edges.getD E dummyEdge).dst = dst
    rw [hNedges, hE, getD_concat_length]
  have hrvN : ∀ d, refValidB N d = refValidB net d := by
    intro d
    show refValidB net2 d = _
    rw [hnet2, refValidB_pushIn, hnet1, refValidB_pushOut]
  have houtN : ∀ d, nodeOut N d = if d = src then nodeOut net d ++ [E] else nodeOut net d := by
    intro d
    show nodeOut net2 d = _
    rw [hnet2, nodeOut_pushIn, hnet1, nodeOut_pushOut net hsv]
  have hinN : ∀ d, nodeIn N d = if d = dst then nodeIn net d ++ [E] else nodeIn net d := by
    intro d
    show nodeIn net2 d = _
    have hdv1 : refValidB net1 dst = true := by
      rw [hnet1, refValidB_pushOut]
      exact hdv
    rw [hnet2, nodeIn_pushIn net1 hdv1]
    rw [hnet1, nodeIn_pushOut]
  have hplaceId : ∀ j, (N.places.getD j dummyPlace).id = (net.places.getD j dummyPlace).id := by
    intro j
    rw [hNplaces, hnet2, (placeGetD_pushIn net1 dst E j).1, hnet1,
      (placeGetD_pushOut net src E j).1]
  have htransId : ∀ j,
      (N.transitions.getD j dummyTrans).id = (net.transitions.getD j dummyTrans).id := by
    intro j
    show (net2.transitions.getD j dummyTrans).id = _
    rw [hnet2, (transGetD_pushIn net1 dst E j).1, hnet1, (transGetD_pushOut net src E j).1]
  have hplen : N.places.length = net.places.length := by
    rw [hNplaces, hnet2, pushIn_places_length, hnet1, pushOut_places_length]
  have htlen : N.transitions.length = net.transitions.length := by
    show net2.transitions.length = _
    rw [hnet2, pushIn_transitions_length, hnet1, pushOut_transitions_length]
  have hno : ∀ oid ∈ nodeOut net src, edgeDst net oid ≠ dst := by
    intro oid ho hd
    rw [Bool.eq_false_iff] at hdup1
    exact hdup1 (List.any_eq_true.2 ⟨oid, ho, by simp [hd]⟩)
  constructor
  case placeId =>
    intro j hj
    rw [hplaceId j]
    exact hf.placeId j (by rwa [hplen] at hj)
  case transId =>
    intro j hj
    rw [htransId j]
    exact hf.transId j (by rwa [htlen] at hj)
  case edgeId =>
    intro j hj
    rw [hlenN] at hj
    show (N.edges.getD j dummyEdge).id = j
    rw [hNedges]
    by_cases h1 : j < E
    · rw [getD_append_left h1]
      exact hf.edgeId j h1
    · have : j = E := by omega
      rw [this, hE, getD_concat_length]
  case edgeBip =>
    intro j hj
    rw [hlenN] at hj
    by_cases h1 : j < E
    · rw [hsrcN j h1, hdstN j h1]
      exact hf.edgeBip j h1
    · have hj' : j = E := by omega
      rw [hj', hsrcE, hdstE]
      exact hkind
  case srcValid =>
    intro j hj
    rw [hlenN] at hj
    rw [hrvN]
    by_cases h1 : j < E
    · rw [hsrcN j h1]
      exact hf.srcValid j h1
    · have hj' : j = E := by omega
      rw [hj', hsrcE]
      exact hsv
  case dstValid =>
    intro j hj
    rw [hlenN] at hj
    rw [hrvN]
    by_cases h1 : j < E
    · rw [hdstN j h1]
      exact hf.dstValid j h1
    · have hj' : j = E := by omega
      rw [hj', hdstE]
      exact hdv
  case outAdj =>
    intro r hr eid he
    rw [hrvN] at hr
    rw [houtN] at he
    by_cases hrs : r = src
    · rw [if_pos hrs] at he
      rcases List.mem_append.1 he with hold | hnew
      · obtain ⟨hlt, hsrc⟩ := hf.outAdj r hr eid hold
        refine ⟨by omega, ?_⟩
        rw [hsrcN eid hlt]
        exact hsrc
      · rw [List.mem_singleton.1 hnew]
        exact ⟨by omega, by rw [hsrcE, hrs]⟩
    · rw [if_neg hrs] at he
      obtain ⟨hlt, hsrc⟩ := hf.outAdj r hr eid he
      refine ⟨by omega, ?_⟩
      rw [hsrcN eid hlt]
      exact hsrc
  case inAdj =>
    intro r hr eid he
    rw [hrvN] at hr
    rw [hinN] at he
    by_cases hrd : r = dst
    · rw [if_pos hrd] at he
      rcases List.mem_append.1 he with hold | hnew
      · obtain ⟨hlt, hdst⟩ := hf.inAdj r hr eid hold
        refine ⟨by omega, ?_⟩
        rw [hdstN eid hlt]
        exact hdst
      · rw [List.mem_singleton.1 hnew]
        exact ⟨by omega, by rw [hdstE, hrd]⟩
    · rw [if_neg hrd] at he
      obtain ⟨hlt, hdst⟩ := hf.inAdj r hr eid he
      refine ⟨by omega, ?_⟩
      rw [hdstN eid hlt]
      exact hdst
  case memOut =>
    intro eid he
    rw [hlenN] at he
    by_cases h1 : eid < E
    · rw [hsrcN eid h1, houtN]
      have := hf.memOut eid h1
      split
      · exact List.mem_append_left _ this
      · exact this
    · have he' : eid = E := by omega
      rw [he', hsrcE, houtN, if_pos rfl]
      exact List.mem_append_right _ (List.mem_singleton_self _)
  case memIn =>
    intro eid he
    rw [hlenN] at he
    by_cases h1 : eid < E
    · rw [hdstN eid h1, hinN]
      have := hf.memIn eid h1
      split
      · exact List.mem_append_left _ this
      · exact this
    · have he' : eid = E := by omega
      rw [he', hdstE, hinN, if_pos rfl]
      exact List.mem_append_right _ (List.mem_singleton_self _)
  case outNodup =>
    intro r hr
    rw [hrvN] at hr
    rw [houtN]
    split
    · next hrs =>
      rw [List.nodup_append]
      refine ⟨hf.outNodup r hr, List.nodup_singleton _, ?_⟩
      intro x hx hx2
      rw [List.mem_singleton.1 hx2] at hx
      have := (hf.outAdj r hr E hx).1
      omega
    · exact hf.outNodup r hr
  case inNodup =>
    intro r hr
    rw [hrvN] at hr
    rw [hinN]
    split
    · next hrd =>
      rw [List.nodup_append]
      refine ⟨hf.inNodup r hr, List.nodup_singleton _, ?_⟩
      intro x hx hx2
      rw [List.mem_singleton.1 hx2] at hx
      have := (hf.inAdj r hr E hx).1
      omega
    · exact hf.inNodup r hr
  case pairUniq =>
    intro a ha b hb hs hd
    rw [hlenN] at ha hb
    by_cases h1 : a < E <;> by_cases h2 : b < E
    · rw [hsrcN a h1, hsrcN b h2] at hs
      rw [hdstN a h1, hdstN b h2] at hd
      exact hf.pairUniq a h1 b h2 hs hd
    · have hb' : b = E := by omega
      rw [hb', hsrcE] at hs
      rw [hb', hdstE] at hd
      rw [hsrcN a h1] at hs
      rw [hdstN a h1] at hd
      have hmem := hf.memOut a h1
      rw [hs] at hmem
      exact absurd hd (hno a hmem)
    · have ha' : a = E := by omega
      rw [ha', hsrcE] at hs
      rw [ha', hdstE] at hd
      rw [hsrcN b h2] at hs
      rw [hdstN b h2] at hd
      have hmem := hf.memOut b h2
      rw [← hs] at hmem
      exact absurd hd.symm (hno b hmem)
    · omega

theorem edgeSrc_pushOut (net : PetriNet) (r : NodeRef) (e : Nat) (j : Nat) :
    edgeSrc (pushOut net r e) j = edgeSrc net j := by
  show ((pushOut net r e).edges.getD j dummyEdge).src = _
  rw [pushOut_edges]
  rfl

theorem addEdge_error {net : PetriNet} (hf : WfFacts net) {src dst : NodeRef} {w : Int}
    {e : PNError} {n'' : PetriNet} (h : addEdge net src dst w = .error (e, n'')) : n'' = net := by
  simp only [addEdge] at h
  split_ifs at h with h1 h2 h3 h4 h5 <;> cases h <;> try rfl
  exfalso
  obtain ⟨oid, hmem, heq⟩ := List.any_eq_true.1 h5
  rw [nodeIn_pushOut] at hmem
  have hsrc : edgeSrc net oid = src := by
    have := of_decide_eq_true heq
    rwa [edgeSrc_pushOut] at this
  have hdv : refValidB net dst = true := by
    apply belongs_refValid
    simpa using h2
  obtain ⟨hlt, hdst⟩ := hf.inAdj dst hdv oid hmem
  have hout : oid ∈ nodeOut net src := by
    have := hf.memOut oid hlt
    rwa [hsrc] at this
  exact h4 (List.any_eq_true.2 ⟨oid, hout, by simp [hdst]⟩)

theorem set_append_len (A : List Nat) (B : List Nat) (a v : Nat) :
    (A ++ a :: B).set A.length v = A ++ v :: B := by
  induction A with
  | nil => rfl
  | cons x A ih => simp [List.set, ih]

theorem indexOf_append_cons (A : List Nat) (B : List Nat) (a : Nat) (h : a ∉ A) :
    (A ++ a :: B).indexOf a = A.length := by
  induction A with
  | nil => simp
  | cons x A ih =>
    have hx : x ≠ a := fun hc => h (hc ▸ List.mem_cons_self x A)
    have hA : a ∉ A := fun hc => h (List.mem_cons_of_mem x hc)
    rw [List.cons_append, List.indexOf_cons_ne _ hx, ih hA]
    rfl

theorem adjSwapRemove_spec (l : List Nat) (i : Nat) (hn : l.Nodup) (hm : i ∈ l) :
    ∃ l', adjSwapRemove l i = some l' ∧ List.Perm l' (l.erase i) := by
  obtain ⟨A, B, rfl⟩ := List.append_of_mem hm
  have hiA : i ∉ A := by
    intro hc
    rw [List.nodup_append] at hn
    exact hn.2.2 hc (List.mem_cons_self i B)
  have hidx : (A ++ i :: B).indexOf i = A.length := indexOf_append_cons A B i hiA
  have hlen : (A ++ i :: B).length = A.length + B.length + 1 := by
    simp [List.length_append]
    omega
  have hne : (A ++ i :: B).indexOf i ≠ (A ++ i :: B).length := by
    rw [hidx, hlen]
    omega
  simp only [adjSwapRemove, if_neg hne]
  refine ⟨_, rfl, ?_⟩
  rw [List.erase_append_right _ hiA, List.erase_cons_head]
  rcases B.eq_nil_or_concat with rfl | ⟨C, b, rfl⟩
  · have hg : (A ++ [i]).getD ((A ++ [i]).length - 1) 0 = i := by
      have h1 : (A ++ [i]).length - 1 = A.length := by simp
      rw [h1, getD_concat_length]
    rw [hg, hidx, set_append_len, List.dropLast_concat]
    simp
  · simp only [List.concat_eq_append] at hidx ⊢
    have hg : (A ++ i :: (C ++ [b])).getD ((A ++ i :: (C ++ [b])).length - 1) 0 = b := by
      have h1 : A ++ i :: (C ++ [b]) = (A ++ i :: C) ++ [b] := by simp
      have h2 : (A ++ i :: (C ++ [b])).length - 1 = (A ++ i :: C).length := by
        simp
      rw [h2, h1, getD_concat_length]
    rw [hg, hidx, set_append_len]
    have h3 : A ++ b :: (C ++ [b]) = (A ++ b :: C) ++ [b] := by simp
    rw [h3, List.dropLast_concat]
    exact List.Perm.append_left A (List.perm_append_singleton b C).symm

theorem getD_dropLast {α : Type _} (l : List α) (d : α) (j : Nat) (hj : j < l.length - 1) :
    l.dropLast.getD j d = l.getD j d := by
  rw [List.dropLast_eq_take, List.getD_eq_getElem?_getD, List.getD_eq_getElem?_getD,
    List.getElem?_take, if_pos hj]

theorem getD_map_lt {α β : Type _} (f : α → β) (l : List α) (j : Nat) (d : α) (d' : β)
    (hj : j < l.length) : (l.map f).getD j d' = f (l.getD j d) := by
  rw [List.getD_eq_getElem?_getD, List.getD_eq_getElem?_getD, List.getElem?_map,
    List.getElem?_eq_getElem hj]
  rfl

theorem getD_map_ge {α β : Type _} (f : α → β) (l : List α) (j : Nat) (d' : β)
    (hj : l.length ≤ j) : (l.map f).getD j d' = d' := by
  rw [List.getD_eq_getElem?_getD, List.getElem?_eq_none (by simpa using hj)]
  rfl

theorem setOut_edges (net : PetriNet) (r : NodeRef) (l : List Nat) :
    (setOut net r l).edges = net.edges := by
  cases r <;> rfl

theorem setIn_edges (net : PetriNet) (r : NodeRef) (l : List Nat) :
    (setIn net r l).edges = net.edges := by
  cases r <;> rfl

theorem setOut_places_length (net : PetriNet) (r : NodeRef) (l : List Nat) :
    (setOut net r l).places.length = net.places.length := by
  cases r <;> simp [setOut, updNode, updPlace, updTrans]

theorem setOut_transitions_length (net : PetriNet) (r : NodeRef) (l : List Nat) :
    (setOut net r l).transitions.length = net.transitions.length := by
  cases r <;> simp [setOut, updNode, updPlace, updTrans]

theorem setIn_places_length (net : PetriNet) (r : NodeRef) (l : List Nat) :
    (setIn net r l).places.length = net.places.length := by
  cases r <;> simp [setIn, updNode, updPlace, updTrans]

theorem setIn_transitions_length (net : PetriNet) (r : NodeRef) (l : List Nat) :
    (setIn net r l).transitions.length = net.transitions.length := by
  cases r <;> simp [setIn, updNode, updPlace, updTrans]

theorem refValidB_setOut (net : PetriNet) (r : NodeRef) (l : List Nat) (d : NodeRef) :
    refValidB (setOut net r l) d = refValidB net d := by
  cases r <;> cases d <;>
    simp [refValidB, setOut, updNode, updPlace, updTrans]

theorem refValidB_setIn (net : PetriNet) (r : NodeRef) (l : List Nat) (d : NodeRef) :
    refValidB (setIn net r l) d = refValidB net d := by
  cases r <;> cases d <;>
    simp [refValidB, setIn, updNode, updPlace, updTrans]

theorem nodeIn_setOut (net : PetriNet) (r : NodeRef) (l : List Nat) (d : NodeRef) :
    nodeIn (setOut net r l) d = nodeIn net d := by
  cases r <;> cases d <;>
    simp only [setOut, updNode, updPlace, updTrans, nodeIn, getD_set_apply] <;>
    split <;> simp_all

theorem nodeOut_setIn (net : PetriNet) (r : NodeRef) (l : List Nat) (d : NodeRef) :
    nodeOut (setIn net r l) d = nodeOut net d := by
  cases r <;> cases d <;>
    simp only [setIn, updNode, updPlace, updTrans, nodeOut, getD_set_apply] <;>
    split <;> simp_all

theorem nodeOut_setOut (net : PetriNet) {r : NodeRef} (hr : refValidB net r = true)
    (l : List Nat) (d : NodeRef) :
    nodeOut (setOut net r l) d = if d = r then l else nodeOut net d := by
  cases r with
  | place k =>
    cases d with
    | place m =>
      show ((net.places.set k _).getD m dummyPlace).outE = _
      rw [getD_set_apply]
      by_cases hmk : m = k
      · subst hmk
        rw [if_pos rfl, if_pos ⟨rfl, by simpa [refValidB] using hr⟩]
      · rw [if_neg (fun hc => hmk (NodeRef.place.inj hc)), if_neg (fun hc => hmk hc.1.symm)]
        rfl
    | trans m =>
      rw [if_neg (by intro hc; cases hc)]
      rfl
  | trans k =>
    cases d with
    | place m =>
      rw [if_neg (by intro hc; cases hc)]
      rfl
    | trans m =>
      show ((net.transitions.set k _).getD m dummyTrans).outE = _
      rw [getD_set_apply]
      by_cases hmk : m = k
      · subst hmk
        rw [if_pos rfl, if_pos ⟨rfl, by simpa [refValidB] using hr⟩]
      · rw [if_neg (fun hc => hmk (NodeRef.trans.inj hc)), if_neg (fun hc => hmk hc.1.symm)]
        rfl

theorem nodeIn_setIn (net : PetriNet) {r : NodeRef} (hr : refValidB net r = true)
    (l : List Nat) (d : NodeRef) :
    nodeIn (setIn net r l) d = if d = r then l else nodeIn net d := by
  cases r with
  | place k =>
    cases d with
    | place m =>
      show ((net.places.set k _).getD m dummyPlace).inE = _
      rw [getD_set_apply]
      by_cases hmk : m = k
      · subst hmk
        rw [if_pos rfl, if_pos ⟨rfl, by simpa [refValidB] using hr⟩]
      · rw [if_neg (fun hc => hmk (NodeRef.place.inj hc)), if_neg (fun hc => hmk hc.1.symm)]
        rfl
    | trans m =>
      rw [if_neg (by intro hc; cases hc)]
      rfl
  | trans k =>
    cases d with
    | place m =>
      rw [if_neg (by intro hc; cases hc)]
      rfl
    | trans m =>
      show ((net.transitions.set k _).getD m dummyTrans).inE = _
      rw [getD_set_apply]
      by_cases hmk : m = k
      · subst hmk
        rw [if_pos rfl, if_pos ⟨rfl, by simpa [refValidB] using hr⟩]
      · rw [if_neg (fun hc => hmk (NodeRef.trans.inj hc)), if_neg (fun hc => hmk hc.1.symm)]
        rfl

theorem placeId_setOut (net : PetriNet) (r : NodeRef) (l : List Nat) (j : Nat) :
    ((setOut net r l).places.getD j dummyPlace).id = (net.places.getD j dummyPlace).id := by
  cases r with
  | place k =>
    show ((net.places.set k _).getD j dummyPlace).id = _
    rw [getD_set_apply]
    split
    · next h => rw [← h.1]
    · rfl
  | trans k => rfl

theorem transId_setOut (net : PetriNet) (r : NodeRef) (l : List Nat) (j : Nat) :
    ((setOut net r l).transitions.getD j dummyTrans).id =
      (net.transitions.getD j dummyTrans).id := by
  cases r with
  | place k => rfl
  | trans k =>
    show ((net.transitions.set k _).getD j dummyTrans).id = _
    rw [getD_set_apply]
    split
    · next h => rw [← h.1]
    · rfl

theorem placeId_setIn (net : PetriNet) (r : NodeRef) (l : List Nat) (j : Nat) :
    ((setIn net r l).places.getD j dummyPlace).id = (net.places.getD j dummyPlace).id := by
  cases r with
  | place k =>
    show ((net.places.set k _).getD j dummyPlace).id = _
    rw [getD_set_apply]
    split
    · next h => rw [← h.1]
    · rfl
  | trans k => rfl

theorem transId_setIn (net : PetriNet) (r : NodeRef) (l : List Nat) (j : Nat) :
    ((setIn net r l).transitions.getD j dummyTrans).id =
      (net.transitions.getD j dummyTrans).id := by
  cases r with
  | place k => rfl
  | trans k =>
    show ((net.transitions.set k _).getD j dummyTrans).id = _
    rw [getD_set_apply]
    split
    · next h => rw [← h.1]
    · rfl

theorem renameEdgeHandle_edges (net : PetriNet) (m i : Nat) :
    (renameEdgeHandle net m i).edges = net.edges := rfl

theorem renameEdgeHandle_places_length (net : PetriNet) (m i : Nat) :
    (renameEdgeHandle net m i).places.length = net.places.length := by
  simp [renameEdgeHandle]

theorem renameEdgeHandle_transitions_length (net : PetriNet) (m i : Nat) :
    (renameEdgeHandle net m i).transitions.length = net.transitions.length := by
  simp [renameEdgeHandle]

theorem refValidB_renameEdgeHandle (net : PetriNet) (m i : Nat) (d : NodeRef) :
    refValidB (renameEdgeHandle net m i) d = refValidB net d := by
  cases d <;> simp [refValidB, renameEdgeHandle]

theorem placeId_renameEdgeHandle (net : PetriNet) (m i : Nat) (j : Nat) :
    ((renameEdgeHandle net m i).places.getD j dummyPlace).id =
      (net.places.getD j dummyPlace).id := by
  show ((net.places.map _).getD j dummyPlace).id = _
  by_cases hj : j < net.places.length
  · rw [getD_map_lt _ _ _ dummyPlace _ hj]
  · rw [getD_map_ge _ _ _ _ (by omega), List.getD_eq_default _ _ (by omega)]

theorem transId_renameEdgeHandle (net : PetriNet) (m i : Nat) (j : Nat) :
    ((renameEdgeHandle net m i).transitions.getD j dummyTrans).id =
      (net.transitions.getD j dummyTrans).id := by
  show ((net.transitions.map _).getD j dummyTrans).id = _
  by_cases hj : j < net.transitions.length
  · rw [getD_map_lt _ _ _ dummyTrans _ hj]
  · rw [getD_map_ge _ _ _ _ (by omega), List.getD_eq_default _ _ (by omega)]

theorem nodeOut_renameEdgeHandle (net : PetriNet) (m i : Nat) (d : NodeRef) :
    nodeOut (renameEdgeHandle net m i) d =
      (nodeOut net d).map (fun x => if x = m then i else x) := by
  cases d with
  | place j =>
    show ((net.places.map _).getD j dummyPlace).outE = _
    by_cases hj : j < net.places.length
    · rw [getD_map_lt _ _ _ dummyPlace _ hj]
      rfl
    · rw [getD_map_ge _ _ _ _ (by omega)]
      show ([] : List Nat) = _
      rw [show nodeOut net (NodeRef.place j) = [] from by
        show (net.places.getD j dummyPlace).outE = []
        rw [List.getD_eq_default _ _ (by omega)]
        rfl]
      rfl
  | trans j =>
    show ((net.transitions.map _).getD j dummyTrans).outE = _
    by_cases hj : j < net.transitions.length
    · rw [getD_map_lt _ _ _ dummyTrans _ hj]
      rfl
    · rw [getD_map_ge _ _ _ _ (by omega)]
      show ([] : List Nat) = _
      rw [show nodeOut net (NodeRef.trans j) = [] from by
        show (net.transitions.getD j dummyTrans).outE = []
        rw [List.getD_eq_default _ _ (by omega)]
        rfl]
      rfl

theorem nodeIn_renameEdgeHandle (net : PetriNet) (m i : Nat) (d : NodeRef) :
    nodeIn (renameEdgeHandle net m i) d =
      (nodeIn net d).map (fun x => if x = m then i else x) := by
  cases d with
  | place j =>
    show ((net.places.map _).getD j dummyPlace).inE = _
    by_cases hj : j < net.places.length
    · rw [getD_map_lt _ _ _ dummyPlace _ hj]
      rfl
    · rw [getD_map_ge _ _ _ _ (by omega)]
      show ([] : List Nat) = _
      rw [show nodeIn net (NodeRef.place j) = [] from by
        show (net.places.getD j dummyPlace).inE = []
        rw [List.getD_eq_default _ _ (by omega)]
        rfl]
      rfl
  | trans j =>
    show ((net.transitions.map _).getD j dummyTrans).inE = _
    by_cases hj : j < net.transitions.length
    · rw [getD_map_lt _ _ _ dummyTrans _ hj]
      rfl
    · rw [getD_map_ge _ _ _ _ (by omega)]
      show ([] : List Nat) = _
      rw [show nodeIn net (NodeRef.trans j) = [] from by
        show (net.transitions.getD j dummyTrans).inE = []
        rw [List.getD_eq_default _ _ (by omega)]
        rfl]
      rfl

theorem removeEdge_run {net : PetriNet} (hf : WfFacts net) {i : Nat}
    (hi : i < net.edges.length) :
    ∃ outE' inE',
      List.Perm outE' ((nodeOut net (edgeSrc net i)).erase i) ∧
      List.Perm inE' ((nodeIn net (edgeDst net i)).erase i) ∧
      removeEdge net i = .ok (renameEdgeHandle
        { setIn (setOut net (edgeSrc net i) outE') (edgeDst net i) inE' with
          edges := (net.edges.set i
            { net.edges.getD (net.edges.length - 1) dummyEdge with id := i }).dropLast }
        (net.edges.length - 1) i) := by
  have hid : (net.edges.getD i dummyEdge).id = i := hf.edgeId i hi
  have hsv : refValidB net (edgeSrc net i) = true := hf.srcValid i hi
  have hdv : refValidB net (edgeDst net i) = true := hf.dstValid i hi
  have hmo : i ∈ nodeOut net (edgeSrc net i) := hf.memOut i hi
  have hmi : i ∈ nodeIn net (edgeDst net i) := hf.memIn i hi
  obtain ⟨outE', hsw1, hperm1⟩ := adjSwapRemove_spec _ i (hf.outNodup _ hsv) hmo
  obtain ⟨inE', hsw2, hperm2⟩ := adjSwapRemove_spec _ i (hf.inNodup _ hdv) hmi
  refine ⟨outE', inE', hperm1, hperm2, ?_⟩
  have hc1 : (decide (i < net.edges.length) && ((net.edges.getD i dummyEdge).id == i)) = true := by
    rw [hid]
    simp [hi]
  have hsw1x : adjSwapRemove (nodeOut net (net.edges.getD i dummyEdge).src) i = some outE' :=
    hsw1
  have hsw2x : adjSwapRemove (nodeIn net (net.edges.getD i dummyEdge).dst) i = some inE' :=
    hsw2
  simp only [removeEdge, hc1, Bool.not_true]
  rw [if_neg (by simp)]
  split
  · next heq =>
    rw [hsw1x] at heq
    cases heq
  · next o heq =>
    rw [hsw1x] at heq
    cases heq
    split
    · next heq2 =>
      rw [nodeIn_setOut, hsw2x] at heq2
      cases heq2
    · next o2 heq2 =>
      rw [nodeIn_setOut, hsw2x] at heq2
      cases heq2
      simp only [setIn_edges, setOut_edges]
      rfl

/-- The state `removeEdge` delivers on success, parameterised by the two
swap-removed adjacency lists. -/
def swapRemovedNet (net : PetriNet) (i : Nat) (o n : List Nat) : PetriNet :=
  renameEdgeHandle
    { setIn (setOut net (edgeSrc net i) o) (edgeDst net i) n with
      edges := (net.edges.set i
        { net.edges.getD (net.edges.length - 1) dummyEdge with id := i }).dropLast }
    (net.edges.length - 1) i

theorem removeEdge_run2 {net : PetriNet} (hf : WfFacts net) {i : Nat}
    (hi : i < net.edges.length) :
    ∃ o n,
      List.Perm o ((nodeOut net (edgeSrc net i)).erase i) ∧
      List.Perm n ((nodeIn net (edgeDst net i)).erase i) ∧
      removeEdge net i = .ok (swapRemovedNet net i o n) := by
  obtain ⟨o, n, hp1, hp2, hrun⟩ := removeEdge_run hf hi
  exact ⟨o, n, hp1, hp2, hrun⟩

theorem swapRemovedNet_places_length (net : PetriNet) (i : Nat) (o n : List Nat) :
    (swapRemovedNet net i o n).places.length = net.places.length := by
  show ((_ : PetriNet).places.map _).length = _
  rw [List.length_map]
  show (setIn _ _ _).places.length = _
  rw [setIn_places_length, setOut_places_length]

theorem swapRemovedNet_transitions_length (net : PetriNet) (i : Nat) (o n : List Nat) :
    (swapRemovedNet net i o n).transitions.length = net.transitions.length := by
  show ((_ : PetriNet).transitions.map _).length = _
  rw [List.length_map]
  show (setIn _ _ _).transitions.length = _
  rw [setIn_transitions_length, setOut_transitions_length]

theorem swapRemovedNet_edges_length (net : PetriNet) (i : Nat) (o n : List Nat) :
    (swapRemovedNet net i o n).edges.length = net.edges.length - 1 := by
  show ((net.edges.set _ _).dropLast).length = _
  rw [List.length_dropLast, List.length_set]

theorem refValidB_swapRemovedNet (net : PetriNet) (i : Nat) (o n : List Nat) (d : NodeRef) :
    refValidB (swapRemovedNet net i o n) d = refValidB net d := by
  cases d with
  | place j =>
    show decide (j < (swapRemovedNet net i o n).places.length) = _
    rw [swapRemovedNet_places_length]
    rfl
  | trans j =>
    show decide (j < (swapRemovedNet net i o n).transitions.length) = _
    rw [swapRemovedNet_transitions_length]
    rfl

theorem placeId_swapRemovedNet (net : PetriNet) (i : Nat) (o n : List Nat) (j : Nat) :
    ((swapRemovedNet net i o n).places.getD j dummyPlace).id =
      (net.places.getD j dummyPlace).id := by
  show ((renameEdgeHandle _ _ _).places.getD j dummyPlace).id = _
  rw [placeId_renameEdgeHandle]
  show ((setIn _ _ _).places.getD j dummyPlace).id = _
  rw [placeId_setIn, placeId_setOut]

theorem transId_swapRemovedNet (net : PetriNet) (i : Nat) (o n : List Nat) (j : Nat) :
    ((swapRemovedNet net i o n).transitions.getD j dummyTrans).id =
      (net.transitions.getD j dummyTrans).id := by
  show ((renameEdgeHandle _ _ _).transitions.getD j dummyTrans).id = _
  rw [transId_renameEdgeHandle]
  show ((setIn _ _ _).transitions.getD j dummyTrans).id = _
  rw [transId_setIn, transId_setOut]

theorem edges_swapRemovedNet (net : PetriNet) (i : Nat) (o n : List Nat) {j : Nat}
    (hj : j < net.edges.length - 1) :
    (swapRemovedNet net i o n).edges.getD j dummyEdge =
      if j = i then { net.edges.getD (net.edges.length - 1) dummyEdge with id := i }
      else net.edges.getD j dummyEdge := by
  show ((net.edges.set i _).dropLast).getD j dummyEdge = _
  rw [getD_dropLast _ _ _ (by rw [List.length_set]; exact hj), getD_set_apply]
  by_cases hij : j = i
  · rw [if_pos hij, if_pos ⟨hij.symm, by omega⟩]
  · rw [if_neg hij, if_neg (fun hc => hij hc.1.symm)]

theorem nodeOut_swapRemovedNet (net : PetriNet) {i : Nat}
    (hsv : refValidB net (edgeSrc net i) = true) (o n : List Nat) (d : NodeRef) :
    nodeOut (swapRemovedNet net i o n) d =
      (if d = edgeSrc net i then o else nodeOut net d).map
        (fun x => if x = net.edges.length - 1 then i else x) := by
  show nodeOut (renameEdgeHandle _ _ _) d = _
  rw [nodeOut_renameEdgeHandle]
  have h1 : nodeOut { setIn (setOut net (edgeSrc net i) o) (edgeDst net i) n with
      edges := (net.edges.set i
        { net.edges.getD (net.edges.length - 1) dummyEdge with id := i }).dropLast } d =
      nodeOut (setIn (setOut net (edgeSrc net i) o) (edgeDst net i) n) d := by
    cases d <;> rfl
  rw [h1, nodeOut_setIn, nodeOut_setOut net hsv]

theorem nodeIn_swapRemovedNet (net : PetriNet) {i : Nat}
    (hdv : refValidB net (edgeDst net i) = true) (o n : List Nat) (d : NodeRef) :
    nodeIn (swapRemovedNet net i o n) d =
      (if d = edgeDst net i then n else nodeIn net d).map
        (fun x => if x = net.edges.length - 1 then i else x) := by
  show nodeIn (renameEdgeHandle _ _ _) d = _
  rw [nodeIn_renameEdgeHandle]
  have h1 : nodeIn { setIn (setOut net (edgeSrc net i) o) (edgeDst net i) n with
      edges := (net.edges.set i
        { net.edges.getD (net.edges.length - 1) dummyEdge with id := i }).dropLast } d =
      nodeIn (setIn (setOut net (edgeSrc net i) o) (edgeDst net i) n) d := by
    cases d <;> rfl
  have h2 : refValidB (setOut net (edgeSrc net i) o) (edgeDst net i) = true := by
    rw [refValidB_setOut]
    exact hdv
  rw [h1, nodeIn_setIn _ h2, nodeIn_setOut]

theorem wfFacts_swapRemovedNet {net : PetriNet} (hf : WfFacts net) {i : Nat}
    (hi : i < net.edges.length) {o n : List Nat}
    (hp1 : List.Perm o ((nodeOut net (edgeSrc net i)).erase i))
    (hp2 : List.Perm n ((nodeIn net (edgeDst net i)).erase i)) :
    WfFacts (swapRemovedNet net i o n) := by
  set E := net.edges.length with hE
  set eS := edgeSrc net i with heS
  set eD := edgeDst net i with heD
  have hsv : refValidB net eS = true := hf.srcValid i hi
  have hdv : refValidB net eD = true := hf.dstValid i hi
  set N := swapRemovedNet net i o n with hN
  set rn : Nat → Nat := fun x => if x = E - 1 then i else x with hrn
  set baseO : NodeRef → List Nat := fun r => if r = eS then o else nodeOut net r with hbaseO
  set baseI : NodeRef → List Nat := fun r => if r = eD then n else nodeIn net r with hbaseI
  have houtN : ∀ d, nodeOut N d = (baseO d).map rn := fun d => nodeOut_swapRemovedNet net hsv o n d
  have hinN : ∀ d, nodeIn N d = (baseI d).map rn := fun d => nodeIn_swapRemovedNet net hdv o n d
  have hlast : E - 1 < E := by omega
  have hsubO : ∀ r, ∀ x ∈ baseO r, x ∈ nodeOut net r := by
    intro r x hx
    rw [hbaseO] at hx
    simp only at hx
    split at hx
    · next hr => exact hr ▸ (List.erase_subset _ _ (hp1.mem_iff.1 hx))
    · exact hx
  have hsubI : ∀ r, ∀ x ∈ baseI r, x ∈ nodeIn net r := by
    intro r x hx
    rw [hbaseI] at hx
    simp only at hx
    split at hx
    · next hr => exact hr ▸ (List.erase_subset _ _ (hp2.mem_iff.1 hx))
    · exact hx
  have hniO : ∀ r, refValidB net r = true → i ∉ baseO r := by
    intro r hr hx
    rw [hbaseO] at hx
    simp only at hx
    split at hx
    · next hre =>
      have := hp1.mem_iff.1 hx
      exact absurd ((hf.outNodup eS hsv).mem_erase_iff.1 this).1 (by simp)
    · next hre => exact hre ((hf.outAdj r hr i hx).2.symm ▸ rfl)
  have hniI : ∀ r, refValidB net r = true → i ∉ baseI r := by
    intro r hr hx
    rw [hbaseI] at hx
    simp only at hx
    split at hx
    · next hre =>
      have := hp2.mem_iff.1 hx
      exact absurd ((hf.inNodup eD hdv).mem_erase_iff.1 this).1 (by simp)
    · next hre => exact hre ((hf.inAdj r hr i hx).2.symm ▸ rfl)
  have hlenN : N.edges.length = E - 1 := swapRemovedNet_edges_length net i o n
  have hrvN : ∀ d, refValidB N d = refValidB net d := refValidB_swapRemovedNet net i o n
  have hedN : ∀ {j}, j < E - 1 →
      N.edges.getD j dummyEdge =
        if j = i then { net.edges.getD (E - 1) dummyEdge with id := i }
        else net.edges.getD j dummyEdge := fun hj => edges_swapRemovedNet net i o n hj
  constructor
  case placeId =>
    intro j hj
    rw [placeId_swapRemovedNet]
    exact hf.placeId j (by rwa [swapRemovedNet_places_length] at hj)
  case transId =>
    intro j hj
    rw [transId_swapRemovedNet]
    exact hf.transId j (by rwa [swapRemovedNet_transitions_length] at hj)
  case edgeId =>
    intro j hj
    rw [hlenN] at hj
    show (N.edges.getD j dummyEdge).id = j
    rw [hedN hj]
    by_cases hji : j = i
    · rw [if_pos hji, hji]
    · rw [if_neg hji]
      exact hf.edgeId j (by omega)
  case edgeBip =>
    intro j hj
    rw [hlenN] at hj
    show sameKind (N.edges.getD j dummyEdge).src (N.edges.getD j dummyEdge).dst = false
    rw [hedN hj]
    by_cases hji : j = i
    · rw [if_pos hji]
      exact hf.edgeBip (E - 1) hlast
    · rw [if_neg hji]
      exact hf.edgeBip j (by omega)
  case srcValid =>
    intro j hj
    rw [hlenN] at hj
    show refValidB N (N.edges.getD j dummyEdge).src = true
    rw [hedN hj]
    by_cases hji : j = i
    · rw [if_pos hji, hrvN]
      exact hf.srcValid (E - 1) hlast
    · rw [if_neg hji, hrvN]
      exact hf.srcValid j (by omega)
  case dstValid =>
    intro j hj
    rw [hlenN] at hj
    show refValidB N (N.edges.getD j dummyEdge).dst = true
    rw [hedN hj]
    by_cases hji : j = i
    · rw [if_pos hji, hrvN]
      exact hf.dstValid (E - 1) hlast
    · rw [if_neg hji, hrvN]
      exact hf.dstValid j (by omega)
  case outAdj =>
    intro r hr eid he
    rw [hrvN] at hr
    rw [houtN] at he
    obtain ⟨x, hx, hxe⟩ := List.mem_map.1 he
    have hxo : x ∈ nodeOut net r := hsubO r x hx
    have hxi : x ≠ i := fun hc => hniO r hr (hc ▸ hx)
    obtain ⟨hxlt, hxsrc⟩ := hf.outAdj r hr x hxo
    rw [hrn] at hxe
    simp only at hxe
    by_cases hxm : x = E - 1
    · rw [if_pos hxm] at hxe
      have him : i < E - 1 := by omega
      refine ⟨by omega, ?_⟩
      show (N.edges.getD eid dummyEdge).src = r
      rw [← hxe, hedN him, if_pos rfl]
      show (net.edges.getD (E - 1) dummyEdge).src = r
      rw [← hxm]
      exact hxsrc
    · rw [if_neg hxm] at hxe
      subst hxe
      refine ⟨by omega, ?_⟩
      show (N.edges.getD x dummyEdge).src = r
      rw [hedN (by omega), if_neg hxi]
      exact hxsrc
  case inAdj =>
    intro r hr eid he
    rw [hrvN] at hr
    rw [hinN] at he
    obtain ⟨x, hx, hxe⟩ := List.mem_map.1 he
    have hxo : x ∈ nodeIn net r := hsubI r x hx
    have hxi : x ≠ i := fun hc => hniI r hr (hc ▸ hx)
    obtain ⟨hxlt, hxdst⟩ := hf.inAdj r hr x hxo
    rw [hrn] at hxe
    simp only at hxe
    by_cases hxm : x = E - 1
    · rw [if_pos hxm] at hxe
      have him : i < E - 1 := by omega
      refine ⟨by omega, ?_⟩
      show (N.edges.getD eid dummyEdge).dst = r
      rw [← hxe, hedN him, if_pos rfl]
      show (net.edges.getD (E - 1) dummyEdge).dst = r
      rw [← hxm]
      exact hxdst
    · rw [if_neg hxm] at hxe
      subst hxe
      refine ⟨by omega, ?_⟩
      show (N.edges.getD x dummyEdge).dst = r
      rw [hedN (by omega), if_neg hxi]
      exact hxdst
  case memOut =>
    intro eid he
    rw [hlenN] at he
    by_cases hei : eid = i
    · have hmE : E - 1 ∈ nodeOut net (edgeSrc net (E - 1)) := hf.memOut (E - 1) hlast
      have hsrc : edgeSrc N eid = edgeSrc net (E - 1) := by
        show (N.edges.getD eid dummyEdge).src = _
        rw [hedN he, if_pos hei]
        rfl
      rw [hsrc, houtN]
      refine List.mem_map.2 ⟨E - 1, ?_, by rw [hrn]; simp [hei]⟩
      rw [hbaseO]
      simp only
      split
      · next hre =>
        rw [hp1.mem_iff]
        rw [(hf.outNodup eS hsv).mem_erase_iff]
        refine ⟨by omega, hre ▸ hmE⟩
      · exact hmE
    · have hsrc : edgeSrc N eid = edgeSrc net eid := by
        show (N.edges.getD eid dummyEdge).src = _
        rw [hedN he, if_neg hei]
        rfl
      have hmE : eid ∈ nodeOut net (edgeSrc net eid) := hf.memOut eid (by omega)
      rw [hsrc, houtN]
      refine List.mem_map.2 ⟨eid, ?_, by rw [hrn]; simp; omega⟩
      rw [hbaseO]
      simp only
      split
      · next hre =>
        rw [hp1.mem_iff]
        rw [(hf.outNodup eS hsv).mem_erase_iff]
        exact ⟨hei, hre ▸ hmE⟩
      · exact hmE
  case memIn =>
    intro eid he
    rw [hlenN] at he
    by_cases hei : eid = i
    · have hmE : E - 1 ∈ nodeIn net (edgeDst net (E - 1)) := hf.memIn (E - 1) hlast
      have hdst : edgeDst N eid = edgeDst net (E - 1) := by
        show (N.edges.getD eid dummyEdge).dst = _
        rw [hedN he, if_pos hei]
        rfl
      rw [hdst, hinN]
      refine List.mem_map.2 ⟨E - 1, ?_, by rw [hrn]; simp [hei]⟩
      rw [hbaseI]
      simp only
      split
      · next hre =>
        rw [hp2.mem_iff]
        rw [(hf.inNodup eD hdv).mem_erase_iff]
        refine ⟨by omega, hre ▸ hmE⟩
      · exact hmE
    · have hdst : edgeDst N eid = edgeDst net eid := by
        show (N.edges.getD eid dummyEdge).dst = _
        rw [hedN he, if_neg hei]
        rfl
      have hmE : eid ∈ nodeIn net (edgeDst net eid) := hf.memIn eid (by omega)
      rw [hdst, hinN]
      refine List.mem_map.2 ⟨eid, ?_, by rw [hrn]; simp; omega⟩
      rw [hbaseI]
      simp only
      split
      · next hre =>
        rw [hp2.mem_iff]
        rw [(hf.inNodup eD hdv).mem_erase_iff]
        exact ⟨hei, hre ▸ hmE⟩
      · exact hmE
  case outNodup =>
    intro r hr
    rw [hrvN] at hr
    rw [houtN]
    have hbn : (baseO r).Nodup := by
      rw [hbaseO]
      simp only
      split
      · exact hp1.nodup_iff.2 ((hf.outNodup eS hsv).erase i)
      · exact hf.outNodup r hr
    refine List.Nodup.map_on ?_ hbn
    intro x hx y hy hxy
    rw [hrn] at hxy
    simp only at hxy
    by_cases hxm : x = E - 1 <;> by_cases hym : y = E - 1
    · omega
    · rw [if_pos hxm, if_neg hym] at hxy
      exact absurd (hxy ▸ hy) (hniO r hr)
    · rw [if_neg hxm, if_pos hym] at hxy
      exact absurd (hxy ▸ hx) (hniO r hr)
    · rwa [if_neg hxm, if_neg hym] at hxy
  case inNodup =>
    intro r hr
    rw [hrvN] at hr
    rw [hinN]
    have hbn : (baseI r).Nodup := by
      rw [hbaseI]
      simp only
      split
      · exact hp2.nodup_iff.2 ((hf.inNodup eD hdv).erase i)
      · exact hf.inNodup r hr
    refine List.Nodup.map_on ?_ hbn
    intro x hx y hy hxy
    rw [hrn] at hxy
    simp only at hxy
    by_cases hxm : x = E - 1 <;> by_cases hym : y = E - 1
    · omega
    · rw [if_pos hxm, if_neg hym] at hxy
      exact absurd (hxy ▸ hy) (hniI r hr)
    · rw [if_neg hxm, if_pos hym] at hxy
      exact absurd (hxy ▸ hx) (hniI r hr)
    · rwa [if_neg hxm, if_neg hym] at hxy
  case pairUniq =>
    intro a ha b hb hs hd
    rw [hlenN] at ha hb
    have hga : ∀ {j}, j < E - 1 →
        edgeSrc N j = edgeSrc net (if j = i then E - 1 else j) ∧
        edgeDst N j = edgeDst net (if j = i then E - 1 else j) := by
      intro j hj
      constructor
      · show (N.edges.getD j dummyEdge).src = _
        rw [hedN hj]
        by_cases hji : j = i
        · rw [if_pos hji, if_pos hji]
          rfl
        · rw [if_neg hji, if_neg hji]
          rfl
      · show (N.edges.getD j dummyEdge).dst = _
        rw [hedN hj]
        by_cases hji : j = i
        · rw [if_pos hji, if_pos hji]
          rfl
        · rw [if_neg hji, if_neg hji]
          rfl
    rw [(hga ha).1, (hga hb).1] at hs
    rw [(hga ha).2, (hga hb).2] at hd
    have hlt1 : (if a = i then E - 1 else a) < E := by split <;> omega
    have hlt2 : (if b = i then E - 1 else b) < E := by split <;> omega
    have := hf.pairUniq _ hlt1 _ hlt2 hs hd
    by_cases hai : a = i <;> by_cases hbi : b = i
    · rw [hai, hbi]
    · rw [if_pos hai, if_neg hbi] at this
      omega
    · rw [if_neg hai, if_pos hbi] at this
      omega
    · rwa [if_neg hai, if_neg hbi] at this

theorem removeEdge_guard_fail {net : PetriNet} {i : Nat}
    (h : ¬(i < net.edges.length ∧ (net.edges.getD i dummyEdge).id = i)) :
    removeEdge net i = .error (.unrelatedReference, net) := by
  rw [removeEdge, if_pos]
  simp only [Bool.not_eq_true']
  rw [Bool.and_eq_false_iff]
  by_cases h1 : i < net.edges.length
  · right
    simp only [beq_eq_false_iff_ne, ne_eq]
    exact fun hc => h ⟨h1, hc⟩
  · left
    simpa using h1
theorem wfFacts_removeEdge {net : PetriNet} (hf : WfFacts net) {i : Nat} {n' : PetriNet}
    (h : removeEdge net i = .ok n') : WfFacts n' := by
  by_cases hg : i < net.edges.length ∧ (net.edges.getD i dummyEdge).id = i
  · obtain ⟨o, n, hp1, hp2, hrun⟩ := removeEdge_run2 hf hg.1
    rw [hrun] at h
    cases h
    exact wfFacts_swapRemovedNet hf hg.1 hp1 hp2
  · rw [removeEdge_guard_fail hg] at h
    cases h

theorem removeEdge_error_state {net : PetriNet} (hf : WfFacts net) {i : Nat}
    {e : PNError} {n'' : PetriNet} (h : removeEdge net i = .error (e, n'')) : n'' = net := by
  by_cases hg : i < net.edges.length ∧ (net.edges.getD i dummyEdge).id = i
  · obtain ⟨o, n, hp1, hp2, hrun⟩ := removeEdge_run2 hf hg.1
    rw [hrun] at h
    cases h
  · rw [removeEdge_guard_fail hg] at h
    cases h
    rfl

theorem cascadeRemove_in_clear_aux (r : NodeRef) (k : Nat) :
    ∀ (l : List Nat) (net : PetriNet), l.length = k → WfFacts net →
      refValidB net r = true → List.Perm l (nodeIn net r) →
      ∃ n', cascadeRemove net l = .ok n' ∧ WfFacts n' ∧ refValidB n' r = true ∧
        nodeIn n' r = [] ∧
        n'.places.length = net.places.length ∧
        n'.transitions.length = net.transitions.length := by
  induction k with
  | zero =>
    intro l net hlen hf hr hperm
    have hnil : l = [] := List.length_eq_zero.1 hlen
    subst hnil
    refine ⟨net, by simp [cascadeRemove], hf, hr, hperm.symm.eq_nil, rfl, rfl⟩
  | succ k ih =>
    intro l net hlen hf hr hperm
    obtain ⟨e, rest, rfl⟩ : ∃ e rest, l = e :: rest := by
      cases l with
      | nil => cases hlen
      | cons e rest => exact ⟨e, rest, rfl⟩
    have hrest_len : rest.length = k := by
      simp at hlen
      omega
    have hme : e ∈ nodeIn net r := hperm.mem_iff.1 (List.mem_cons_self e rest)
    obtain ⟨helt, hedst⟩ := hf.inAdj r hr e hme
    obtain ⟨o, n, hp1, hp2, hrun⟩ := removeEdge_run2 hf helt
    have hstep : cascadeRemove net (e :: rest) =
        cascadeRemove (swapRemovedNet net e o n)
          (rest.map (fun x => if x = net.edges.length - 1 then e else x)) := by
      simp only [cascadeRemove]
      rw [hrun]
    set rn : Nat → Nat := fun x => if x = net.edges.length - 1 then e else x with hrn
    set N := swapRemovedNet net e o n with hNe
    have hfN : WfFacts N := wfFacts_swapRemovedNet hf helt hp1 hp2
    have hrN : refValidB N r = true := by
      rw [refValidB_swapRemovedNet]
      exact hr
    have hinNr : nodeIn N r = n.map rn := by
      rw [nodeIn_swapRemovedNet net (hf.dstValid e helt) o n r, hedst, if_pos rfl]
    have hrest : List.Perm rest ((nodeIn net r).erase e) := by
      have h1 : List.Perm ((e :: rest).erase e) ((nodeIn net r).erase e) := hperm.erase e
      rwa [List.erase_cons_head] at h1
    have hrn2 : List.Perm n ((nodeIn net r).erase e) := by
      rw [← hedst]
      exact hp2
    have hinv : List.Perm (rest.map rn) (nodeIn N r) := by
      rw [hinNr]
      exact (hrest.trans hrn2.symm).map rn
    obtain ⟨n', hok, hfn', hrn', hnil', hpl', htl'⟩ :=
      ih (rest.map rn) N (by rw [List.length_map]; exact hrest_len) hfN hrN hinv
    refine ⟨n', by rw [hstep]; exact hok, hfn', hrn', hnil', ?_, ?_⟩
    · rw [hpl', hNe, swapRemovedNet_places_length]
    · rw [htl', hNe, swapRemovedNet_transitions_length]

theorem cascadeRemove_out_clear_aux (r : NodeRef) (k : Nat) :
    ∀ (l : List Nat) (net : PetriNet), l.length = k → WfFacts net →
      refValidB net r = true → List.Perm l (nodeOut net r) →
      ∃ n', cascadeRemove net l = .ok n' ∧ WfFacts n' ∧ refValidB n' r = true ∧
        nodeOut n' r = [] ∧
        (nodeIn net r = [] → nodeIn n' r = []) ∧
        n'.places.length = net.places.length ∧
        n'.transitions.length = net.transitions.length := by
  induction k with
  | zero =>
    intro l net hlen hf hr hperm
    have hnil : l = [] := List.length_eq_zero.1 hlen
    subst hnil
    refine ⟨net, by simp [cascadeRemove], hf, hr, hperm.symm.eq_nil, fun h => h, rfl, rfl⟩
  | succ k ih =>
    intro l net hlen hf hr hperm
    obtain ⟨e, rest, rfl⟩ : ∃ e rest, l = e :: rest := by
      cases l with
      | nil => cases hlen
      | cons e rest => exact ⟨e, rest, rfl⟩
    have hrest_len : rest.length = k := by
      simp at hlen
      omega
    have hme : e ∈ nodeOut net r := hperm.mem_iff.1 (List.mem_cons_self e rest)
    obtain ⟨helt, hesrc⟩ := hf.outAdj r hr e hme
    obtain ⟨o, n, hp1, hp2, hrun⟩ := removeEdge_run2 hf helt
    have hstep : cascadeRemove net (e :: rest) =
        cascadeRemove (swapRemovedNet net e o n)
          (rest.map (fun x => if x = net.edges.length - 1 then e else x)) := by
      simp only [cascadeRemove]
      rw [hrun]
    set rn : Nat → Nat := fun x => if x = net.edges.length - 1 then e else x with hrn
    set N := swapRemovedNet net e o n with hNe
    have hfN : WfFacts N := wfFacts_swapRemovedNet hf helt hp1 hp2
    have hrN : refValidB N r = true := by
      rw [refValidB_swapRemovedNet]
      exact hr
    have houtNr : nodeOut N r = o.map rn := by
      rw [nodeOut_swapRemovedNet net (hf.srcValid e helt) o n r, hesrc, if_pos rfl]
    have hrest : List.Perm rest ((nodeOut net r).erase e) := by
      have h1 : List.Perm ((e :: rest).erase e) ((nodeOut net r).erase e) := hperm.erase e
      rwa [List.erase_cons_head] at h1
    have hrn2 : List.Perm o ((nodeOut net r).erase e) := by
      rw [← hesrc]
      exact hp1
    have hinv : List.Perm (rest.map rn) (nodeOut N r) := by
      rw [houtNr]
      exact (hrest.trans hrn2.symm).map rn
    have hkeep : nodeIn net r = [] → nodeIn N r = [] := by
      intro hz
      rw [nodeIn_swapRemovedNet net (hf.dstValid e helt) o n r]
      have hne : r ≠ edgeDst net e := by
        intro hc
        have hbip := hf.edgeBip e helt
        rw [hesrc, ← hc] at hbip
        cases r <;> simp [sameKind] at hbip
      rw [if_neg (fun hc => hne hc), hz]
      rfl
    obtain ⟨n', hok, hfn', hrn', hnil', hkeep', hpl', htl'⟩ :=
      ih (rest.map rn) N (by rw [List.length_map]; exact hrest_len) hfN hrN hinv
    refine ⟨n', by rw [hstep]; exact hok, hfn', hrn', hnil', fun hz => hkeep' (hkeep hz), ?_, ?_⟩
    · rw [hpl', hNe, swapRemovedNet_places_length]
    · rw [htl', hNe, swapRemovedNet_transitions_length]

theorem renamePlaceRef_places (net : PetriNet) (m i : Nat) :
    (renamePlaceRef net m i).places = net.places := rfl

theorem renamePlaceRef_transitions (net : PetriNet) (m i : Nat) :
    (renamePlaceRef net m i).transitions = net.transitions := rfl

theorem renamePlaceRef_edges_length (net : PetriNet) (m i : Nat) :
    (renamePlaceRef net m i).edges.length = net.edges.length := by
  simp [renamePlaceRef]

theorem nodeOut_renamePlaceRef (net : PetriNet) (m i : Nat) (d : NodeRef) :
    nodeOut (renamePlaceRef net m i) d = nodeOut net d := by
  cases d <;> rfl

theorem nodeIn_renamePlaceRef (net : PetriNet) (m i : Nat) (d : NodeRef) :
    nodeIn (renamePlaceRef net m i) d = nodeIn net d := by
  cases d <;> rfl

theorem refValidB_renamePlaceRef (net : PetriNet) (m i : Nat) (d : NodeRef) :
    refValidB (renamePlaceRef net m i) d = refValidB net d := by
  cases d <;> rfl

theorem edges_renamePlaceRef (net : PetriNet) (m i : Nat) {j : Nat}
    (hj : j < net.edges.length) :
    (renamePlaceRef net m i).edges.getD j dummyEdge =
      { net.edges.getD j dummyEdge with
        src := if (net.edges.getD j dummyEdge).src = NodeRef.place m then NodeRef.place i
          else (net.edges.getD j dummyEdge).src,
        dst := if (net.edges.getD j dummyEdge).dst = NodeRef.place m then NodeRef.place i
          else (net.edges.getD j dummyEdge).dst } := by
  show ((net.edges.map _).getD j dummyEdge) = _
  rw [getD_map_lt _ _ _ dummyEdge _ hj]

theorem renameTransRef_places (net : PetriNet) (m i : Nat) :
    (renameTransRef net m i).places = net.places := rfl

theorem renameTransRef_transitions (net : PetriNet) (m i : Nat) :
    (renameTransRef net m i).transitions = net.transitions := rfl

theorem renameTransRef_edges_length (net : PetriNet) (m i : Nat) :
    (renameTransRef net m i).edges.length = net.edges.length := by
  simp [renameTransRef]

theorem nodeOut_renameTransRef (net : PetriNet) (m i : Nat) (d : NodeRef) :
    nodeOut (renameTransRef net m i) d = nodeOut net d := by
  cases d <;> rfl

theorem nodeIn_renameTransRef (net : PetriNet) (m i : Nat) (d : NodeRef) :
    nodeIn (renameTransRef net m i) d = nodeIn net d := by
  cases d <;> rfl

theorem refValidB_renameTransRef (net : PetriNet) (m i : Nat) (d : NodeRef) :
    refValidB (renameTransRef net m i) d = refValidB net d := by
  cases d <;> rfl

theorem edges_renameTransRef (net : PetriNet) (m i : Nat) {j : Nat}
    (hj : j < net.edges.length) :
    (renameTransRef net m i).edges.getD j dummyEdge =
      { net.edges.getD j dummyEdge with
        src := if (net.edges.getD j dummyEdge).src = NodeRef.trans m then NodeRef.trans i
          else (net.edges.getD j dummyEdge).src,
        dst := if (net.edges.getD j dummyEdge).dst = NodeRef.trans m then NodeRef.trans i
          else (net.edges.getD j dummyEdge).dst } := by
  show ((net.edges.map _).getD j dummyEdge) = _
  rw [getD_map_lt _ _ _ dummyEdge _ hj]

theorem sameKind_if_place (a b : NodeRef) (m i : Nat) :
    sameKind (if a = NodeRef.place m then NodeRef.place i else a)
      (if b = NodeRef.place m then NodeRef.place i else b) = sameKind a b := by
  cases a <;> cases b <;> split_ifs <;> first | rfl | simp_all

theorem sameKind_if_trans (a b : NodeRef) (m i : Nat) :
    sameKind (if a = NodeRef.trans m then NodeRef.trans i else a)
      (if b = NodeRef.trans m then NodeRef.trans i else b) = sameKind a b := by
  cases a <;> cases b <;> split_ifs <;> first | rfl | simp_all

theorem wfFacts_placeCompact {net2 : PetriNet} (hf2 : WfFacts net2) {i : Nat}
    (hi : i < net2.places.length)
    (hzo : nodeOut net2 (NodeRef.place i) = [])
    (hzi : nodeIn net2 (NodeRef.place i) = []) :
    WfFacts (renamePlaceRef
      { net2 with places := (net2.places.set i
          { net2.places.getD (net2.places.length - 1) dummyPlace with id := i }).dropLast }
      (net2.places.length - 1) i) := by
  set P := net2.places.length with hP
  set E := net2.edges.length with hE
  set last := net2.places.getD (P - 1) dummyPlace with hlastd
  set net3 : PetriNet :=
    { net2 with places := (net2.places.set i { last with id := i }).dropLast } with hnet3
  set N := renamePlaceRef net3 (P - 1) i with hNdef
  have hplen3 : net3.places.length = P - 1 := by
    show ((net2.places.set _ _).dropLast).length = _
    rw [List.length_dropLast, List.length_set]
  have hplenN : N.places.length = P - 1 := by
    rw [hNdef, renamePlaceRef_places]
    exact hplen3
  have htlenN : N.transitions.length = net2.transitions.length := by
    rw [hNdef]
    rfl
  have helenN : N.edges.length = E := by
    rw [hNdef, renamePlaceRef_edges_length]
  have hplace3 : ∀ {j}, j < P - 1 →
      net3.places.getD j dummyPlace =
        if j = i then { last with id := i } else net2.places.getD j dummyPlace := by
    intro j hj
    show ((net2.places.set i _).dropLast).getD j dummyPlace = _
    rw [getD_dropLast _ _ _ (by rw [List.length_set]; exact hj), getD_set_apply]
    by_cases hij : j = i
    · rw [if_pos hij, if_pos ⟨hij.symm, by omega⟩]
    · rw [if_neg hij, if_neg (fun hc => hij hc.1.symm)]
  have hnoSrc : ∀ eid, eid < E → edgeSrc net2 eid ≠ NodeRef.place i := by
    intro eid he hc
    have := hf2.memOut eid he
    rw [hc, hzo] at this
    cases this
  have hnoDst : ∀ eid, eid < E → edgeDst net2 eid ≠ NodeRef.place i := by
    intro eid he hc
    have := hf2.memIn eid he
    rw [hc, hzi] at this
    cases this
  have hed : ∀ {j}, j < E →
      N.edges.getD j dummyEdge =
        { net2.edges.getD j dummyEdge with
          src := if edgeSrc net2 j = NodeRef.place (P - 1)
            then NodeRef.place i else edgeSrc net2 j,
          dst := if edgeDst net2 j = NodeRef.place (P - 1)
            then NodeRef.place i else edgeDst net2 j } := by
    intro j hj
    rw [hNdef]
    exact edges_renamePlaceRef net3 (P - 1) i hj
  have hrvp : ∀ j, refValidB N (NodeRef.place j) = true ↔ j < P - 1 := by
    intro j
    show decide (j < N.places.length) = true ↔ _
    rw [hplenN]
    simp
  have hrvt : ∀ j, refValidB N (NodeRef.trans j) = refValidB net2 (NodeRef.trans j) := by
    intro j
    show decide (j < N.transitions.length) = _
    rw [htlenN]
    rfl
  have houtN : ∀ d, nodeOut N d = nodeOut net3 d := fun d => by
    rw [hNdef, nodeOut_renamePlaceRef]
  have hinN : ∀ d, nodeIn N d = nodeIn net3 d := fun d => by
    rw [hNdef, nodeIn_renamePlaceRef]
  have hout3 : ∀ {j}, j < P - 1 →
      nodeOut net3 (NodeRef.place j) =
        if j = i then nodeOut net2 (NodeRef.place (P - 1))
        else nodeOut net2 (NodeRef.place j) := by
    intro j hj
    show (net3.places.getD j dummyPlace).outE = _
    rw [hplace3 hj]
    by_cases hij : j = i
    · rw [if_pos hij, if_pos hij]
      rfl
    · rw [if_neg hij, if_neg hij]
      rfl
  have hin3 : ∀ {j}, j < P - 1 →
      nodeIn net3 (NodeRef.place j) =
        if j = i then nodeIn net2 (NodeRef.place (P - 1))
        else nodeIn net2 (NodeRef.place j) := by
    intro j hj
    show (net3.places.getD j dummyPlace).inE = _
    rw [hplace3 hj]
    by_cases hij : j = i
    · rw [if_pos hij, if_pos hij]
      rfl
    · rw [if_neg hij, if_neg hij]
      rfl
  have hout3t : ∀ j, nodeOut net3 (NodeRef.trans j) = nodeOut net2 (NodeRef.trans j) :=
    fun j => rfl
  have hin3t : ∀ j, nodeIn net3 (NodeRef.trans j) = nodeIn net2 (NodeRef.trans j) :=
    fun j => rfl
  constructor
  case placeId =>
    intro j hj
    rw [hplenN] at hj
    show ((renamePlaceRef net3 _ _).places.getD j dummyPlace).id = j
    rw [renamePlaceRef_places, hplace3 hj]
    by_cases hij : j = i
    · rw [if_pos hij, hij]
    · rw [if_neg hij]
      exact hf2.placeId j (by omega)
  case transId =>
    intro j hj
    rw [htlenN] at hj
    exact hf2.transId j hj
  case edgeId =>
    intro j hj
    rw [helenN] at hj
    show (N.edges.getD j dummyEdge).id = j
    rw [hed hj]
    exact hf2.edgeId j hj
  case edgeBip =>
    intro j hj
    rw [helenN] at hj
    show sameKind (N.edges.getD j dummyEdge).src (N.edges.getD j dummyEdge).dst = false
    rw [hed hj]
    show sameKind (if _ then _ else _) (if _ then _ else _) = false
    rw [sameKind_if_place]
    exact hf2.edgeBip j hj
  case srcValid =>
    intro j hj
    rw [helenN] at hj
    show refValidB N (N.edges.getD j dummyEdge).src = true
    rw [hed hj]
    show refValidB N (if _ then _ else _) = true
    by_cases hs : edgeSrc net2 j = NodeRef.place (P - 1)
    · rw [if_pos hs, hrvp]
      have hip : i ≠ P - 1 := by
        intro hc
        exact hnoSrc j hj (by rw [hs, hc])
      omega
    · rw [if_neg hs]
      have hv := hf2.srcValid j hj
      rcases hcase : edgeSrc net2 j with jp | jt
      · rw [hcase] at hv hs
        have hjp : jp < P := by simpa [refValidB] using hv
        rw [hrvp]
        have : jp ≠ P - 1 := fun hc => hs (by rw [hc])
        omega
      · rw [hcase] at hv
        rw [hrvt]
        exact hv
  case dstValid =>
    intro j hj
    rw [helenN] at hj
    show refValidB N (N.edges.getD j dummyEdge).dst = true
    rw [hed hj]
    show refValidB N (if _ then _ else _) = true
    by_cases hs : edgeDst net2 j = NodeRef.place (P - 1)
    · rw [if_pos hs, hrvp]
      have hip : i ≠ P - 1 := by
        intro hc
        exact hnoDst j hj (by rw [hs, hc])
      omega
    · rw [if_neg hs]
      have hv := hf2.dstValid j hj
      rcases hcase : edgeDst net2 j with jp | jt
      · rw [hcase] at hv hs
        have hjp : jp < P := by simpa [refValidB] using hv
        rw [hrvp]
        have : jp ≠ P - 1 := fun hc => hs (by rw [hc])
        omega
      · rw [hcase] at hv
        rw [hrvt]
        exact hv
  case outAdj =>
    intro r hr eid he
    rw [houtN] at he
    cases r with
    | place j =>
      have hj : j < P - 1 := (hrvp j).1 hr
      rw [hout3 hj] at he
      by_cases hij : j = i
      · rw [if_pos hij] at he
        have hv : refValidB net2 (NodeRef.place (P - 1)) = true := by
          show decide (P - 1 < P) = true
          simp
          omega
        obtain ⟨helt, hsrc⟩ := hf2.outAdj _ hv eid he
        refine ⟨by rwa [helenN], ?_⟩
        show (N.edges.getD eid dummyEdge).src = _
        rw [hed helt, hij]
        show (if _ then _ else _) = _
        rw [hsrc, if_pos rfl]
      · rw [if_neg hij] at he
        have hv : refValidB net2 (NodeRef.place j) = true := by
          show decide (j < P) = true
          simp
          omega
        obtain ⟨helt, hsrc⟩ := hf2.outAdj _ hv eid he
        refine ⟨by rwa [helenN], ?_⟩
        show (N.edges.getD eid dummyEdge).src = _
        rw [hed helt]
        show (if _ then _ else _) = _
        rw [hsrc, if_neg (by intro hc; cases hc; omega)]
    | trans j =>
      rw [hout3t] at he
      have hv : refValidB net2 (NodeRef.trans j) = true := by rwa [hrvt] at hr
      obtain ⟨helt, hsrc⟩ := hf2.outAdj _ hv eid he
      refine ⟨by rwa [helenN], ?_⟩
      show (N.edges.getD eid dummyEdge).src = _
      rw [hed helt]
      show (if _ then _ else _) = _
      rw [hsrc, if_neg (by intro hc; cases hc)]
  case inAdj =>
    intro r hr eid he
    rw [hinN] at he
    cases r with
    | place j =>
      have hj : j < P - 1 := (hrvp j).1 hr
      rw [hin3 hj] at he
      by_cases hij : j = i
      · rw [if_pos hij] at he
        have hv : refValidB net2 (NodeRef.place (P - 1)) = true := by
          show decide (P - 1 < P) = true
          simp
          omega
        obtain ⟨helt, hdst⟩ := hf2.inAdj _ hv eid he
        refine ⟨by rwa [helenN], ?_⟩
        show (N.edges.getD eid dummyEdge).dst = _
        rw [hed helt, hij]
        show (if _ then _ else _) = _
        rw [hdst, if_pos rfl]
      · rw [if_neg hij] at he
        have hv : refValidB net2 (NodeRef.place j) = true := by
          show decide (j < P) = true
          simp
          omega
        obtain ⟨helt, hdst⟩ := hf2.inAdj _ hv eid he
        refine ⟨by rwa [helenN], ?_⟩
        show (N.edges.getD eid dummyEdge).dst = _
        rw [hed helt]
        show (if _ then _ else _) = _
        rw [hdst, if_neg (by intro hc; cases hc; omega)]
    | trans j =>
      rw [hin3t] at he
      have hv : refValidB net2 (NodeRef.trans j) = true := by rwa [hrvt] at hr
      obtain ⟨helt, hdst⟩ := hf2.inAdj _ hv eid he
      refine ⟨by rwa [helenN], ?_⟩
      show (N.edges.getD eid dummyEdge).dst = _
      rw [hed helt]
      show (if _ then _ else _) = _
      rw [hdst, if_neg (by intro hc; cases hc)]
  case memOut =>
    intro eid he
    rw [helenN] at he
    have hsE : edgeSrc N eid =
        if edgeSrc net2 eid = NodeRef.place (P - 1) then NodeRef.place i
        else edgeSrc net2 eid := by
      show (N.edges.getD eid dummyEdge).src = _
      rw [hed he]
    have hmem := hf2.memOut eid he
    by_cases hs : edgeSrc net2 eid = NodeRef.place (P - 1)
    · rw [hsE, if_pos hs, houtN]
      have hip : i ≠ P - 1 := by
        intro hc
        exact hnoSrc eid he (by rw [hs, hc])
      rw [hout3 (by omega), if_pos rfl, ← hs]
      exact hmem
    · rw [hsE, if_neg hs, houtN]
      rcases hcase : edgeSrc net2 eid with jp | jt
      · rw [hcase] at hs hmem
        have hjp : jp < P := by
          have := hf2.srcValid eid he
          rw [hcase] at this
          simpa [refValidB] using this
        have hjp1 : jp < P - 1 := by
          have : jp ≠ P - 1 := fun hc => hs (by rw [hc])
          omega
        have hji : jp ≠ i := by
          intro hc
          exact hnoSrc eid he (by rw [hcase, hc])
        rw [hout3 hjp1, if_neg hji]
        exact hmem
      · rw [hcase] at hmem
        rw [hout3t]
        exact hmem
  case memIn =>
    intro eid he
    rw [helenN] at he
    have hsE : edgeDst N eid =
        if edgeDst net2 eid = NodeRef.place (P - 1) then NodeRef.place i
        else edgeDst net2 eid := by
      show (N.edges.getD eid dummyEdge).dst = _
      rw [hed he]
    have hmem := hf2.memIn eid he
    by_cases hs : edgeDst net2 eid = NodeRef.place (P - 1)
    · rw [hsE, if_pos hs, hinN]
      have hip : i ≠ P - 1 := by
        intro hc
        exact hnoDst eid he (by rw [hs, hc])
      rw [hin3 (by omega), if_pos rfl, ← hs]
      exact hmem
    · rw [hsE, if_neg hs, hinN]
      rcases hcase : edgeDst net2 eid with jp | jt
      · rw [hcase] at hs hmem
        have hjp : jp < P := by
          have := hf2.dstValid eid he
          rw [hcase] at this
          simpa [refValidB] using this
        have hjp1 : jp < P - 1 := by
          have : jp ≠ P - 1 := fun hc => hs (by rw [hc])
          omega
        have hji : jp ≠ i := by
          intro hc
          exact hnoDst eid he (by rw [hcase, hc])
        rw [hin3 hjp1, if_neg hji]
        exact hmem
      · rw [hcase] at hmem
        rw [hin3t]
        exact hmem
  case outNodup =>
    intro r hr
    rw [houtN]
    cases r with
    | place j =>
      have hj : j < P - 1 := (hrvp j).1 hr
      rw [hout3 hj]
      split
      · exact hf2.outNodup _ (by show decide (P - 1 < P) = true; simp; omega)
      · exact hf2.outNodup _ (by show decide (j < P) = true; simp; omega)
    | trans j =>
      rw [hout3t]
      exact hf2.outNodup _ (by rwa [hrvt] at hr)
  case inNodup =>
    intro r hr
    rw [hinN]
    cases r with
    | place j =>
      have hj : j < P - 1 := (hrvp j).1 hr
      rw [hin3 hj]
      split
      · exact hf2.inNodup _ (by show decide (P - 1 < P) = true; simp; omega)
      · exact hf2.inNodup _ (by show decide (j < P) = true; simp; omega)
    | trans j =>
      rw [hin3t]
      exact hf2.inNodup _ (by rwa [hrvt] at hr)
  case pairUniq =>
    intro a ha b hb hs hd
    rw [helenN] at ha hb
    have hsa : edgeSrc N a =
        if edgeSrc net2 a = NodeRef.place (P - 1) then NodeRef.place i
        else edgeSrc net2 a := by
      show (N.edges.getD a dummyEdge).src = _
      rw [hed ha]
    have hsb : edgeSrc N b =
        if edgeSrc net2 b = NodeRef.place (P - 1) then NodeRef.place i
        else edgeSrc net2 b := by
      show (N.edges.getD b dummyEdge).src = _
      rw [hed hb]
    have hda : edgeDst N a =
        if edgeDst net2 a = NodeRef.place (P - 1) then NodeRef.place i
        else edgeDst net2 a := by
      show (N.edges.getD a dummyEdge).dst = _
      rw [hed ha]
    have hdb : edgeDst N b =
        if edgeDst net2 b = NodeRef.place (P - 1) then NodeRef.place i
        else edgeDst net2 b := by
      show (N.edges.getD b dummyEdge).dst = _
      rw [hed hb]
    rw [hsa, hsb] at hs
    rw [hda, hdb] at hd
    have hinj : ∀ x y : NodeRef, x ≠ NodeRef.place i → y ≠ NodeRef.place i →
        (if x = NodeRef.place (P - 1) then NodeRef.place i else x) =
        (if y = NodeRef.place (P - 1) then NodeRef.place i else y) → x = y := by
      intro x y hx hy hxy
      by_cases hxm : x = NodeRef.place (P - 1) <;> by_cases hym : y = NodeRef.place (P - 1)
      · rw [hxm, hym]
      · rw [if_pos hxm, if_neg hym] at hxy
        exact absurd hxy.symm hy
      · rw [if_neg hxm, if_pos hym] at hxy
        exact absurd hxy hx
      · rwa [if_neg hxm, if_neg hym] at hxy
    have hs2 : edgeSrc net2 a = edgeSrc net2 b :=
      hinj _ _ (hnoSrc a ha) (hnoSrc b hb) hs
    have hd2 : edgeDst net2 a = edgeDst net2 b :=
      hinj _ _ (hnoDst a ha) (hnoDst b hb) hd
    exact hf2.pairUniq a ha b hb hs2 hd2

theorem wfFacts_transCompact {net2 : PetriNet} (hf2 : WfFacts net2) {i : Nat}
    (hi : i < net2.transitions.length)
    (hzo : nodeOut net2 (NodeRef.trans i) = [])
    (hzi : nodeIn net2 (NodeRef.trans i) = []) :
    WfFacts (renameTransRef
      { net2 with transitions := (net2.transitions.set i
          { net2.transitions.getD (net2.transitions.length - 1) dummyTrans with id := i }).dropLast }
      (net2.transitions.length - 1) i) := by
  set P := net2.transitions.length with hP
  set E := net2.edges.length with hE
  set last := net2.transitions.getD (P - 1) dummyTrans with hlastd
  set net3 : PetriNet :=
    { net2 with transitions := (net2.transitions.set i { last with id := i }).dropLast } with hnet3
  set N := renameTransRef net3 (P - 1) i with hNdef
  have hplen3 : net3.transitions.length = P - 1 := by
    show ((net2.transitions.set _ _).dropLast).length = _
    rw [List.length_dropLast, List.length_set]
  have hplenN : N.transitions.length = P - 1 := by
    rw [hNdef, renameTransRef_transitions]
    exact hplen3
  have htlenN : N.places.length = net2.places.length := by
    rw [hNdef]
    rfl
  have helenN : N.edges.length = E := by
    rw [hNdef, renameTransRef_edges_length]
  have htrans3 : ∀ {j}, j < P - 1 →
      net3.transitions.getD j dummyTrans =
        if j = i then { last with id := i } else net2.transitions.getD j dummyTrans := by
    intro j hj
    show ((net2.transitions.set i _).dropLast).getD j dummyTrans = _
    rw [getD_dropLast _ _ _ (by rw [List.length_set]; exact hj), getD_set_apply]
    by_cases hij : j = i
    · rw [if_pos hij, if_pos ⟨hij.symm, by omega⟩]
    · rw [if_neg hij, if_neg (fun hc => hij hc.1.symm)]
  have hnoSrc : ∀ eid, eid < E → edgeSrc net2 eid ≠ NodeRef.trans i := by
    intro eid he hc
    have := hf2.memOut eid he
    rw [hc, hzo] at this
    cases this
  have hnoDst : ∀ eid, eid < E → edgeDst net2 eid ≠ NodeRef.trans i := by
    intro eid he hc
    have := hf2.memIn eid he
    rw [hc, hzi] at this
    cases this
  have hed : ∀ {j}, j < E →
      N.edges.getD j dummyEdge =
        { net2.edges.getD j dummyEdge with
          src := if edgeSrc net2 j = NodeRef.trans (P - 1)
            then NodeRef.trans i else edgeSrc net2 j,
          dst := if edgeDst net2 j = NodeRef.trans (P - 1)
            then NodeRef.trans i else edgeDst net2 j } := by
    intro j hj
    rw [hNdef]
    exact edges_renameTransRef net3 (P - 1) i hj
  have hrvp : ∀ j, refValidB N (NodeRef.trans j) = true ↔ j < P - 1 := by
    intro j
    show decide (j < N.transitions.length) = true ↔ _
    rw [hplenN]
    simp
  have hrvt : ∀ j, refValidB N (NodeRef.place j) = refValidB net2 (NodeRef.place j) := by
    intro j
    show decide (j < N.places.length) = _
    rw [htlenN]
    rfl
  have houtN : ∀ d, nodeOut N d = nodeOut net3 d := fun d => by
    rw [hNdef, nodeOut_renameTransRef]
  have hinN : ∀ d, nodeIn N d = nodeIn net3 d := fun d => by
    rw [hNdef, nodeIn_renameTransRef]
  have hout3 : ∀ {j}, j < P - 1 →
      nodeOut net3 (NodeRef.trans j) =
        if j = i then nodeOut net2 (NodeRef.trans (P - 1))
        else nodeOut net2 (NodeRef.trans j) := by
    intro j hj
    show (net3.transitions.getD j dummyTrans).outE = _
    rw [htrans3 hj]
    by_cases hij : j = i
    · rw [if_pos hij, if_pos hij]
      rfl
    · rw [if_neg hij, if_neg hij]
      rfl
  have hin3 : ∀ {j}, j < P - 1 →
      nodeIn net3 (NodeRef.trans j) =
        if j = i then nodeIn net2 (NodeRef.trans (P - 1))
        else nodeIn net2 (NodeRef.trans j) := by
    intro j hj
    show (net3.transitions.getD j dummyTrans).inE = _
    rw [htrans3 hj]
    by_cases hij : j = i
    · rw [if_pos hij, if_pos hij]
      rfl
    · rw [if_neg hij, if_neg hij]
      rfl
  have hout3t : ∀ j, nodeOut net3 (NodeRef.place j) = nodeOut net2 (NodeRef.place j) :=
    fun j => rfl
  have hin3t : ∀ j, nodeIn net3 (NodeRef.place j) = nodeIn net2 (NodeRef.place j) :=
    fun j => rfl
  constructor
  case transId =>
    intro j hj
    rw [hplenN] at hj
    show ((renameTransRef net3 _ _).transitions.getD j dummyTrans).id = j
    rw [renameTransRef_transitions, htrans3 hj]
    by_cases hij : j = i
    · rw [if_pos hij, hij]
    · rw [if_neg hij]
      exact hf2.transId j (by omega)
  case placeId =>
    intro j hj
    rw [htlenN] at hj
    exact hf2.placeId j hj
  case edgeId =>
    intro j hj
    rw [helenN] at hj
    show (N.edges.getD j dummyEdge).id = j
    rw [hed hj]
    exact hf2.edgeId j hj
  case edgeBip =>
    intro j hj
    rw [helenN] at hj
    show sameKind (N.edges.getD j dummyEdge).src (N.edges.getD j dummyEdge).dst = false
    rw [hed hj]
    show sameKind (if _ then _ else _) (if _ then _ else _) = false
    rw [sameKind_if_trans]
    exact hf2.edgeBip j hj
  case srcValid =>
    intro j hj
    rw [helenN] at hj
    show refValidB N (N.edges.getD j dummyEdge).src = true
    rw [hed hj]
    show refValidB N (if _ then _ else _) = true
    by_cases hs : edgeSrc net2 j = NodeRef.trans (P - 1)
    · rw [if_pos hs, hrvp]
      have hip : i ≠ P - 1 := by
        intro hc
        exact hnoSrc j hj (by rw [hs, hc])
      omega
    · rw [if_neg hs]
      have hv := hf2.srcValid j hj
      rcases hcase : edgeSrc net2 j with jp | jt
      · rw [hcase] at hv
        rw [hrvt]
        exact hv
      · rw [hcase] at hv hs
        have hjt : jt < P := by simpa [refValidB] using hv
        rw [hrvp]
        have : jt ≠ P - 1 := fun hc => hs (by rw [hc])
        omega
  case dstValid =>
    intro j hj
    rw [helenN] at hj
    show refValidB N (N.edges.getD j dummyEdge).dst = true
    rw [hed hj]
    show refValidB N (if _ then _ else _) = true
    by_cases hs : edgeDst net2 j = NodeRef.trans (P - 1)
    · rw [if_pos hs, hrvp]
      have hip : i ≠ P - 1 := by
        intro hc
        exact hnoDst j hj (by rw [hs, hc])
      omega
    · rw [if_neg hs]
      have hv := hf2.dstValid j hj
      rcases hcase : edgeDst net2 j with jp | jt
      · rw [hcase] at hv
        rw [hrvt]
        exact hv
      · rw [hcase] at hv hs
        have hjt : jt < P := by simpa [refValidB] using hv
        rw [hrvp]
        have : jt ≠ P - 1 := fun hc => hs (by rw [hc])
        omega
  case outAdj =>
    intro r hr eid he
    rw [houtN] at he
    cases r with
    | trans j =>
      have hj : j < P - 1 := (hrvp j).1 hr
      rw [hout3 hj] at he
      by_cases hij : j = i
      · rw [if_pos hij] at he
        have hv : refValidB net2 (NodeRef.trans (P - 1)) = true := by
          show decide (P - 1 < P) = true
          simp
          omega
        obtain ⟨helt, hsrc⟩ := hf2.outAdj _ hv eid he
        refine ⟨by rwa [helenN], ?_⟩
        show (N.edges.getD eid dummyEdge).src = _
        rw [hed helt, hij]
        show (if _ then _ else _) = _
        rw [hsrc, if_pos rfl]
      · rw [if_neg hij] at he
        have hv : refValidB net2 (NodeRef.trans j) = true := by
          show decide (j < P) = true
          simp
          omega
        obtain ⟨helt, hsrc⟩ := hf2.outAdj _ hv eid he
        refine ⟨by rwa [helenN], ?_⟩
        show (N.edges.getD eid dummyEdge).src = _
        rw [hed helt]
        show (if _ then _ else _) = _
        rw [hsrc, if_neg (by intro hc; cases hc; omega)]
    | place j =>
      rw [hout3t] at he
      have hv : refValidB net2 (NodeRef.place j) = true := by rwa [hrvt] at hr
      obtain ⟨helt, hsrc⟩ := hf2.outAdj _ hv eid he
      refine ⟨by rwa [helenN], ?_⟩
      show (N.edges.getD eid dummyEdge).src = _
      rw [hed helt]
      show (if _ then _ else _) = _
      rw [hsrc, if_neg (by intro hc; cases hc)]
  case inAdj =>
    intro r hr eid he
    rw [hinN] at he
    cases r with
    | trans j =>
      have hj : j < P - 1 := (hrvp j).1 hr
      rw [hin3 hj] at he
      by_cases hij : j = i
      · rw [if_pos hij] at he
        have hv : refValidB net2 (NodeRef.trans (P - 1)) = true := by
          show decide (P - 1 < P) = true
          simp
          omega
        obtain ⟨helt, hdst⟩ := hf2.inAdj _ hv eid he
        refine ⟨by rwa [helenN], ?_⟩
        show (N.edges.getD eid dummyEdge).dst = _
        rw [hed helt, hij]
        show (if _ then _ else _) = _
        rw [hdst, if_pos rfl]
      · rw [if_neg hij] at he
        have hv : refValidB net2 (NodeRef.trans j) = true := by
          show decide (j < P) = true
          simp
          omega
        obtain ⟨helt, hdst⟩ := hf2.inAdj _ hv eid he
        refine ⟨by rwa [helenN], ?_⟩
        show (N.edges.getD eid dummyEdge).dst = _
        rw [hed helt]
        show (if _ then _ else _) = _
        rw [hdst, if_neg (by intro hc; cases hc; omega)]
    | place j =>
      rw [hin3t] at he
      have hv : refValidB net2 (NodeRef.place j) = true := by rwa [hrvt] at hr
      obtain ⟨helt, hdst⟩ := hf2.inAdj _ hv eid he
      refine ⟨by rwa [helenN], ?_⟩
      show (N.edges.getD eid dummyEdge).dst = _
      rw [hed helt]
      show (if _ then _ else _) = _
      rw [hdst, if_neg (by intro hc; cases hc)]
  case memOut =>
    intro eid he
    rw [helenN] at he
    have hsE : edgeSrc N eid =
        if edgeSrc net2 eid = NodeRef.trans (P - 1) then NodeRef.trans i
        else edgeSrc net2 eid := by
      show (N.edges.getD eid dummyEdge).src = _
      rw [hed he]
    have hmem := hf2.memOut eid he
    by_cases hs : edgeSrc net2 eid = NodeRef.trans (P - 1)
    · rw [hsE, if_pos hs, houtN]
      have hip : i ≠ P - 1 := by
        intro hc
        exact hnoSrc eid he (by rw [hs, hc])
      rw [hout3 (by omega), if_pos rfl, ← hs]
      exact hmem
    · rw [hsE, if_neg hs, houtN]
      rcases hcase : edgeSrc net2 eid with jp | jt
      · rw [hcase] at hmem
        rw [hout3t]
        exact hmem
      · rw [hcase] at hs hmem
        have hjt : jt < P := by
          have := hf2.srcValid eid he
          rw [hcase] at this
          simpa [refValidB] using this
        have hjt1 : jt < P - 1 := by
          have : jt ≠ P - 1 := fun hc => hs (by rw [hc])
          omega
        have hji : jt ≠ i := by
          intro hc
          exact hnoSrc eid he (by rw [hcase, hc])
        rw [hout3 hjt1, if_neg hji]
        exact hmem
  case memIn =>
    intro eid he
    rw [helenN] at he
    have hsE : edgeDst N eid =
        if edgeDst net2 eid = NodeRef.trans (P - 1) then NodeRef.trans i
        else edgeDst net2 eid := by
      show (N.edges.getD eid dummyEdge).dst = _
      rw [hed he]
    have hmem := hf2.memIn eid he
    by_cases hs : edgeDst net2 eid = NodeRef.trans (P - 1)
    · rw [hsE, if_pos hs, hinN]
      have hip : i ≠ P - 1 := by
        intro hc
        exact hnoDst eid he (by rw [hs, hc])
      rw [hin3 (by omega), if_pos rfl, ← hs]
      exact hmem
    · rw [hsE, if_neg hs, hinN]
      rcases hcase : edgeDst net2 eid with jp | jt
      · rw [hcase] at hmem
        rw [hin3t]
        exact hmem
      · rw [hcase] at hs hmem
        have hjt : jt < P := by
          have := hf2.dstValid eid he
          rw [hcase] at this
          simpa [refValidB] using this
        have hjt1 : jt < P - 1 := by
          have : jt ≠ P - 1 := fun hc => hs (by rw [hc])
          omega
        have hji : jt ≠ i := by
          intro hc
          exact hnoDst eid he (by rw [hcase, hc])
        rw [hin3 hjt1, if_neg hji]
        exact hmem
  case outNodup =>
    intro r hr
    rw [houtN]
    cases r with
    | trans j =>
      have hj : j < P - 1 := (hrvp j).1 hr
      rw [hout3 hj]
      split
      · exact hf2.outNodup _ (by show decide (P - 1 < P) = true; simp; omega)
      · exact hf2.outNodup _ (by show decide (j < P) = true; simp; omega)
    | place j =>
      rw [hout3t]
      exact hf2.outNodup _ (by rwa [hrvt] at hr)
  case inNodup =>
    intro r hr
    rw [hinN]
    cases r with
    | trans j =>
      have hj : j < P - 1 := (hrvp j).1 hr
      rw [hin3 hj]
      split
      · exact hf2.inNodup _ (by show decide (P - 1 < P) = true; simp; omega)
      · exact hf2.inNodup _ (by show decide (j < P) = true; simp; omega)
    | place j =>
      rw [hin3t]
      exact hf2.inNodup _ (by rwa [hrvt] at hr)
  case pairUniq =>
    intro a ha b hb hs hd
    rw [helenN] at ha hb
    have hsa : edgeSrc N a =
        if edgeSrc net2 a = NodeRef.trans (P - 1) then NodeRef.trans i
        else edgeSrc net2 a := by
      show (N.edges.getD a dummyEdge).src = _
      rw [hed ha]
    have hsb : edgeSrc N b =
        if edgeSrc net2 b = NodeRef.trans (P - 1) then NodeRef.trans i
        else edgeSrc net2 b := by
      show (N.edges.getD b dummyEdge).src = _
      rw [hed hb]
    have hda : edgeDst N a =
        if edgeDst net2 a = NodeRef.trans (P - 1) then NodeRef.trans i
        else edgeDst net2 a := by
      show (N.edges.getD a dummyEdge).dst = _
      rw [hed ha]
    have hdb : edgeDst N b =
        if edgeDst net2 b = NodeRef.trans (P - 1) then NodeRef.trans i
        else edgeDst net2 b := by
      show (N.edges.getD b dummyEdge).dst = _
      rw [hed hb]
    rw [hsa, hsb] at hs
    rw [hda, hdb] at hd
    have hinj : ∀ x y : NodeRef, x ≠ NodeRef.trans i → y ≠ NodeRef.trans i →
        (if x = NodeRef.trans (P - 1) then NodeRef.trans i else x) =
        (if y = NodeRef.trans (P - 1) then NodeRef.trans i else y) → x = y := by
      intro x y hx hy hxy
      by_cases hxm : x = NodeRef.trans (P - 1) <;> by_cases hym : y = NodeRef.trans (P - 1)
      · rw [hxm, hym]
      · rw [if_pos hxm, if_neg hym] at hxy
        exact absurd hxy.symm hy
      · rw [if_neg hxm, if_pos hym] at hxy
        exact absurd hxy hx
      · rwa [if_neg hxm, if_neg hym] at hxy
    have hs2 : edgeSrc net2 a = edgeSrc net2 b :=
      hinj _ _ (hnoSrc a ha) (hnoSrc b hb) hs
    have hd2 : edgeDst net2 a = edgeDst net2 b :=
      hinj _ _ (hnoDst a ha) (hnoDst b hb) hd
    exact hf2.pairUniq a ha b hb hs2 hd2

theorem wfFacts_setPlaceNames {net : PetriNet} (hf : WfFacts net) (a : List Bool) (b : List Int) :
    WfFacts { net with placeNames := a, placeNegNames := b } :=
  ⟨hf.placeId, hf.transId, hf.edgeId, hf.edgeBip, hf.srcValid, hf.dstValid, hf.outAdj,
    hf.inAdj, hf.memOut, hf.memIn, hf.outNodup, hf.inNodup, hf.pairUniq⟩

theorem wfFacts_setTransNames {net : PetriNet} (hf : WfFacts net) (a : List Bool) (b : List Int) :
    WfFacts { net with transitionNames := a, transitionNegNames := b } :=
  ⟨hf.placeId, hf.transId, hf.edgeId, hf.edgeBip, hf.srcValid, hf.dstValid, hf.outAdj,
    hf.inAdj, hf.memOut, hf.memIn, hf.outNodup, hf.inNodup, hf.pairUniq⟩

theorem removePlace_guard_fail {net : PetriNet} {i : Nat}
    (h : ¬(i < net.places.length ∧ (net.places.getD i dummyPlace).id = i)) :
    removePlace net i = .error (.unrelatedReference, net) := by
  rw [removePlace, if_pos]
  simp only [Bool.not_eq_true']
  rw [Bool.and_eq_false_iff]
  by_cases h1 : i < net.places.length
  · right
    simp only [beq_eq_false_iff_ne, ne_eq]
    exact fun hc => h ⟨h1, hc⟩
  · left
    simpa using h1

theorem removeTransition_guard_fail {net : PetriNet} {i : Nat}
    (h : ¬(i < net.transitions.length ∧ (net.transitions.getD i dummyTrans).id = i)) :
    removeTransition net i = .error (.unrelatedReference, net) := by
  rw [removeTransition, if_pos]
  simp only [Bool.not_eq_true']
  rw [Bool.and_eq_false_iff]
  by_cases h1 : i < net.transitions.length
  · right
    simp only [beq_eq_false_iff_ne, ne_eq]
    exact fun hc => h ⟨h1, hc⟩
  · left
    simpa using h1

theorem wfFacts_removePlace {net : PetriNet} (hf : WfFacts net) {i : Nat} {n' : PetriNet}
    (h : removePlace net i = .ok n') : WfFacts n' := by
  by_cases hg : i < net.places.length ∧ (net.places.getD i dummyPlace).id = i
  · have hr : refValidB net (NodeRef.place i) = true := by
      show decide (i < net.places.length) = true
      simp [hg.1]
    obtain ⟨net1, hok1, hf1, hr1, hz1, hpl1, htl1⟩ :=
      cascadeRemove_in_clear_aux (NodeRef.place i) ((net.places.getD i dummyPlace).inE).length
        _ net rfl hf hr (List.Perm.refl _)
    obtain ⟨net2, hok2, hf2, hr2, hzo2, hkeep2, hpl2, htl2⟩ :=
      cascadeRemove_out_clear_aux (NodeRef.place i) ((net1.places.getD i dummyPlace).outE).length
        _ net1 rfl hf1 hr1 (List.Perm.refl _)
    have hzi2 : nodeIn net2 (NodeRef.place i) = [] := hkeep2 hz1
    have hi2 : i < net2.places.length := by
      rw [hpl2, hpl1]
      exact hg.1
    have hc1 : (decide (i < net.places.length) &&
        ((net.places.getD i dummyPlace).id == i)) = true := by
      rw [hg.2]
      simp [hg.1]
    simp only [removePlace, hc1, Bool.not_true] at h
    rw [if_neg (by simp)] at h
    split at h
    · next heq =>
      rw [hok1] at heq
      cases heq
    · next n1 heq =>
      rw [hok1] at heq
      cases heq
      split at h
      · next heq2 =>
        rw [hok2] at heq2
        cases heq2
      · next n2 heq2 =>
        rw [hok2] at heq2
        cases heq2
        cases h
        exact wfFacts_setPlaceNames (wfFacts_placeCompact hf2 hi2 hzo2 hzi2) _ _
  · rw [removePlace_guard_fail hg] at h
    cases h

theorem removePlace_error_state {net : PetriNet} (hf : WfFacts net) {i : Nat}
    {e : PNError} {n'' : PetriNet} (h : removePlace net i = .error (e, n'')) : n'' = net := by
  by_cases hg : i < net.places.length ∧ (net.places.getD i dummyPlace).id = i
  · have hr : refValidB net (NodeRef.place i) = true := by
      show decide (i < net.places.length) = true
      simp [hg.1]
    obtain ⟨net1, hok1, hf1, hr1, hz1, hpl1, htl1⟩ :=
      cascadeRemove_in_clear_aux (NodeRef.place i) ((net.places.getD i dummyPlace).inE).length
        _ net rfl hf hr (List.Perm.refl _)
    obtain ⟨net2, hok2, hf2, hr2, hzo2, hkeep2, hpl2, htl2⟩ :=
      cascadeRemove_out_clear_aux (NodeRef.place i) ((net1.places.getD i dummyPlace).outE).length
        _ net1 rfl hf1 hr1 (List.Perm.refl _)
    have hc1 : (decide (i < net.places.length) &&
        ((net.places.getD i dummyPlace).id == i)) = true := by
      rw [hg.2]
      simp [hg.1]
    simp only [removePlace, hc1, Bool.not_true] at h
    rw [if_neg (by simp)] at h
    split at h
    · next heq =>
      rw [hok1] at heq
      cases heq
    · next n1 heq =>
      rw [hok1] at heq
      cases heq
      split at h
      · next heq2 =>
        rw [hok2] at heq2
        cases heq2
      · next n2 heq2 =>
        rw [hok2] at heq2
        cases heq2
        cases h
  · rw [removePlace_guard_fail hg] at h
    cases h
    rfl

theorem wfFacts_removeTransition {net : PetriNet} (hf : WfFacts net) {i : Nat} {n' : PetriNet}
    (h : removeTransition net i = .ok n') : WfFacts n' := by
  by_cases hg : i < net.transitions.length ∧ (net.transitions.getD i dummyTrans).id = i
  · have hr : refValidB net (NodeRef.trans i) = true := by
      show decide (i < net.transitions.length) = true
      simp [hg.1]
    obtain ⟨net1, hok1, hf1, hr1, hz1, hpl1, htl1⟩ :=
      cascadeRemove_in_clear_aux (NodeRef.trans i)
        ((net.transitions.getD i dummyTrans).inE).length
        _ net rfl hf hr (List.Perm.refl _)
    obtain ⟨net2, hok2, hf2, hr2, hzo2, hkeep2, hpl2, htl2⟩ :=
      cascadeRemove_out_clear_aux (NodeRef.trans i)
        ((net1.transitions.getD i dummyTrans).outE).length
        _ net1 rfl hf1 hr1 (List.Perm.refl _)
    have hzi2 : nodeIn net2 (NodeRef.trans i) = [] := hkeep2 hz1
    have hi2 : i < net2.transitions.length := by
      rw [htl2, htl1]
      exact hg.1
    have hc1 : (decide (i < net.transitions.length) &&
        ((net.transitions.getD i dummyTrans).id == i)) = true := by
      rw [hg.2]
      simp [hg.1]
    simp only [removeTransition, hc1, Bool.not_true] at h
    rw [if_neg (by simp)] at h
    split at h
    · next heq =>
      rw [hok1] at heq
      cases heq
    · next n1 heq =>
      rw [hok1] at heq
      cases heq
      split at h
      · next heq2 =>
        rw [hok2] at heq2
        cases heq2
      · next n2 heq2 =>
        rw [hok2] at heq2
        cases heq2
        cases h
        exact wfFacts_setTransNames (wfFacts_transCompact hf2 hi2 hzo2 hzi2) _ _
  · rw [removeTransition_guard_fail hg] at h
    cases h

theorem removeTransition_error_state {net : PetriNet} (hf : WfFacts net) {i : Nat}
    {e : PNError} {n'' : PetriNet} (h : removeTransition net i = .error (e, n'')) : n'' = net := by
  by_cases hg : i < net.transitions.length ∧ (net.transitions.getD i dummyTrans).id = i
  · have hr : refValidB net (NodeRef.trans i) = true := by
      show decide (i < net.transitions.length) = true
      simp [hg.1]
    obtain ⟨net1, hok1, hf1, hr1, hz1, hpl1, htl1⟩ :=
      cascadeRemove_in_clear_aux (NodeRef.trans i)
        ((net.transitions.getD i dummyTrans).inE).length
        _ net rfl hf hr (List.Perm.refl _)
    obtain ⟨net2, hok2, hf2, hr2, hzo2, hkeep2, hpl2, htl2⟩ :=
      cascadeRemove_out_clear_aux (NodeRef.trans i)
        ((net1.transitions.getD i dummyTrans).outE).length
        _ net1 rfl hf1 hr1 (List.Perm.refl _)
    have hc1 : (decide (i < net.transitions.length) &&
        ((net.transitions.getD i dummyTrans).id == i)) = true := by
      rw [hg.2]
      simp [hg.1]
    simp only [removeTransition, hc1, Bool.not_true] at h
    rw [if_neg (by simp)] at h
    split at h
    · next heq =>
      rw [hok1] at heq
      cases heq
    · next n1 heq =>
      rw [hok1] at heq
      cases heq
      split at h
      · next heq2 =>
        rw [hok2] at heq2
        cases heq2
      · next n2 heq2 =>
        rw [hok2] at heq2
        cases heq2
        cases h
  · rw [removeTransition_guard_fail hg] at h
    cases h
    rfl

/-- The invariant fragment that survives the transformation's adjacency
clearing: dense identities, bipartite valid edges, and every adjacency
entry matching an edge of the collection (the other direction of the
symmetry, and the duplicate-freedom, are broken by `place.out = []` /
`transition.in = []`). -/
structure TfFacts (net : PetriNet) : Prop where
  placeId : ∀ i, i < net.places.length → (net.places.getD i dummyPlace).id = i
  transId : ∀ i, i < net.transitions.length → (net.transitions.getD i dummyTrans).id = i
  edgeId : ∀ i, i < net.edges.length → (net.edges.getD i dummyEdge).id = i
  edgeBip : ∀ eid, eid < net.edges.length →
    sameKind (edgeSrc net eid) (edgeDst net eid) = false
  srcValid : ∀ eid, eid < net.edges.length → refValidB net (edgeSrc net eid) = true
  dstValid : ∀ eid, eid < net.edges.length → refValidB net (edgeDst net eid) = true
  outAdj : ∀ r, refValidB net r = true → ∀ eid ∈ nodeOut net r,
    eid < net.edges.length ∧ edgeSrc net eid = r
  inAdj : ∀ r, refValidB net r = true → ∀ eid ∈ nodeIn net r,
    eid < net.edges.length ∧ edgeDst net eid = r

theorem tfFacts_of_wfFacts {net : PetriNet} (hf : WfFacts net) : TfFacts net :=
  ⟨hf.placeId, hf.transId, hf.edgeId, hf.edgeBip, hf.srcValid, hf.dstValid,
    hf.outAdj, hf.inAdj⟩

theorem tfFacts_appendPlace {net : PetriNet} (hf : TfFacts net) (p : PlaceData)
    (hid : p.id = net.places.length) (hin : p.inE = []) (hout : p.outE = [])
    (pn : List Bool) (png : List Int) :
    TfFacts { net with places := net.places ++ [p], placeNames := pn, placeNegNames := png } := by
  constructor
  case placeId =>
    intro j hj
    show ((net.places ++ [p]).getD j dummyPlace).id = j
    rw [getD_append_singleton]
    by_cases h1 : j < net.places.length
    · rw [if_pos h1]
      exact hf.placeId j h1
    · have h2 : j = net.places.length := by
        simp only [List.length_append, List.length_singleton] at hj
        omega
      rw [if_neg h1, if_pos h2, hid, h2]
  case transId => exact hf.transId
  case edgeId => exact hf.edgeId
  case edgeBip => exact hf.edgeBip
  case srcValid =>
    intro eid he
    have := hf.srcValid eid he
    match hsrc : edgeSrc net eid with
    | .place k =>
      rw [hsrc] at this
      show refValidB _ (.place k) = true
      simp only [refValidB, List.length_append, List.length_singleton,
        decide_eq_true_eq] at this ⊢
      omega
    | .trans k =>
      rw [hsrc] at this
      exact this
  case dstValid =>
    intro eid he
    have := hf.dstValid eid he
    match hdst : edgeDst net eid with
    | .place k =>
      rw [hdst] at this
      show refValidB _ (.place k) = true
      simp only [refValidB, List.length_append, List.length_singleton,
        decide_eq_true_eq] at this ⊢
      omega
    | .trans k =>
      rw [hdst] at this
      exact this
  case outAdj =>
    intro r hr eid he
    match r, hr with
    | .place k, hr =>
      have he' : eid ∈ ((net.places ++ [p]).getD k dummyPlace).outE := he
      rw [getD_append_singleton] at he'
      by_cases h1 : k < net.places.length
      · rw [if_pos h1] at he'
        exact hf.outAdj (.place k) (by simp [refValidB, h1]) eid he'
      · rw [if_neg h1] at he'
        split at he'
        · rw [hout] at he'
          cases he'
        · cases he'
    | .trans k, hr =>
      exact hf.outAdj (.trans k) hr eid he
  case inAdj =>
    intro r hr eid he
    match r, hr with
    | .place k, hr =>
      have he' : eid ∈ ((net.places ++ [p]).getD k dummyPlace).inE := he
      rw [getD_append_singleton] at he'
      by_cases h1 : k < net.places.length
      · rw [if_pos h1] at he'
        exact hf.inAdj (.place k) (by simp [refValidB, h1]) eid he'
      · rw [if_neg h1] at he'
        split at he'
        · rw [hin] at he'
          cases he'
        · cases he'
    | .trans k, hr =>
      exact hf.inAdj (.trans k) hr eid he

theorem tfFacts_appendTrans {net : PetriNet} (hf : TfFacts net) (t : TransData)
    (hid : t.id = net.transitions.length) (hin : t.inE = []) (hout : t.outE = [])
    (tn : List Bool) (tng : List Int) :
    TfFacts { net with transitions := net.transitions ++ [t], transitionNames := tn, transitionNegNames := tng } := by
  constructor
  case placeId => exact hf.placeId
  case transId =>
    intro j hj
    show ((net.transitions ++ [t]).getD j dummyTrans).id = j
    rw [getD_append_singleton]
    by_cases h1 : j < net.transitions.length
    · rw [if_pos h1]
      exact hf.transId j h1
    · have h2 : j = net.transitions.length := by
        simp only [List.length_append, List.length_singleton] at hj
        omega
      rw [if_neg h1, if_pos h2, hid, h2]
  case edgeId => exact hf.edgeId
  case edgeBip => exact hf.edgeBip
  case srcValid =>
    intro eid he
    have := hf.srcValid eid he
    match hsrc : edgeSrc net eid with
    | .trans k =>
      rw [hsrc] at this
      show refValidB _ (.trans k) = true
      simp only [refValidB, List.length_append, List.length_singleton,
        decide_eq_true_eq] at this ⊢
      omega
    | .place k =>
      rw [hsrc] at this
      exact this
  case dstValid =>
    intro eid he
    have := hf.dstValid eid he
    match hdst : edgeDst net eid with
    | .trans k =>
      rw [hdst] at this
      show refValidB _ (.trans k) = true
      simp only [refValidB, List.length_append, List.length_singleton,
        decide_eq_true_eq] at this ⊢
      omega
    | .place k =>
      rw [hdst] at this
      exact this
  case outAdj =>
    intro r hr eid he
    match r, hr with
    | .trans k, hr =>
      have he' : eid ∈ ((net.transitions ++ [t]).getD k dummyTrans).outE := he
      rw [getD_append_singleton] at he'
      by_cases h1 : k < net.transitions.length
      · rw [if_pos h1] at he'
        exact hf.outAdj (.trans k) (by simp [refValidB, h1]) eid he'
      · rw [if_neg h1] at he'
        split at he'
        · rw [hout] at he'
          cases he'
        · cases he'
    | .place k, hr =>
      exact hf.outAdj (.place k) hr eid he
  case inAdj =>
    intro r hr eid he
    match r, hr with
    | .trans k, hr =>
      have he' : eid ∈ ((net.transitions ++ [t]).getD k dummyTrans).inE := he
      rw [getD_append_singleton] at he'
      by_cases h1 : k < net.transitions.length
      · rw [if_pos h1] at he'
        exact hf.inAdj (.trans k) (by simp [refValidB, h1]) eid he'
      · rw [if_neg h1] at he'
        split at he'
        · rw [hin] at he'
          cases he'
        · cases he'
    | .place k, hr =>
      exact hf.inAdj (.place k) hr eid he

theorem tfFacts_addEdge {net : PetriNet} (hf : TfFacts net) {src dst : NodeRef} {w : Int}
    {n' : PetriNet} {i : Nat} (h : addEdge net src dst w = .ok (n', i)) : TfFacts n' := by
  obtain ⟨rfl, hbs, hbd, hkind, hdup1, hdup2, rfl⟩ := addEdge_ok h
  have hsv : refValidB net src = true := belongs_refValid hbs
  have hdv : refValidB net dst = true := belongs_refValid hbd
  have hsd : src ≠ dst := by
    intro hc
    rw [hc] at hkind
    cases dst <;> simp [sameKind] at hkind
  set E := net.edges.length with hE
  set net1 := pushOut net src E with hnet1
  set net2 := pushIn net1 dst E with hnet2
  have hedges2 : net2.edges = net.edges := by
    rw [hnet2, pushIn_edges, hnet1, pushOut_edges]
  set newE : EdgeData := { id := E, src := src, dst := dst, weight := w } with hnewE
  set N : PetriNet := { net2 with edges := net2.edges ++ [newE] } with hN
  have hNplaces : N.places = net2.places := rfl
  have hNedges : N.edges = net.edges ++ [newE] := by
    rw [hN]
    simp only
    rw [hedges2]
  have hlenN : N.edges.length = E + 1 := by
    rw [hNedges]
    simp [hE]
  have hsrcN : ∀ j, j < E → edgeSrc N j = edgeSrc net j := by
    intro j hj
    show (N.edges.getD j dummyEdge).src = _
    rw [hNedges, getD_append_left hj]
    rfl
  have hdstN : ∀ j, j < E → edgeDst N j = edgeDst net j := by
    intro j hj
    show (N.edges.getD j dummyEdge).dst = _
    rw [hNedges, getD_append_left hj]
    rfl
  have hsrcE : edgeSrc N E = src := by
    show (N.edges.getD E dummyEdge).src = src
    rw [hNedges, hE, getD_concat_length]
  have hdstE : edgeDst N E = dst := by
    show (N.edges.getD E dummyEdge).dst = dst
    rw [hNedges, hE, getD_concat_length]
  have hrvN : ∀ d, refValidB N d = refValidB net d := by
    intro d
    show refValidB net2 d = _
    rw [hnet2, refValidB_pushIn, hnet1, refValidB_pushOut]
  have houtN : ∀ d, nodeOut N d = if d = src then nodeOut net d ++ [E] else nodeOut net d := by
    intro d
    show nodeOut net2 d = _
    rw [hnet2, nodeOut_pushIn, hnet1, nodeOut_pushOut net hsv]
  have hinN : ∀ d, nodeIn N d = if d = dst then nodeIn net d ++ [E] else nodeIn net d := by
    intro d
    show nodeIn net2 d = _
    have hdv1 : refValidB net1 dst = true := by
      rw [hnet1, refValidB_pushOut]
      exact hdv
    rw [hnet2, nodeIn_pushIn net1 hdv1]
    rw [hnet1, nodeIn_pushOut]
  have hplaceId : ∀ j, (N.places.getD j dummyPlace).id = (net.places.getD j dummyPlace).id := by
    intro j
    rw [hNplaces, hnet2, (placeGetD_pushIn net1 dst E j).1, hnet1,
      (placeGetD_pushOut net src E j).1]
  have htransId : ∀ j,
      (N.transitions.getD j dummyTrans).id = (net.transitions.getD j dummyTrans).id := by
    intro j
    show (net2.transitions.getD j dummyTrans).id = _
    rw [hnet2, (transGetD_pushIn net1 dst E j).1, hnet1, (transGetD_pushOut net src E j).1]
  have hplen : N.places.length = net.places.length := by
    rw [hNplaces, hnet2, pushIn_places_length, hnet1, pushOut_places_length]
  have htlen : N.transitions.length = net.transitions.length := by
    show net2.transitions.length = _
    rw [hnet2, pushIn_transitions_length, hnet1, pushOut_transitions_length]
  have hno : ∀ oid ∈ nodeOut net src, edgeDst net oid ≠ dst := by
    intro oid ho hd
    rw [Bool.eq_false_iff] at hdup1
    exact hdup1 (List.any_eq_true.2 ⟨oid, ho, by simp [hd]⟩)
  constructor
  case placeId =>
    intro j hj
    rw [hplaceId j]
    exact hf.placeId j (by rwa [hplen] at hj)
  case transId =>
    intro j hj
    rw [htransId j]
    exact hf.transId j (by rwa [htlen] at hj)
  case edgeId =>
    intro j hj
    rw [hlenN] at hj
    show (N.edges.getD j dummyEdge).id = j
    rw [hNedges]
    by_cases h1 : j < E
    · rw [getD_append_left h1]
      exact hf.edgeId j h1
    · have : j = E := by omega
      rw [this, hE, getD_concat_length]
  case edgeBip =>
    intro j hj
    rw [hlenN] at hj
    by_cases h1 : j < E
    · rw [hsrcN j h1, hdstN j h1]
      exact hf.edgeBip j h1
    · have hj' : j = E := by omega
      rw [hj', hsrcE, hdstE]
      exact hkind
  case srcValid =>
    intro j hj
    rw [hlenN] at hj
    rw [hrvN]
    by_cases h1 : j < E
    · rw [hsrcN j h1]
      exact hf.srcValid j h1
    · have hj' : j = E := by omega
      rw [hj', hsrcE]
      exact hsv
  case dstValid =>
    intro j hj
    rw [hlenN] at hj
    rw [hrvN]
    by_cases h1 : j < E
    · rw [hdstN j h1]
      exact hf.dstValid j h1
    · have hj' : j = E := by omega
      rw [hj', hdstE]
      exact hdv
  case outAdj =>
    intro r hr eid he
    rw [hrvN] at hr
    rw [houtN] at he
    by_cases hrs : r = src
    · rw [if_pos hrs] at he
      rcases List.mem_append.1 he with hold | hnew
      · obtain ⟨hlt, hsrc⟩ := hf.outAdj r hr eid hold
        refine ⟨by omega, ?_⟩
        rw [hsrcN eid hlt]
        exact hsrc
      · rw [List.mem_singleton.1 hnew]
        exact ⟨by omega, by rw [hsrcE, hrs]⟩
    · rw [if_neg hrs] at he
      obtain ⟨hlt, hsrc⟩ := hf.outAdj r hr eid he
      refine ⟨by omega, ?_⟩
      rw [hsrcN eid hlt]
      exact hsrc
  case inAdj =>
    intro r hr eid he
    rw [hrvN] at hr
    rw [hinN] at he
    by_cases hrd : r = dst
    · rw [if_pos hrd] at he
      rcases List.mem_append.1 he with hold | hnew
      · obtain ⟨hlt, hdst⟩ := hf.inAdj r hr eid hold
        refine ⟨by omega, ?_⟩
        rw [hdstN eid hlt]
        exact hdst
      · rw [List.mem_singleton.1 hnew]
        exact ⟨by omega, by rw [hdstE, hrd]⟩
    · rw [if_neg hrd] at he
      obtain ⟨hlt, hdst⟩ := hf.inAdj r hr eid he
      refine ⟨by omega, ?_⟩
      rw [hdstN eid hlt]
      exact hdst

theorem tfFacts_addPlace {net : PetriNet} (hf : TfFacts net) {nameId tokens : Int}
    {n' : PetriNet} {i : Nat} (h : addPlace net nameId tokens = .ok (n', i)) :
    TfFacts n' := by
  obtain ⟨rfl, nm, rfl⟩ := addPlace_ok h
  exact tfFacts_appendPlace hf _ rfl rfl rfl _ _

theorem tfFacts_addTransition {net : PetriNet} (hf : TfFacts net) {nameId : Int}
    {label : String} {n' : PetriNet} {i : Nat}
    (h : addTransition net nameId label = .ok (n', i)) : TfFacts n' := by
  obtain ⟨rfl, nm, rfl⟩ := addTransition_ok h
  exact tfFacts_appendTrans hf _ rfl rfl rfl _ _

theorem addPlace_runs {net : PetriNet} {nameId tokens : Int} (h : 0 ≤ tokens) :
    ∃ nm pn png, addPlace net nameId tokens =
      .ok ({ net with
        places := net.places ++
          [{ id := net.places.length, nameId := nm, tokens := tokens, inE := [], outE := [] }],
        placeNames := pn, placeNegNames := png }, net.places.length) := by
  simp only [addPlace, setNameIdRejects_false, Bool.false_eq_true, if_false]
  rw [if_neg (by omega)]
  exact ⟨_, _, _, rfl⟩

theorem addTransition_runs {net : PetriNet} {nameId : Int} {label : String}
    (h : labelOK label = true) :
    ∃ nm tn tng, addTransition net nameId label =
      .ok ({ net with
        transitions := net.transitions ++
          [{ id := net.transitions.length, nameId := nm, label := label, inE := [], outE := [] }],
        transitionNames := tn, transitionNegNames := tng }, net.transitions.length) := by
  simp only [addTransition, setNameIdRejects_false, Bool.false_eq_true, if_false, h,
    Bool.not_true]
  exact ⟨_, _, _, rfl⟩

/-- The state a successful `addEdge` delivers. -/
def addEdgeNet (net : PetriNet) (src dst : NodeRef) (w : Int) : PetriNet :=
  { pushIn (pushOut net src net.edges.length) dst net.edges.length with
    edges := net.edges ++
      [{ id := net.edges.length, src := src, dst := dst, weight := w }] }

theorem addEdge_runs {net : PetriNet} {src dst : NodeRef} (w : Int)
    (h1 : belongsNode net src = true) (h2 : belongsNode net dst = true)
    (h3 : sameKind src dst = false)
    (h4 : ∀ x ∈ nodeOut net src, edgeDst net x ≠ dst)
    (h5 : ∀ y ∈ nodeIn net dst, edgeSrc net y ≠ src) :
    addEdge net src dst w = .ok (addEdgeNet net src dst w, net.edges.length) := by
  have hc4 : ((nodeOut net src).any (fun oid => edgeDst net oid == dst)) = false := by
    rw [List.any_eq_false]
    intro x hx
    simpa using h4 x hx
  have hc5 : ((nodeIn (pushOut net src net.edges.length) dst).any
      (fun oid => edgeSrc (pushOut net src net.edges.length) oid == src)) = false := by
    rw [nodeIn_pushOut, List.any_eq_false]
    intro y hy
    rw [edgeSrc_pushOut]
    simpa using h5 y hy
  simp only [addEdge, h1, h2, h3, Bool.not_true, Bool.false_eq_true, if_false, hc4, hc5]
  show Except.ok _ = _
  rw [addEdgeNet]
  have he : (pushIn (pushOut net src net.edges.length) dst net.edges.length).edges =
      net.edges := by
    rw [pushIn_edges, pushOut_edges]
  rw [he]

theorem addEdgeNet_places_length (net : PetriNet) (src dst : NodeRef) (w : Int) :
    (addEdgeNet net src dst w).places.length = net.places.length := by
  show (pushIn (pushOut net src _) dst _).places.length = _
  rw [pushIn_places_length, pushOut_places_length]

theorem addEdgeNet_transitions_length (net : PetriNet) (src dst : NodeRef) (w : Int) :
    (addEdgeNet net src dst w).transitions.length = net.transitions.length := by
  show (pushIn (pushOut net src _) dst _).transitions.length = _
  rw [pushIn_transitions_length, pushOut_transitions_length]

theorem addEdgeNet_edges_length (net : PetriNet) (src dst : NodeRef) (w : Int) :
    (addEdgeNet net src dst w).edges.length = net.edges.length + 1 := by
  show (net.edges ++ [_]).length = _
  simp

theorem addEdgeNet_edges_old (net : PetriNet) (src dst : NodeRef) (w : Int) {j : Nat}
    (hj : j < net.edges.length) :
    (addEdgeNet net src dst w).edges.getD j dummyEdge = net.edges.getD j dummyEdge := by
  show (net.edges ++ [_]).getD j dummyEdge = _
  rw [getD_append_left hj]

theorem addEdgeNet_edges_new (net : PetriNet) (src dst : NodeRef) (w : Int) :
    (addEdgeNet net src dst w).edges.getD net.edges.length dummyEdge =
      { id := net.edges.length, src := src, dst := dst, weight := w } := by
  show (net.edges ++ [_]).getD net.edges.length dummyEdge = _
  rw [getD_concat_length]

theorem refValidB_addEdgeNet (net : PetriNet) (src dst : NodeRef) (w : Int) (d : NodeRef) :
    refValidB (addEdgeNet net src dst w) d = refValidB net d := by
  cases d with
  | place j =>
    show decide (j < (addEdgeNet net src dst w).places.length) = _
    rw [addEdgeNet_places_length]
    rfl
  | trans j =>
    show decide (j < (addEdgeNet net src dst w).transitions.length) = _
    rw [addEdgeNet_transitions_length]
    rfl

theorem nodeOut_addEdgeNet (net : PetriNet) {src : NodeRef} (dst : NodeRef) (w : Int)
    (hsv : refValidB net src = true) (d : NodeRef) :
    nodeOut (addEdgeNet net src dst w) d =
      if d = src then nodeOut net d ++ [net.edges.length] else nodeOut net d := by
  show nodeOut (pushIn (pushOut net src _) dst _) d = _
  rw [nodeOut_pushIn, nodeOut_pushOut net hsv]

theorem nodeIn_addEdgeNet (net : PetriNet) (src : NodeRef) {dst : NodeRef} (w : Int)
    (hdv : refValidB net dst = true) (d : NodeRef) :
    nodeIn (addEdgeNet net src dst w) d =
      if d = dst then nodeIn net d ++ [net.edges.length] else nodeIn net d := by
  show nodeIn (pushIn (pushOut net src _) dst _) d = _
  have hdv1 : refValidB (pushOut net src net.edges.length) dst = true := by
    rw [refValidB_pushOut]
    exact hdv
  rw [nodeIn_pushIn _ hdv1, nodeIn_pushOut]

theorem transLabel_pushOut (net : PetriNet) (r : NodeRef) (e : Nat) (j : Nat) :
    ((pushOut net r e).transitions.getD j dummyTrans).label =
      (net.transitions.getD j dummyTrans).label := by
  cases r with
  | trans k =>
    show ((net.transitions.set k _).getD j dummyTrans).label = _
    rw [getD_set_apply]
    split
    · next hc => rw [← hc.1]
    · rfl
  | place k => rfl

theorem transLabel_pushIn (net : PetriNet) (r : NodeRef) (e : Nat) (j : Nat) :
    ((pushIn net r e).transitions.getD j dummyTrans).label =
      (net.transitions.getD j dummyTrans).label := by
  cases r with
  | trans k =>
    show ((net.transitions.set k _).getD j dummyTrans).label = _
    rw [getD_set_apply]
    split
    · next hc => rw [← hc.1]
    · rfl
  | place k => rfl

theorem transLabel_addEdgeNet (net : PetriNet) (src dst : NodeRef) (w : Int) (j : Nat) :
    ((addEdgeNet net src dst w).transitions.getD j dummyTrans).label =
      (net.transitions.getD j dummyTrans).label := by
  show ((pushIn (pushOut net src _) dst _).transitions.getD j dummyTrans).label = _
  rw [transLabel_pushIn, transLabel_pushOut]

theorem foldlM_invariant {α σ ε : Type _} (f : σ → α → Except ε σ) :
    ∀ (l : List α) (P : Nat → σ → Prop) (s0 : σ), P 0 s0 →
      (∀ k s a, l[k]? = some a → P k s → ∃ s', f s a = .ok s' ∧ P (k + 1) s') →
      ∃ s', l.foldlM f s0 = .ok s' ∧ P l.length s' := by
  intro l
  induction l with
  | nil =>
    intro P s0 h0 hstep
    exact ⟨s0, rfl, h0⟩
  | cons a l ih =>
    intro P s0 h0 hstep
    obtain ⟨s1, hf1, hP1⟩ := hstep 0 s0 a (by simp) h0
    obtain ⟨s', heq, hP'⟩ := ih (fun k s => P (k + 1) s) s1 hP1
      (fun k s b hb hP => hstep (k + 1) s b (by simpa using hb) hP)
    refine ⟨s', ?_, hP'⟩
    rw [List.foldlM_cons, hf1]
    exact heq

/-- The sequence of transitions reached by a node's outgoing edges
(`place.out.map(edge => edge.to)` and the analogue for transitions). -/
def outDst (n : PetriNet) (r : NodeRef) : List NodeRef := (nodeOut n r).map (edgeDst n)

/-- The sequence of nodes feeding a node (`node.in.map(edge => edge.from)`). -/
def inSrc (n : PetriNet) (r : NodeRef) : List NodeRef := (nodeIn n r).map (edgeSrc n)

/-- Some edge of the collection runs from `r` to `d`. -/
def hasEdge (n : PetriNet) (r d : NodeRef) : Prop :=
  ∃ eid, eid < n.edges.length ∧ edgeSrc n eid = r ∧ edgeDst n eid = d

theorem nodeOut_invalid {net : PetriNet} {r : NodeRef} (hr : refValidB net r = false) :
    nodeOut net r = [] := by
  cases r with
  | place j =>
    show (net.places.getD j dummyPlace).outE = []
    rw [List.getD_eq_default]
    · rfl
    · simpa [refValidB] using hr
  | trans j =>
    show (net.transitions.getD j dummyTrans).outE = []
    rw [List.getD_eq_default]
    · rfl
    · simpa [refValidB] using hr

theorem nodeIn_invalid {net : PetriNet} {r : NodeRef} (hr : refValidB net r = false) :
    nodeIn net r = [] := by
  cases r with
  | place j =>
    show (net.places.getD j dummyPlace).inE = []
    rw [List.getD_eq_default]
    · rfl
    · simpa [refValidB] using hr
  | trans j =>
    show (net.transitions.getD j dummyTrans).inE = []
    rw [List.getD_eq_default]
    · rfl
    · simpa [refValidB] using hr

theorem mem_outDst_iff {net : PetriNet} (hf : WfFacts net) (r d : NodeRef) :
    d ∈ outDst net r ↔ hasEdge net r d := by
  constructor
  · intro h
    obtain ⟨eid, he, rfl⟩ := List.mem_map.1 h
    by_cases hr : refValidB net r = true
    · obtain ⟨hlt, hsrc⟩ := hf.outAdj r hr eid he
      exact ⟨eid, hlt, hsrc, rfl⟩
    · rw [nodeOut_invalid (by simpa using hr)] at he
      cases he
  · rintro ⟨eid, hlt, rfl, rfl⟩
    exact List.mem_map.2 ⟨eid, hf.memOut eid hlt, rfl⟩

theorem mem_inSrc_iff {net : PetriNet} (hf : WfFacts net) (r q : NodeRef) :
    q ∈ inSrc net r ↔ hasEdge net q r := by
  constructor
  · intro h
    obtain ⟨eid, he, rfl⟩ := List.mem_map.1 h
    by_cases hr : refValidB net r = true
    · obtain ⟨hlt, hdst⟩ := hf.inAdj r hr eid he
      exact ⟨eid, hlt, rfl, hdst⟩
    · rw [nodeIn_invalid (by simpa using hr)] at he
      cases he
  · rintro ⟨eid, hlt, rfl, rfl⟩
    exact List.mem_map.2 ⟨eid, hf.memIn eid hlt, rfl⟩

theorem outDst_nodup {net : PetriNet} (hf : WfFacts net) {r : NodeRef} :
    (outDst net r).Nodup := by
  by_cases hr : refValidB net r = true
  · refine List.Nodup.map_on ?_ (hf.outNodup r hr)
    intro x hx y hy hxy
    exact hf.pairUniq x (hf.outAdj r hr x hx).1 y (hf.outAdj r hr y hy).1
      ((hf.outAdj r hr x hx).2.trans (hf.outAdj r hr y hy).2.symm) hxy
  · rw [outDst, nodeOut_invalid (by simpa using hr)]
    exact List.nodup_nil

theorem inSrc_nodup {net : PetriNet} (hf : WfFacts net) {r : NodeRef} :
    (inSrc net r).Nodup := by
  by_cases hr : refValidB net r = true
  · refine List.Nodup.map_on ?_ (hf.inNodup r hr)
    intro x hx y hy hxy
    exact hf.pairUniq x (hf.inAdj r hr x hx).1 y (hf.inAdj r hr y hy).1 hxy
      ((hf.inAdj r hr x hx).2.trans (hf.inAdj r hr y hy).2.symm)
  · rw [inSrc, nodeIn_invalid (by simpa using hr)]
    exact List.nodup_nil

theorem nodeIn_length_eq {C net : PetriNet} (hfC : WfFacts C) (hfN : WfFacts net)
    (hmem : ∀ q t : NodeRef, hasEdge C q t ↔ hasEdge net q t) (r : NodeRef) :
    (nodeIn C r).length = (nodeIn net r).length := by
  have h1 : (nodeIn C r).length = (inSrc C r).length := by
    rw [inSrc, List.length_map]
  have h2 : (nodeIn net r).length = (inSrc net r).length := by
    rw [inSrc, List.length_map]
  rw [h1, h2]
  refine List.Perm.length_eq ?_
  refine (List.perm_ext_iff_of_nodup (inSrc_nodup hfC) (inSrc_nodup hfN)).2 ?_
  intro q
  rw [mem_inSrc_iff hfC, mem_inSrc_iff hfN]
  exact hmem q r

theorem wfFacts_emptyNet : WfFacts emptyNet := by
  constructor
  case placeId =>
    intro j hj
    simp [emptyNet] at hj
  case transId =>
    intro j hj
    simp [emptyNet] at hj
  case edgeId =>
    intro j hj
    simp [emptyNet] at hj
  case edgeBip =>
    intro j hj
    simp [emptyNet] at hj
  case srcValid =>
    intro j hj
    simp [emptyNet] at hj
  case dstValid =>
    intro j hj
    simp [emptyNet] at hj
  case outAdj =>
    intro r hr
    cases r <;> simp [refValidB, emptyNet] at hr
  case inAdj =>
    intro r hr
    cases r <;> simp [refValidB, emptyNet] at hr
  case memOut =>
    intro j hj
    simp [emptyNet] at hj
  case memIn =>
    intro j hj
    simp [emptyNet] at hj
  case outNodup =>
    intro r hr
    cases r <;> simp [refValidB, emptyNet] at hr
  case inNodup =>
    intro r hr
    cases r <;> simp [refValidB, emptyNet] at hr
  case pairUniq =>
    intro a ha
    simp [emptyNet] at ha

theorem addEdge_runs_wf {net : PetriNet} (hf : WfFacts net) {src dst : NodeRef} (w : Int)
    (h1 : belongsNode net src = true) (h2 : belongsNode net dst = true)
    (h3 : sameKind src dst = false)
    (h4 : ∀ x ∈ nodeOut net src, edgeDst net x ≠ dst) :
    addEdge net src dst w = .ok (addEdgeNet net src dst w, net.edges.length) := by
  refine addEdge_runs w h1 h2 h3 h4 ?_
  intro y hy hc
  obtain ⟨hlt, hdst⟩ := hf.inAdj dst (belongs_refValid h2) y hy
  have := hf.memOut y hlt
  rw [hc] at this
  exact h4 y this hdst

theorem mem_of_getElemQ {α : Type _} {l : List α} {k : Nat} {a : α} (h : l[k]? = some a) :
    a ∈ l := by
  obtain ⟨h1, h2⟩ := List.getElem?_eq_some.1 h
  exact h2 ▸ List.getElem_mem _

theorem lt_of_getElemQ {α : Type _} {l : List α} {k : Nat} {a : α} (h : l[k]? = some a) :
    k < l.length :=
  (List.getElem?_eq_some.1 h).1

theorem getD_of_getElemQ {α : Type _} {l : List α} {k : Nat} {a d : α} (h : l[k]? = some a) :
    l.getD k d = a := by
  rw [List.getD_eq_getElem?_getD, h]
  rfl

theorem getElem_not_mem_take {α : Type _} {l : List α} {u : Nat} (h : u < l.length)
    (hn : l.Nodup) : l[u] ∉ l.take u := by
  intro hc
  have hta := List.take_append_drop u l
  rw [← hta] at hn
  rw [List.nodup_append] at hn
  exact hn.2.2 hc (by rw [List.drop_eq_getElem_cons h]; exact List.mem_cons_self _ _)

theorem belongs_place_of_wf {net : PetriNet} (hf : WfFacts net) {j : Nat}
    (hj : j < net.places.length) : belongsNode net (NodeRef.place j) = true := by
  show (decide (j < net.places.length) && ((net.places.getD j dummyPlace).id == j)) = true
  rw [hf.placeId j hj]
  simp [hj]

theorem belongs_trans_of_wf {net : PetriNet} (hf : WfFacts net) {j : Nat}
    (hj : j < net.transitions.length) : belongsNode net (NodeRef.trans j) = true := by
  show (decide (j < net.transitions.length) && ((net.transitions.getD j dummyTrans).id == j)) = true
  rw [hf.transId j hj]
  simp [hj]

theorem copy_fold_places {net : PetriNet} (htok : ∀ p ∈ net.places, 0 ≤ p.tokens) :
    ∃ c1, net.places.foldlM (fun c p => (addPlace c p.nameId p.tokens).map (·.1)) emptyNet
        = .ok c1 ∧
      WfFacts c1 ∧ c1.places.length = net.places.length ∧ c1.transitions = [] ∧
      c1.edges = [] ∧
      (∀ j, (c1.places.getD j dummyPlace).inE = [] ∧ (c1.places.getD j dummyPlace).outE = []) := by
  obtain ⟨c1, heq, hP⟩ := foldlM_invariant
    (fun c p => (addPlace c p.nameId p.tokens).map (fun x => x.1)) net.places
    (fun k cur => WfFacts cur ∧ cur.places.length = k ∧ cur.transitions = [] ∧
      cur.edges = [] ∧
      (∀ j, (cur.places.getD j dummyPlace).inE = [] ∧ (cur.places.getD j dummyPlace).outE = []))
    emptyNet
    ⟨wfFacts_emptyNet, rfl, rfl, rfl, fun j => by cases j <;> exact ⟨rfl, rfl⟩⟩
    (by
      intro k cur a ha ⟨hw, hlen, htr, hed, hadj⟩
      obtain ⟨nm, pn, png, hrun⟩ := @addPlace_runs cur a.nameId a.tokens
        (htok a (mem_of_getElemQ ha))
      refine ⟨_, by show Except.map (fun x => x.1) (addPlace cur a.nameId a.tokens) = _; rw [hrun]; rfl,
        wfFacts_addPlace hw hrun, ?_, htr, hed, ?_⟩
      · show (cur.places ++ [_]).length = k + 1
        simp [hlen]
      · intro j
        show ((cur.places ++ [_]).getD j dummyPlace).inE = [] ∧
          ((cur.places ++ [_]).getD j dummyPlace).outE = []
        rw [getD_append_singleton]
        split
        · exact hadj j
        · split
          · exact ⟨rfl, rfl⟩
          · exact ⟨rfl, rfl⟩)
  exact ⟨c1, heq, hP.1, hP.2.1, hP.2.2.1, hP.2.2.2.1, hP.2.2.2.2⟩

theorem copy_fold_trans {net c1 : PetriNet}
    (hlab : ∀ t ∈ net.transitions, labelOK t.label = true)
    (hf1 : WfFacts c1) (ht1 : c1.transitions = []) (he1 : c1.edges = []) :
    ∃ c2, net.transitions.foldlM
        (fun c t => (addTransition c t.nameId t.label).map (·.1)) c1 = .ok c2 ∧
      WfFacts c2 ∧ c2.places = c1.places ∧ c2.edges = [] ∧
      c2.transitions.length = net.transitions.length ∧
      (∀ j, j < net.transitions.length →
        (c2.transitions.getD j dummyTrans).label = (net.transitions.getD j dummyTrans).label) ∧
      (∀ j, (c2.transitions.getD j dummyTrans).inE = [] ∧
        (c2.transitions.getD j dummyTrans).outE = []) := by
  obtain ⟨c2, heq, hP⟩ := foldlM_invariant
    (fun c t => (addTransition c t.nameId t.label).map (fun x => x.1)) net.transitions
    (fun k cur => WfFacts cur ∧ cur.places = c1.places ∧ cur.edges = [] ∧
      cur.transitions.length = k ∧
      (∀ j, j < k → (cur.transitions.getD j dummyTrans).label =
        (net.transitions.getD j dummyTrans).label) ∧
      (∀ j, (cur.transitions.getD j dummyTrans).inE = [] ∧
        (cur.transitions.getD j dummyTrans).outE = []))
    c1
    ⟨hf1, rfl, he1, by rw [ht1]; rfl, fun j hj => absurd hj (by omega), fun j => by
      rw [ht1]
      cases j <;> exact ⟨rfl, rfl⟩⟩
    (by
      intro k cur a ha ⟨hw, hpl, hed, hlen, hlab2, hadj⟩
      obtain ⟨nm, tn, tng, hrun⟩ := @addTransition_runs cur a.nameId a.label
        (hlab a (mem_of_getElemQ ha))
      refine ⟨_, by show Except.map (fun x => x.1) (addTransition cur a.nameId a.label) = _; rw [hrun]; rfl,
        wfFacts_addTransition hw hrun, hpl, hed, ?_, ?_, ?_⟩
      · show (cur.transitions ++ [_]).length = k + 1
        simp [hlen]
      · intro j hj
        show ((cur.transitions ++ [_]).getD j dummyTrans).label = _
        rw [getD_append_singleton]
        by_cases h1 : j < cur.transitions.length
        · rw [if_pos h1]
          exact hlab2 j (by omega)
        · have hjk : j = k := by omega
          rw [if_neg h1, if_pos (by omega)]
          show a.label = _
          rw [getD_of_getElemQ (hjk ▸ ha)]
      · intro j
        show ((cur.transitions ++ [_]).getD j dummyTrans).inE = [] ∧
          ((cur.transitions ++ [_]).getD j dummyTrans).outE = []
        rw [getD_append_singleton]
        split
        · exact hadj j
        · split
          · exact ⟨rfl, rfl⟩
          · exact ⟨rfl, rfl⟩)
  exact ⟨c2, heq, hP.1, hP.2.1, hP.2.2.1, hP.2.2.2.1, hP.2.2.2.2.1, hP.2.2.2.2.2⟩

theorem getElemQ_not_mem_take {α : Type _} {l : List α} {u : Nat} {a : α}
    (h : l[u]? = some a) (hn : l.Nodup) : a ∉ l.take u := by
  obtain ⟨hu, rfl⟩ := List.getElem?_eq_some.1 h
  exact getElem_not_mem_take hu hn

theorem copy_fold_edges_places {net s2 : PetriNet} (hfN : WfFacts net)
    (hf2 : WfFacts s2)
    (hpl : s2.places.length = net.places.length)
    (htl : s2.transitions.length = net.transitions.length)
    (hlabs : ∀ j, j < net.transitions.length →
      (s2.transitions.getD j dummyTrans).label = (net.transitions.getD j dummyTrans).label)
    (hpo : ∀ j, nodeOut s2 (NodeRef.place j) = [])
    (hto : ∀ j, nodeOut s2 (NodeRef.trans j) = []) :
    ∃ c3, net.places.foldlM (fun c p =>
        p.outE.foldlM (fun c2 eid =>
          let e := net.edges.getD eid dummyEdge
          (addEdge c2 (.place (refFieldId net e.src)) (.trans (refFieldId net e.dst))
            e.weight).map (·.1)) c) s2 = .ok c3 ∧
      WfFacts c3 ∧ c3.places.length = net.places.length ∧
      c3.transitions.length = net.transitions.length ∧
      (∀ j, j < net.transitions.length →
        (c3.transitions.getD j dummyTrans).label = (net.transitions.getD j dummyTrans).label) ∧
      (∀ j, j < net.places.length →
        outDst c3 (NodeRef.place j) = outDst net (NodeRef.place j)) ∧
      (∀ j, nodeOut c3 (NodeRef.trans j) = []) := by
  obtain ⟨c3, heq, hP⟩ := foldlM_invariant
    (fun c p => p.outE.foldlM (fun c2 eid =>
      let e := net.edges.getD eid dummyEdge
      (addEdge c2 (.place (refFieldId net e.src)) (.trans (refFieldId net e.dst))
        e.weight).map (·.1)) c)
    net.places
    (fun s cur => WfFacts cur ∧ cur.places.length = net.places.length ∧
      cur.transitions.length = net.transitions.length ∧
      (∀ j, j < net.transitions.length →
        (cur.transitions.getD j dummyTrans).label = (net.transitions.getD j dummyTrans).label) ∧
      (∀ j, j < s → outDst cur (NodeRef.place j) = outDst net (NodeRef.place j)) ∧
      (∀ j, s ≤ j → nodeOut cur (NodeRef.place j) = []) ∧
      (∀ j, nodeOut cur (NodeRef.trans j) = []))
    s2
    ⟨hf2, hpl, htl, hlabs, fun j hj => absurd hj (by omega), fun j hj => hpo j, hto⟩
    (by
      intro s cur p hp hPC
      have hs_lt : s < net.places.length := lt_of_getElemQ hp
      have hpe : nodeOut net (NodeRef.place s) = p.outE := by
        show (net.places.getD s dummyPlace).outE = p.outE
        rw [getD_of_getElemQ hp]
      have hrvs : refValidB net (NodeRef.place s) = true := by
        show decide (s < net.places.length) = true
        simp [hs_lt]
      obtain ⟨cur', heq', hQ⟩ := foldlM_invariant
        (fun c2 eid =>
          let e := net.edges.getD eid dummyEdge
          (addEdge c2 (.place (refFieldId net e.src)) (.trans (refFieldId net e.dst))
            e.weight).map (·.1))
        p.outE
        (fun u c => WfFacts c ∧ c.places.length = net.places.length ∧
          c.transitions.length = net.transitions.length ∧
          (∀ j, j < net.transitions.length →
            (c.transitions.getD j dummyTrans).label =
              (net.transitions.getD j dummyTrans).label) ∧
          (∀ j, j < s → outDst c (NodeRef.place j) = outDst net (NodeRef.place j)) ∧
          outDst c (NodeRef.place s) = (outDst net (NodeRef.place s)).take u ∧
          (∀ j, s < j → nodeOut c (NodeRef.place j) = []) ∧
          (∀ j, nodeOut c (NodeRef.trans j) = []))
        cur
        ⟨hPC.1, hPC.2.1, hPC.2.2.1, hPC.2.2.2.1, hPC.2.2.2.2.1,
          by rw [outDst, hPC.2.2.2.2.2.1 s (le_refl s), List.take_zero]; rfl,
          fun j hj => hPC.2.2.2.2.2.1 j (by omega), hPC.2.2.2.2.2.2⟩
        (by
          intro u c eid he hQI
          obtain ⟨hw, hplc, htlc, hlabc, houtlt, houts, houtgt, houtt⟩ := hQI
          have hu_lt : u < p.outE.length := lt_of_getElemQ he
          have hmem : eid ∈ nodeOut net (NodeRef.place s) := by
            rw [hpe]
            exact mem_of_getElemQ he
          obtain ⟨he_lt, he_src⟩ := hfN.outAdj _ hrvs eid hmem
          rcases hdst : edgeDst net eid with d | d
          · exfalso
            have hbip := hfN.edgeBip eid he_lt
            rw [he_src, hdst] at hbip
            simp [sameKind] at hbip
          have hd_lt : d < net.transitions.length := by
            have := hfN.dstValid eid he_lt
            rw [hdst] at this
            simpa [refValidB] using this
          have hrfs : refFieldId net (net.edges.getD eid dummyEdge).src = s := by
            have h1 : (net.edges.getD eid dummyEdge).src = NodeRef.place s := he_src
            rw [h1]
            show (net.places.getD s dummyPlace).id = s
            exact hfN.placeId s hs_lt
          have hrfd : refFieldId net (net.edges.getD eid dummyEdge).dst = d := by
            have h1 : (net.edges.getD eid dummyEdge).dst = NodeRef.trans d := hdst
            rw [h1]
            show (net.transitions.getD d dummyTrans).id = d
            exact hfN.transId d hd_lt
          have hbel1 : belongsNode c (NodeRef.place s) = true :=
            belongs_place_of_wf hw (by omega)
          have hbel2 : belongsNode c (NodeRef.trans d) = true :=
            belongs_trans_of_wf hw (by omega)
          have hlen_od : (outDst net (NodeRef.place s)).length = p.outE.length := by
            rw [outDst, hpe, List.length_map]
          have hod_u : (outDst net (NodeRef.place s))[u]? = some (NodeRef.trans d) := by
            have h1 : outDst net (NodeRef.place s) = p.outE.map (edgeDst net) := by
              rw [outDst, hpe]
            have h2 : p.outE[u] = eid := (List.getElem?_eq_some.1 he).2
            rw [h1, List.getElem?_map, List.getElem?_eq_getElem hu_lt, h2]
            show some (edgeDst net eid) = _
            rw [hdst]
          have hdup : ∀ x ∈ nodeOut c (NodeRef.place s), edgeDst c x ≠ NodeRef.trans d := by
            intro x hx hc
            have hmm : edgeDst c x ∈ outDst c (NodeRef.place s) :=
              List.mem_map.2 ⟨x, hx, rfl⟩
            rw [houts, hc] at hmm
            have hnd := outDst_nodup hfN (r := NodeRef.place s)
            exact getElemQ_not_mem_take hod_u hnd hmm
          have hrun := addEdge_runs_wf hw ((net.edges.getD eid dummyEdge).weight)
            hbel1 hbel2 rfl hdup
          set w := (net.edges.getD eid dummyEdge).weight with hwdef
          set N := addEdgeNet c (NodeRef.place s) (NodeRef.trans d) w with hNdef
          have hrvsc : refValidB c (NodeRef.place s) = true := by
            show decide (s < c.places.length) = true
            simp
            omega
          have houtN : ∀ dd, nodeOut N dd =
              if dd = NodeRef.place s then nodeOut c dd ++ [c.edges.length]
              else nodeOut c dd :=
            nodeOut_addEdgeNet c (NodeRef.trans d) w hrvsc
          have hedold : ∀ x, x < c.edges.length → edgeDst N x = edgeDst c x := by
            intro x hx
            show (N.edges.getD x dummyEdge).dst = _
            rw [hNdef, addEdgeNet_edges_old _ _ _ _ hx]
            rfl
          have hednew : edgeDst N c.edges.length = NodeRef.trans d := by
            show (N.edges.getD c.edges.length dummyEdge).dst = _
            rw [hNdef, addEdgeNet_edges_new]
          refine ⟨N, ?_, ?_⟩
          · show ((addEdge c (.place (refFieldId net (net.edges.getD eid dummyEdge).src))
              (.trans (refFieldId net (net.edges.getD eid dummyEdge).dst))
              (net.edges.getD eid dummyEdge).weight).map (·.1)) = _
            rw [hrfs, hrfd, hrun]
            rfl
          · have hmap_pres : ∀ j, j < net.places.length →
                (nodeOut c (NodeRef.place j)).map (edgeDst N) =
                  outDst c (NodeRef.place j) := by
              intro j hj
              refine List.map_congr_left ?_
              intro x hx
              exact hedold x (hw.outAdj (NodeRef.place j)
                (by show decide (j < c.places.length) = true; simp; omega) x hx).1
            refine ⟨wfFacts_addEdge hw hrun, ?_, ?_, ?_, ?_, ?_, ?_, ?_⟩
            · rw [hNdef, addEdgeNet_places_length]
              exact hplc
            · rw [hNdef, addEdgeNet_transitions_length]
              exact htlc
            · intro j hj
              rw [hNdef]
              show ((addEdgeNet c _ _ _).transitions.getD j dummyTrans).label = _
              rw [transLabel_addEdgeNet]
              exact hlabc j hj
            · intro j hj
              rw [outDst, houtN, if_neg (by intro hc; cases hc; omega)]
              rw [hmap_pres j (by omega)]
              exact houtlt j hj
            · rw [outDst, houtN, if_pos rfl, List.map_append]
              rw [hmap_pres s hs_lt, houts]
              have ht1 : (outDst net (NodeRef.place s)).take (u + 1) =
                  (outDst net (NodeRef.place s)).take u ++ [NodeRef.trans d] := by
                rw [List.take_succ, hod_u]
                rfl
              rw [ht1]
              show _ ++ (List.map (edgeDst N) [c.edges.length]) = _
              rw [List.map_singleton, hednew]
            · intro j hj
              rw [houtN, if_neg (by intro hc; cases hc; omega)]
              exact houtgt j hj
            · intro j
              rw [houtN, if_neg (by intro hc; cases hc)]
              exact houtt j)
      refine ⟨cur', ?_, ?_⟩
      · show p.outE.foldlM _ cur = _
        exact heq'
      · obtain ⟨hw', hpl', htl', hlab', hlt', hs', hgt', ht'⟩ := hQ
        refine ⟨hw', hpl', htl', hlab', ?_, ?_, ht'⟩
        · intro j hj
          by_cases hjs : j = s
          · have hlen_od : (outDst net (NodeRef.place s)).length = p.outE.length := by
              rw [outDst, hpe, List.length_map]
            rw [hjs, hs', ← hlen_od]
            exact List.take_length _
          · exact hlt' j (by omega)
        · intro j hj
          exact hgt' j (by omega))
  exact ⟨c3, heq, hP.1, hP.2.1, hP.2.2.1, hP.2.2.2.1,
    fun j hj => hP.2.2.2.2.1 j hj, hP.2.2.2.2.2.2⟩

theorem copy_fold_edges_trans {net s3 : PetriNet} (hfN : WfFacts net)
    (hf3 : WfFacts s3)
    (hpl : s3.places.length = net.places.length)
    (htl : s3.transitions.length = net.transitions.length)
    (hlabs : ∀ j, j < net.transitions.length →
      (s3.transitions.getD j dummyTrans).label = (net.transitions.getD j dummyTrans).label)
    (hpod : ∀ j, j < net.places.length →
      outDst s3 (NodeRef.place j) = outDst net (NodeRef.place j))
    (hto : ∀ j, nodeOut s3 (NodeRef.trans j) = []) :
    ∃ c4, net.transitions.foldlM (fun c t =>
        t.outE.foldlM (fun c2 eid =>
          let e := net.edges.getD eid dummyEdge
          (addEdge c2 (.trans (refFieldId net e.src)) (.place (refFieldId net e.dst))
            e.weight).map (·.1)) c) s3 = .ok c4 ∧
      WfFacts c4 ∧ c4.places.length = net.places.length ∧
      c4.transitions.length = net.transitions.length ∧
      (∀ j, j < net.transitions.length →
        (c4.transitions.getD j dummyTrans).label = (net.transitions.getD j dummyTrans).label) ∧
      (∀ j, j < net.places.length →
        outDst c4 (NodeRef.place j) = outDst net (NodeRef.place j)) ∧
      (∀ j, j < net.transitions.length →
        outDst c4 (NodeRef.trans j) = outDst net (NodeRef.trans j)) := by
  obtain ⟨c4, heq, hP⟩ := foldlM_invariant
    (fun c t => t.outE.foldlM (fun c2 eid =>
      let e := net.edges.getD eid dummyEdge
      (addEdge c2 (.trans (refFieldId net e.src)) (.place (refFieldId net e.dst))
        e.weight).map (·.1)) c)
    net.transitions
    (fun s cur => WfFacts cur ∧ cur.places.length = net.places.length ∧
      cur.transitions.length = net.transitions.length ∧
      (∀ j, j < net.transitions.length →
        (cur.transitions.getD j dummyTrans).label = (net.transitions.getD j dummyTrans).label) ∧
      (∀ j, j < net.places.length →
        outDst cur (NodeRef.place j) = outDst net (NodeRef.place j)) ∧
      (∀ j, j < s → outDst cur (NodeRef.trans j) = outDst net (NodeRef.trans j)) ∧
      (∀ j, s ≤ j → nodeOut cur (NodeRef.trans j) = []))
    s3
    ⟨hf3, hpl, htl, hlabs, hpod, fun j hj => absurd hj (by omega), fun j hj => hto j⟩
    (by
      intro s cur t ht hPC
      have hs_lt : s < net.transitions.length := lt_of_getElemQ ht
      have hpe : nodeOut net (NodeRef.trans s) = t.outE := by
        show (net.transitions.getD s dummyTrans).outE = t.outE
        rw [getD_of_getElemQ ht]
      have hrvs : refValidB net (NodeRef.trans s) = true := by
        show decide (s < net.transitions.length) = true
        simp [hs_lt]
      obtain ⟨cur', heq', hQ⟩ := foldlM_invariant
        (fun c2 eid =>
          let e := net.edges.getD eid dummyEdge
          (addEdge c2 (.trans (refFieldId net e.src)) (.place (refFieldId net e.dst))
            e.weight).map (·.1))
        t.outE
        (fun u c => WfFacts c ∧ c.places.length = net.places.length ∧
          c.transitions.length = net.transitions.length ∧
          (∀ j, j < net.transitions.length →
            (c.transitions.getD j dummyTrans).label =
              (net.transitions.getD j dummyTrans).label) ∧
          (∀ j, j < net.places.length →
            outDst c (NodeRef.place j) = outDst net (NodeRef.place j)) ∧
          (∀ j, j < s → outDst c (NodeRef.trans j) = outDst net (NodeRef.trans j)) ∧
          outDst c (NodeRef.trans s) = (outDst net (NodeRef.trans s)).take u ∧
          (∀ j, s < j → nodeOut c (NodeRef.trans j) = []))
        cur
        ⟨hPC.1, hPC.2.1, hPC.2.2.1, hPC.2.2.2.1, hPC.2.2.2.2.1, hPC.2.2.2.2.2.1,
          by rw [outDst, hPC.2.2.2.2.2.2 s (le_refl s), List.take_zero]; rfl,
          fun j hj => hPC.2.2.2.2.2.2 j (by omega)⟩
        (by
          intro u c eid he hQI
          obtain ⟨hw, hplc, htlc, hlabc, houtp, houtlt, houts, houtgt⟩ := hQI
          have hu_lt : u < t.outE.length := lt_of_getElemQ he
          have hmem : eid ∈ nodeOut net (NodeRef.trans s) := by
            rw [hpe]
            exact mem_of_getElemQ he
          obtain ⟨he_lt, he_src⟩ := hfN.outAdj _ hrvs eid hmem
          rcases hdst : edgeDst net eid with d | d
          case trans =>
            exfalso
            have hbip := hfN.edgeBip eid he_lt
            rw [he_src, hdst] at hbip
            simp [sameKind] at hbip
          case place =>
          have hd_lt : d < net.places.length := by
            have := hfN.dstValid eid he_lt
            rw [hdst] at this
            simpa [refValidB] using this
          have hrfs : refFieldId net (net.edges.getD eid dummyEdge).src = s := by
            have h1 : (net.edges.getD eid dummyEdge).src = NodeRef.trans s := he_src
            rw [h1]
            show (net.transitions.getD s dummyTrans).id = s
            exact hfN.transId s hs_lt
          have hrfd : refFieldId net (net.edges.getD eid dummyEdge).dst = d := by
            have h1 : (net.edges.getD eid dummyEdge).dst = NodeRef.place d := hdst
            rw [h1]
            show (net.places.getD d dummyPlace).id = d
            exact hfN.placeId d hd_lt
          have hbel1 : belongsNode c (NodeRef.trans s) = true :=
            belongs_trans_of_wf hw (by omega)
          have hbel2 : belongsNode c (NodeRef.place d) = true :=
            belongs_place_of_wf hw (by omega)
          have hod_u : (outDst net (NodeRef.trans s))[u]? = some (NodeRef.place d) := by
            have h1 : outDst net (NodeRef.trans s) = t.outE.map (edgeDst net) := by
              rw [outDst, hpe]
            have h2 : t.outE[u] = eid := (List.getElem?_eq_some.1 he).2
            rw [h1, List.getElem?_map, List.getElem?_eq_getElem hu_lt, h2]
            show some (edgeDst net eid) = _
            rw [hdst]
          have hdup : ∀ x ∈ nodeOut c (NodeRef.trans s), edgeDst c x ≠ NodeRef.place d := by
            intro x hx hc
            have hmm : edgeDst c x ∈ outDst c (NodeRef.trans s) :=
              List.mem_map.2 ⟨x, hx, rfl⟩
            rw [houts, hc] at hmm
            have hnd := outDst_nodup hfN (r := NodeRef.trans s)
            exact getElemQ_not_mem_take hod_u hnd hmm
          have hrun := addEdge_runs_wf hw ((net.edges.getD eid dummyEdge).weight)
            hbel1 hbel2 rfl hdup
          set w := (net.edges.getD eid dummyEdge).weight with hwdef
          set N := addEdgeNet c (NodeRef.trans s) (NodeRef.place d) w with hNdef
          have hrvsc : refValidB c (NodeRef.trans s) = true := by
            show decide (s < c.transitions.length) = true
            simp
            omega
          have houtN : ∀ dd, nodeOut N dd =
              if dd = NodeRef.trans s then nodeOut c dd ++ [c.edges.length]
              else nodeOut c dd :=
            nodeOut_addEdgeNet c (NodeRef.place d) w hrvsc
          have hedold : ∀ x, x < c.edges.length → edgeDst N x = edgeDst c x := by
            intro x hx
            show (N.edges.getD x dummyEdge).dst = _
            rw [hNdef, addEdgeNet_edges_old _ _ _ _ hx]
            rfl
          have hednew : edgeDst N c.edges.length = NodeRef.place d := by
            show (N.edges.getD c.edges.length dummyEdge).dst = _
            rw [hNdef, addEdgeNet_edges_new]
          refine ⟨N, ?_, ?_⟩
          · show ((addEdge c (.trans (refFieldId net (net.edges.getD eid dummyEdge).src))
              (.place (refFieldId net (net.edges.getD eid dummyEdge).dst))
              (net.edges.getD eid dummyEdge).weight).map (·.1)) = _
            rw [hrfs, hrfd, hrun]
            rfl
          · have hmap_prp : ∀ j, j < net.places.length →
                (nodeOut c (NodeRef.place j)).map (edgeDst N) =
                  outDst c (NodeRef.place j) := by
              intro j hj
              refine List.map_congr_left ?_
              intro x hx
              exact hedold x (hw.outAdj (NodeRef.place j)
                (by show decide (j < c.places.length) = true; simp; omega) x hx).1
            have hmap_prt : ∀ j, j < net.transitions.length →
                (nodeOut c (NodeRef.trans j)).map (edgeDst N) =
                  outDst c (NodeRef.trans j) := by
              intro j hj
              refine List.map_congr_left ?_
              intro x hx
              exact hedold x (hw.outAdj (NodeRef.trans j)
                (by show decide (j < c.transitions.length) = true; simp; omega) x hx).1
            refine ⟨wfFacts_addEdge hw hrun, ?_, ?_, ?_, ?_, ?_, ?_, ?_⟩
            · rw [hNdef, addEdgeNet_places_length]
              exact hplc
            · rw [hNdef, addEdgeNet_transitions_length]
              exact htlc
            · intro j hj
              rw [hNdef]
              show ((addEdgeNet c _ _ _).transitions.getD j dummyTrans).label = _
              rw [transLabel_addEdgeNet]
              exact hlabc j hj
            · intro j hj
              rw [outDst, houtN, if_neg (by intro hc; cases hc)]
              rw [hmap_prp j hj]
              exact houtp j hj
            · intro j hj
              rw [outDst, houtN, if_neg (by intro hc; cases hc; omega)]
              rw [hmap_prt j (by omega)]
              exact houtlt j hj
            · rw [outDst, houtN, if_pos rfl, List.map_append]
              rw [hmap_prt s hs_lt, houts]
              have ht1 : (outDst net (NodeRef.trans s)).take (u + 1) =
                  (outDst net (NodeRef.trans s)).take u ++ [NodeRef.place d] := by
                rw [List.take_succ, hod_u]
                rfl
              rw [ht1]
              show _ ++ (List.map (edgeDst N) [c.edges.length]) = _
              rw [List.map_singleton, hednew]
            · intro j hj
              rw [houtN, if_neg (by intro hc; cases hc; omega)]
              exact houtgt j hj)
      refine ⟨cur', ?_, ?_⟩
      · show t.outE.foldlM _ cur = _
        exact heq'
      · obtain ⟨hw', hpl', htl', hlab', hp', hlt', hs', hgt'⟩ := hQ
        refine ⟨hw', hpl', htl', hlab', hp', ?_, ?_⟩
        · intro j hj
          by_cases hjs : j = s
          · have hlen_od : (outDst net (NodeRef.trans s)).length = t.outE.length := by
              rw [outDst, hpe, List.length_map]
            rw [hjs, hs', ← hlen_od]
            exact List.take_length _
          · exact hlt' j (by omega)
        · intro j hj
          exact hgt' j (by omega))
  exact ⟨c4, heq, hP.1, hP.2.1, hP.2.2.1, hP.2.2.2.1, hP.2.2.2.2.1,
    fun j hj => hP.2.2.2.2.2.1 j hj⟩

theorem except_bind_ok {ε α β : Type _} (a : α) (f : α → Except ε β) :
    (Except.ok a >>= f : Except ε β) = f a := rfl

theorem copyPhase_spec {net : PetriNet} (hfN : WfFacts net)
    (htok : ∀ p ∈ net.places, 0 ≤ p.tokens)
    (hlab : ∀ t ∈ net.transitions, labelOK t.label = true) :
    ∃ C, copyPhase net = .ok C ∧ WfFacts C ∧
      C.places.length = net.places.length ∧
      C.transitions.length = net.transitions.length ∧
      (∀ j, j < net.transitions.length →
        (C.transitions.getD j dummyTrans).label = (net.transitions.getD j dummyTrans).label) ∧
      (∀ r, outDst C r = outDst net r) := by
  obtain ⟨c1, hA, hf1, hpl1, ht1, he1, hadj1⟩ := copy_fold_places htok
  obtain ⟨c2, hB, hf2, hps2, he2, htl2, hlab2, hadj2⟩ := copy_fold_trans hlab hf1 ht1 he1
  have hpl2 : c2.places.length = net.places.length := by rw [hps2, hpl1]
  have hpo2 : ∀ j, nodeOut c2 (NodeRef.place j) = [] := by
    intro j
    show (c2.places.getD j dummyPlace).outE = []
    rw [hps2]
    exact (hadj1 j).2
  have hto2 : ∀ j, nodeOut c2 (NodeRef.trans j) = [] := fun j => (hadj2 j).2
  obtain ⟨c3, hC, hf3, hpl3, htl3, hlab3, hpod3, hto3⟩ :=
    copy_fold_edges_places hfN hf2 hpl2 htl2 hlab2 hpo2 hto2
  obtain ⟨c4, hD, hf4, hpl4, htl4, hlab4, hpod4, htod4⟩ :=
    copy_fold_edges_trans hfN hf3 hpl3 htl3 hlab3 hpod3 hto3
  refine ⟨c4, ?_, hf4, hpl4, htl4, hlab4, ?_⟩
  · rw [copyPhase]
    rw [hA, except_bind_ok, hB, except_bind_ok, hC, except_bind_ok]
    exact hD
  · intro r
    cases r with
    | place j =>
      by_cases hj : j < net.places.length
      · exact hpod4 j hj
      · have h1 : refValidB c4 (NodeRef.place j) = false := by
          show decide (j < c4.places.length) = false
          simp
          omega
        have h2 : refValidB net (NodeRef.place j) = false := by
          show decide (j < net.places.length) = false
          simp
          omega
        rw [outDst, outDst, nodeOut_invalid h1, nodeOut_invalid h2]
        rfl
    | trans j =>
      by_cases hj : j < net.transitions.length
      · exact htod4 j hj
      · have h1 : refValidB c4 (NodeRef.trans j) = false := by
          show decide (j < c4.transitions.length) = false
          simp
          omega
        have h2 : refValidB net (NodeRef.trans j) = false := by
          show decide (j < net.transitions.length) = false
          simp
          omega
        rw [outDst, outDst, nodeOut_invalid h1, nodeOut_invalid h2]
        rfl

theorem everyThread_state_pred {σ α : Type _} {f : σ → α → Bool × σ} {l : List α}
    (Q : σ → Prop) (hstep : ∀ s a, a ∈ l → Q s → Q (f s a).2) :
    ∀ s, Q s → Q (everyThread f s l).2 := by
  induction l with
  | nil => exact fun s h => h
  | cons a as ih =>
    intro s hQ
    simp only [everyThread]
    rcases hfa : f s a with ⟨b, s'⟩
    have hQs' : Q s' := by
      have := hstep s a (List.mem_cons_self a as) hQ
      rwa [hfa] at this
    cases b
    · simpa using hQs'
    · simpa using ih (fun s2 a2 ha2 => hstep s2 a2 (List.mem_cons_of_mem _ ha2)) s' hQs'

theorem everyThread_true_forall {σ α : Type _} {f : σ → α → Bool × σ} {l : List α}
    (I : σ → Prop)
    (hpres : ∀ s a, a ∈ l → I s → (f s a).1 = true → I (f s a).2) :
    ∀ s0, I s0 → (everyThread f s0 l).1 = true →
      ∀ a ∈ l, ∃ s, I s ∧ (f s a).1 = true := by
  induction l with
  | nil =>
    intro s0 hI h a ha
    cases ha
  | cons a as ih =>
    intro s0 hI h b hb
    simp only [everyThread] at h
    rcases hfa : f s0 a with ⟨v, s'⟩
    rw [hfa] at h
    simp only at h
    cases v with
    | false => simp at h
    | true =>
      simp only [if_true] at h
      have hv : (f s0 a).1 = true := by rw [hfa]
      have hI' : I s' := by
        have := hpres s0 a (List.mem_cons_self a as) hI hv
        rwa [hfa] at this
      rcases List.mem_cons.1 hb with rfl | hb2
      · exact ⟨s0, hI, hv⟩
      · exact ih (fun s2 a2 ha2 => hpres s2 a2 (List.mem_cons_of_mem _ ha2))
          s' hI' h b hb2

theorem markChecked_getD {ch : List Bool} {k j : Nat}
    (h : (markChecked ch k).getD j false = true) : j = k ∨ ch.getD j false = true := by
  rw [markChecked] at h
  split at h
  · rw [getD_set_apply] at h
    split at h
    · next hc => exact Or.inl hc.1.symm
    · exact Or.inr h
  · next hk =>
    by_cases hj : j < ch.length
    · rw [getD_append_left (by simp [List.length_append]; omega),
        getD_append_left hj] at h
      exact Or.inr h
    · by_cases hjk : j = k
      · exact Or.inl hjk
      · exfalso
        by_cases hj2 : j < k
        · rw [getD_append_left (by simp [List.length_append]; omega)] at h
          rw [List.getD_eq_getElem?_getD, List.getElem?_append_right (by omega)] at h
          rw [List.getElem?_replicate] at h
          rw [if_pos (by omega)] at h
          cases h
        · rw [List.getD_eq_default] at h
          · cases h
          · simp [List.length_append]
            omega

/-- Place `id` was marked while traversing the feeders of pivot `p0`. -/
def feederOf (net : PetriNet) (p0 : PlaceData) (id : Nat) : Prop :=
  ∃ e1 ∈ p0.outE, ∃ e2 ∈ nodeIn net (edgeDst net e1), refFieldId net (edgeSrc net e2) = id

theorem gcPivot_state {net : PetriNet} {p : PlaceData} {ch : List Bool} {j : Nat}
    (h : ((gcPivot net ch p).2).getD j false = true) :
    ch.getD j false = true ∨ feederOf net p j := by
  simp only [gcPivot] at h
  have key := everyThread_state_pred
    (f := fun c eid => everyThread (fun ch2 eid2 =>
      ((nodeOut net (edgeSrc net eid2)).length == p.outE.length &&
        (nodeOut net (edgeSrc net eid2)).all
          (fun e3 => (p.outE.map (edgeDst net)).contains (edgeDst net e3)),
        markChecked ch2 (refFieldId net (edgeSrc net eid2))))
      c (nodeIn net (edgeDst net eid)))
    (l := p.outE)
    (fun c => ∀ i, c.getD i false = true → ch.getD i false = true ∨ feederOf net p i)
    (by
      intro s e1 he1 hQ
      show (fun c => ∀ i, c.getD i false = true →
        ch.getD i false = true ∨ feederOf net p i)
        (everyThread _ s (nodeIn net (edgeDst net e1))).2
      refine everyThread_state_pred
        (l := nodeIn net (edgeDst net e1))
        (fun c => ∀ i, c.getD i false = true →
          ch.getD i false = true ∨ feederOf net p i)
        ?_ s hQ
      intro s2 e2 he2 hQ2
      show ∀ i, (markChecked s2 (refFieldId net (edgeSrc net e2))).getD i false = true →
        ch.getD i false = true ∨ feederOf net p i
      intro i hi
      rcases markChecked_getD hi with rfl | hold
      · exact Or.inr ⟨e1, he1, e2, he2, rfl⟩
      · exact hQ2 _ hold)
    ch (fun i hi => Or.inl hi)
  exact key j h

theorem isGroupChoiceNet_sound {net : PetriNet} (h : isGroupChoiceNet net = true) :
    ∀ p ∈ net.places, gcPivotCond net p = true ∨
      ∃ p0 ∈ net.places, gcPivotCond net p0 = true ∧ feederOf net p0 p.id := by
  intro p hp
  rw [isGroupChoiceNet] at h
  have hmain := everyThread_true_forall
    (f := fun checked p => if checked.getD p.id false then (true, checked)
      else gcPivot net checked p)
    (l := net.places)
    (fun ch => ∀ i, ch.getD i false = true →
      ∃ p0 ∈ net.places, gcPivotCond net p0 = true ∧ feederOf net p0 i)
    (by
      intro ch q hq hI hpass
      show ∀ i, ((if ch.getD q.id false = true then (true, ch)
        else gcPivot net ch q).2).getD i false = true → _
      by_cases hchk : ch.getD q.id false = true
      · rw [if_pos hchk]
        exact hI
      · rw [if_neg hchk]
        have hpass2 : (gcPivot net ch q).1 = true := by
          have : ((if ch.getD q.id false = true then (true, ch)
            else gcPivot net ch q)).1 = true := hpass
          rwa [if_neg hchk] at this
        have hcond : gcPivotCond net q = true := by
          rw [← gcPivot_fst net ch q]
          exact hpass2
        intro i hi
        rcases gcPivot_state hi with hold | hfeed
        · exact hI i hold
        · exact ⟨q, hq, hcond, hfeed⟩)
    [] (fun i hi => by cases i <;> cases hi) h p hp
  obtain ⟨ch, hI, hpass⟩ := hmain
  by_cases hchk : ch.getD p.id false = true
  · exact Or.inr (hI p.id hchk)
  · left
    have hpass2 : (gcPivot net ch p).1 = true := by
      have : ((if ch.getD p.id false = true then (true, ch)
        else gcPivot net ch p)).1 = true := hpass
      rwa [if_neg hchk] at this
    rw [← gcPivot_fst net ch p]
    exact hpass2

theorem gcPivotCond_sem {net : PetriNet} (hwf : WfFacts net) {s : Nat}
    (hs : s < net.places.length)
    (hcond : gcPivotCond net (net.places.getD s dummyPlace) = true) :
    ∀ t q', hasEdge net (NodeRef.place s) t → hasEdge net q' t →
      (nodeOut net q').length = (nodeOut net (NodeRef.place s)).length ∧
      ∀ u, hasEdge net q' u → hasEdge net (NodeRef.place s) u := by
  rintro t q' ⟨eid, helt, hesrc, hedst⟩ ⟨eid2, he2lt, he2src, he2dst⟩
  have hmem1 : eid ∈ (net.places.getD s dummyPlace).outE := by
    have := hwf.memOut eid helt
    rwa [hesrc] at this
  have hmem2 : eid2 ∈ nodeIn net (edgeDst net eid) := by
    have := hwf.memIn eid2 he2lt
    rw [he2dst] at this
    rw [hedst]
    exact this
  rw [gcPivotCond, List.all_eq_true] at hcond
  have h1 := hcond eid hmem1
  rw [List.all_eq_true] at h1
  have h2 := h1 eid2 hmem2
  rw [Bool.and_eq_true] at h2
  obtain ⟨hlen, hall⟩ := h2
  rw [he2src] at hlen hall
  constructor
  · have := beq_iff_eq.1 hlen
    exact this
  · rintro u ⟨e3, h3lt, h3src, h3dst⟩
    have hm3 : e3 ∈ nodeOut net q' := by
      have := hwf.memOut e3 h3lt
      rwa [h3src] at this
    rw [List.all_eq_true] at hall
    have := hall e3 hm3
    have hmem3 : edgeDst net e3 ∈ ((net.places.getD s dummyPlace).outE).map (edgeDst net) :=
      List.elem_iff.1 this
    rw [h3dst] at hmem3
    exact (mem_outDst_iff hwf (NodeRef.place s) u).1 hmem3

theorem outDst_incl_iff {net : PetriNet} (hwf : WfFacts net) {a b : NodeRef}
    (hlen : (nodeOut net a).length = (nodeOut net b).length)
    (hincl : ∀ u, hasEdge net a u → hasEdge net b u) :
    ∀ u, hasEdge net a u ↔ hasEdge net b u := by
  have hsub : outDst net a ⊆ outDst net b := by
    intro u hu
    exact (mem_outDst_iff hwf b _).2 (hincl _ ((mem_outDst_iff hwf a _).1 hu))
  have hlens : (outDst net b).length ≤ (outDst net a).length := by
    rw [outDst, outDst, List.length_map, List.length_map]
    omega
  have hperm := (List.subperm_of_subset (outDst_nodup hwf) hsub).perm_of_length_le hlens
  intro u
  rw [← mem_outDst_iff hwf a u, ← mem_outDst_iff hwf b u]
  exact hperm.mem_iff

theorem gc_groups {net : PetriNet} (hwf : WfFacts net) (hgc : isGroupChoiceNet net = true) :
    ∀ s q' t, hasEdge net (NodeRef.place s) t → hasEdge net q' t →
      (nodeOut net q').length = (nodeOut net (NodeRef.place s)).length ∧
      ∀ u, hasEdge net q' u ↔ hasEdge net (NodeRef.place s) u := by
  intro s q' t hst hqt
  have hs : s < net.places.length := by
    obtain ⟨eid, helt, hesrc, _⟩ := hst
    have := hwf.srcValid eid helt
    rw [hesrc] at this
    simpa [refValidB] using this
  have hmemp : net.places.getD s dummyPlace ∈ net.places := getD_mem hs dummyPlace
  have hid : (net.places.getD s dummyPlace).id = s := hwf.placeId s hs
  rcases isGroupChoiceNet_sound hgc _ hmemp with hcond | ⟨p0, hp0mem, hcond0, hfeed⟩
  · obtain ⟨hlen, hincl⟩ := gcPivotCond_sem hwf hs hcond t q' hst hqt
    exact ⟨hlen, outDst_incl_iff hwf hlen hincl⟩
  · rw [hid] at hfeed
    obtain ⟨s0, hs0, hp0⟩ := List.mem_iff_getElem.1 hp0mem
    have hgetD0 : net.places.getD s0 dummyPlace = p0 := by
      rw [List.getD_eq_getElem?_getD, List.getElem?_eq_getElem hs0, hp0]
      rfl
    obtain ⟨e1, he1, e2, he2, hrf⟩ := hfeed
    have he1m : e1 ∈ nodeOut net (NodeRef.place s0) := by
      show e1 ∈ (net.places.getD s0 dummyPlace).outE
      rw [hgetD0]
      exact he1
    have hrv0 : refValidB net (NodeRef.place s0) = true := by
      show decide (s0 < net.places.length) = true
      simp [hs0]
    obtain ⟨he1lt, he1src⟩ := hwf.outAdj _ hrv0 e1 he1m
    have ht0v : refValidB net (edgeDst net e1) = true := hwf.dstValid e1 he1lt
    obtain ⟨he2lt, he2dst⟩ := hwf.inAdj _ ht0v e2 he2
    have hq2place : edgeSrc net e2 = NodeRef.place s := by
      have hbip1 := hwf.edgeBip e1 he1lt
      have hbip2 := hwf.edgeBip e2 he2lt
      rw [he1src] at hbip1
      rw [he2dst] at hbip2
      rcases ht0 : edgeDst net e1 with d0 | d0
      · rw [ht0] at hbip1
        simp [sameKind] at hbip1
      · rw [ht0] at hbip2
        rcases hq2 : edgeSrc net e2 with i2 | i2
        · rw [hq2] at hrf
          have hi2v : refValidB net (NodeRef.place i2) = true := by
            have := hwf.srcValid e2 he2lt
            rwa [hq2] at this
          have hi2 : i2 < net.places.length := by simpa [refValidB] using hi2v
          have : refFieldId net (NodeRef.place i2) = i2 := hwf.placeId i2 hi2
          rw [this] at hrf
          rw [hrf]
        · rw [hq2] at hbip2
          simp [sameKind] at hbip2
    have hedge_s : hasEdge net (NodeRef.place s) (edgeDst net e1) :=
      ⟨e2, he2lt, hq2place, he2dst⟩
    have hedge_s0 : hasEdge net (NodeRef.place s0) (edgeDst net e1) :=
      ⟨e1, he1lt, he1src, rfl⟩
    obtain ⟨hL1, hI1⟩ := gcPivotCond_sem hwf hs0 (hgetD0.symm ▸ hcond0) (edgeDst net e1)
      (NodeRef.place s) hedge_s0 hedge_s
    have hE1 := outDst_incl_iff hwf hL1 hI1
    have hst0 : hasEdge net (NodeRef.place s0) t := (hE1 t).1 hst
    obtain ⟨hL2, hI2⟩ := gcPivotCond_sem hwf hs0 (hgetD0.symm ▸ hcond0) t q' hst0 hqt
    have hE2 := outDst_incl_iff hwf hL2 hI2
    constructor
    · rw [hL2, ← hL1]
    · intro u
      rw [hE2 u, ← hE1 u]

theorem clearOuts_transitions (net : PetriNet) (idxs : List Nat) :
    (clearOuts net idxs).transitions = net.transitions := by
  induction idxs generalizing net with
  | nil => rfl
  | cons i is ih =>
    show (clearOuts (updPlace net i _) is).transitions = _
    rw [ih]
    rfl

theorem clearOuts_edges (net : PetriNet) (idxs : List Nat) :
    (clearOuts net idxs).edges = net.edges := by
  induction idxs generalizing net with
  | nil => rfl
  | cons i is ih =>
    show (clearOuts (updPlace net i _) is).edges = _
    rw [ih]
    rfl

theorem clearOuts_places_length (net : PetriNet) (idxs : List Nat) :
    (clearOuts net idxs).places.length = net.places.length := by
  induction idxs generalizing net with
  | nil => rfl
  | cons i is ih =>
    show (clearOuts (updPlace net i _) is).places.length = _
    rw [ih]
    show (net.places.set i _).length = _
    rw [List.length_set]

theorem clearOuts_placeGetD (net : PetriNet) (idxs : List Nat) (j : Nat) :
    (clearOuts net idxs).places.getD j dummyPlace =
      if j ∈ idxs ∧ j < net.places.length then
        { net.places.getD j dummyPlace with outE := [] }
      else net.places.getD j dummyPlace := by
  induction idxs generalizing net with
  | nil =>
    show net.places.getD j dummyPlace = _
    rw [if_neg (by simp)]
  | cons i is ih =>
    show (clearOuts (updPlace net i _) is).places.getD j dummyPlace = _
    rw [ih]
    have hlen : (updPlace net i fun p => { p with outE := [] }).places.length =
        net.places.length := by
      show (net.places.set i _).length = _
      rw [List.length_set]
    have hget : (updPlace net i fun p => { p with outE := [] }).places.getD j dummyPlace =
        if i = j ∧ i < net.places.length then
          { net.places.getD i dummyPlace with outE := [] }
        else net.places.getD j dummyPlace := by
      show (net.places.set i _).getD j dummyPlace = _
      rw [getD_set_apply]
    rw [hlen]
    by_cases h1 : j ∈ is ∧ j < net.places.length
    · rw [if_pos h1, hget]
      by_cases h2 : i = j ∧ i < net.places.length
      · rw [if_pos h2, if_pos ⟨List.mem_cons_of_mem i h1.1, h1.2⟩]
        rw [← h2.1]
      · rw [if_neg h2, if_pos ⟨List.mem_cons_of_mem i h1.1, h1.2⟩]
    · rw [if_neg h1, hget]
      by_cases h2 : i = j ∧ i < net.places.length
      · rw [if_pos h2, if_pos ⟨List.mem_cons.2 (Or.inl h2.1.symm), h2.1 ▸ h2.2⟩, ← h2.1]
      · rw [if_neg h2, if_neg ?_]
        intro hc
        rcases List.mem_cons.1 hc.1 with hji | hjis
        · exact h2 ⟨hji.symm, hji ▸ hc.2⟩
        · exact h1 ⟨hjis, hc.2⟩

theorem clearIns_places (net : PetriNet) (idxs : List Nat) :
    (clearIns net idxs).places = net.places := by
  induction idxs generalizing net with
  | nil => rfl
  | cons i is ih =>
    show (clearIns (updTrans net i _) is).places = _
    rw [ih]
    rfl

theorem clearIns_edges (net : PetriNet) (idxs : List Nat) :
    (clearIns net idxs).edges = net.edges := by
  induction idxs generalizing net with
  | nil => rfl
  | cons i is ih =>
    show (clearIns (updTrans net i _) is).edges = _
    rw [ih]
    rfl

theorem clearIns_transitions_length (net : PetriNet) (idxs : List Nat) :
    (clearIns net idxs).transitions.length = net.transitions.length := by
  induction idxs generalizing net with
  | nil => rfl
  | cons i is ih =>
    show (clearIns (updTrans net i _) is).transitions.length = _
    rw [ih]
    show (net.transitions.set i _).length = _
    rw [List.length_set]

theorem clearIns_transGetD (net : PetriNet) (idxs : List Nat) (j : Nat) :
    (clearIns net idxs).transitions.getD j dummyTrans =
      if j ∈ idxs ∧ j < net.transitions.length then
        { net.transitions.getD j dummyTrans with inE := [] }
      else net.transitions.getD j dummyTrans := by
  induction idxs generalizing net with
  | nil =>
    show net.transitions.getD j dummyTrans = _
    rw [if_neg (by simp)]
  | cons i is ih =>
    show (clearIns (updTrans net i _) is).transitions.getD j dummyTrans = _
    rw [ih]
    have hlen : (updTrans net i fun t => { t with inE := [] }).transitions.length =
        net.transitions.length := by
      show (net.transitions.set i _).length = _
      rw [List.length_set]
    have hget : (updTrans net i fun t => { t with inE := [] }).transitions.getD j dummyTrans =
        if i = j ∧ i < net.transitions.length then
          { net.transitions.getD i dummyTrans with inE := [] }
        else net.transitions.getD j dummyTrans := by
      show (net.transitions.set i _).getD j dummyTrans = _
      rw [getD_set_apply]
    rw [hlen]
    by_cases h1 : j ∈ is ∧ j < net.transitions.length
    · rw [if_pos h1, hget]
      by_cases h2 : i = j ∧ i < net.transitions.length
      · rw [if_pos h2, if_pos ⟨List.mem_cons_of_mem i h1.1, h1.2⟩]
        rw [← h2.1]
      · rw [if_neg h2, if_pos ⟨List.mem_cons_of_mem i h1.1, h1.2⟩]
    · rw [if_neg h1, hget]
      by_cases h2 : i = j ∧ i < net.transitions.length
      · rw [if_pos h2, if_pos ⟨List.mem_cons.2 (Or.inl h2.1.symm), h2.1 ▸ h2.2⟩, ← h2.1]
      · rw [if_neg h2, if_neg ?_]
        intro hc
        rcases List.mem_cons.1 hc.1 with hji | hjis
        · exact h2 ⟨hji.symm, hji ▸ hc.2⟩
        · exact h1 ⟨hjis, hc.2⟩

theorem nodeOut_clearOuts (net : PetriNet) (idxs : List Nat) (j : Nat) :
    nodeOut (clearOuts net idxs) (NodeRef.place j) =
      if j ∈ idxs ∧ j < net.places.length then [] else nodeOut net (NodeRef.place j) := by
  show ((clearOuts net idxs).places.getD j dummyPlace).outE = _
  rw [clearOuts_placeGetD]
  split
  · rfl
  · rfl

theorem nodeIn_clearOuts (net : PetriNet) (idxs : List Nat) (d : NodeRef) :
    nodeIn (clearOuts net idxs) d = nodeIn net d := by
  cases d with
  | place j =>
    show ((clearOuts net idxs).places.getD j dummyPlace).inE = _
    rw [clearOuts_placeGetD]
    split
    · rfl
    · rfl
  | trans j =>
    show ((clearOuts net idxs).transitions.getD j dummyTrans).inE = _
    rw [clearOuts_transitions]
    rfl

theorem nodeOut_clearOuts_trans (net : PetriNet) (idxs : List Nat) (j : Nat) :
    nodeOut (clearOuts net idxs) (NodeRef.trans j) = nodeOut net (NodeRef.trans j) := by
  show ((clearOuts net idxs).transitions.getD j dummyTrans).outE = _
  rw [clearOuts_transitions]
  rfl

theorem nodeIn_clearIns (net : PetriNet) (idxs : List Nat) (j : Nat) :
    nodeIn (clearIns net idxs) (NodeRef.trans j) =
      if j ∈ idxs ∧ j < net.transitions.length then [] else nodeIn net (NodeRef.trans j) := by
  show ((clearIns net idxs).transitions.getD j dummyTrans).inE = _
  rw [clearIns_transGetD]
  split
  · rfl
  · rfl

theorem nodeOut_clearIns (net : PetriNet) (idxs : List Nat) (d : NodeRef) :
    nodeOut (clearIns net idxs) d = nodeOut net d := by
  cases d with
  | place j =>
    show ((clearIns net idxs).places.getD j dummyPlace).outE = _
    rw [clearIns_places]
    rfl
  | trans j =>
    show ((clearIns net idxs).transitions.getD j dummyTrans).outE = _
    rw [clearIns_transGetD]
    split
    · rfl
    · rfl

theorem nodeIn_clearIns_place (net : PetriNet) (idxs : List Nat) (j : Nat) :
    nodeIn (clearIns net idxs) (NodeRef.place j) = nodeIn net (NodeRef.place j) := by
  show ((clearIns net idxs).places.getD j dummyPlace).inE = _
  rw [clearIns_places]
  rfl

theorem refValidB_clearOuts (net : PetriNet) (idxs : List Nat) (d : NodeRef) :
    refValidB (clearOuts net idxs) d = refValidB net d := by
  cases d with
  | place j =>
    show decide (j < (clearOuts net idxs).places.length) = _
    rw [clearOuts_places_length]
    rfl
  | trans j =>
    show decide (j < (clearOuts net idxs).transitions.length) = _
    rw [clearOuts_transitions]
    rfl

theorem refValidB_clearIns (net : PetriNet) (idxs : List Nat) (d : NodeRef) :
    refValidB (clearIns net idxs) d = refValidB net d := by
  cases d with
  | place j =>
    show decide (j < (clearIns net idxs).places.length) = _
    rw [clearIns_places]
    rfl
  | trans j =>
    show decide (j < (clearIns net idxs).transitions.length) = _
    rw [clearIns_transitions_length]
    rfl

theorem tfFacts_clearOuts {net : PetriNet} (hf : TfFacts net) (idxs : List Nat) :
    TfFacts (clearOuts net idxs) := by
  have hsrc : ∀ e, edgeSrc (clearOuts net idxs) e = edgeSrc net e := by
    intro e
    show ((clearOuts net idxs).edges.getD e dummyEdge).src = _
    rw [clearOuts_edges]
    rfl
  have hdst : ∀ e, edgeDst (clearOuts net idxs) e = edgeDst net e := by
    intro e
    show ((clearOuts net idxs).edges.getD e dummyEdge).dst = _
    rw [clearOuts_edges]
    rfl
  have hel : (clearOuts net idxs).edges.length = net.edges.length := by
    rw [clearOuts_edges]
  constructor
  case placeId =>
    intro j hj
    rw [clearOuts_places_length] at hj
    show ((clearOuts net idxs).places.getD j dummyPlace).id = j
    rw [clearOuts_placeGetD]
    split
    · exact hf.placeId j hj
    · exact hf.placeId j hj
  case transId =>
    intro j hj
    show ((clearOuts net idxs).transitions.getD j dummyTrans).id = j
    rw [clearOuts_transitions] at hj ⊢
    exact hf.transId j hj
  case edgeId =>
    intro j hj
    show ((clearOuts net idxs).edges.getD j dummyEdge).id = j
    rw [clearOuts_edges] at hj ⊢
    exact hf.edgeId j hj
  case edgeBip =>
    intro e he
    rw [hel] at he
    rw [hsrc, hdst]
    exact hf.edgeBip e he
  case srcValid =>
    intro e he
    rw [hel] at he
    rw [hsrc, refValidB_clearOuts]
    exact hf.srcValid e he
  case dstValid =>
    intro e he
    rw [hel] at he
    rw [hdst, refValidB_clearOuts]
    exact hf.dstValid e he
  case outAdj =>
    intro r hr eid he
    rw [refValidB_clearOuts] at hr
    rw [hel, hsrc]
    cases r with
    | place j =>
      rw [nodeOut_clearOuts] at he
      split at he
      · cases he
      · exact hf.outAdj _ hr eid he
    | trans j =>
      rw [nodeOut_clearOuts_trans] at he
      exact hf.outAdj _ hr eid he
  case inAdj =>
    intro r hr eid he
    rw [refValidB_clearOuts] at hr
    rw [hel, hdst]
    rw [nodeIn_clearOuts] at he
    exact hf.inAdj _ hr eid he

theorem tfFacts_clearIns {net : PetriNet} (hf : TfFacts net) (idxs : List Nat) :
    TfFacts (clearIns net idxs) := by
  have hsrc : ∀ e, edgeSrc (clearIns net idxs) e = edgeSrc net e := by
    intro e
    show ((clearIns net idxs).edges.getD e dummyEdge).src = _
    rw [clearIns_edges]
    rfl
  have hdst : ∀ e, edgeDst (clearIns net idxs) e = edgeDst net e := by
    intro e
    show ((clearIns net idxs).edges.getD e dummyEdge).dst = _
    rw [clearIns_edges]
    rfl
  have hel : (clearIns net idxs).edges.length = net.edges.length := by
    rw [clearIns_edges]
  constructor
  case placeId =>
    intro j hj
    show ((clearIns net idxs).places.getD j dummyPlace).id = j
    rw [clearIns_places] at hj ⊢
    exact hf.placeId j hj
  case transId =>
    intro j hj
    rw [clearIns_transitions_length] at hj
    show ((clearIns net idxs).transitions.getD j dummyTrans).id = j
    rw [clearIns_transGetD]
    split
    · exact hf.transId j hj
    · exact hf.transId j hj
  case edgeId =>
    intro j hj
    show ((clearIns net idxs).edges.getD j dummyEdge).id = j
    rw [clearIns_edges] at hj ⊢
    exact hf.edgeId j hj
  case edgeBip =>
    intro e he
    rw [hel] at he
    rw [hsrc, hdst]
    exact hf.edgeBip e he
  case srcValid =>
    intro e he
    rw [hel] at he
    rw [hsrc, refValidB_clearIns]
    exact hf.srcValid e he
  case dstValid =>
    intro e he
    rw [hel] at he
    rw [hdst, refValidB_clearIns]
    exact hf.dstValid e he
  case outAdj =>
    intro r hr eid he
    rw [refValidB_clearIns] at hr
    rw [hel, hsrc]
    rw [nodeOut_clearIns] at he
    exact hf.outAdj _ hr eid he
  case inAdj =>
    intro r hr eid he
    rw [refValidB_clearIns] at hr
    rw [hel, hdst]
    cases r with
    | trans j =>
      rw [nodeIn_clearIns] at he
      split at he
      · cases he
      · exact hf.inAdj _ hr eid he
    | place j =>
      rw [nodeIn_clearIns_place] at he
      exact hf.inAdj _ hr eid he

theorem eraseIdx_append_len (A : List Nat) (B : List Nat) (y : Nat) :
    (A ++ y :: B).eraseIdx A.length = A ++ B := by
  induction A with
  | nil => rfl
  | cons x A ih =>
    show x :: (A ++ y :: B).eraseIdx A.length = _
    rw [ih]
    rfl

theorem take_cons_drop {l : List Nat} {b : Nat} (h : b < l.length) :
    l = l.take b ++ l[b] :: l.drop (b + 1) := by
  conv_lhs => rw [← List.take_append_drop b l]
  rw [List.drop_eq_getElem_cons h]

theorem set_last_dropLast_perm {l : List Nat} {b : Nat} (hb : b < l.length) :
    List.Perm ((l.set b (l.getD (l.length - 1) 0)).dropLast) (l.eraseIdx b) := by
  set y := l[b] with hy
  have hdec : l = l.take b ++ y :: l.drop (b + 1) := take_cons_drop hb
  set A := l.take b with hA
  set B := l.drop (b + 1) with hB
  have hAlen : A.length = b := by
    rw [hA, List.length_take]
    omega
  have herase : l.eraseIdx b = A ++ B := by
    conv_lhs => rw [hdec]
    rw [← hAlen, eraseIdx_append_len]
  rw [herase]
  rcases B.eq_nil_or_concat with h1 | ⟨C, y2, h1⟩
  · conv_lhs => rw [hdec, h1]
    rw [← hAlen, set_append_len, List.dropLast_concat, h1]
    simp
  · rw [List.concat_eq_append] at h1
    have hassoc : l = (A ++ y :: C) ++ [y2] := by
      rw [hdec, h1]
      simp
    have hlen2 : l.length - 1 = (A ++ y :: C).length := by
      rw [hassoc]
      simp
    have hget : l.getD (l.length - 1) 0 = y2 := by
      rw [hlen2]
      conv_lhs => rw [hassoc]
      exact getD_concat_length
    conv_lhs => rw [hget, hdec, h1]
    rw [← hAlen, set_append_len]
    have hsplit : A ++ y2 :: (C ++ [y2]) = (A ++ y2 :: C) ++ [y2] := by simp
    rw [hsplit, List.dropLast_concat, h1]
    exact List.Perm.append_left A (List.perm_append_singleton y2 C).symm

theorem set_append_len2 (A : List Nat) (B : List Nat) (a v n : Nat) (h : n = A.length) :
    (A ++ a :: B).set n v = A ++ v :: B := by
  rw [h, set_append_len]

theorem eraseIdx_append_len2 (A : List Nat) (B : List Nat) (y n : Nat) (h : n = A.length) :
    (A ++ y :: B).eraseIdx n = A ++ B := by
  rw [h, eraseIdx_append_len]

theorem nodup_set_of_not_mem {l : List Nat} {a v : Nat} (ha : a < l.length)
    (hn : l.Nodup) (hv : v ∉ l) : (l.set a v).Nodup := by
  set y := l[a] with hy
  have hdec : l = l.take a ++ y :: l.drop (a + 1) := take_cons_drop ha
  set A := l.take a with hA
  set B := l.drop (a + 1) with hB
  have hAlen : A.length = a := by
    rw [hA, List.length_take]
    omega
  have hset : l.set a v = A ++ v :: B := by
    conv_lhs => rw [hdec]
    exact set_append_len2 A B y v a hAlen.symm
  rw [hset]
  have hn2 : (A ++ y :: B).Nodup := hdec ▸ hn
  rw [List.nodup_append] at hn2 ⊢
  obtain ⟨hA2, hyB, hdisj⟩ := hn2
  rw [List.nodup_cons] at hyB ⊢
  refine ⟨hA2, ⟨?_, hyB.2⟩, ?_⟩
  · intro hc
    exact hv (hdec ▸ List.mem_append_right _ (List.mem_cons_of_mem _ hc))
  · intro x hxA hxvB
    rcases List.mem_cons.1 hxvB with rfl | hxB
    · exact hv (hdec ▸ List.mem_append_left _ hxA)
    · exact hdisj hxA (List.mem_cons_of_mem _ hxB)

theorem mem_set_decomp {l : List Nat} {a v x : Nat} (ha : a < l.length) (hn : l.Nodup)
    (hx : x ∈ l.set a v) : x = v ∨ (x ∈ l ∧ x ≠ l.getD a 0) := by
  set y := l[a] with hy
  have hdec : l = l.take a ++ y :: l.drop (a + 1) := take_cons_drop ha
  set A := l.take a with hA
  set B := l.drop (a + 1) with hB
  have hAlen : A.length = a := by
    rw [hA, List.length_take]
    omega
  have hset : l.set a v = A ++ v :: B := by
    conv_lhs => rw [hdec]
    exact set_append_len2 A B y v a hAlen.symm
  rw [hset] at hx
  have hga : l.getD a 0 = y := by
    rw [List.getD_eq_getElem?_getD, List.getElem?_eq_getElem ha]
    rfl
  have hn2 : (A ++ y :: B).Nodup := hdec ▸ hn
  rw [List.nodup_append] at hn2
  obtain ⟨hA2, hyB, hdisj⟩ := hn2
  rw [List.nodup_cons] at hyB
  rcases List.mem_append.1 hx with hxA | hxvB
  · right
    refine ⟨hdec ▸ List.mem_append_left _ hxA, ?_⟩
    rw [hga]
    intro hc
    exact hdisj hxA (hc ▸ List.mem_cons_self _ _)
  · rcases List.mem_cons.1 hxvB with rfl | hxB
    · exact Or.inl rfl
    · right
      refine ⟨hdec ▸ List.mem_append_right _ (List.mem_cons_of_mem _ hxB), ?_⟩
      rw [hga]
      intro hc
      exact hyB.1 (hc ▸ hxB)

theorem mem_eraseIdx_ne {l : List Nat} {b x : Nat} (hb : b < l.length) (hn : l.Nodup)
    (hx : x ∈ l.eraseIdx b) : x ∈ l ∧ x ≠ l.getD b 0 := by
  set y := l[b] with hy
  have hdec : l = l.take b ++ y :: l.drop (b + 1) := take_cons_drop hb
  set A := l.take b with hA
  set B := l.drop (b + 1) with hB
  have hAlen : A.length = b := by
    rw [hA, List.length_take]
    omega
  have herase : l.eraseIdx b = A ++ B := by
    conv_lhs => rw [hdec]
    exact eraseIdx_append_len2 A B y b hAlen.symm
  rw [herase] at hx
  have hgb : l.getD b 0 = y := by
    rw [List.getD_eq_getElem?_getD, List.getElem?_eq_getElem hb]
    rfl
  have hn2 : (A ++ y :: B).Nodup := hdec ▸ hn
  rw [List.nodup_append] at hn2
  obtain ⟨hA2, hyB, hdisj⟩ := hn2
  rw [List.nodup_cons] at hyB
  rcases List.mem_append.1 hx with hxA | hxB
  · refine ⟨hdec ▸ List.mem_append_left _ hxA, ?_⟩
    rw [hgb]
    intro hc
    exact hdisj hxA (hc ▸ List.mem_cons_self _ _)
  · refine ⟨hdec ▸ List.mem_append_right _ (List.mem_cons_of_mem _ hxB), ?_⟩
    rw [hgb]
    intro hc
    exact hyB.1 (hc ▸ hxB)

theorem pool_update_spec {pool : List Nat} {a b v : Nat} (hab : a < b) (hb : b < pool.length)
    (hn : pool.Nodup) (hv : v ∉ pool) :
    (((pool.set a v).set b
        ((pool.set a v).getD ((pool.set a v).length - 1) 0)).dropLast).Nodup ∧
    (((pool.set a v).set b
        ((pool.set a v).getD ((pool.set a v).length - 1) 0)).dropLast).length
      = pool.length - 1 ∧
    ∀ x ∈ ((pool.set a v).set b
        ((pool.set a v).getD ((pool.set a v).length - 1) 0)).dropLast,
      x = v ∨ (x ∈ pool ∧ x ≠ pool.getD a 0 ∧ x ≠ pool.getD b 0) := by
  have ha : a < pool.length := by omega
  have hp1n : (pool.set a v).Nodup := nodup_set_of_not_mem ha hn hv
  have hb1 : b < (pool.set a v).length := by
    rw [List.length_set]
    exact hb
  have hperm := set_last_dropLast_perm (l := pool.set a v) hb1
  refine ⟨?_, ?_, ?_⟩
  · exact hperm.nodup_iff.2 ((List.eraseIdx_sublist _ b).nodup hp1n)
  · rw [List.length_dropLast, List.length_set, List.length_set]
  · intro x hx
    have hx2 : x ∈ (pool.set a v).eraseIdx b := hperm.mem_iff.1 hx
    obtain ⟨hxp1, hxne⟩ := mem_eraseIdx_ne hb1 hp1n hx2
    have hp1b : (pool.set a v).getD b 0 = pool.getD b 0 := by
      rw [getD_set_apply]
      rw [if_neg (fun hc => absurd hc.1 (by omega))]
    rcases mem_set_decomp ha hn hxp1 with rfl | ⟨hxpool, hxa⟩
    · exact Or.inl rfl
    · right
      refine ⟨hxpool, hxa, ?_⟩
      rw [hp1b] at hxne
      exact hxne

theorem genOrderAux_fst (rand : Nat → Nat) (steps ctr i : Nat) :
    (genOrderAux rand (steps + 1) ctr i).1 =
      min (randFloor (rand ctr) i) (randFloor (rand (ctr + 1)) (i - 1)) ::
      max (randFloor (rand ctr) i)
        (randFloor (rand (ctr + 1)) (i - 1) +
          (if randFloor (rand ctr) i ≤ randFloor (rand (ctr + 1)) (i - 1) then 1 else 0)) ::
      (genOrderAux rand steps (ctr + 2) (i - 1)).1 := rfl

theorem genOrderAux_length (rand : Nat → Nat) :
    ∀ steps ctr i, (genOrderAux rand steps ctr i).1.length = 2 * steps := by
  intro steps
  induction steps with
  | zero => intro ctr i; rfl
  | succ s ih =>
    intro ctr i
    rw [genOrderAux_fst]
    simp only [List.length_cons, ih]
    omega

/-- Validity of a generated pairing order with respect to a pool of `n`
live slots: each pair indexes two distinct live slots (the second
strictly above the first, as `Math.max(first, second + (first <=
second))` guarantees), and the tail is valid for the pool shrunk by one
(a pair consumes two slots and frees one). -/
def pairsOK : List Nat → Nat → Prop
  | [], _ => True
  | [_], _ => False
  | a :: b :: rest, n => a < b ∧ b < n ∧ pairsOK rest (n - 1)

theorem pairsOK_cons (a b : Nat) (rest : List Nat) (n : Nat) :
    pairsOK (a :: b :: rest) n ↔ a < b ∧ b < n ∧ pairsOK rest (n - 1) := Iff.rfl

theorem randFloor_lt {r k : Nat} (h : k ≠ 0) : randFloor r k < k := by
  rw [randFloor, if_neg h]
  exact Nat.mod_lt r (Nat.pos_of_ne_zero h)

theorem randFloor_le {r k : Nat} : randFloor r k ≤ k - 1 := by
  rw [randFloor]
  split
  · omega
  · next h =>
    have := Nat.mod_lt r (Nat.pos_of_ne_zero h)
    omega

theorem genOrderAux_pairsOK (rand : Nat → Nat) :
    ∀ steps ctr i, steps ≤ i → pairsOK (genOrderAux rand steps ctr i).1 (i + 1) := by
  intro steps
  induction steps with
  | zero => intro ctr i h; exact trivial
  | succ s ih =>
    intro ctr i h
    rw [genOrderAux_fst, pairsOK_cons]
    have hf : randFloor (rand ctr) i < i := randFloor_lt (by omega)
    have hs : randFloor (rand (ctr + 1)) (i - 1) ≤ i - 1 - 1 := randFloor_le
    have hrec := ih (ctr + 2) (i - 1) (by omega)
    have he : i - 1 + 1 = i := by omega
    rw [he] at hrec
    have hrec2 : pairsOK (genOrderAux rand s (ctr + 2) (i - 1)).1 (i + 1 - 1) := by
      simpa using hrec
    rw [Nat.min_def, Nat.max_def]
    by_cases hc : randFloor (rand ctr) i ≤ randFloor (rand (ctr + 1)) (i - 1)
    · rw [if_pos hc, if_pos hc, if_pos (by omega)]
      exact ⟨by omega, by omega, hrec2⟩
    · rw [if_neg hc, if_neg hc, if_neg (by omega)]
      exact ⟨by omega, by omega, hrec2⟩

theorem genOrder_pairsOK (rand : Nat → Nat) (ctr n done : Nat) (h1 : 1 ≤ done)
    (h2 : done ≤ n) : pairsOK (genOrder rand ctr n done).1 n := by
  rw [genOrder]
  have := genOrderAux_pairsOK rand (n - done) ctr (n - 1) (by omega)
  have he : n - 1 + 1 = n := by omega
  rwa [he] at this

theorem genOrder_length (rand : Nat → Nat) (ctr n done : Nat) :
    (genOrder rand ctr n done).1.length = 2 * (n - done) := by
  rw [genOrder, genOrderAux_length]

theorem belongs_place_of_tf {net : PetriNet} (hf : TfFacts net) {j : Nat}
    (hj : j < net.places.length) : belongsNode net (NodeRef.place j) = true := by
  show (decide (j < net.places.length) && ((net.places.getD j dummyPlace).id == j)) = true
  rw [hf.placeId j hj]
  simp [hj]

theorem belongs_trans_of_tf {net : PetriNet} (hf : TfFacts net) {j : Nat}
    (hj : j < net.transitions.length) : belongsNode net (NodeRef.trans j) = true := by
  show (decide (j < net.transitions.length) && ((net.transitions.getD j dummyTrans).id == j)) = true
  rw [hf.transId j hj]
  simp [hj]

theorem placeGetD_pushOut_ne (net : PetriNet) {r : NodeRef} (e : Nat) {j : Nat}
    (h : r ≠ NodeRef.place j) :
    (pushOut net r e).places.getD j dummyPlace = net.places.getD j dummyPlace := by
  cases r with
  | trans k => rfl
  | place k =>
    show ((net.places.set k _).getD j dummyPlace) = _
    rw [getD_set_apply, if_neg (fun hc => h (by rw [hc.1]))]

theorem placeGetD_pushIn_ne (net : PetriNet) {r : NodeRef} (e : Nat) {j : Nat}
    (h : r ≠ NodeRef.place j) :
    (pushIn net r e).places.getD j dummyPlace = net.places.getD j dummyPlace := by
  cases r with
  | trans k => rfl
  | place k =>
    show ((net.places.set k _).getD j dummyPlace) = _
    rw [getD_set_apply, if_neg (fun hc => h (by rw [hc.1]))]

theorem transGetD_pushOut_ne (net : PetriNet) {r : NodeRef} (e : Nat) {j : Nat}
    (h : r ≠ NodeRef.trans j) :
    (pushOut net r e).transitions.getD j dummyTrans = net.transitions.getD j dummyTrans := by
  cases r with
  | place k => rfl
  | trans k =>
    show ((net.transitions.set k _).getD j dummyTrans) = _
    rw [getD_set_apply, if_neg (fun hc => h (by rw [hc.1]))]

theorem transGetD_pushIn_ne (net : PetriNet) {r : NodeRef} (e : Nat) {j : Nat}
    (h : r ≠ NodeRef.trans j) :
    (pushIn net r e).transitions.getD j dummyTrans = net.transitions.getD j dummyTrans := by
  cases r with
  | place k => rfl
  | trans k =>
    show ((net.transitions.set k _).getD j dummyTrans) = _
    rw [getD_set_apply, if_neg (fun hc => h (by rw [hc.1]))]

theorem placeGetD_addEdgeNet_ne (net : PetriNet) {src dst : NodeRef} (w : Int) {j : Nat}
    (h1 : src ≠ NodeRef.place j) (h2 : dst ≠ NodeRef.place j) :
    (addEdgeNet net src dst w).places.getD j dummyPlace = net.places.getD j dummyPlace := by
  show (pushIn (pushOut net src _) dst _).places.getD j dummyPlace = _
  rw [placeGetD_pushIn_ne _ _ h2, placeGetD_pushOut_ne _ _ h1]

theorem transGetD_addEdgeNet_ne (net : PetriNet) {src dst : NodeRef} (w : Int) {j : Nat}
    (h1 : src ≠ NodeRef.trans j) (h2 : dst ≠ NodeRef.trans j) :
    (addEdgeNet net src dst w).transitions.getD j dummyTrans =
      net.transitions.getD j dummyTrans := by
  show (pushIn (pushOut net src _) dst _).transitions.getD j dummyTrans = _
  rw [transGetD_pushIn_ne _ _ h2, transGetD_pushOut_ne _ _ h1]

theorem getD_ne_of_nodup {l : List Nat} {a b : Nat} (hn : l.Nodup) (ha : a < l.length)
    (hb : b < l.length) (hab : a ≠ b) : l.getD a 0 ≠ l.getD b 0 := by
  intro hc
  rw [List.getD_eq_getElem?_getD, List.getElem?_eq_getElem ha] at hc
  rw [List.getD_eq_getElem?_getD, List.getElem?_eq_getElem hb] at hc
  simp only [Option.getD_some] at hc
  exact hab (List.Nodup.getElem_inj_iff hn |>.1 hc)

/-- The pair-synchronisation loop, run on a pool of distinct live place
slots whose outgoing lists have been cleared, with a valid pairing
order: it succeeds, keeps the relaxed invariant, adds one place, one
τ-transition and three edges per pair, touches no pre-existing edge,
no pre-existing transition and no non-pool place, gives every fresh
transition the label τ and exactly two ingoing edges, and returns a
pool of distinct live cleared slots shrunk by one per pair. -/
theorem pairLoop_spec : ∀ (fuel : Nat) (order : List Nat) (net : PetriNet) (pool : List Nat),
    order.length ≤ fuel → TfFacts net →
    (∀ p ∈ pool, p < net.places.length) → pool.Nodup →
    (∀ p ∈ pool, nodeOut net (NodeRef.place p) = []) →
    pairsOK order pool.length →
    ∃ net' pool', pairLoop net pool order = .ok (net', pool') ∧ TfFacts net' ∧
      net'.places.length = net.places.length + order.length / 2 ∧
      net'.transitions.length = net.transitions.length + order.length / 2 ∧
      net'.edges.length = net.edges.length + 3 * (order.length / 2) ∧
      (∀ j, j < net.edges.length →
        net'.edges.getD j dummyEdge = net.edges.getD j dummyEdge) ∧
      (∀ j, j < net.transitions.length →
        net'.transitions.getD j dummyTrans = net.transitions.getD j dummyTrans) ∧
      (∀ j, j < net.places.length → j ∉ pool →
        net'.places.getD j dummyPlace = net.places.getD j dummyPlace) ∧
      (∀ j, net.transitions.length ≤ j → j < net'.transitions.length →
        (net'.transitions.getD j dummyTrans).label = "τ" ∧
        (net'.transitions.getD j dummyTrans).inE.length = 2) ∧
      pool'.length = pool.length - order.length / 2 ∧ pool'.Nodup ∧
      (∀ p ∈ pool', p < net'.places.length) ∧
      (∀ p ∈ pool', nodeOut net' (NodeRef.place p) = []) ∧
      (∀ p ∈ pool', p ∈ pool ∨ net.places.length ≤ p) := by
  intro fuel
  induction fuel with
  | zero =>
    intro order net pool hle hf hlt hnd hout hok
    have hnil : order = [] := List.eq_nil_of_length_eq_zero (by omega)
    subst hnil
    exact ⟨net, pool, rfl, hf, by simp, by simp, by simp, fun j _ => rfl, fun j _ => rfl,
      fun j _ _ => rfl, fun j h1 h2 => absurd h1 (by omega), by simp, hnd, hlt, hout,
      fun p hp => Or.inl hp⟩
  | succ fl ih =>
    intro order net pool hle hf hlt hnd hout hok
    rcases order with _ | ⟨a, _ | ⟨b, rest⟩⟩
    · exact ⟨net, pool, rfl, hf, by simp, by simp, by simp, fun j _ => rfl, fun j _ => rfl,
        fun j _ _ => rfl, fun j h1 h2 => absurd h1 (by omega), by simp, hnd, hlt, hout,
        fun p hp => Or.inl hp⟩
    · exact hok.elim
    obtain ⟨hab, hb, hrest⟩ := hok
    have ha : a < pool.length := by omega
    have hpa_mem : pool.getD a 0 ∈ pool := getD_mem ha 0
    have hpb_mem : pool.getD b 0 ∈ pool := getD_mem hb 0
    have hpa_lt : pool.getD a 0 < net.places.length := hlt _ hpa_mem
    have hpb_lt : pool.getD b 0 < net.places.length := hlt _ hpb_mem
    have hpane : pool.getD a 0 ≠ pool.getD b 0 := getD_ne_of_nodup hnd ha hb (by omega)
    obtain ⟨nm1, tn1, tng1, hstep1⟩ := @addTransition_runs net 0 "τ" (by decide)
    set net1 : PetriNet := { net with
      transitions := net.transitions ++
        [{ id := net.transitions.length, nameId := nm1, label := "τ", inE := [], outE := [] }],
      transitionNames := tn1, transitionNegNames := tng1 } with hnet1
    obtain ⟨nm2, pn2, png2, hstep2⟩ := @addPlace_runs net1 0 0 (le_refl 0)
    set net2 : PetriNet := { net1 with
      places := net1.places ++
        [{ id := net1.places.length, nameId := nm2, tokens := 0, inE := [], outE := [] }],
      placeNames := pn2, placeNegNames := png2 } with hnet2
    have hf1 : TfFacts net1 := tfFacts_addTransition hf hstep1
    have hf2 : TfFacts net2 := tfFacts_addPlace hf1 hstep2
    have hpl1 : net1.places.length = net.places.length := by rw [hnet1]
    have htl1 : net1.transitions.length = net.transitions.length + 1 := by
      rw [hnet1]
      simp
    have hpl2 : net2.places.length = net.places.length + 1 := by
      rw [hnet2]
      show (net1.places ++ [_]).length = _
      rw [List.length_append, hpl1]
      rfl
    have htl2 : net2.transitions.length = net.transitions.length + 1 := by
      rw [hnet2]
      exact htl1
    have he2 : net2.edges = net.edges := by rw [hnet2, hnet1]
    have hold2 : ∀ j, j < net.places.length →
        net2.places.getD j dummyPlace = net.places.getD j dummyPlace := by
      intro j hj
      rw [hnet2]
      show (net1.places ++ [_]).getD j dummyPlace = _
      rw [getD_append_left (by rw [hpl1]; exact hj)]
    have hnew2 : net2.places.getD net.places.length dummyPlace =
        { id := net1.places.length, nameId := nm2, tokens := 0, inE := [], outE := [] } := by
      rw [hnet2]
      show (net1.places ++ [_]).getD net.places.length dummyPlace = _
      have h := @getD_concat_length _ net1.places
        { id := net1.places.length, nameId := nm2, tokens := 0, inE := [], outE := [] } dummyPlace
      rw [hpl1] at h
      exact h
    have htold2 : ∀ j, j < net.transitions.length →
        net2.transitions.getD j dummyTrans = net.transitions.getD j dummyTrans := by
      intro j hj
      rw [hnet2]
      show net1.transitions.getD j dummyTrans = _
      rw [hnet1]
      show (net.transitions ++ [_]).getD j dummyTrans = _
      rw [getD_append_left hj]
    have htnew2 : net2.transitions.getD net.transitions.length dummyTrans =
        { id := net.transitions.length, nameId := nm1, label := "τ", inE := [], outE := [] } := by
      rw [hnet2]
      show net1.transitions.getD net.transitions.length dummyTrans = _
      rw [hnet1]
      exact getD_concat_length
    have hout2 : ∀ p ∈ pool, nodeOut net2 (NodeRef.place p) = [] := by
      intro p hp
      show (net2.places.getD p dummyPlace).outE = []
      rw [hold2 p (hlt p hp)]
      exact hout p hp
    have hinT2 : nodeIn net2 (NodeRef.trans net.transitions.length) = [] := by
      show (net2.transitions.getD _ dummyTrans).inE = []
      rw [htnew2]
    have houtT2 : nodeOut net2 (NodeRef.trans net.transitions.length) = [] := by
      show (net2.transitions.getD _ dummyTrans).outE = []
      rw [htnew2]
    have hinP2 : nodeIn net2 (NodeRef.place net.places.length) = [] := by
      show (net2.places.getD _ dummyPlace).inE = []
      rw [hnew2]
    have houtP2 : nodeOut net2 (NodeRef.place net.places.length) = [] := by
      show (net2.places.getD _ dummyPlace).outE = []
      rw [hnew2]
    -- first fresh edge: pool slot `a` feeds the fresh transition
    have hb3s : belongsNode net2 (NodeRef.place (pool.getD a 0)) = true :=
      belongs_place_of_tf hf2 (by rw [hpl2]; omega)
    have hb3d : belongsNode net2 (NodeRef.trans net.transitions.length) = true :=
      belongs_trans_of_tf hf2 (by rw [htl2]; omega)
    have hh43 : ∀ x ∈ nodeOut net2 (NodeRef.place (pool.getD a 0)),
        edgeDst net2 x ≠ NodeRef.trans net.transitions.length := by
      rw [hout2 _ hpa_mem]
      intro x hx
      cases hx
    have hh53 : ∀ y ∈ nodeIn net2 (NodeRef.trans net.transitions.length),
        edgeSrc net2 y ≠ NodeRef.place (pool.getD a 0) := by
      rw [hinT2]
      intro y hy
      cases hy
    have hstep3 := addEdge_runs (w := 1) hb3s hb3d rfl hh43 hh53
    set net3 := addEdgeNet net2 (NodeRef.place (pool.getD a 0))
      (NodeRef.trans net.transitions.length) 1 with hnet3
    have hf3 : TfFacts net3 := tfFacts_addEdge hf2 hstep3
    have hpl3 : net3.places.length = net.places.length + 1 := by
      rw [hnet3, addEdgeNet_places_length, hpl2]
    have htl3 : net3.transitions.length = net.transitions.length + 1 := by
      rw [hnet3, addEdgeNet_transitions_length, htl2]
    have hel2 : net2.edges.length = net.edges.length := by rw [he2]
    have hel3 : net3.edges.length = net.edges.length + 1 := by
      rw [hnet3, addEdgeNet_edges_length, hel2]
    have houtPb3 : nodeOut net3 (NodeRef.place (pool.getD b 0)) = [] := by
      rw [hnet3, nodeOut_addEdgeNet net2 _ 1 (belongs_refValid hb3s),
        if_neg (fun hc => hpane (NodeRef.place.inj hc).symm)]
      exact hout2 _ hpb_mem
    have hinT3 : nodeIn net3 (NodeRef.trans net.transitions.length) = [net.edges.length] := by
      rw [hnet3, nodeIn_addEdgeNet net2 _ 1 (belongs_refValid hb3d), if_pos rfl, hinT2, hel2]
      rfl
    have hsrc3new : edgeSrc net3 net.edges.length = NodeRef.place (pool.getD a 0) := by
      show (net3.edges.getD net.edges.length dummyEdge).src = _
      rw [hnet3]
      have h := addEdgeNet_edges_new net2 (NodeRef.place (pool.getD a 0))
        (NodeRef.trans net.transitions.length) 1
      rw [hel2] at h
      rw [h]
    -- second fresh edge: pool slot `b` feeds the fresh transition
    have hb4s : belongsNode net3 (NodeRef.place (pool.getD b 0)) = true :=
      belongs_place_of_tf hf3 (by rw [hpl3]; omega)
    have hb4d : belongsNode net3 (NodeRef.trans net.transitions.length) = true :=
      belongs_trans_of_tf hf3 (by rw [htl3]; omega)
    have hh44 : ∀ x ∈ nodeOut net3 (NodeRef.place (pool.getD b 0)),
        edgeDst net3 x ≠ NodeRef.trans net.transitions.length := by
      rw [houtPb3]
      intro x hx
      cases hx
    have hh54 : ∀ y ∈ nodeIn net3 (NodeRef.trans net.transitions.length),
        edgeSrc net3 y ≠ NodeRef.place (pool.getD b 0) := by
      rw [hinT3]
      intro y hy
      rcases List.mem_singleton.1 hy with rfl
      rw [hsrc3new]
      intro hc
      exact hpane (NodeRef.place.inj hc)
    have hstep4 := addEdge_runs (w := 1) hb4s hb4d rfl hh44 hh54
    set net4 := addEdgeNet net3 (NodeRef.place (pool.getD b 0))
      (NodeRef.trans net.transitions.length) 1 with hnet4
    have hf4 : TfFacts net4 := tfFacts_addEdge hf3 hstep4
    have hpl4 : net4.places.length = net.places.length + 1 := by
      rw [hnet4, addEdgeNet_places_length, hpl3]
    have htl4 : net4.transitions.length = net.transitions.length + 1 := by
      rw [hnet4, addEdgeNet_transitions_length, htl3]
    have hel4 : net4.edges.length = net.edges.length + 2 := by
      rw [hnet4, addEdgeNet_edges_length, hel3]
    have houtT4 : nodeOut net4 (NodeRef.trans net.transitions.length) = [] := by
      rw [hnet4, nodeOut_addEdgeNet net3 _ 1 (belongs_refValid hb4s),
        if_neg (by intro hc; cases hc), hnet3,
        nodeOut_addEdgeNet net2 _ 1 (belongs_refValid hb3s),
        if_neg (by intro hc; cases hc)]
      exact houtT2
    have hinP4 : nodeIn net4 (NodeRef.place net.places.length) = [] := by
      rw [hnet4, nodeIn_addEdgeNet net3 _ 1 (belongs_refValid hb4d),
        if_neg (by intro hc; cases hc), hnet3,
        nodeIn_addEdgeNet net2 _ 1 (belongs_refValid hb3d),
        if_neg (by intro hc; cases hc)]
      exact hinP2
    -- third fresh edge: the fresh transition feeds the fresh place
    have hb5s : belongsNode net4 (NodeRef.trans net.transitions.length) = true :=
      belongs_trans_of_tf hf4 (by rw [htl4]; omega)
    have hb5d : belongsNode net4 (NodeRef.place net1.places.length) = true := by
      rw [hpl1]
      exact belongs_place_of_tf hf4 (by rw [hpl4]; omega)
    have hh45 : ∀ x ∈ nodeOut net4 (NodeRef.trans net.transitions.length),
        edgeDst net4 x ≠ NodeRef.place net1.places.length := by
      rw [houtT4]
      intro x hx
      cases hx
    have hh55 : ∀ y ∈ nodeIn net4 (NodeRef.place net1.places.length),
        edgeSrc net4 y ≠ NodeRef.trans net.transitions.length := by
      rw [hpl1, hinP4]
      intro y hy
      cases hy
    have hstep5 := addEdge_runs (w := 1) hb5s hb5d rfl hh45 hh55
    set net5 := addEdgeNet net4 (NodeRef.trans net.transitions.length)
      (NodeRef.place net1.places.length) 1 with hnet5
    have hf5 : TfFacts net5 := tfFacts_addEdge hf4 hstep5
    have hpl5 : net5.places.length = net.places.length + 1 := by
      rw [hnet5, addEdgeNet_places_length, hpl4]
    have htl5 : net5.transitions.length = net.transitions.length + 1 := by
      rw [hnet5, addEdgeNet_transitions_length, htl4]
    have hel5 : net5.edges.length = net.edges.length + 3 := by
      rw [hnet5, addEdgeNet_edges_length, hel4]
    -- pool bookkeeping
    have hv : net1.places.length ∉ pool := by
      rw [hpl1]
      intro hc
      exact absurd (hlt _ hc) (by omega)
    obtain ⟨hnd2, hlen2, hmem2⟩ := pool_update_spec hab hb hnd hv
    have hlt5 : ∀ p ∈ ((pool.set a net1.places.length).set b
        ((pool.set a net1.places.length).getD ((pool.set a net1.places.length).length - 1) 0)).dropLast,
        p < net5.places.length := by
      intro p hp
      rcases hmem2 p hp with rfl | ⟨hp2, _, _⟩
      · rw [hpl5, hpl1]
        omega
      · rw [hpl5]
        exact Nat.lt_succ_of_lt (hlt p hp2)
    have hout5 : ∀ p ∈ ((pool.set a net1.places.length).set b
        ((pool.set a net1.places.length).getD ((pool.set a net1.places.length).length - 1) 0)).dropLast,
        nodeOut net5 (NodeRef.place p) = [] := by
      intro p hp
      rcases hmem2 p hp with rfl | ⟨hp2, hpa2, hpb2⟩
      · rw [hnet5, nodeOut_addEdgeNet net4 _ 1 (belongs_refValid hb5s),
          if_neg (by intro hc; cases hc), hnet4,
          nodeOut_addEdgeNet net3 _ 1 (belongs_refValid hb4s),
          if_neg (fun hc => by rw [hpl1] at hc; exact absurd (NodeRef.place.inj hc) (by omega)),
          hnet3, nodeOut_addEdgeNet net2 _ 1 (belongs_refValid hb3s),
          if_neg (fun hc => by rw [hpl1] at hc; exact absurd (NodeRef.place.inj hc) (by omega))]
        rw [hpl1]
        exact houtP2
      · rw [hnet5, nodeOut_addEdgeNet net4 _ 1 (belongs_refValid hb5s),
          if_neg (by intro hc; cases hc), hnet4,
          nodeOut_addEdgeNet net3 _ 1 (belongs_refValid hb4s),
          if_neg (fun hc => hpb2 (NodeRef.place.inj hc)),
          hnet3, nodeOut_addEdgeNet net2 _ 1 (belongs_refValid hb3s),
          if_neg (fun hc => hpa2 (NodeRef.place.inj hc))]
        exact hout2 p hp2
    have hokRest : pairsOK rest (((pool.set a net1.places.length).set b
        ((pool.set a net1.places.length).getD ((pool.set a net1.places.length).length - 1) 0)).dropLast).length := by
      rw [hlen2]
      exact hrest
    obtain ⟨net', pool', heqIH, hf', hplen', htlen', helen', hef', htf', hpf', hfresh',
      hplen2', hnd', hlt', hout', hsub'⟩ :=
      ih rest net5 (((pool.set a net1.places.length).set b
        ((pool.set a net1.places.length).getD ((pool.set a net1.places.length).length - 1) 0)).dropLast)
        (by simp at hle; omega) hf5 hlt5 hnd2 hout5 hokRest
    have hrun : pairLoop net pool (a :: b :: rest) = pairLoop net5
        (((pool.set a net1.places.length).set b
          ((pool.set a net1.places.length).getD ((pool.set a net1.places.length).length - 1) 0)).dropLast)
        rest := by
      simp only [pairLoop, hstep1, except_bind_ok, hstep2, hstep3, hstep4, hstep5]
    refine ⟨net', pool', by rw [hrun]; exact heqIH, hf', ?_, ?_, ?_, ?_, ?_, ?_, ?_, ?_,
      hnd', hlt', hout', ?_⟩
    · rw [hplen', hpl5]
      simp only [List.length_cons]
      omega
    · rw [htlen', htl5]
      simp only [List.length_cons]
      omega
    · rw [helen', hel5]
      simp only [List.length_cons]
      omega
    · intro j hj
      rw [hef' j (by omega), hnet5, addEdgeNet_edges_old _ _ _ _ (by omega),
        hnet4, addEdgeNet_edges_old _ _ _ _ (by omega),
        hnet3, addEdgeNet_edges_old _ _ _ _ (by omega), he2]
    · intro j hj
      rw [htf' j (by omega),
        hnet5, transGetD_addEdgeNet_ne _ _ (fun hc => absurd (NodeRef.trans.inj hc) (by omega))
          (by intro hc; cases hc),
        hnet4, transGetD_addEdgeNet_ne _ _ (by intro hc; cases hc)
          (fun hc => absurd (NodeRef.trans.inj hc) (by omega)),
        hnet3, transGetD_addEdgeNet_ne _ _ (by intro hc; cases hc)
          (fun hc => absurd (NodeRef.trans.inj hc) (by omega))]
      exact htold2 j hj
    · intro j hj hjpool
      have hja : pool.getD a 0 ≠ j := fun hc => hjpool (hc ▸ hpa_mem)
      have hjb : pool.getD b 0 ≠ j := fun hc => hjpool (hc ▸ hpb_mem)
      rw [hpf' j (by omega) (by
          intro hc
          rcases hmem2 j hc with hc2 | ⟨hc2, _, _⟩
          · rw [hpl1] at hc2
            omega
          · exact hjpool hc2),
        hnet5, placeGetD_addEdgeNet_ne _ _ (by intro hc; cases hc)
          (fun hc => by rw [hpl1] at hc; exact absurd (NodeRef.place.inj hc) (by omega)),
        hnet4, placeGetD_addEdgeNet_ne _ _ (fun hc => hjb (NodeRef.place.inj hc))
          (by intro hc; cases hc),
        hnet3, placeGetD_addEdgeNet_ne _ _ (fun hc => hja (NodeRef.place.inj hc))
          (by intro hc; cases hc)]
      exact hold2 j hj
    · intro j hj1 hj2
      by_cases hjT : j = net.transitions.length
      · subst hjT
        have hrec : net'.transitions.getD net.transitions.length dummyTrans =
            net5.transitions.getD net.transitions.length dummyTrans :=
          htf' net.transitions.length (by omega)
        constructor
        · rw [hrec, hnet5, transLabel_addEdgeNet, hnet4, transLabel_addEdgeNet,
            hnet3, transLabel_addEdgeNet, htnew2]
        · have hin5 : nodeIn net5 (NodeRef.trans net.transitions.length) =
              [net.edges.length, net.edges.length + 1] := by
            rw [hnet5, nodeIn_addEdgeNet net4 _ 1 (belongs_refValid hb5d),
              if_neg (by intro hc; cases hc),
              hnet4, nodeIn_addEdgeNet net3 _ 1 (belongs_refValid hb4d), if_pos rfl,
              hinT3, hel3]
            rfl
          have hfin : (net'.transitions.getD net.transitions.length dummyTrans).inE =
              [net.edges.length, net.edges.length + 1] := by
            rw [hrec]
            exact hin5
          rw [hfin]
          rfl
      · exact hfresh' j (by omega) hj2
    · rw [hplen2', hlen2]
      simp only [List.length_cons]
      omega
    · intro p hp
      rcases hsub' p hp with hp2 | hp2
      · rcases hmem2 p hp2 with rfl | ⟨hp3, _, _⟩
        · right
          rw [hpl1]
        · exact Or.inl hp3
      · right
        rw [hpl5] at hp2
        omega

/-- The final wiring of a group (`places.forEach(place =>
transitions.forEach(transition => petriNet.addEdge(place, transition,
1)))`), run on the remaining cleared pool places and the group's
cleared transitions: it succeeds, keeps the relaxed invariant, leaves
lengths of the node collections, pre-existing edges, labels, all
transitions outside the group and all places outside the pool
untouched, and gives every group transition exactly one ingoing edge
per pool place. -/
theorem finalWiring_spec {net : PetriNet} {pool SL : List Nat} (hf : TfFacts net)
    (hpool_lt : ∀ p ∈ pool, p < net.places.length) (hpool_nd : pool.Nodup)
    (hpool_out : ∀ p ∈ pool, nodeOut net (NodeRef.place p) = [])
    (hsl_lt : ∀ t ∈ SL, t < net.transitions.length) (hsl_nd : SL.Nodup)
    (hsl_in : ∀ t ∈ SL, nodeIn net (NodeRef.trans t) = []) :
    ∃ W, finalWiring net pool SL = .ok W ∧ TfFacts W ∧
      W.places.length = net.places.length ∧
      W.transitions.length = net.transitions.length ∧
      W.edges.length = net.edges.length + pool.length * SL.length ∧
      (∀ j, j < net.edges.length → W.edges.getD j dummyEdge = net.edges.getD j dummyEdge) ∧
      (∀ j, (W.transitions.getD j dummyTrans).label = (net.transitions.getD j dummyTrans).label) ∧
      (∀ j, j ∉ SL → W.transitions.getD j dummyTrans = net.transitions.getD j dummyTrans) ∧
      (∀ t ∈ SL, (nodeIn W (NodeRef.trans t)).length = pool.length) ∧
      (∀ q, q ∉ pool → W.places.getD q dummyPlace = net.places.getD q dummyPlace) := by
  obtain ⟨W, heq, hP⟩ := foldlM_invariant
    (fun n p => SL.foldlM
      (fun n2 t => (addEdge n2 (NodeRef.place p) (NodeRef.trans t) 1).map (fun x => x.1)) n)
    pool
    (fun i cur => TfFacts cur ∧
      cur.places.length = net.places.length ∧
      cur.transitions.length = net.transitions.length ∧
      cur.edges.length = net.edges.length + i * SL.length ∧
      (∀ j, j < net.edges.length → cur.edges.getD j dummyEdge = net.edges.getD j dummyEdge) ∧
      (∀ j, (cur.transitions.getD j dummyTrans).label =
        (net.transitions.getD j dummyTrans).label) ∧
      (∀ j, j ∉ SL → cur.transitions.getD j dummyTrans = net.transitions.getD j dummyTrans) ∧
      (∀ t ∈ SL, (nodeIn cur (NodeRef.trans t)).length = i ∧
        ∀ y ∈ nodeIn cur (NodeRef.trans t),
          ∃ q ∈ pool.take i, edgeSrc cur y = NodeRef.place q) ∧
      (∀ q, q ∉ pool.take i → cur.places.getD q dummyPlace = net.places.getD q dummyPlace))
    net
    ⟨hf, rfl, rfl, by omega, fun j _ => rfl, fun j => rfl, fun j _ => rfl,
      (by
        intro t ht
        rw [hsl_in t ht]
        exact ⟨rfl, fun y hy => absurd hy (List.not_mem_nil y)⟩),
      fun q _ => rfl⟩
    (by
      intro i cur p hpi hOP
      obtain ⟨hfc, hplc, htlc, helc, hefc, hlabc, htfc, hslc, hpfc⟩ := hOP
      have hp_mem : p ∈ pool := mem_of_getElemQ hpi
      have hp_lt : p < net.places.length := hpool_lt p hp_mem
      have hp_not_take : p ∉ pool.take i := getElemQ_not_mem_take hpi hpool_nd
      have htake_succ : pool.take (i + 1) = pool.take i ++ [p] := by
        rw [List.take_succ, hpi]
        rfl
      obtain ⟨cur', heq2, hIP⟩ := foldlM_invariant
        (fun n2 t => (addEdge n2 (NodeRef.place p) (NodeRef.trans t) 1).map (fun x => x.1))
        SL
        (fun k cur2 => TfFacts cur2 ∧
          cur2.places.length = net.places.length ∧
          cur2.transitions.length = net.transitions.length ∧
          cur2.edges.length = cur.edges.length + k ∧
          (∀ j, j < cur.edges.length →
            cur2.edges.getD j dummyEdge = cur.edges.getD j dummyEdge) ∧
          (∀ j, (cur2.transitions.getD j dummyTrans).label =
            (cur.transitions.getD j dummyTrans).label) ∧
          (∀ j, j ∉ SL.take k →
            cur2.transitions.getD j dummyTrans = cur.transitions.getD j dummyTrans) ∧
          (∀ t ∈ SL.take k, (nodeIn cur2 (NodeRef.trans t)).length = i + 1 ∧
            ∀ y ∈ nodeIn cur2 (NodeRef.trans t),
              (∃ q ∈ pool.take i, edgeSrc cur2 y = NodeRef.place q) ∨
                edgeSrc cur2 y = NodeRef.place p) ∧
          (∀ q, q ≠ p → cur2.places.getD q dummyPlace = cur.places.getD q dummyPlace) ∧
          (∀ x ∈ nodeOut cur2 (NodeRef.place p),
            ∃ u ∈ SL.take k, edgeDst cur2 x = NodeRef.trans u))
        cur
        ⟨hfc, hplc, htlc, by omega, fun j _ => rfl, fun j => rfl, fun j _ => rfl,
          (by intro t ht; cases ht),
          fun q _ => rfl,
          (by
            intro x hx
            have hout0 : nodeOut cur (NodeRef.place p) = [] := by
              show (cur.places.getD p dummyPlace).outE = []
              rw [hpfc p hp_not_take]
              exact hpool_out p hp_mem
            rw [hout0] at hx
            cases hx)⟩
        (by
          intro k cur2 t hSLk hIP2
          obtain ⟨hf2, hpl2, htl2, hel2, hef2, hlab2, htf2, hsl2, hpf2, hpo2⟩ := hIP2
          have ht_mem : t ∈ SL := mem_of_getElemQ hSLk
          have ht_lt : t < net.transitions.length := hsl_lt t ht_mem
          have ht_not_take : t ∉ SL.take k := getElemQ_not_mem_take hSLk hsl_nd
          have hSLtake_succ : SL.take (k + 1) = SL.take k ++ [t] := by
            rw [List.take_succ, hSLk]
            rfl
          have hrect : cur2.transitions.getD t dummyTrans = cur.transitions.getD t dummyTrans :=
            htf2 t ht_not_take
          have hint2 : nodeIn cur2 (NodeRef.trans t) = nodeIn cur (NodeRef.trans t) := by
            show (cur2.transitions.getD t dummyTrans).inE = _
            rw [hrect]
            rfl
          have hrvT2 : refValidB cur2 (NodeRef.trans t) = true := by
            show decide (t < cur2.transitions.length) = true
            rw [htl2]
            simp [ht_lt]
          have hrvTc : refValidB cur (NodeRef.trans t) = true := by
            show decide (t < cur.transitions.length) = true
            rw [htlc]
            simp [ht_lt]
          have hrvP2 : refValidB cur2 (NodeRef.place p) = true := by
            show decide (p < cur2.places.length) = true
            rw [hpl2]
            simp [hp_lt]
          have hsrc_pres : ∀ y ∈ nodeIn cur (NodeRef.trans t),
              edgeSrc cur2 y = edgeSrc cur y := by
            intro y hy
            have hylt : y < cur.edges.length := (hfc.inAdj _ hrvTc y hy).1
            show (cur2.edges.getD y dummyEdge).src = _
            rw [hef2 y hylt]
            rfl
          have hb1 : belongsNode cur2 (NodeRef.place p) = true :=
            belongs_place_of_tf hf2 (by rw [hpl2]; exact hp_lt)
          have hb2 : belongsNode cur2 (NodeRef.trans t) = true :=
            belongs_trans_of_tf hf2 (by rw [htl2]; exact ht_lt)
          have hh4 : ∀ x ∈ nodeOut cur2 (NodeRef.place p),
              edgeDst cur2 x ≠ NodeRef.trans t := by
            intro x hx
            obtain ⟨u, hu, hdx⟩ := hpo2 x hx
            rw [hdx]
            intro hc
            exact ht_not_take ((NodeRef.trans.inj hc) ▸ hu)
          have hh5 : ∀ y ∈ nodeIn cur2 (NodeRef.trans t),
              edgeSrc cur2 y ≠ NodeRef.place p := by
            rw [hint2]
            intro y hy
            obtain ⟨-, hsrcs⟩ := hslc t ht_mem
            obtain ⟨q, hq, hsy⟩ := hsrcs y hy
            rw [hsrc_pres y hy, hsy]
            intro hc
            exact hp_not_take ((NodeRef.place.inj hc) ▸ hq)
          have hrun := addEdge_runs (w := 1) hb1 hb2 rfl hh4 hh5
          refine ⟨addEdgeNet cur2 (NodeRef.place p) (NodeRef.trans t) 1, ?_, ?_⟩
          · show Except.map (fun x => x.1) (addEdge cur2 (NodeRef.place p) (NodeRef.trans t) 1)
              = Except.ok (addEdgeNet cur2 (NodeRef.place p) (NodeRef.trans t) 1)
            rw [hrun]
            rfl
          · have hf3 : TfFacts (addEdgeNet cur2 (NodeRef.place p) (NodeRef.trans t) 1) :=
              tfFacts_addEdge hf2 hrun
            have hef3 : ∀ j, j < cur2.edges.length →
                (addEdgeNet cur2 (NodeRef.place p) (NodeRef.trans t) 1).edges.getD j dummyEdge =
                  cur2.edges.getD j dummyEdge := by
              intro j hj
              exact addEdgeNet_edges_old _ _ _ _ hj
            have hsrc3 : ∀ y, y < cur2.edges.length →
                edgeSrc (addEdgeNet cur2 (NodeRef.place p) (NodeRef.trans t) 1) y =
                  edgeSrc cur2 y := by
              intro y hy
              show ((addEdgeNet cur2 _ _ 1).edges.getD y dummyEdge).src = _
              rw [hef3 y hy]
              rfl
            have hdst3 : ∀ y, y < cur2.edges.length →
                edgeDst (addEdgeNet cur2 (NodeRef.place p) (NodeRef.trans t) 1) y =
                  edgeDst cur2 y := by
              intro y hy
              show ((addEdgeNet cur2 _ _ 1).edges.getD y dummyEdge).dst = _
              rw [hef3 y hy]
              rfl
            have hnew3 : (addEdgeNet cur2 (NodeRef.place p) (NodeRef.trans t) 1).edges.getD
                cur2.edges.length dummyEdge =
                { id := cur2.edges.length, src := NodeRef.place p, dst := NodeRef.trans t,
                  weight := 1 } := addEdgeNet_edges_new _ _ _ _
            refine ⟨hf3, ?_, ?_, ?_, ?_, ?_, ?_, ?_, ?_, ?_⟩
            · rw [addEdgeNet_places_length]
              exact hpl2
            · rw [addEdgeNet_transitions_length]
              exact htl2
            · rw [addEdgeNet_edges_length]
              omega
            · intro j hj
              rw [hef3 j (by omega)]
              exact hef2 j hj
            · intro j
              rw [transLabel_addEdgeNet]
              exact hlab2 j
            · intro j hj
              have hjt : j ≠ t := by
                intro hc
                exact hj (hc ▸ hSLtake_succ ▸ List.mem_append_right _ (List.mem_singleton.2 rfl))
              have hjk : j ∉ SL.take k := by
                intro hc
                exact hj (hSLtake_succ ▸ List.mem_append_left _ hc)
              rw [transGetD_addEdgeNet_ne _ _ (by intro hc; cases hc)
                (fun hc => hjt (NodeRef.trans.inj hc).symm)]
              exact htf2 j hjk
            · intro t' ht'
              rw [hSLtake_succ] at ht'
              have hin3 : nodeIn (addEdgeNet cur2 (NodeRef.place p) (NodeRef.trans t) 1)
                  (NodeRef.trans t') =
                  if NodeRef.trans t' = NodeRef.trans t
                  then nodeIn cur2 (NodeRef.trans t') ++ [cur2.edges.length]
                  else nodeIn cur2 (NodeRef.trans t') := by
                rw [nodeIn_addEdgeNet cur2 _ 1 hrvT2]
              rcases List.mem_append.1 ht' with ht'k | ht't
              · have ht'ne : t' ≠ t := by
                  intro hc
                  exact ht_not_take (hc ▸ ht'k)
                rw [if_neg (fun hc => ht'ne (NodeRef.trans.inj hc))] at hin3
                rw [hin3]
                obtain ⟨hlen', hsrcs'⟩ := hsl2 t' ht'k
                refine ⟨hlen', ?_⟩
                intro y hy
                have hrvT2' : refValidB cur2 (NodeRef.trans t') = true := by
                  show decide (t' < cur2.transitions.length) = true
                  rw [htl2]
                  simp [hsl_lt t' (List.mem_of_mem_take ht'k)]
                have hylt : y < cur2.edges.length := (hf2.inAdj _ hrvT2' y hy).1
                rcases hsrcs' y hy with ⟨q, hq, hsy⟩ | hsy
                · exact Or.inl ⟨q, hq, by rw [hsrc3 y hylt]; exact hsy⟩
                · exact Or.inr (by rw [hsrc3 y hylt]; exact hsy)
              · rcases List.mem_singleton.1 ht't with rfl
                rw [if_pos rfl] at hin3
                rw [hin3, hint2]
                obtain ⟨hlenc, hsrcsc⟩ := hslc t' ht_mem
                constructor
                · rw [List.length_append, hlenc]
                  rfl
                · intro y hy
                  rcases List.mem_append.1 hy with hyold | hynew
                  · obtain ⟨q, hq, hsy⟩ := hsrcsc y hyold
                    have hylt : y < cur.edges.length := (hfc.inAdj _ hrvTc y hyold).1
                    refine Or.inl ⟨q, hq, ?_⟩
                    rw [hsrc3 y (by omega), hsrc_pres y hyold]
                    exact hsy
                  · rcases List.mem_singleton.1 hynew with rfl
                    right
                    show ((addEdgeNet cur2 _ _ 1).edges.getD cur2.edges.length dummyEdge).src = _
                    rw [hnew3]
            · intro q hq
              rw [placeGetD_addEdgeNet_ne _ _ (fun hc => hq (NodeRef.place.inj hc).symm)
                (by intro hc; cases hc)]
              exact hpf2 q hq
            · intro x hx
              have hout3 : nodeOut (addEdgeNet cur2 (NodeRef.place p) (NodeRef.trans t) 1)
                  (NodeRef.place p) = nodeOut cur2 (NodeRef.place p) ++ [cur2.edges.length] := by
                rw [nodeOut_addEdgeNet cur2 _ 1 hrvP2, if_pos rfl]
              rw [hout3] at hx
              rcases List.mem_append.1 hx with hxold | hxnew
              · obtain ⟨u, hu, hdx⟩ := hpo2 x hxold
                have hxlt : x < cur2.edges.length := (hf2.outAdj _ hrvP2 x hxold).1
                refine ⟨u, hSLtake_succ ▸ List.mem_append_left _ hu, ?_⟩
                rw [hdst3 x hxlt]
                exact hdx
              · rcases List.mem_singleton.1 hxnew with rfl
                refine ⟨t, hSLtake_succ ▸ List.mem_append_right _ (List.mem_singleton.2 rfl), ?_⟩
                show ((addEdgeNet cur2 _ _ 1).edges.getD cur2.edges.length dummyEdge).dst = _
                rw [hnew3])
      obtain ⟨hf'', hpl'', htl'', hel'', hef'', hlab'', htf'', hsl'', hpf'', hpo''⟩ := hIP
      refine ⟨cur', heq2, hf'', hpl'', htl'', by rw [hel'', helc]; ring, ?_, ?_, ?_, ?_, ?_⟩
      · intro j hj
        rw [hef'' j (by omega)]
        exact hefc j hj
      · intro j
        rw [hlab'' j]
        exact hlabc j
      · intro j hj
        have hjk : j ∉ SL.take SL.length := by
          rw [List.take_length]
          exact hj
        rw [htf'' j hjk]
        exact htfc j hj
      · intro t ht
        have htk : t ∈ SL.take SL.length := by
          rw [List.take_length]
          exact ht
        obtain ⟨hlen', hsrcs'⟩ := hsl'' t htk
        refine ⟨hlen', ?_⟩
        intro y hy
        rcases hsrcs' y hy with ⟨q, hq, hsy⟩ | hsy
        · exact ⟨q, htake_succ ▸ List.mem_append_left _ hq, hsy⟩
        · exact ⟨p, htake_succ ▸ List.mem_append_right _ (List.mem_singleton.2 rfl), hsy⟩
      · intro q hq
        have hqi : q ∉ pool.take i := by
          intro hc
          exact hq (htake_succ ▸ List.mem_append_left _ hc)
        have hqp : q ≠ p := by
          intro hc
          exact hq (htake_succ ▸ List.mem_append_right _ (List.mem_singleton.2 hc))
        rw [hpf'' q hqp]
        exact hpfc q hqi)
  obtain ⟨hfW, hplW, htlW, helW, hefW, hlabW, htfW, hslW, hpfW⟩ := hP
  refine ⟨W, heq, hfW, hplW, htlW, helW, hefW, hlabW, htfW, ?_, ?_⟩
  · intro t ht
    exact (hslW t ht).1
  · intro q hq
    refine hpfW q ?_
    rw [List.take_length]
    exact hq

/-- Invariant of the transformation's `transitions.forEach` over the
copy `C`: the working net keeps the relaxed well-formedness facts, its
collections only grow, the copied edge prefix and the copied labels are
untouched, every fresh transition is a binary τ-synchronisation, and
every original transition either already meets the 2-τ-synchronisation
constraint or is still pristine (its in-list and all its feeding places
are exactly as in the copy) and not yet reached. -/
def TInv (C : PetriNet) (k : Nat) (cur : PetriNet) : Prop :=
  TfFacts cur ∧
  C.places.length ≤ cur.places.length ∧
  C.transitions.length ≤ cur.transitions.length ∧
  C.edges.length ≤ cur.edges.length ∧
  (∀ j, j < C.edges.length → cur.edges.getD j dummyEdge = C.edges.getD j dummyEdge) ∧
  (∀ j, j < C.transitions.length →
    (cur.transitions.getD j dummyTrans).label = (C.transitions.getD j dummyTrans).label) ∧
  (∀ j, C.transitions.length ≤ j → j < cur.transitions.length →
    (cur.transitions.getD j dummyTrans).label = "τ" ∧
    (cur.transitions.getD j dummyTrans).inE.length = 2) ∧
  (∀ j, j < C.transitions.length →
    ((nodeIn cur (NodeRef.trans j)).length ≤ 1 ∨
      ((nodeIn cur (NodeRef.trans j)).length = 2 ∧
        (cur.transitions.getD j dummyTrans).label = "τ")) ∨
    (k ≤ j ∧ (cur.transitions.getD j dummyTrans).inE = (C.transitions.getD j dummyTrans).inE ∧
      ∀ q, hasEdge C (NodeRef.place q) (NodeRef.trans j) →
        cur.places.getD q dummyPlace = C.places.getD q dummyPlace))

/-- One step of the transformation preserves the invariant and never
fails, provided the copy is well-formed and group-choice-structured. -/
theorem to2TauStep_inv {C : PetriNet} (hwfC : WfFacts C)
    (hgcC : ∀ s q' t, hasEdge C (NodeRef.place s) t → hasEdge C q' t →
      (nodeOut C q').length = (nodeOut C (NodeRef.place s)).length ∧
      ∀ u, hasEdge C q' u ↔ hasEdge C (NodeRef.place s) u)
    (rand : Nat → Nat) (k : Nat) (cur : PetriNet) (c : Nat) (hk : k < C.transitions.length)
    (hInv : TInv C k cur) :
    ∃ cur' c', to2TauStep rand (cur, c) k = .ok (cur', c') ∧ TInv C (k + 1) cur' := by
  obtain ⟨hfc, hplc, htlc, helc, hefc, hlabc, hfreshc, hsatc⟩ := hInv
  by_cases hguard : (cur.transitions.getD k dummyTrans).inE.length ≤
      (if (cur.transitions.getD k dummyTrans).label == "τ" then 2 else 1)
  · -- the transition already satisfies the constraint: the step is a no-op
    refine ⟨cur, c, ?_, ?_⟩
    · simp only [to2TauStep]
      rw [if_pos hguard]
    · refine ⟨hfc, hplc, htlc, helc, hefc, hlabc, hfreshc, ?_⟩
      intro j hj
      rcases hsatc j hj with hsat | ⟨hkj, hrest⟩
      · exact Or.inl hsat
      · by_cases hjk : j = k
        · subst hjk
          left
          by_cases hτ : (cur.transitions.getD j dummyTrans).label = "τ"
          · rw [hτ] at hguard
            simp only [beq_self_eq_true, if_true] at hguard
            rcases Nat.lt_or_ge (nodeIn cur (NodeRef.trans j)).length 2 with h2 | h2
            · exact Or.inl (by omega)
            · refine Or.inr ⟨?_, hτ⟩
              have : (nodeIn cur (NodeRef.trans j)).length =
                  (cur.transitions.getD j dummyTrans).inE.length := rfl
              omega
          · left
            have hbeq : ((cur.transitions.getD j dummyTrans).label == "τ") = false :=
              beq_eq_false_iff_ne.mpr hτ
            rw [hbeq] at hguard
            simp only [Bool.false_eq_true, if_false] at hguard
            have : (nodeIn cur (NodeRef.trans j)).length =
                (cur.transitions.getD j dummyTrans).inE.length := rfl
            omega
        · exact Or.inr ⟨by omega, hrest⟩
  · -- the transition is over-wide: from the invariant it must be pristine
    have hnot_sat : ¬((nodeIn cur (NodeRef.trans k)).length ≤ 1 ∨
        ((nodeIn cur (NodeRef.trans k)).length = 2 ∧
          (cur.transitions.getD k dummyTrans).label = "τ")) := by
      have hlen_eq : (nodeIn cur (NodeRef.trans k)).length =
          (cur.transitions.getD k dummyTrans).inE.length := rfl
      rintro (h1 | ⟨h2, hτ⟩)
      · apply hguard
        split
        · omega
        · omega
      · apply hguard
        rw [hτ]
        simp only [beq_self_eq_true, if_true]
        omega
    obtain ⟨-, hinEk, hplk⟩ := (hsatc k hk).resolve_left hnot_sat
    have hrvk : refValidB C (NodeRef.trans k) = true := by
      show decide (k < C.transitions.length) = true
      simp [hk]
    -- the feeder slots of the over-wide transition, read off the copy
    have hsrc_pres : ∀ eid ∈ nodeIn C (NodeRef.trans k), edgeSrc cur eid = edgeSrc C eid := by
      intro eid he
      have helt : eid < C.edges.length := (hwfC.inAdj _ hrvk eid he).1
      show (cur.edges.getD eid dummyEdge).src = _
      rw [hefc eid helt]
      rfl
    have hplaces_eq : (cur.transitions.getD k dummyTrans).inE.map
        (fun eid => (edgeSrc cur eid).idx) =
        (nodeIn C (NodeRef.trans k)).map (fun eid => (edgeSrc C eid).idx) := by
      rw [hinEk]
      refine List.map_congr_left ?_
      intro eid he
      rw [hsrc_pres eid he]
    have hsrc_place : ∀ eid ∈ nodeIn C (NodeRef.trans k),
        edgeSrc C eid = NodeRef.place (edgeSrc C eid).idx := by
      intro eid he
      obtain ⟨helt, hdst⟩ := hwfC.inAdj _ hrvk eid he
      have hbip := hwfC.edgeBip eid helt
      rw [hdst] at hbip
      rcases hs : edgeSrc C eid with q | q
      · rfl
      · rw [hs] at hbip
        simp [sameKind] at hbip
    have hfeed : ∀ x ∈ (cur.transitions.getD k dummyTrans).inE.map
        (fun eid => (edgeSrc cur eid).idx),
        hasEdge C (NodeRef.place x) (NodeRef.trans k) := by
      rw [hplaces_eq]
      intro x hx
      obtain ⟨eid, he, hxe⟩ := List.mem_map.1 hx
      obtain ⟨helt, hdst⟩ := hwfC.inAdj _ hrvk eid he
      refine ⟨eid, helt, ?_, hdst⟩
      rw [hsrc_place eid he, hxe]
    have hpl_ltC : ∀ x ∈ (cur.transitions.getD k dummyTrans).inE.map
        (fun eid => (edgeSrc cur eid).idx), x < C.places.length := by
      intro x hx
      obtain ⟨eid, helt, hsrc, -⟩ := hfeed x hx
      have := hwfC.srcValid eid helt
      rw [hsrc] at this
      simpa [refValidB] using this
    have hpl_nd : ((cur.transitions.getD k dummyTrans).inE.map
        (fun eid => (edgeSrc cur eid).idx)).Nodup := by
      rw [hplaces_eq]
      refine List.Nodup.map_on ?_ (hwfC.inNodup _ hrvk)
      intro e1 h1 e2 h2 hidx
      have hs1 := hsrc_place e1 h1
      have hs2 := hsrc_place e2 h2
      refine hwfC.pairUniq e1 (hwfC.inAdj _ hrvk e1 h1).1 e2 (hwfC.inAdj _ hrvk e2 h2).1 ?_
        ((hwfC.inAdj _ hrvk e1 h1).2.trans (hwfC.inAdj _ hrvk e2 h2).2.symm)
      rw [hs1, hs2, hidx]
    have hlen_eq : (nodeIn cur (NodeRef.trans k)).length =
        (cur.transitions.getD k dummyTrans).inE.length := rfl
    have hlen_ge2 : 2 ≤ (cur.transitions.getD k dummyTrans).inE.length := by
      by_contra hc
      exact hguard (by split <;> omega)
    have hplen : ((cur.transitions.getD k dummyTrans).inE.map
        (fun eid => (edgeSrc cur eid).idx)).length =
        (cur.transitions.getD k dummyTrans).inE.length := List.length_map _ _
    obtain ⟨q0, prest, hpcons⟩ : ∃ h t, (cur.transitions.getD k dummyTrans).inE.map
        (fun eid => (edgeSrc cur eid).idx) = h :: t := by
      rcases hm : (cur.transitions.getD k dummyTrans).inE.map
        (fun eid => (edgeSrc cur eid).idx) with _ | ⟨h, t⟩
      · rw [hm] at hplen
        simp only [List.length_nil] at hplen
        omega
      · exact ⟨h, t, rfl⟩
    have hq0head : ((cur.transitions.getD k dummyTrans).inE.map
        (fun eid => (edgeSrc cur eid).idx)).headD 0 = q0 := by
      rw [hpcons]
      rfl
    have hq0mem : q0 ∈ (cur.transitions.getD k dummyTrans).inE.map
        (fun eid => (edgeSrc cur eid).idx) := by
      rw [hpcons]
      exact List.mem_cons_self _ _
    have hq0feed : hasEdge C (NodeRef.place q0) (NodeRef.trans k) := hfeed q0 hq0mem
    have hq0lt : q0 < C.places.length := hpl_ltC q0 hq0mem
    have hq0rec : cur.places.getD q0 dummyPlace = C.places.getD q0 dummyPlace :=
      hplk q0 hq0feed
    have hrvq0 : refValidB C (NodeRef.place q0) = true := by
      show decide (q0 < C.places.length) = true
      simp [hq0lt]
    -- the group's transitions, read off the copy
    have hdst_pres : ∀ eid ∈ nodeOut C (NodeRef.place q0),
        edgeDst cur eid = edgeDst C eid := by
      intro eid he
      have helt : eid < C.edges.length := (hwfC.outAdj _ hrvq0 eid he).1
      show (cur.edges.getD eid dummyEdge).dst = _
      rw [hefc eid helt]
      rfl
    have hSL_eq : (cur.places.getD ((((cur.transitions.getD k dummyTrans).inE.map
        (fun eid => (edgeSrc cur eid).idx))).headD 0) dummyPlace).outE.map
        (fun eid => (edgeDst cur eid).idx) =
        (nodeOut C (NodeRef.place q0)).map (fun eid => (edgeDst C eid).idx) := by
      rw [hq0head, hq0rec]
      refine List.map_congr_left ?_
      intro eid he
      rw [hdst_pres eid he]
    have hdst_trans : ∀ eid ∈ nodeOut C (NodeRef.place q0),
        edgeDst C eid = NodeRef.trans (edgeDst C eid).idx := by
      intro eid he
      obtain ⟨helt, hsrc⟩ := hwfC.outAdj _ hrvq0 eid he
      have hbip := hwfC.edgeBip eid helt
      rw [hsrc] at hbip
      rcases hd : edgeDst C eid with u | u
      · rw [hd] at hbip
        simp [sameKind] at hbip
      · rfl
    have hSL_edge : ∀ u ∈ (nodeOut C (NodeRef.place q0)).map
        (fun eid => (edgeDst C eid).idx),
        hasEdge C (NodeRef.place q0) (NodeRef.trans u) := by
      intro u hu
      obtain ⟨eid, he, hue⟩ := List.mem_map.1 hu
      obtain ⟨helt, hsrc⟩ := hwfC.outAdj _ hrvq0 eid he
      refine ⟨eid, helt, hsrc, ?_⟩
      rw [hdst_trans eid he, hue]
    have hSL_of_edge : ∀ u, hasEdge C (NodeRef.place q0) (NodeRef.trans u) →
        u ∈ (nodeOut C (NodeRef.place q0)).map (fun eid => (edgeDst C eid).idx) := by
      intro u hu
      have hmem : NodeRef.trans u ∈ outDst C (NodeRef.place q0) :=
        (mem_outDst_iff hwfC _ _).2 hu
      obtain ⟨eid, he, hd⟩ := List.mem_map.1 hmem
      exact List.mem_map.2 ⟨eid, he, by rw [hd]; rfl⟩
    have hSL_ltC : ∀ u ∈ (nodeOut C (NodeRef.place q0)).map
        (fun eid => (edgeDst C eid).idx), u < C.transitions.length := by
      intro u hu
      obtain ⟨eid, helt, -, hdst⟩ := hSL_edge u hu
      have := hwfC.dstValid eid helt
      rw [hdst] at this
      simpa [refValidB] using this
    have hSL_nd : ((nodeOut C (NodeRef.place q0)).map
        (fun eid => (edgeDst C eid).idx)).Nodup := by
      refine List.Nodup.map_on ?_ (hwfC.outNodup _ hrvq0)
      intro e1 h1 e2 h2 hidx
      have hd1 := hdst_trans e1 h1
      have hd2 := hdst_trans e2 h2
      refine hwfC.pairUniq e1 (hwfC.outAdj _ hrvq0 e1 h1).1 e2 (hwfC.outAdj _ hrvq0 e2 h2).1
        ((hwfC.outAdj _ hrvq0 e1 h1).2.trans (hwfC.outAdj _ hrvq0 e2 h2).2.symm) ?_
      rw [hd1, hd2, hidx]
    have hkSL : k ∈ (nodeOut C (NodeRef.place q0)).map (fun eid => (edgeDst C eid).idx) :=
      hSL_of_edge k hq0feed
    set PL := (cur.transitions.getD k dummyTrans).inE.map
      (fun eid => (edgeSrc cur eid).idx) with hPL
    set SLt := (cur.places.getD (PL.headD 0) dummyPlace).outE.map
      (fun eid => (edgeDst cur eid).idx) with hSLt
    set DN := (if SLt.all (fun j => (cur.transitions.getD j dummyTrans).label == "τ")
      then 2 else 1 : Nat) with hDN
    set OR := (genOrder rand c PL.length DN).1 with hOR
    have hkSLt : k ∈ SLt := by
      rw [hSL_eq]
      exact hkSL
    have hSLt_lt : ∀ u ∈ SLt, u < C.transitions.length := by
      rw [hSL_eq]
      exact hSL_ltC
    have hSLt_nd : SLt.Nodup := by
      rw [hSL_eq]
      exact hSL_nd
    have hdone1 : 1 ≤ DN := by
      rw [hDN]
      split
      · omega
      · omega
    have hdone_le : DN ≤ PL.length := by
      rw [hplen, hDN]
      split
      · next hall =>
        have hkτ := List.all_eq_true.1 hall k hkSLt
        have hτ : (cur.transitions.getD k dummyTrans).label = "τ" := by
          simpa using hkτ
        have hguard2 := hguard
        rw [hτ] at hguard2
        simp only [beq_self_eq_true, if_true] at hguard2
        omega
      · omega
    have hOK : pairsOK OR PL.length := genOrder_pairsOK rand c PL.length DN hdone1 hdone_le
    -- clear the group's adjacency, then run the pairing loop
    have hf2 : TfFacts (clearIns (clearOuts cur PL) SLt) :=
      tfFacts_clearIns (tfFacts_clearOuts hfc PL) SLt
    have hpl2eq : (clearIns (clearOuts cur PL) SLt).places.length = cur.places.length := by
      rw [clearIns_places, clearOuts_places_length]
    have htl2eq : (clearIns (clearOuts cur PL) SLt).transitions.length =
        cur.transitions.length := by
      rw [clearIns_transitions_length, clearOuts_transitions]
    have hed2 : (clearIns (clearOuts cur PL) SLt).edges = cur.edges := by
      rw [clearIns_edges, clearOuts_edges]
    have hout2 : ∀ p ∈ PL, nodeOut (clearIns (clearOuts cur PL) SLt) (NodeRef.place p) = [] := by
      intro p hp
      rw [nodeOut_clearIns, nodeOut_clearOuts,
        if_pos ⟨hp, by have := hpl_ltC p hp; omega⟩]
    have hpool2lt : ∀ p ∈ PL, p < (clearIns (clearOuts cur PL) SLt).places.length := by
      intro p hp
      rw [hpl2eq]
      have := hpl_ltC p hp
      omega
    have hSLin2 : ∀ t ∈ SLt, nodeIn (clearIns (clearOuts cur PL) SLt) (NodeRef.trans t) = [] := by
      intro t ht
      rw [nodeIn_clearIns, if_pos ⟨ht, by rw [clearOuts_transitions]; have := hSLt_lt t ht; omega⟩]
    obtain ⟨net3, pool', hpair, hf3, hpl3, htl3, hel3, hef3, htf3, hpf3, hfresh3, hpool3len,
      hnd3, hlt3, hout3, hsub3⟩ :=
      pairLoop_spec OR.length OR (clearIns (clearOuts cur PL) SLt) PL (le_refl _) hf2
        hpool2lt hpl_nd hout2 hOK
    -- final wiring of the remaining pool to the whole group
    have hsl_lt3 : ∀ t ∈ SLt, t < net3.transitions.length := by
      intro t ht
      have h1 := hSLt_lt t ht
      rw [htl3, htl2eq]
      omega
    have hslin3 : ∀ t ∈ SLt, nodeIn net3 (NodeRef.trans t) = [] := by
      intro t ht
      show (net3.transitions.getD t dummyTrans).inE = []
      rw [htf3 t (by rw [htl2eq]; have := hSLt_lt t ht; omega)]
      exact hSLin2 t ht
    obtain ⟨W, hwire, hfW, hplW, htlW, helW, hefW, hlabW, htfW, hslW, hpfW⟩ :=
      finalWiring_spec hf3 hlt3 hnd3 hout3 hsl_lt3 hSLt_nd hslin3
    -- the step computes to the wired net
    refine ⟨W, (genOrder rand c PL.length DN).2, ?_, ?_⟩
    · simp only [to2TauStep]
      rw [if_neg hguard]
      simp only [← hPL, ← hSLt, ← hDN, ← hOR, hpair, hwire]
    · -- record-preservation chains from `cur` to `W`
      have hrecW : ∀ j, j ∉ SLt → j < cur.transitions.length →
          W.transitions.getD j dummyTrans = cur.transitions.getD j dummyTrans := by
        intro j hj hjlt
        rw [htfW j hj, htf3 j (by rw [htl2eq]; exact hjlt), clearIns_transGetD,
          if_neg (fun hc => hj hc.1), clearOuts_transitions]
      have hlabW2 : ∀ j, j < cur.transitions.length →
          (W.transitions.getD j dummyTrans).label =
            (cur.transitions.getD j dummyTrans).label := by
        intro j hj
        rw [hlabW j, htf3 j (by rw [htl2eq]; exact hj), clearIns_transGetD]
        split
        · rw [clearOuts_transitions]
        · rw [clearOuts_transitions]
      have hplaceW : ∀ q, q ∉ PL → q < C.places.length →
          W.places.getD q dummyPlace = cur.places.getD q dummyPlace := by
        intro q hq hqlt
        have hqlt2 : q < (clearIns (clearOuts cur PL) SLt).places.length := by
          rw [hpl2eq]
          omega
        have hqpool' : q ∉ pool' := by
          intro hc
          rcases hsub3 q hc with hc2 | hc2
          · exact hq hc2
          · omega
        rw [hpfW q hqpool', hpf3 q hqlt2 hq, clearIns_places, clearOuts_placeGetD,
          if_neg (fun hc => hq hc.1)]
      have hWtl : W.transitions.length = cur.transitions.length + OR.length / 2 := by
        rw [htlW, htl3, htl2eq]
      have hWel_lower : cur.edges.length ≤ W.edges.length := by
        rw [helW, hel3, hed2]
        omega
      refine ⟨hfW, ?_, ?_, ?_, ?_, ?_, ?_, ?_⟩
      · rw [hplW, hpl3, hpl2eq]
        omega
      · rw [hWtl]
        omega
      · omega
      · intro j hj
        have hj2 : j < (clearIns (clearOuts cur PL) SLt).edges.length := by
          rw [hed2]
          omega
        rw [hefW j (by rw [hel3]; omega), hef3 j hj2, hed2]
        exact hefc j hj
      · intro j hj
        rw [hlabW2 j (by omega)]
        exact hlabc j hj
      · intro j hjge hjlt
        have hjSLt : j ∉ SLt := by
          intro hc
          have := hSLt_lt j hc
          omega
        by_cases hjcur : j < cur.transitions.length
        · have hrec := hrecW j hjSLt hjcur
          obtain ⟨hl, hi⟩ := hfreshc j hjge hjcur
          rw [hrec]
          exact ⟨hl, hi⟩
        · have hjge2 : (clearIns (clearOuts cur PL) SLt).transitions.length ≤ j := by
            rw [htl2eq]
            omega
          have hjlt3 : j < net3.transitions.length := by
            rw [hWtl] at hjlt
            rw [htl3, htl2eq]
            omega
          obtain ⟨hl, hi⟩ := hfresh3 j hjge2 hjlt3
          rw [htfW j hjSLt]
          exact ⟨hl, hi⟩
      · intro j hj
        by_cases hjSLt : j ∈ SLt
        · -- the whole group now meets the constraint
          left
          have hlenj : (nodeIn W (NodeRef.trans j)).length = pool'.length := hslW j hjSLt
          have hORlen : OR.length = 2 * (PL.length - DN) := genOrder_length rand c _ _
          have hpoolDN : pool'.length = DN := by
            rw [hpool3len]
            omega
          rw [hlenj, hpoolDN]
          rw [hDN]
          split
          · next hall =>
            refine Or.inr ⟨rfl, ?_⟩
            have hjτ := List.all_eq_true.1 hall j hjSLt
            have hτ : (cur.transitions.getD j dummyTrans).label = "τ" := by
              simpa using hjτ
            rw [hlabW2 j (by have := hSLt_lt j hjSLt; omega)]
            exact hτ
          · exact Or.inl (by omega)
        · rcases hsatc j hj with hsat | ⟨hkj, hinE, hplq⟩
          · left
            have hrec := hrecW j hjSLt (by omega)
            have hinW : nodeIn W (NodeRef.trans j) = nodeIn cur (NodeRef.trans j) := by
              show (W.transitions.getD j dummyTrans).inE = _
              rw [hrec]
              rfl
            rcases hsat with h1 | ⟨h2, hτ⟩
            · exact Or.inl (by rw [hinW]; exact h1)
            · exact Or.inr ⟨by rw [hinW]; exact h2, by rw [hrec]; exact hτ⟩
          · right
            have hjk : j ≠ k := by
              intro hc
              exact hjSLt (hc ▸ hkSLt)
            refine ⟨by omega, ?_, ?_⟩
            · rw [hrecW j hjSLt (by omega)]
              exact hinE
            · intro q hq
              have hqlt : q < C.places.length := by
                obtain ⟨eid, helt, hsrc, -⟩ := hq
                have := hwfC.srcValid eid helt
                rw [hsrc] at this
                simpa [refValidB] using this
              have hqPL : q ∉ PL := by
                intro hc
                have hqk : hasEdge C (NodeRef.place q) (NodeRef.trans k) := hfeed q hc
                obtain ⟨-, hiff⟩ := hgcC q0 (NodeRef.place q) (NodeRef.trans k) hq0feed hqk
                have hq0j : hasEdge C (NodeRef.place q0) (NodeRef.trans j) := (hiff _).1 hq
                have : j ∈ SLt := by
                  rw [hSL_eq]
                  exact hSL_of_edge j hq0j
                exact hjSLt this
              rw [hplaceW q hqPL hqlt]
              exact hplq q hq

theorem is2_iff (R : PetriNet) : is2TauSynchronisationNet R = true ↔
    ∀ j, j < R.transitions.length →
      (R.transitions.getD j dummyTrans).inE.length < 2 ∨
      ((R.transitions.getD j dummyTrans).inE.length = 2 ∧
        (R.transitions.getD j dummyTrans).label = "τ") := by
  rw [is2TauSynchronisationNet, List.all_eq_true]
  constructor
  · intro h j hj
    have hmem : R.transitions.getD j dummyTrans ∈ R.transitions := getD_mem hj dummyTrans
    have := h _ hmem
    simpa using this
  · intro h t ht
    obtain ⟨j, hj, hgd⟩ := List.mem_iff_getElem.1 ht
    have hgd2 : R.transitions.getD j dummyTrans = t := by
      rw [List.getD_eq_getElem?_getD, List.getElem?_eq_getElem hj, hgd]
      rfl
    have := h j hj
    rw [hgd2] at this
    simpa using this

/-- The success branches of `to2TauSynchronisationNet`: on a
well-formed net with non-negative token counts and valid labels that
the classifiers accept, the transformation returns a net satisfying
`is2TauSynchronisationNet` (and the relaxed well-formedness facts). -/
theorem to2TauSN_spec {net : PetriNet} (hwf : WfFacts net)
    (htok : ∀ p ∈ net.places, 0 ≤ p.tokens)
    (hlab : ∀ t ∈ net.transitions, labelOK t.label = true) (rand : Nat → Nat)
    (hcls : is2TauSynchronisationNet net = true ∨ isGroupChoiceNet net = true) :
    ∃ out, to2TauSynchronisationNet net rand = .ok out ∧
      is2TauSynchronisationNet out = true ∧ TfFacts out := by
  obtain ⟨C, hcopy, hfC, hplC, htlC, hlabC, houtD⟩ := copyPhase_spec hwf htok hlab
  have hedge_iff : ∀ q t, hasEdge C q t ↔ hasEdge net q t := by
    intro q t
    rw [← mem_outDst_iff hfC, ← mem_outDst_iff hwf, houtD q]
  have hinlen : ∀ r, (nodeIn C r).length = (nodeIn net r).length :=
    nodeIn_length_eq hfC hwf hedge_iff
  have houtlen : ∀ r, (nodeOut C r).length = (nodeOut net r).length := by
    intro r
    have h1 : (nodeOut C r).length = (outDst C r).length := by
      rw [outDst, List.length_map]
    have h2 : (nodeOut net r).length = (outDst net r).length := by
      rw [outDst, List.length_map]
    rw [h1, h2, houtD r]
  by_cases his2 : is2TauSynchronisationNet net = true
  · -- the copy is already a 2-τ-synchronisation net
    have his2C : is2TauSynchronisationNet C = true := by
      rw [is2_iff]
      intro j hj
      have hjn : j < net.transitions.length := by omega
      have hlenj : (C.transitions.getD j dummyTrans).inE.length =
          (net.transitions.getD j dummyTrans).inE.length := hinlen (NodeRef.trans j)
      have hlabj := hlabC j hjn
      rcases (is2_iff net).1 his2 j hjn with h1 | ⟨h2, h3⟩
      · exact Or.inl (by omega)
      · exact Or.inr ⟨by omega, by rw [hlabj]; exact h3⟩
    refine ⟨C, ?_, his2C, tfFacts_of_wfFacts hfC⟩
    simp only [to2TauSynchronisationNet, his2, Bool.not_true, Bool.false_and,
      Bool.false_eq_true, if_false, hcopy, if_true]
  · -- the copy is rewired group by group
    have hgc : isGroupChoiceNet net = true := hcls.resolve_left his2
    have hgcC : ∀ s q' t, hasEdge C (NodeRef.place s) t → hasEdge C q' t →
        (nodeOut C q').length = (nodeOut C (NodeRef.place s)).length ∧
        ∀ u, hasEdge C q' u ↔ hasEdge C (NodeRef.place s) u := by
      intro s q' t h1 h2
      obtain ⟨hlen, hiff⟩ := gc_groups hwf hgc s q' t ((hedge_iff _ _).1 h1)
        ((hedge_iff _ _).1 h2)
      refine ⟨by rw [houtlen q', houtlen (NodeRef.place s)]; exact hlen, ?_⟩
      intro u
      rw [hedge_iff q' u, hedge_iff (NodeRef.place s) u]
      exact hiff u
    have hbase : TInv C 0 C :=
      ⟨tfFacts_of_wfFacts hfC, le_refl _, le_refl _, le_refl _, fun j _ => rfl,
        fun j _ => rfl, fun j h1 h2 => absurd h1 (by omega),
        fun j hj => Or.inr ⟨Nat.zero_le j, rfl, fun q _ => rfl⟩⟩
    obtain ⟨st', hfold, hP⟩ := foldlM_invariant (to2TauStep rand)
      (List.range C.transitions.length)
      (fun k st => TInv C k st.1) (C, 0) hbase
      (by
        intro k st a hka hInv
        have hklt : k < C.transitions.length := by
          have := lt_of_getElemQ hka
          rwa [List.length_range] at this
        have hak : a = k := by
          have := List.getElem?_range hklt
          rw [this] at hka
          exact (Option.some.inj hka).symm
        subst hak
        obtain ⟨cur, c⟩ := st
        obtain ⟨cur', c', heq, hInv'⟩ := to2TauStep_inv hfC hgcC rand a cur c hklt hInv
        exact ⟨(cur', c'), heq, hInv'⟩)
    rw [List.length_range] at hP
    obtain ⟨hfR, hplR, htlR, helR, hefR, hlabR, hfreshR, hsatR⟩ := hP
    have his2R : is2TauSynchronisationNet st'.1 = true := by
      rw [is2_iff]
      intro j hj
      by_cases hjC : j < C.transitions.length
      · rcases hsatR j hjC with hsat | ⟨hge, -⟩
        · rcases hsat with h1 | ⟨h2, h3⟩
          · exact Or.inl (by
              have : (nodeIn st'.1 (NodeRef.trans j)).length =
                (st'.1.transitions.getD j dummyTrans).inE.length := rfl
              omega)
          · refine Or.inr ⟨?_, h3⟩
            have : (nodeIn st'.1 (NodeRef.trans j)).length =
              (st'.1.transitions.getD j dummyTrans).inE.length := rfl
            omega
        · omega
      · obtain ⟨hl, hi⟩ := hfreshR j (by omega) hj
        exact Or.inr ⟨hi, hl⟩
    refine ⟨st'.1, ?_, his2R, hfR⟩
    have his2f : is2TauSynchronisationNet net = false := by
      rcases h : is2TauSynchronisationNet net with _ | _
      · rfl
      · exact absurd h his2
    obtain ⟨R, ctr⟩ := st'
    simp only [to2TauSynchronisationNet, his2f, hgc, Bool.not_false, Bool.not_true,
      Bool.true_and, Bool.false_eq_true, if_false, hcopy, hfold]

/-- The failure branch: a net neither classifier accepts makes the
transformation throw the structural-mismatch error with the receiver
unchanged. -/
theorem to2TauSN_mismatch (net : PetriNet) (rand : Nat → Nat)
    (h1 : is2TauSynchronisationNet net = false) (h2 : isGroupChoiceNet net = false) :
    to2TauSynchronisationNet net rand = .error (.structuralMismatch, net) := by
  simp only [to2TauSynchronisationNet, h1, h2, Bool.not_false, Bool.true_and, if_true]

theorem denseIds_of_tf {net : PetriNet} (hf : TfFacts net) : denseIds net = true := by
  rw [denseIds, Bool.and_eq_true, Bool.and_eq_true]
  refine ⟨⟨?_, ?_⟩, ?_⟩
  · rw [List.all_eq_true]
    intro i hi
    rw [List.mem_range] at hi
    exact beq_iff_eq.mpr (hf.placeId i hi)
  · rw [List.all_eq_true]
    intro i hi
    rw [List.mem_range] at hi
    exact beq_iff_eq.mpr (hf.transId i hi)
  · rw [List.all_eq_true]
    intro i hi
    rw [List.mem_range] at hi
    exact beq_iff_eq.mpr (hf.edgeId i hi)

/-- The adjacency-to-edge half of the symmetry invariant, following the
amended claim's wording: every entry of every node's `out`/`in` list is
an edge of the net with the matching endpoint.  (The converse half —
every edge occurring in its endpoints' lists — is the part the
transformation's rewiring branch gives up.) -/
def adjEntriesMatch (net : PetriNet) : Bool :=
  (List.range net.places.length).all (fun i =>
    (net.places.getD i dummyPlace).outE.all
      (fun eid => eid < net.edges.length && edgeSrc net eid == .place i) &&
    (net.places.getD i dummyPlace).inE.all
      (fun eid => eid < net.edges.length && edgeDst net eid == .place i)) &&
  (List.range net.transitions.length).all (fun i =>
    (net.transitions.getD i dummyTrans).outE.all
      (fun eid => eid < net.edges.length && edgeSrc net eid == .trans i) &&
    (net.transitions.getD i dummyTrans).inE.all
      (fun eid => eid < net.edges.length && edgeDst net eid == .trans i))

theorem adjEntriesMatch_of_tf {net : PetriNet} (hf : TfFacts net) :
    adjEntriesMatch net = true := by
  rw [adjEntriesMatch, Bool.and_eq_true]
  constructor
  · rw [List.all_eq_true]
    intro i hi
    rw [List.mem_range] at hi
    have hrv : refValidB net (NodeRef.place i) = true := by
      show decide (i < net.places.length) = true
      simp [hi]
    rw [Bool.and_eq_true]
    constructor
    · rw [List.all_eq_true]
      intro eid he
      obtain ⟨hlt, hsrc⟩ := hf.outAdj (NodeRef.place i) hrv eid he
      simp [hlt, hsrc]
    · rw [List.all_eq_true]
      intro eid he
      obtain ⟨hlt, hdst⟩ := hf.inAdj (NodeRef.place i) hrv eid he
      simp [hlt, hdst]
  · rw [List.all_eq_true]
    intro i hi
    rw [List.mem_range] at hi
    have hrv : refValidB net (NodeRef.trans i) = true := by
      show decide (i < net.transitions.length) = true
      simp [hi]
    rw [Bool.and_eq_true]
    constructor
    · rw [List.all_eq_true]
      intro eid he
      obtain ⟨hlt, hsrc⟩ := hf.outAdj (NodeRef.trans i) hrv eid he
      simp [hlt, hsrc]
    · rw [List.all_eq_true]
      intro eid he
      obtain ⟨hlt, hdst⟩ := hf.inAdj (NodeRef.trans i) hrv eid he
      simp [hlt, hdst]

/-- Claim C1: on a well-formed reachable net (non-negative token
counts, labels the API accepts) that satisfies
`is2TauSynchronisationNet` or `isGroupChoiceNet`, the transformation
`to2TauSynchronisationNet` succeeds and its result satisfies
`is2TauSynchronisationNet`; on a net neither classifier accepts it
fails with the structural-mismatch error, returning no net. -/
theorem c1_transform_correct {net : PetriNet} (hwf : wfNet net = true)
    (htok : ∀ p ∈ net.places, 0 ≤ p.tokens)
    (hlab : ∀ t ∈ net.transitions, labelOK t.label = true) (rand : Nat → Nat) :
    ((is2TauSynchronisationNet net = true ∨ isGroupChoiceNet net = true) →
      ∃ out, to2TauSynchronisationNet net rand = .ok out ∧
        is2TauSynchronisationNet out = true) ∧
    (is2TauSynchronisationNet net = false → isGroupChoiceNet net = false →
      to2TauSynchronisationNet net rand = .error (.structuralMismatch, net)) := by
  constructor
  · intro hcls
    obtain ⟨out, h1, h2, -⟩ := to2TauSN_spec (wfFacts_of_wfNet hwf) htok hlab rand hcls
    exact ⟨out, h1, h2⟩
  · exact to2TauSN_mismatch net rand

theorem c1_witness :
    ∃ out, to2TauSynchronisationNet gcNet (fun _ => 0) = .ok out ∧
      is2TauSynchronisationNet out = true :=
  (@c1_transform_correct gcNet (by decide) (by decide) (by decide) (fun _ => 0)).1
    (Or.inr (by decide))

/-- Claim C6 (amended): the reachable-state invariant — dense
identities plus adjacency/edge coherence, as checked by `wfNet` — is
preserved by all six public mutation operations, with every failure
reporting the unchanged receiver state; the transformation's output has
dense identities and every adjacency entry is a matching edge of the
net (`adjEntriesMatch`), but the converse inclusion of the edge
collection in the adjacency lists is not claimed: the rewiring branch
retains disconnected group edges (see the counterexample). -/
theorem c6_amended :
    (∀ net nameId tokens out i, wfNet net = true →
      addPlace net nameId tokens = .ok (out, i) → wfNet out = true) ∧
    (∀ net nameId tokens e out, addPlace net nameId tokens = .error (e, out) → out = net) ∧
    (∀ net nameId label out i, wfNet net = true →
      addTransition net nameId label = .ok (out, i) → wfNet out = true) ∧
    (∀ net nameId label e out, addTransition net nameId label = .error (e, out) → out = net) ∧
    (∀ net src dst w out i, wfNet net = true →
      addEdge net src dst w = .ok (out, i) → wfNet out = true) ∧
    (∀ net src dst w e out, wfNet net = true →
      addEdge net src dst w = .error (e, out) → out = net) ∧
    (∀ net i out, wfNet net = true → removeEdge net i = .ok out → wfNet out = true) ∧
    (∀ net i e out, wfNet net = true → removeEdge net i = .error (e, out) → out = net) ∧
    (∀ net i out, wfNet net = true → removePlace net i = .ok out → wfNet out = true) ∧
    (∀ net i e out, wfNet net = true → removePlace net i = .error (e, out) → out = net) ∧
    (∀ net i out, wfNet net = true → removeTransition net i = .ok out → wfNet out = true) ∧
    (∀ net i e out, wfNet net = true → removeTransition net i = .error (e, out) → out = net) ∧
    (∀ net rand out, wfNet net = true → (∀ p ∈ net.places, 0 ≤ p.tokens) →
      (∀ t ∈ net.transitions, labelOK t.label = true) →
      to2TauSynchronisationNet net rand = .ok out →
      denseIds out = true ∧ adjEntriesMatch out = true) := by
  refine ⟨?_, ?_, ?_, ?_, ?_, ?_, ?_, ?_, ?_, ?_, ?_, ?_, ?_⟩
  · intro net nameId tokens out i hw h
    exact wfNet_of_wfFacts (wfFacts_addPlace (wfFacts_of_wfNet hw) h)
  · intro net nameId tokens e out h
    exact addPlace_error h
  · intro net nameId label out i hw h
    exact wfNet_of_wfFacts (wfFacts_addTransition (wfFacts_of_wfNet hw) h)
  · intro net nameId label e out h
    exact addTransition_error h
  · intro net src dst w out i hw h
    exact wfNet_of_wfFacts (wfFacts_addEdge (wfFacts_of_wfNet hw) h)
  · intro net src dst w e out hw h
    exact addEdge_error (wfFacts_of_wfNet hw) h
  · intro net i out hw h
    exact wfNet_of_wfFacts (wfFacts_removeEdge (wfFacts_of_wfNet hw) h)
  · intro net i e out hw h
    exact removeEdge_error_state (wfFacts_of_wfNet hw) h
  · intro net i out hw h
    exact wfNet_of_wfFacts (wfFacts_removePlace (wfFacts_of_wfNet hw) h)
  · intro net i e out hw h
    exact removePlace_error_state (wfFacts_of_wfNet hw) h
  · intro net i out hw h
    exact wfNet_of_wfFacts (wfFacts_removeTransition (wfFacts_of_wfNet hw) h)
  · intro net i e out hw h
    exact removeTransition_error_state (wfFacts_of_wfNet hw) h
  · intro net rand out hw htok hlab h
    by_cases hcls : is2TauSynchronisationNet net = true ∨ isGroupChoiceNet net = true
    · obtain ⟨out', h1, -, hf'⟩ :=
        to2TauSN_spec (wfFacts_of_wfNet hw) htok hlab rand hcls
      have : out = out' := by
        rw [h] at h1
        exact Except.ok.inj h1
      subst this
      exact ⟨denseIds_of_tf hf', adjEntriesMatch_of_tf hf'⟩
    · push_neg at hcls
      obtain ⟨h1, h2⟩ := hcls
      have h1f : is2TauSynchronisationNet net = false := by
        rcases hx : is2TauSynchronisationNet net with _ | _
        · rfl
        · exact absurd hx h1
      have h2f : isGroupChoiceNet net = false := by
        rcases hx : isGroupChoiceNet net with _ | _
        · rfl
        · exact absurd hx h2
      rw [to2TauSN_mismatch net rand h1f h2f] at h
      cases h

theorem c6_amended_witness :
    wfNet (getNet (addPlace emptyNet 0 0)) = true ∧
    denseIds gcOut = true ∧ adjEntriesMatch gcOut = true := by
  constructor
  · exact c6_amended.1 emptyNet 0 0 (getNet (addPlace emptyNet 0 0)) 0 (by decide) rfl
  · exact c6_amended.2.2.2.2.2.2.2.2.2.2.2.2 gcNet (fun _ => 0) gcOut (by decide)
      (by decide) (by decide) rfl
